import Mathlib

/-!
# DSA-REVISOR: scheduling engine

A shallow embedding of the C++ scheduling engine (`dsa_core.h`, `revision_engine.h`,
`revision_heap.h`, `question_hashmap.h`) together with proofs of its specification.

Modelling conventions

* `double` values are rationals (`ℚ`). Where the code converts a `double` to an `int`
  (`calculateNextDate`, `calculateRevisionXP`) every operation is rounded to binary64 by
  `roundD` (round to nearest, ties to even, each operation on its own, no fused
  multiply-add). The double-valued results of `updateEaseFactor` and `getPriorityScore` are
  computed exactly: they differ from the code's by the rounding error. `Binary64` holds the
  rounded evaluation of these two functions, for the statements that compare the scores of
  neighbouring inputs.
* `int` has 32 bits. The product `days * 86400` of `addDaysToDate` wraps modulo `2 ^ 32`
  (`wrapInt32`) and a `double` outside the range of `int` converts to `INT_MIN` (`castInt`),
  as in the code compiled for x86-64; both are undefined behaviour in C++. The counters the
  code only steps by one or adds small amounts to (`revisionCycle`, `streak`, `xpEarned`,
  sizes) and the difference of two day counts are mathematical integers (`Int`).
* `unsigned long` arithmetic in `djb2` wraps modulo `2 ^ 64`.
* `std::vector` and `std::list` are `List`; indices are `Nat`.
* The C library calendar (`get_time`/`mktime`, `localtime`/`strftime`) and the clock read by
  `todayStr()` are supplied by an explicit environment `Env`; `utcEnv` is a concrete
  instance (proleptic Gregorian calendar, UTC, no daylight saving) that prints the year as
  glibc does (`%Y` without padding, a minus sign before a negative year).
* A date is printed into `char buf[11]`: a text of more than ten characters (a year past
  9999) does not fit, and what `strftime` then leaves in the buffer is indeterminate in the
  source; the general theorems on dates are stated for the years 1000 to 9999.
* The comparison of two `std::string` values is the lexicographic order of their bytes.
-/

namespace dsa

/-! ## dsa_core.h -/

inductive Difficulty where
  | EASY
  | MEDIUM
  | HARD
  deriving DecidableEq, Inhabited

inductive QuestionStatus where
  | UNSOLVED
  | SOLVED
  | NEEDS_REVISION
  | MASTERED
  deriving DecidableEq, Inhabited

/-- The record `struct Question`. -/
structure Question where
  id : String
  name : String
  subject : String
  platform : String
  difficulty : Difficulty
  status : QuestionStatus
  easeFactor : ℚ
  revisionCycle : Int
  streak : Int
  xpEarned : Int
  dateSolved : String
  nextRevisionDate : String
  lastRevisionDate : String
  tags : List String
  notes : String
  deriving DecidableEq

/-- The default constructor `Question()`. -/
def Question.mk0 : Question where
  id := ""
  name := ""
  subject := ""
  platform := ""
  difficulty := Difficulty.MEDIUM
  status := QuestionStatus.UNSOLVED
  easeFactor := 5 / 2
  revisionCycle := 0
  streak := 0
  xpEarned := 0
  dateSolved := ""
  nextRevisionDate := ""
  lastRevisionDate := ""
  tags := []
  notes := ""

instance : Inhabited Question := ⟨Question.mk0⟩

/-- The ambient services the code calls: the clock behind `todayStr()`, the composition
`get_time "%Y-%m-%d"` then `mktime` (seconds since the epoch) and the composition
`localtime` then `strftime "%Y-%m-%d"`. -/
structure Env where
  today : String
  mktime : String → Int
  strftime : Int → String

/-- The function `todayStr()`. -/
def todayStr (env : Env) : String := env.today

/-- The value an `int` (32 bits, two's complement) holds after a signed operation whose
mathematical result is `x`: `x` reduced modulo `2 ^ 32` into `-2 ^ 31 .. 2 ^ 31 - 1`. -/
def wrapInt32 (x : Int) : Int := (x + 2147483648) % 4294967296 - 2147483648

/-- The function `addDaysToDate(dateStr, days)`: `base += days * 86400`, the product being
taken in `int` before it is added to the `time_t`. -/
def addDaysToDate (env : Env) (dateStr : String) (days : Int) : String :=
  env.strftime (env.mktime dateStr + wrapInt32 (days * 86400))

/-- The function `Question::dateDiffDays`: `static_cast<int>(difftime(tT, tF) / 86400)`,
a conversion that truncates toward zero. -/
def dateDiffDays (env : Env) (fromDate toDate : String) : Int :=
  Int.tdiv (env.mktime toDate - env.mktime fromDate) 86400

/-- The method `Question::getPriorityScore(today)`. -/
def Question.getPriorityScore (env : Env) (q : Question) (today : String) : ℚ :=
  if q.nextRevisionDate = "" ∨ q.status = QuestionStatus.MASTERED then -1
  else
    let daysOverdue : Int := dateDiffDays env q.nextRevisionDate today
    let priority : ℚ := (daysOverdue : ℚ)
    let diffMult : ℚ :=
      if q.difficulty = Difficulty.HARD then 3 / 2
      else if q.difficulty = Difficulty.MEDIUM then 6 / 5 else 1
    let easePen : ℚ := (5 / 2 - q.easeFactor) * 2
    let streakPen : ℚ := if q.streak < 3 then 3 / 2 else 1
    (priority * diffMult + easePen) * streakPen

/-! ### A concrete calendar (UTC, proleptic Gregorian) -/

/-- Days since 1970-01-01 of the civil date `y-m-d`. -/
def daysFromCivil (y m d : Int) : Int :=
  let y1 := if m ≤ 2 then y - 1 else y
  let era := y1 / 400
  let yoe := y1 - era * 400
  let mp := if m > 2 then m - 3 else m + 9
  let doy := (153 * mp + 2) / 5 + d - 1
  let doe := yoe * 365 + yoe / 4 - yoe / 100 + doy
  era * 146097 + doe - 719468

/-- The civil date `(y, m, d)` of a day count since 1970-01-01. -/
def civilFromDays (z0 : Int) : Int × Int × Int :=
  let z := z0 + 719468
  let era := z / 146097
  let doe := z - era * 146097
  let yoe := (doe - doe / 1460 + doe / 36524 - doe / 146096) / 365
  let y := yoe + era * 400
  let doy := doe - (365 * yoe + yoe / 4 - yoe / 100)
  let mp := (5 * doy + 2) / 153
  let d := doy - (153 * mp + 2) / 5 + 1
  let m := if mp < 10 then mp + 3 else mp - 9
  (if m ≤ 2 then y + 1 else y, m, d)

/-- Value of a decimal digit character. -/
def digitVal (c : Char) : Option Int :=
  if 48 ≤ c.toNat ∧ c.toNat ≤ 57 then some ((c.toNat : Int) - 48) else none

/-- Decimal value of a list of digit characters. -/
def digitsVal : List Char → Option Int
  | [] => some 0
  | c :: cs =>
    match digitVal c, digitsVal cs with
    | some v, some w => some (v * 10 ^ cs.length + w)
    | _, _ => none

/-- Parse `YYYY-MM-DD`. -/
def parseDate (s : String) : Option (Int × Int × Int) :=
  match s.data with
  | [y1, y2, y3, y4, '-', m1, m2, '-', d1, d2] =>
    match digitsVal [y1, y2, y3, y4], digitsVal [m1, m2], digitsVal [d1, d2] with
    | some y, some m, some d => some (y, m, d)
    | _, _, _ => none
  | _ => none

/-- The decimal digit character of `n % 10`. -/
def digitChar (n : Int) : Char := Char.ofNat (48 + (n % 10).toNat)

/-- The decimal digits of `n`, the most significant first; `fuel` bounds their number. -/
def natDigits : Nat → Nat → List Char
  | 0, _ => []
  | fuel + 1, n =>
    if n < 10 then [digitChar (n : Int)]
    else natDigits fuel (n / 10) ++ [digitChar (n : Int)]

/-- The conversion `%Y` of glibc: the year in decimal, not padded, after a minus sign when it
is negative. -/
def yearText (y : Int) : List Char :=
  if y < 0 then '-' :: natDigits 20 (-y).toNat else natDigits 20 y.toNat

/-- Print `(y, m, d)` with the format `%Y-%m-%d`. -/
def formatDate (ymd : Int × Int × Int) : String :=
  let y := ymd.1
  let m := ymd.2.1
  let d := ymd.2.2
  String.mk (yearText y ++
    ['-', digitChar (m / 10), digitChar m, '-', digitChar (d / 10), digitChar d])

/-- A concrete environment: UTC, no daylight saving. An unparsable date leaves the zeroed
`struct tm` (1900-01-00). A text of more than ten characters does not fit `char buf[11]`:
`strftime` then returns 0 and leaves the array indeterminate, which is the empty string
here. -/
def utcEnv (today : String) : Env where
  today := today
  mktime := fun s =>
    match parseDate s with
    | some (y, m, d) => daysFromCivil y m d * 86400
    | none => daysFromCivil 1900 1 0 * 86400
  strftime := fun t =>
    let text := formatDate (civilFromDays (t / 86400))
    if text.length ≤ 10 then text else ""

/-! ### Binary64 arithmetic -/

/-- The integer nearest to `s`, a tie going to the even one. -/
def roundHalfEven (s : ℚ) : Int :=
  let f := ⌊s⌋
  if s - f < 1 / 2 then f
  else if 1 / 2 < s - f then f + 1
  else if f % 2 = 0 then f else f + 1

/-- The exponent of the last place of the binary64 numbers around `x`: 52 below the exponent
of `x`, and `-1074` throughout the subnormal range. -/
def ulpExp (x : ℚ) : Int := max (Int.log 2 |x| - 52) (-1074)

/-- The result of one `double` operation whose exact value is `x`: the binary64 number
nearest to `x`, a tie going to the even significand (the default rounding; overflow to
infinity, from `2 ^ 1024` on, is not represented). -/
def roundD (x : ℚ) : ℚ := (roundHalfEven (x / 2 ^ ulpExp x) : ℚ) * 2 ^ ulpExp x

/-- The conversion `static_cast<int>` of a `double` whose integral part is `t`: `t` when it
fits an `int`, else `INT_MIN`, which is what the conversion instruction of x86-64 delivers
(the conversion is undefined in C++ there). -/
def castInt (t : Int) : Int :=
  if -2147483648 ≤ t ∧ t < 2147483648 then t else -2147483648

namespace Binary64

/-- The method `Question::getPriorityScore(today)` with each operation rounded to binary64
(the conversion of the `int` `daysOverdue` to `double` is exact). -/
def getPriorityScore (env : Env) (q : Question) (today : String) : ℚ :=
  if q.nextRevisionDate = "" ∨ q.status = QuestionStatus.MASTERED then -1
  else
    let daysOverdue : Int := dateDiffDays env q.nextRevisionDate today
    let priority : ℚ := (daysOverdue : ℚ)
    let diffMult : ℚ :=
      if q.difficulty = Difficulty.HARD then 3 / 2
      else if q.difficulty = Difficulty.MEDIUM then roundD (6 / 5) else 1
    let easePen : ℚ := roundD (roundD (5 / 2 - q.easeFactor) * 2)
    let streakPen : ℚ := if q.streak < 3 then 3 / 2 else 1
    roundD (roundD (roundD (priority * diffMult) + easePen) * streakPen)

end Binary64

/-! ## revision_engine.h -/

namespace RevisionEngine

def INTERVAL_1 : Int := 1
def INTERVAL_2 : Int := 3
def EF_MIN : ℚ := 13 / 10

/-- The loop `for (int i = 3; i <= q.revisionCycle; ++i) prevInterval = (int) ceil(prevInterval * ef)`
started at counter `i`, with `fuel` bounding the number of iterations. The product is one
`double` multiplication, `ceil` is exact and the result is converted to `int`. -/
def intervalLoop (ef : ℚ) (cycle : Int) : Nat → Int → Int → Int
  | 0, _, prevInterval => prevInterval
  | fuel + 1, i, prevInterval =>
    if i ≤ cycle then
      intervalLoop ef cycle fuel (i + 1) (castInt ⌈roundD ((prevInterval : ℚ) * ef)⌉)
    else prevInterval

/-- The interval in days computed by `calculateNextDate` before it is added to the base date. -/
def nextInterval (q : Question) : Int :=
  let interval : Int :=
    if q.revisionCycle ≤ 1 then INTERVAL_1
    else if q.revisionCycle = 2 then INTERVAL_2
    else intervalLoop q.easeFactor q.revisionCycle (q.revisionCycle - 2).toNat 3 INTERVAL_2
  let diffMult : ℚ := 1
  let diffMult : ℚ := if q.difficulty = Difficulty.HARD then roundD (4 / 5) else diffMult
  let diffMult : ℚ := if q.difficulty = Difficulty.EASY then roundD (6 / 5) else diffMult
  max 1 (castInt ⌈roundD ((interval : ℚ) * diffMult)⌉)

/-- The function `RevisionEngine::calculateNextDate`. -/
def calculateNextDate (env : Env) (q : Question) : String :=
  let interval := nextInterval q
  let baseDate := if q.lastRevisionDate = "" then q.dateSolved else q.lastRevisionDate
  let baseDate := if baseDate = "" then todayStr env else baseDate
  addDaysToDate env baseDate interval

/-- The function `RevisionEngine::updateEaseFactor`. -/
def updateEaseFactor (currentEF : ℚ) (quality : Int) : ℚ :=
  let quality : Int := max 0 (min 5 quality)
  let delta : ℚ := 1 / 10 - (5 - (quality : ℚ)) * (2 / 25 + (5 - (quality : ℚ)) * (1 / 50))
  let newEF := currentEF + delta
  max EF_MIN newEF

structure RevisionResult where
  newEaseFactor : ℚ
  newCycle : Int
  newStreak : Int
  nextDate : String
  newStatus : QuestionStatus
  xpAwarded : Int
  wasReset : Bool
  deriving DecidableEq

/-- The conversion `static_cast<int>(x)` of a `double`: truncation toward zero. -/
def truncToInt (x : ℚ) : Int := if 0 ≤ x then ⌊x⌋ else ⌈x⌉

/-- The function `RevisionEngine::calculateRevisionXP`: every `double` operation is rounded
to binary64 and the product is converted to `int`. -/
def calculateRevisionXP (q : Question) (quality : Int) (timeTaken : Int) : Int :=
  let baseXP : Int := 10
  let baseXP : Int := if q.difficulty = Difficulty.MEDIUM then 20 else baseXP
  let baseXP : Int := if q.difficulty = Difficulty.HARD then 35 else baseXP
  let qualityMult : ℚ := roundD (1 / 2 + roundD ((quality : ℚ) * roundD (1 / 5)))
  let cycleMult : ℚ :=
    roundD (1 + roundD (((min q.revisionCycle 10 : Int) : ℚ) * roundD (1 / 10)))
  let streakMult : ℚ := roundD (1 + roundD (((min q.streak 7 : Int) : ℚ) * roundD (1 / 20)))
  let speedMult : ℚ :=
    if timeTaken > 0 then
      let threshold : Int := 60
      let threshold : Int := if q.difficulty = Difficulty.MEDIUM then 120 else threshold
      let threshold : Int := if q.difficulty = Difficulty.HARD then 180 else threshold
      if timeTaken < threshold then
        roundD (1 + roundD (roundD (1 - roundD ((timeTaken : ℚ) / (threshold : ℚ)))
          * roundD (3 / 10)))
      else 1
    else 1
  castInt (truncToInt (roundD (roundD (roundD (roundD ((baseXP : ℚ) * qualityMult) * cycleMult)
    * streakMult) * speedMult)))

/-- The function `RevisionEngine::completeRevision`: the returned pair is the
`RevisionResult` and the item `q` as the call leaves it. -/
def completeRevision (env : Env) (q : Question) (quality : Int) (timeTaken : Int) :
    RevisionResult × Question :=
  let newEaseFactor := updateEaseFactor q.easeFactor quality
  let q := { q with easeFactor := newEaseFactor }
  let wasReset : Bool := false
  let (q, wasReset) :=
    if quality ≥ 3 then
      ({ q with revisionCycle := q.revisionCycle + 1, streak := q.streak + 1 }, wasReset)
    else ({ q with revisionCycle := 1, streak := 0 }, true)
  let newCycle := q.revisionCycle
  let newStreak := q.streak
  let q :=
    if q.revisionCycle ≥ 5 ∧ q.easeFactor ≥ 23 / 10 then
      { q with status := QuestionStatus.MASTERED }
    else if quality < 3 then { q with status := QuestionStatus.NEEDS_REVISION }
    else { q with status := QuestionStatus.SOLVED }
  let newStatus := q.status
  let q := { q with lastRevisionDate := todayStr env }
  let nextDate := calculateNextDate env q
  let q := { q with nextRevisionDate := nextDate }
  let xpAwarded := calculateRevisionXP q quality timeTaken
  let q := { q with xpEarned := q.xpEarned + xpAwarded }
  ({ newEaseFactor := newEaseFactor, newCycle := newCycle, newStreak := newStreak,
     nextDate := nextDate, newStatus := newStatus, xpAwarded := xpAwarded,
     wasReset := wasReset }, q)

end RevisionEngine

namespace Binary64

/-- The function `RevisionEngine::updateEaseFactor` with each operation rounded to
binary64. -/
def updateEaseFactor (currentEF : ℚ) (quality : Int) : ℚ :=
  let quality : Int := max 0 (min 5 quality)
  let delta : ℚ :=
    roundD (roundD (1 / 10)
      - roundD (roundD (5 - (quality : ℚ))
          * roundD (roundD (2 / 25) + roundD (roundD (5 - (quality : ℚ)) * roundD (1 / 50)))))
  let newEF := roundD (currentEF + delta)
  max (roundD (13 / 10)) newEF

end Binary64

/-! ## revision_heap.h -/

/-- The record `struct HeapEntry`. -/
structure HeapEntry where
  question : Question
  priorityScore : ℚ
  deriving DecidableEq

/-- The default constructor `HeapEntry() : priorityScore(0.0)`. -/
instance : Inhabited HeapEntry := ⟨⟨Question.mk0, 0⟩⟩

namespace RevisionHeap

/-- The state of a `RevisionHeap`: its only field, the vector `heap_`. -/
abbrev Heap := List HeapEntry

def parent (i : Nat) : Nat := (i - 1) / 2
def leftChild (i : Nat) : Nat := 2 * i + 1
def rightChild (i : Nat) : Nat := 2 * i + 2

/-- The element `heap_[i]`. -/
def entry (h : Heap) (i : Nat) : HeapEntry := h.getD i default

/-- The score `heap_[i].priorityScore`. -/
def score (h : Heap) (i : Nat) : ℚ := (entry h i).priorityScore

/-- The call `swap(heap_[i], heap_[j])`. -/
def swap (h : Heap) (i j : Nat) : Heap := (h.set i (entry h j)).set j (entry h i)

/-- The loop of `siftUp`, at most `fuel` iterations. -/
def siftUpAux : Nat → Heap → Nat → Heap
  | 0, h, _ => h
  | fuel + 1, h, i =>
    if i > 0 then
      let p := parent i
      if score h i < score h p then siftUpAux fuel (swap h i p) p
      else h
    else h

/-- The method `siftUp(i)`: every iteration that continues moves `i` to its parent, so `i`
iterations are enough. -/
def siftUp (h : Heap) (i : Nat) : Heap := siftUpAux i h i

/-- The index `smallest` computed by one iteration of `siftDown`. -/
def smallestOf (h : Heap) (i : Nat) : Nat :=
  let n := h.length
  let smallest := i
  let l := leftChild i
  let r := rightChild i
  let smallest := if l < n ∧ score h l < score h smallest then l else smallest
  let smallest := if r < n ∧ score h r < score h smallest then r else smallest
  smallest

/-- The loop of `siftDown`, at most `fuel` iterations. -/
def siftDownAux : Nat → Heap → Nat → Heap
  | 0, h, _ => h
  | fuel + 1, h, i =>
    let smallest := smallestOf h i
    if smallest ≠ i then siftDownAux fuel (swap h i smallest) smallest
    else h

/-- The method `siftDown(i)`: every iteration that continues moves `i` to a child below
`heap_.size()`, so `heap_.size()` iterations are enough. -/
def siftDown (h : Heap) (i : Nat) : Heap := siftDownAux h.length h i

/-- The loop `for (int i = k - 1; i >= 0; --i) siftDown(i)`. -/
def heapifyLoop : Nat → Heap → Heap
  | 0, h => h
  | k + 1, h => heapifyLoop k (siftDown h k)

/-- The loop `for (int i = size / 2 - 1; i >= 0; --i) siftDown(i)` of Floyd's build. -/
def heapify (h : Heap) : Heap := heapifyLoop (h.length / 2) h

/-- The default constructor: the empty heap. -/
def empty : Heap := []

/-- One iteration of the constructor's first loop. -/
def collectStep (env : Env) (today : String) (acc : Heap) (q : Question) : Heap :=
  if q.status = QuestionStatus.MASTERED ∨ q.nextRevisionDate = "" then acc
  else
    let score := q.getPriorityScore env today
    if score ≥ 0 then acc ++ [⟨q, score⟩] else acc

/-- The constructor `RevisionHeap(questions, today)`. -/
def build (env : Env) (questions : List Question) (today : String) : Heap :=
  heapify (questions.foldl (collectStep env today) [])

/-- The method `push(q, today)`. -/
def push (env : Env) (h : Heap) (q : Question) (today : String) : Heap :=
  let h1 := h ++ [⟨q, q.getPriorityScore env today⟩]
  siftUp h1 (h1.length - 1)

/-- The method `pop()`: `none` stands for the `runtime_error` thrown on an empty heap,
otherwise the returned entry and the heap left behind. -/
def pop (h : Heap) : Option (HeapEntry × Heap) :=
  if h.isEmpty then none
  else
    let top := entry h 0
    let h1 := h.set 0 (entry h (h.length - 1))
    let h2 := h1.dropLast
    let h3 := if ¬ h2.isEmpty then siftDown h2 0 else h2
    some (top, h3)

/-- The method `top()`: `none` stands for the `runtime_error` thrown on an empty heap. -/
def top (h : Heap) : Option HeapEntry :=
  if h.isEmpty then none else some (entry h 0)

/-- The search loop shared by `remove` and `updatePriority`: the first index whose question
has the identifier `qid`. -/
def findId (h : Heap) (qid : String) : Option Nat :=
  (List.range h.length).find? (fun i => decide ((entry h i).question.id = qid))

/-- The method `remove(qid)`: the returned flag and the heap left behind. -/
def remove (h : Heap) (qid : String) : Bool × Heap :=
  match findId h qid with
  | some i =>
    let h1 := h.set i (entry h (h.length - 1))
    let h2 := h1.dropLast
    let h3 := if i < h2.length then siftUp (siftDown h2 i) i else h2
    (true, h3)
  | none => (false, h)

/-- The method `updatePriority(qid, updated, today)`. -/
def updatePriority (env : Env) (h : Heap) (qid : String) (updated : Question)
    (today : String) : Heap :=
  match findId h qid with
  | some i =>
    let h1 := h.set i { entry h i with question := updated }
    let h2 := h1.set i { entry h1 i with priorityScore := updated.getPriorityScore env today }
    siftUp (siftDown h2 i) i
  | none => push env h updated today

/-- The first loop of `topK`: `cnt` calls of `pop()`, each result appended to `result` and
`backup` (which hold the same entries); a failing `pop()` aborts the call. -/
def popLoop : Nat → Heap → List HeapEntry → Option (List HeapEntry × Heap)
  | 0, h, acc => some (acc, h)
  | cnt + 1, h, acc =>
    match pop h with
    | some (e, h1) => popLoop cnt h1 (acc ++ [e])
    | none => none

/-- The method `topK(k)`: the returned vector and the heap left behind; `none` stands for an
exception escaping from `pop()`. -/
def topK (h : Heap) (k : Int) : Option (List HeapEntry × Heap) :=
  let cnt : Int := min k (h.length : Int)
  match popLoop cnt.toNat h [] with
  | some (result, h1) => some (result, heapify (h1 ++ result))
  | none => none

/-- The method `size()`. -/
def size (h : Heap) : Int := (h.length : Int)

/-- The method `isValidHeap()`. -/
def isValidHeap (h : Heap) : Bool :=
  let n := h.length
  (List.range n).all (fun i =>
    let l := leftChild i
    let r := rightChild i
    !(decide (l < n ∧ score h l < score h i)) && !(decide (r < n ∧ score h r < score h i)))

end RevisionHeap

/-! ## question_hashmap.h -/

namespace QuestionHashMap

abbrev Entry := String × Question
abbrev Bucket := List Entry

def LOAD_THRESHOLD : ℚ := 3 / 4
def INIT_CAP : Int := 16

/-- The bytes of a `std::string` key. -/
def keyBytes (key : String) : List UInt8 := key.data.flatMap String.utf8EncodeChar

/-- The conversion `static_cast<unsigned long>(c)` of a (signed) `char`: bytes from 128 on are
negative and wrap around. -/
def charToULong (b : UInt8) : Nat :=
  if b.toNat < 128 then b.toNat else 2 ^ 64 - 256 + b.toNat

/-- The function `djb2`: `h = ((h << 5) + h) + c` on `unsigned long`, i.e. modulo `2 ^ 64`. -/
def djb2 (key : String) : Nat :=
  (keyBytes key).foldl
    (fun h c => ((((h <<< 5) % 2 ^ 64 + h) % 2 ^ 64) + charToULong c) % 2 ^ 64) 5381

end QuestionHashMap

/-- The state of a `QuestionHashMap`. -/
structure QuestionHashMap where
  buckets_ : List QuestionHashMap.Bucket
  size_ : Int
  capacity_ : Int
  collisions_ : Int

namespace QuestionHashMap

/-- The bucket `buckets_[idx]`. -/
def bucketAt (m : QuestionHashMap) (idx : Nat) : Bucket := m.buckets_.getD idx []

/-- The bucket index of a key under capacity `cap`: `djb2(key) % (unsigned long) cap`; the
conversion of a positive `int` capacity is the identity. -/
def indexFor (cap : Int) (key : String) : Nat := djb2 key % cap.toNat

/-- The method `index(key)`. -/
def index (m : QuestionHashMap) (key : String) : Nat := indexFor m.capacity_ key

/-- The statement `newBuckets[idx].push_back(move(entry))` of `rehash`. -/
def relocate (newCap : Int) (newBuckets : List Bucket) (entry : Entry) : List Bucket :=
  let idx := indexFor newCap entry.1
  newBuckets.set idx (newBuckets.getD idx [] ++ [entry])

/-- The recomputation of `collisions_` at the end of `rehash`. -/
def countCollisions (buckets : List Bucket) : Int :=
  buckets.foldl (fun c b => if b.length > 1 then c + ((b.length : Int) - 1) else c) 0

/-- The method `rehash()`. -/
def rehash (m : QuestionHashMap) : QuestionHashMap :=
  let newCap := m.capacity_ * 2
  let newBuckets : List Bucket := List.replicate newCap.toNat []
  let newBuckets :=
    m.buckets_.foldl (fun nb bucket => bucket.foldl (relocate newCap) nb) newBuckets
  { buckets_ := newBuckets, size_ := m.size_, capacity_ := newCap,
    collisions_ := countCollisions newBuckets }

/-- The constructor `QuestionHashMap(int cap)`. -/
def mkCap (cap : Int) : QuestionHashMap :=
  { buckets_ := List.replicate cap.toNat [], size_ := 0, capacity_ := cap, collisions_ := 0 }

/-- The default constructor `QuestionHashMap()`. -/
def mk0 : QuestionHashMap := mkCap INIT_CAP

/-- The test `static_cast<double>(size_ + 1) / capacity_ > LOAD_THRESHOLD`; a division of a
positive `double` by zero is `+inf`. -/
def overLoad (m : QuestionHashMap) : Bool :=
  if m.capacity_ = 0 then decide (m.size_ + 1 > 0)
  else decide (((m.size_ + 1 : Int) : ℚ) / (m.capacity_ : ℚ) > LOAD_THRESHOLD)

/-- The loop `for (auto& e : b) if (e.first == key) { e.second = val; return; }` of `put`:
the bucket after the assignment, or `none` when the loop ends without a match. -/
def assign (key : String) (val : Question) : Bucket → Option Bucket
  | [] => none
  | e :: es =>
    if e.1 = key then some ((e.1, val) :: es)
    else
      match assign key val es with
      | some es1 => some (e :: es1)
      | none => none

/-- The body of `put(key, val)` after the load check. -/
def putNoGrow (m : QuestionHashMap) (key : String) (val : Question) : QuestionHashMap :=
  let idx := index m key
  let b := bucketAt m idx
  match assign key val b with
  | some b1 => { m with buckets_ := m.buckets_.set idx b1 }
  | none =>
    { m with
      collisions_ := if ¬ b.isEmpty then m.collisions_ + 1 else m.collisions_,
      buckets_ := m.buckets_.set idx (b ++ [(key, val)]),
      size_ := m.size_ + 1 }

/-- The method `put(key, val)`: `if (load > LOAD_THRESHOLD) rehash();` and then the body. -/
def put (m : QuestionHashMap) (key : String) (val : Question) : QuestionHashMap :=
  putNoGrow (if overLoad m then rehash m else m) key val

/-- The method `get(key)`. -/
def get (m : QuestionHashMap) (key : String) : Bool × Question :=
  match (bucketAt m (index m key)).find? (fun e => decide (e.1 = key)) with
  | some e => (true, e.2)
  | none => (false, Question.mk0)

/-- The method `contains(key)`. -/
def contains (m : QuestionHashMap) (key : String) : Bool :=
  (bucketAt m (index m key)).any (fun e => decide (e.1 = key))

/-- The method `remove(key)`: the returned flag and the store left behind. -/
def remove (m : QuestionHashMap) (key : String) : Bool × QuestionHashMap :=
  let idx := index m key
  let b := bucketAt m idx
  if b.any (fun e => decide (e.1 = key)) then
    let b1 := b.eraseP (fun e => decide (e.1 = key))
    (true,
      { m with
        buckets_ := m.buckets_.set idx b1,
        size_ := m.size_ - 1,
        collisions_ := if ¬ b1.isEmpty then m.collisions_ - 1 else m.collisions_ })
  else (false, m)

/-- The method `getAllQuestions()`. -/
def getAllQuestions (m : QuestionHashMap) : List Question :=
  m.buckets_.foldl (fun out b => b.foldl (fun out e => out ++ [e.2]) out) []

/-- The method `filter(pred)`. -/
def filter (m : QuestionHashMap) (pred : Question → Bool) : List Question :=
  m.buckets_.foldl
    (fun out b => b.foldl (fun out e => if pred e.2 then out ++ [e.2] else out) out) []

/-- The method `operator[](key)`: the item referred to and the store left behind. -/
def subscript (m : QuestionHashMap) (key : String) : Question × QuestionHashMap :=
  let idx := index m key
  let b := bucketAt m idx
  match b.find? (fun e => decide (e.1 = key)) with
  | some e => (e.2, m)
  | none =>
    (Question.mk0,
      { m with buckets_ := m.buckets_.set idx (b ++ [(key, Question.mk0)]),
               size_ := m.size_ + 1 })

def size (m : QuestionHashMap) : Int := m.size_
def capacity (m : QuestionHashMap) : Int := m.capacity_
def collisionCount (m : QuestionHashMap) : Int := m.collisions_

/-- The stores built from a constructor call with a positive capacity by `put` and
`remove`. -/
inductive Built : QuestionHashMap → Prop where
  | ofCap (cap : Int) : 0 < cap → Built (mkCap cap)
  | ofPut {m : QuestionHashMap} (key : String) (val : Question) :
      Built m → Built (put m key val)
  | ofRemove {m : QuestionHashMap} (key : String) : Built m → Built (remove m key).2

/-- The loop `for (const auto& q : questions) map.put(q.id, q)` of `demoHashMap` on a fresh
store. -/
def fromList (qs : List Question) : QuestionHashMap :=
  qs.foldl (fun m q => put m q.id q) mk0

/-- An item with the given identifier and experience points, all other fields default. -/
def sampleItem (qid : String) (xp : Int) : Question :=
  { Question.mk0 with id := qid, xpEarned := xp }

/-- Thirteen items with distinct identifiers: one more than capacity 16 holds at load
factor 0.75. -/
def thirteen : List Question :=
  [sampleItem "q1" 120, sampleItem "q2" 80, sampleItem "q3" 40, sampleItem "q4" 75,
   sampleItem "q5" 35, sampleItem "q6" 90, sampleItem "q7" 100, sampleItem "q8" 55,
   sampleItem "q9" 70, sampleItem "q10" 0, sampleItem "q11" 85, sampleItem "q12" 30,
   sampleItem "q13" 10]

end QuestionHashMap

/-! ## revision_engine.h: the due list -/

/-- The comparison `a < b` of two `std::string` values: lexicographic on the bytes, each
compared as `unsigned char`. -/
def bytesLt : List UInt8 → List UInt8 → Bool
  | [], [] => false
  | [], _ :: _ => true
  | _ :: _, [] => false
  | a :: as, b :: bs =>
    if a.toNat < b.toNat then true
    else if b.toNat < a.toNat then false
    else bytesLt as bs

/-- The test `a <= b` on two `std::string` values. -/
def stringLe (a b : String) : Bool :=
  !(bytesLt (QuestionHashMap.keyBytes b) (QuestionHashMap.keyBytes a))

namespace RevisionEngine

/-- The function `RevisionEngine::getDueToday`. -/
def getDueToday (env : Env) (questions : List Question) : List Question :=
  let today := todayStr env
  questions.foldl
    (fun due q =>
      if q.status = QuestionStatus.MASTERED then due
      else if q.nextRevisionDate = "" then due
      else if stringLe q.nextRevisionDate today then due ++ [q]
      else due)
    []

end RevisionEngine

/-! ## Specification-level definitions -/

namespace RevisionEngine

/-- Per the spec: the interval `I` is 1 for a cycle of at most 1, 3 for cycle 2, and otherwise
grows from 3 by `interval := ceil(interval * ease)` once for each `i` in `3..cycle`; the
final interval is `max(1, ceil(I * m))` with `m` 0.8 for Hard, 1.2 for Easy, 1.0 for Medium. -/
def specInterval (cycle : Int) (ease : ℚ) (d : Difficulty) : Int :=
  let I : Int :=
    if cycle ≤ 1 then 1
    else if cycle = 2 then 3
    else (fun x : Int => ⌈(x : ℚ) * ease⌉)^[(cycle - 2).toNat] 3
  let m : ℚ :=
    match d with
    | Difficulty.HARD => 4 / 5
    | Difficulty.EASY => 6 / 5
    | Difficulty.MEDIUM => 1
  max 1 ⌈(I : ℚ) * m⌉

/-- Per the spec: the base date is `lastRevisionDate` if set, else `dateSolved` if set, else
today. -/
def specBaseDate (env : Env) (q : Question) : String :=
  if q.lastRevisionDate ≠ "" then q.lastRevisionDate
  else if q.dateSolved ≠ "" then q.dateSolved
  else env.today

/-- Scenario A of the spec (`q5` of the demo): ease 1.6, Hard. -/
def scenarioA : Question :=
  { Question.mk0 with
    id := "q5", name := "LRU Cache", subject := "Design", platform := "LeetCode",
    difficulty := Difficulty.HARD, status := QuestionStatus.NEEDS_REVISION,
    easeFactor := 8 / 5, revisionCycle := 1, streak := 0, xpEarned := 35,
    dateSolved := "2025-04-15", nextRevisionDate := "2025-07-05",
    lastRevisionDate := "2025-06-20", tags := ["linked-list", "hash-map"] }

end RevisionEngine

namespace RevisionHeap

/-- The edge into `c` is in order: the parent's score does not exceed the child's. -/
def EdgeOK (h : Heap) (c : Nat) : Prop := score h (parent c) ≤ score h c

/-- Every edge whose parent is at least `lo`, except the edge into `t`, is in order. -/
def OrderedFrom (h : Heap) (lo t : Nat) : Prop :=
  ∀ c, 0 < c → c < h.length → lo ≤ parent c → c ≠ t → EdgeOK h c

/-- The heap property: every parent's score is at most each child's score. -/
def Valid (h : Heap) : Prop := ∀ c, 0 < c → c < h.length → EdgeOK h c

/-- The state in which the loop of `siftDown` stands at `cur`: every edge in scope is in
order except those leaving `cur`, and the parent of `cur` is not above the children of
`cur`. -/
def DownPre (h : Heap) (lo t cur : Nat) : Prop :=
  (∀ c, 0 < c → c < h.length → lo ≤ parent c → c ≠ t → parent c ≠ cur → EdgeOK h c)
    ∧ (cur ≠ t → 0 < cur → lo ≤ parent cur →
        ∀ c, 0 < c → c < h.length → parent c = cur → score h (parent cur) ≤ score h c)

/-- The state in which the loop of `siftUp` stands at `cur`: every edge is in order except
the one into `cur`, and the parent of `cur` is not above the children of `cur`. -/
def UpPre (h : Heap) (cur : Nat) : Prop :=
  (∀ c, 0 < c → c < h.length → c ≠ cur → EdgeOK h c)
    ∧ (0 < cur → ∀ c, 0 < c → c < h.length → parent c = cur →
        score h (parent cur) ≤ score h c)

/-- The vector `g` is in order on every edge that does not touch `i`, and the parent of `i`
is not above the children of `i`. -/
def HoleAt (g : Heap) (i : Nat) : Prop :=
  (∀ c, 0 < c → c < g.length → c ≠ i → parent c ≠ i → EdgeOK g c)
    ∧ (0 < i → ∀ c, 0 < c → c < g.length → parent c = i → score g (parent i) ≤ score g c)

/-- The heaps reachable from the empty heap or from the constructor by any sequence of
`push`, `pop`, `remove`, `updatePriority` and `topK`. -/
inductive Reachable (env : Env) : Heap → Prop where
  | ofEmpty : Reachable env RevisionHeap.empty
  | ofBuild (questions : List Question) (today : String) :
      Reachable env (build env questions today)
  | ofPush {h : Heap} (q : Question) (today : String) :
      Reachable env h → Reachable env (push env h q today)
  | ofPop {h : Heap} {e : HeapEntry} {h1 : Heap} :
      Reachable env h → pop h = some (e, h1) → Reachable env h1
  | ofRemove {h : Heap} (qid : String) :
      Reachable env h → Reachable env (remove h qid).2
  | ofUpdatePriority {h : Heap} (qid : String) (q : Question) (today : String) :
      Reachable env h → Reachable env (updatePriority env h qid q today)
  | ofTopK {h : Heap} {r : List HeapEntry} {h1 : Heap} (k : Int) :
      Reachable env h → topK h k = some (r, h1) → Reachable env h1

/-- A heap entry with the given identifier and score, all other fields default. -/
def sampleEntry (qid : String) (s : ℚ) : HeapEntry := ⟨{ Question.mk0 with id := qid }, s⟩

/-- A small valid heap. -/
def sampleHeap : Heap :=
  [sampleEntry "a" 1, sampleEntry "b" 3, sampleEntry "c" 2, sampleEntry "d" 5]

end RevisionHeap

namespace QuestionHashMap

/-- The capacity is positive, there are `capacity_` buckets, and every entry lies in the
bucket its key hashes to. -/
def WF (m : QuestionHashMap) : Prop :=
  0 < m.capacity_ ∧ m.buckets_.length = m.capacity_.toNat
    ∧ ∀ i, ∀ e ∈ bucketAt m i, indexFor m.capacity_ e.1 = i

end QuestionHashMap

namespace RevisionEngine

/-- Scenario B of the spec (`q3` of the demo): cycle 2, ease 1.8, Medium, last revised on
2025-06-10. -/
def scenarioB : Question :=
  { Question.mk0 with
    id := "q3", name := "Merge Intervals", subject := "Arrays", platform := "LeetCode",
    difficulty := Difficulty.MEDIUM, status := QuestionStatus.NEEDS_REVISION,
    easeFactor := 9 / 5, revisionCycle := 2, streak := 0, xpEarned := 40,
    dateSolved := "2025-03-05", nextRevisionDate := "2025-07-01",
    lastRevisionDate := "2025-06-10", tags := ["sorting", "intervals"] }

/-- A mastered item (`q1` of the demo): cycle 5, ease 2.8. -/
def masteredItem : Question :=
  { Question.mk0 with
    id := "q1", name := "Two Sum", subject := "Arrays", platform := "LeetCode",
    difficulty := Difficulty.EASY, status := QuestionStatus.MASTERED,
    easeFactor := 14 / 5, revisionCycle := 5, streak := 5, xpEarned := 120,
    dateSolved := "2025-01-01", nextRevisionDate := "",
    lastRevisionDate := "2025-06-01", tags := ["hash-map", "brute-force"] }

/-- A Medium item in its second cycle with a streak of 5. -/
def roundingItem : Question :=
  { Question.mk0 with
    id := "r1", status := QuestionStatus.SOLVED, revisionCycle := 2, streak := 5 }

/-- A solved Medium item in its first cycle with a streak of 3. -/
def quickItem : Question :=
  { Question.mk0 with
    id := "r2", status := QuestionStatus.SOLVED, revisionCycle := 1, streak := 3,
    xpEarned := 60, dateSolved := "2025-06-01" }

/-- A solved Medium item with ease factor 2.5 in its twelfth cycle, last revised on
2025-01-01. -/
def cycle12Item : Question :=
  { Question.mk0 with
    id := "c12", status := QuestionStatus.SOLVED, revisionCycle := 12, streak := 12,
    dateSolved := "2024-01-01", lastRevisionDate := "2025-01-01" }

/-- A solved Medium item in its thirteenth cycle whose ease factor is the binary64 number
written 2.22. -/
def lateItem : Question :=
  { Question.mk0 with
    id := "c13", status := QuestionStatus.SOLVED, easeFactor := roundD (111 / 50),
    revisionCycle := 13, streak := 13, dateSolved := "2024-01-01",
    nextRevisionDate := "2025-07-10", lastRevisionDate := "2025-01-01" }

/-- Per the spec: the product `baseScore × qualityMultiplier × cycleMultiplier ×
streakMultiplier × speedMultiplier`, with base 10/20/35 and threshold 60/120/180 for
Easy/Medium/Hard, and speed `1 + 0.3 * (1 - elapsed / threshold)` when
`0 < elapsed < threshold`, else 1. -/
def xpProduct (d : Difficulty) (cycle streak quality elapsed : Int) : ℚ :=
  let base : ℚ :=
    match d with
    | Difficulty.EASY => 10
    | Difficulty.MEDIUM => 20
    | Difficulty.HARD => 35
  let threshold : ℚ :=
    match d with
    | Difficulty.EASY => 60
    | Difficulty.MEDIUM => 120
    | Difficulty.HARD => 180
  let speed : ℚ :=
    if 0 < (elapsed : ℚ) ∧ (elapsed : ℚ) < threshold then
      1 + 3 / 10 * (1 - (elapsed : ℚ) / threshold)
    else 1
  base * (1 / 2 + 1 / 5 * (quality : ℚ)) * (1 + 1 / 10 * ((min cycle 10 : Int) : ℚ))
    * (1 + 1 / 20 * ((min streak 7 : Int) : ℚ)) * speed

/-- Per the spec: the awarded score is the floor of the product. -/
def specXP (d : Difficulty) (cycle streak quality elapsed : Int) : Int :=
  ⌊xpProduct d cycle streak quality elapsed⌋

/-- Per the spec: `clamp(quality, 0, 5)`. -/
def clampQuality (quality : Int) : Int :=
  if quality < 0 then 0 else if quality > 5 then 5 else quality

end RevisionEngine

/-- Per the spec: the urgency score of a schedulable item,
`(daysOverdue × difficultyMultiplier + easePenalty) × streakPenalty` with multiplier
1.5/1.2/1.0 for Hard/Medium/Easy, ease penalty `(2.5 − easeFactor) × 2.0` and streak penalty
1.5 if `streak < 3`, else 1.0. -/
def specScore (env : Env) (q : Question) (today : String) : ℚ :=
  let daysOverdue : Int := dateDiffDays env q.nextRevisionDate today
  let m : ℚ :=
    match q.difficulty with
    | Difficulty.HARD => 3 / 2
    | Difficulty.MEDIUM => 6 / 5
    | Difficulty.EASY => 1
  let p : ℚ := if q.streak < 3 then 3 / 2 else 1
  ((daysOverdue : ℚ) * m + (5 / 2 - q.easeFactor) * 2) * p

/-- A dated, solved Easy item with ease 2.5 and streak 3: its score is the number of days it
is overdue. -/
def datedItem (qid : String) (nextRevisionDate : String) : Question :=
  { Question.mk0 with
    id := qid, difficulty := Difficulty.EASY, status := QuestionStatus.SOLVED, streak := 3,
    dateSolved := "2025-06-01", nextRevisionDate := nextRevisionDate }

namespace RevisionHeap

/-- The entry the constructor and `push` make of an item. -/
def entryOf (env : Env) (today : String) (q : Question) : HeapEntry :=
  ⟨q, q.getPriorityScore env today⟩

/-- Per the spec: an item is schedulable when it is not Mastered and has a next revision
date. -/
def schedulable (q : Question) : Bool :=
  decide (q.status ≠ QuestionStatus.MASTERED ∧ q.nextRevisionDate ≠ "")

/-- The items the constructor keeps: schedulable and with a score of at least 0. -/
def keptByBuild (env : Env) (today : String) (q : Question) : Bool :=
  schedulable q && decide (q.getPriorityScore env today ≥ 0)

end RevisionHeap

namespace RevisionHeap

/-- The vector `heap_` after a call of `pop()`: the `throw` on an empty heap comes before any
assignment, so a failing call leaves `heap_` as it was. -/
def heapAfterPop (h : Heap) : Heap :=
  match pop h with
  | some (_, h1) => h1
  | none => h

/-- The entries are in non-decreasing order of `priorityScore`. -/
def ScoreSorted (l : List HeapEntry) : Prop :=
  l.Pairwise (fun a b => a.priorityScore ≤ b.priorityScore)

end RevisionHeap

namespace QuestionHashMap

/-- No key occurs twice in the store. -/
def KeysDistinct (m : QuestionHashMap) : Prop :=
  (m.buckets_.flatten.map (fun e => e.1)).Nodup

/-- The shape every `QuestionHashMap` object has: `capacity_` is not negative and `buckets_`
holds `capacity_` buckets. -/
def IsStore (m : QuestionHashMap) : Prop :=
  0 ≤ m.capacity_ ∧ m.buckets_.length = m.capacity_.toNat

/-- A store of capacity 1 whose single bucket holds two entries. -/
def crowdedStore : QuestionHashMap :=
  { buckets_ := [[("q1", sampleItem "q1" 120), ("q2", sampleItem "q2" 80)]],
    size_ := 2, capacity_ := 1, collisions_ := 1 }

end QuestionHashMap

namespace RevisionEngine

/-- Per the spec: `delta = 0.1 − (5 − quality) × (0.08 + (5 − quality) × 0.02)`. -/
def specDelta (c : Int) : ℚ := 1 / 10 - (5 - (c : ℚ)) * (2 / 25 + (5 - (c : ℚ)) * (1 / 50))

end RevisionEngine



namespace QuestionHashMap

/-- Per the spec: the collisions of a vector of buckets, the sum over all buckets of
`max(0, bucket length − 1)`. -/
def specCollisions (buckets : List Bucket) : Int :=
  (buckets.map (fun b => max 0 ((b.length : Int) - 1))).sum

/-- The number of buckets that hold at least one entry. -/
def usedBuckets (buckets : List Bucket) : Int :=
  (buckets.map (fun b => if b.isEmpty then (0 : Int) else 1)).sum

/-- The stores built from a constructor call with a positive capacity by `put`, `remove`
and `operator[]`. -/
inductive BuiltWithSubscript : QuestionHashMap → Prop where
  | ofCap (cap : Int) : 0 < cap → BuiltWithSubscript (mkCap cap)
  | ofPut {m : QuestionHashMap} (key : String) (val : Question) :
      BuiltWithSubscript m → BuiltWithSubscript (put m key val)
  | ofRemove {m : QuestionHashMap} (key : String) :
      BuiltWithSubscript m → BuiltWithSubscript (remove m key).2
  | ofSubscript {m : QuestionHashMap} (key : String) :
      BuiltWithSubscript m → BuiltWithSubscript (subscript m key).2

/-- The default store after `map["q1"]` and `map["q10"]`, two keys of bucket 7. -/
def subscriptedTwice : QuestionHashMap := (subscript (subscript mk0 "q1").2 "q10").2

end QuestionHashMap



/-- Leap years of the Gregorian calendar. -/
def isLeapYear (y : Int) : Bool := decide (y % 4 = 0 ∧ (y % 100 ≠ 0 ∨ y % 400 = 0))

/-- The number of days of month `m` in year `y`. -/
def daysInMonth (y m : Int) : Int :=
  if m = 2 then (if isLeapYear y then 29 else 28)
  else if m = 4 ∨ m = 6 ∨ m = 9 ∨ m = 11 then 30
  else 31

/-- Per the spec: a well-formed calendar date, the text `YYYY-MM-DD` of a day of the
Gregorian calendar. -/
def wellFormedDate (s : String) : Bool :=
  match parseDate s with
  | some (y, m, d) => decide (1 ≤ m ∧ m ≤ 12 ∧ 1 ≤ d ∧ d ≤ daysInMonth y m)
  | none => false

/-- The day count since 1970-01-01 that `mktime` gives a date text under `utcEnv`. -/
def dayNumber (s : String) : Int := (utcEnv s).mktime s / 86400

/-- The day count of 0000-01-01. -/
def firstDay : Int := -719528

/-- The day count of 9999-12-31. -/
def lastDay : Int := 2932896

/-- The day count of 1000-01-01, the first day whose year `%Y` prints with four digits. -/
def firstPaddedDay : Int := -354285

/-! # Proofs -/

/-! ## Rounding to binary64 and conversions to `int` -/

theorem roundHalfEven_eq (s : ℚ) (m : Int)
    (h : |s - m| < 1 / 2 ∨ (|s - m| = 1 / 2 ∧ m % 2 = 0)) : roundHalfEven s = m := by
  unfold roundHalfEven
  simp only []
  rcases le_or_lt (m : ℚ) s with hms | hms
  · -- floor is m
    have habs : |s - m| = s - m := abs_of_nonneg (by linarith)
    have hfl : ⌊s⌋ = m := by
      rw [Int.floor_eq_iff]
      rcases h with h | ⟨h, _⟩ <;> rw [habs] at h <;> constructor <;> linarith
    rw [hfl]
    rcases h with h | ⟨h, hm⟩
    · rw [habs] at h
      rw [if_pos h]
    · rw [habs] at h
      rw [if_neg (by linarith), if_neg (by linarith), if_pos hm]
  · have habs : |s - m| = m - s := by
      rw [abs_of_neg (by linarith)]
      ring
    have hfl : ⌊s⌋ = m - 1 := by
      rw [Int.floor_eq_iff]
      push_cast
      rcases h with h | ⟨h, _⟩ <;> rw [habs] at h <;> constructor <;> linarith
    rw [hfl]
    push_cast
    rcases h with h | ⟨h, hm⟩
    · rw [habs] at h
      rw [if_neg (by linarith), if_pos (by linarith)]
      ring
    · rw [habs] at h
      rw [if_neg (by linarith), if_neg (by linarith), if_neg (by omega)]
      ring

theorem roundHalfEven_intCast (n : Int) : roundHalfEven (n : ℚ) = n :=
  roundHalfEven_eq _ n (Or.inl (by simp))

theorem roundHalfEven_cases (s : ℚ) :
    (roundHalfEven s = ⌊s⌋ ∧ s - ⌊s⌋ ≤ 1 / 2) ∨ (roundHalfEven s = ⌊s⌋ + 1 ∧ 1 / 2 ≤ s - ⌊s⌋) := by
  unfold roundHalfEven
  simp only []
  split_ifs with h1 h2 h3
  · exact Or.inl ⟨rfl, le_of_lt h1⟩
  · exact Or.inr ⟨rfl, le_of_lt h2⟩
  · exact Or.inl ⟨rfl, by linarith⟩
  · exact Or.inr ⟨rfl, by linarith⟩

theorem abs_sub_roundHalfEven_le (s : ℚ) : |s - roundHalfEven s| ≤ 1 / 2 := by
  have h1 := Int.floor_le s
  have h2 := Int.lt_floor_add_one s
  rw [abs_le]
  rcases roundHalfEven_cases s with ⟨h, hr⟩ | ⟨h, hr⟩ <;> rw [h] <;> push_cast <;>
    constructor <;> linarith

theorem roundHalfEven_mono {s t : ℚ} (h : s ≤ t) : roundHalfEven s ≤ roundHalfEven t := by
  have hs1 := Int.floor_le s
  have hs2 := Int.lt_floor_add_one s
  have ht1 := Int.floor_le t
  have ht2 := Int.lt_floor_add_one t
  rcases (Int.floor_mono h).lt_or_eq with hlt | heq
  · have hle : ⌊s⌋ + 1 ≤ ⌊t⌋ := hlt
    rcases roundHalfEven_cases s with ⟨h1, _⟩ | ⟨h1, _⟩ <;>
      rcases roundHalfEven_cases t with ⟨h2, _⟩ | ⟨h2, _⟩ <;> rw [h1, h2] <;> omega
  · unfold roundHalfEven
    simp only []
    rw [← heq]
    split_ifs <;> first | omega | (exfalso; linarith)

theorem roundHalfEven_neg (s : ℚ) : roundHalfEven (-s) = -roundHalfEven s := by
  have hs1 := Int.floor_le s
  have hs2 := Int.lt_floor_add_one s
  rcases eq_or_lt_of_le hs1 with heq | hlt
  · rw [← heq, ← Int.cast_neg, roundHalfEven_intCast, roundHalfEven_intCast]
  · have hfl : ⌊-s⌋ = -⌊s⌋ - 1 := by
      rw [Int.floor_eq_iff]
      push_cast
      constructor <;> linarith
    unfold roundHalfEven
    simp only []
    rw [hfl]
    push_cast
    split_ifs <;> first | omega | (exfalso; linarith)

theorem ulpExp_neg (x : ℚ) : ulpExp (-x) = ulpExp x := by
  unfold ulpExp
  rw [abs_neg]

theorem roundD_neg (x : ℚ) : roundD (-x) = -roundD x := by
  unfold roundD
  rw [ulpExp_neg, neg_div, roundHalfEven_neg]
  push_cast
  ring

theorem roundD_zero : roundD 0 = 0 := by
  unfold roundD
  rw [zero_div]
  have : roundHalfEven (0 : ℚ) = 0 := by
    have := roundHalfEven_intCast 0
    simpa using this
  rw [this]
  simp

theorem two_zpow_pos (k : Int) : (0 : ℚ) < 2 ^ k := zpow_pos (by norm_num) k

theorem ulpExp_ge (x : ℚ) : -1074 ≤ ulpExp x := le_max_right _ _

/-- A positive number lies below the top of its binade. -/
theorem lt_ulpExp_top (x : ℚ) (hx : 0 < x) : x < 2 ^ (ulpExp x + 53) := by
  have h1 : x < ((2 : Nat) : ℚ) ^ (Int.log 2 x + 1) := Int.lt_zpow_succ_log_self (by norm_num) x
  have h2 : Int.log 2 x + 1 ≤ ulpExp x + 53 := by
    have : Int.log 2 x - 52 ≤ ulpExp x := by
      unfold ulpExp
      rw [abs_of_pos hx]
      exact le_max_left _ _
    omega
  have h3 : ((2 : Nat) : ℚ) ^ (Int.log 2 x + 1) ≤ (2 : ℚ) ^ (ulpExp x + 53) := by
    push_cast
    exact zpow_le_zpow_right₀ (by norm_num) h2
  exact lt_of_lt_of_le h1 h3

/-- A positive number above the subnormal range lies above the bottom of its binade. -/
theorem ulpExp_bot_le (x : ℚ) (hx : 0 < x) (hu : -1074 < ulpExp x) :
    (2 : ℚ) ^ (ulpExp x + 52) ≤ x := by
  have hlog : ulpExp x = Int.log 2 x - 52 := by
    unfold ulpExp at hu ⊢
    rw [abs_of_pos hx] at hu ⊢
    rcases max_cases (Int.log 2 x - 52) (-1074) with ⟨h, _⟩ | ⟨h, _⟩
    · exact h
    · rw [h] at hu
      omega
  have h1 : ((2 : Nat) : ℚ) ^ (Int.log 2 x) ≤ x := Int.zpow_log_le_self (by norm_num) hx
  rw [hlog]
  have : Int.log 2 x - 52 + 52 = Int.log 2 x := by ring
  rw [this]
  exact_mod_cast h1

theorem ulpExp_mono_pos {x y : ℚ} (hx : 0 < x) (hxy : x ≤ y) : ulpExp x ≤ ulpExp y := by
  unfold ulpExp
  rw [abs_of_pos hx, abs_of_pos (lt_of_lt_of_le hx hxy)]
  have := Int.log_mono_right (b := 2) hx hxy
  exact max_le_max (by omega) le_rfl

theorem roundD_nonneg {x : ℚ} (hx : 0 ≤ x) : 0 ≤ roundD x := by
  unfold roundD
  have h1 : (0 : ℚ) ≤ x / 2 ^ ulpExp x := div_nonneg hx (le_of_lt (two_zpow_pos _))
  have h2 : roundHalfEven (0 : ℚ) ≤ roundHalfEven (x / 2 ^ ulpExp x) := roundHalfEven_mono h1
  have h3 : roundHalfEven (0 : ℚ) = 0 := by
    have := roundHalfEven_intCast 0
    simpa using this
  rw [h3] at h2
  have : (0 : ℚ) ≤ (roundHalfEven (x / 2 ^ ulpExp x) : ℚ) := by exact_mod_cast h2
  exact mul_nonneg this (le_of_lt (two_zpow_pos _))

theorem roundD_le_top (x : ℚ) (hx : 0 < x) : roundD x ≤ 2 ^ (ulpExp x + 53) := by
  unfold roundD
  have h1 : x / 2 ^ ulpExp x ≤ ((2 ^ 53 : Int) : ℚ) := by
    rw [div_le_iff₀ (two_zpow_pos _)]
    have := lt_ulpExp_top x hx
    rw [zpow_add₀ (by norm_num : (2 : ℚ) ≠ 0)] at this
    have e : ((2 ^ 53 : Int) : ℚ) * 2 ^ ulpExp x = 2 ^ ulpExp x * 2 ^ (53 : Int) := by
      push_cast
      rw [mul_comm]
      norm_num
    rw [e]
    exact le_of_lt this
  have h2 := roundHalfEven_mono h1
  rw [roundHalfEven_intCast] at h2
  have h3 : (roundHalfEven (x / 2 ^ ulpExp x) : ℚ) ≤ ((2 ^ 53 : Int) : ℚ) := by exact_mod_cast h2
  calc (roundHalfEven (x / 2 ^ ulpExp x) : ℚ) * 2 ^ ulpExp x
      ≤ ((2 ^ 53 : Int) : ℚ) * 2 ^ ulpExp x :=
        mul_le_mul_of_nonneg_right h3 (le_of_lt (two_zpow_pos _))
    _ = 2 ^ (ulpExp x + 53) := by
        rw [zpow_add₀ (by norm_num : (2 : ℚ) ≠ 0)]
        push_cast
        rw [mul_comm]
        norm_num

theorem roundD_ge_bot (x : ℚ) (hx : 0 < x) (hu : -1074 < ulpExp x) :
    (2 : ℚ) ^ (ulpExp x + 52) ≤ roundD x := by
  unfold roundD
  have h1 : ((2 ^ 52 : Int) : ℚ) ≤ x / 2 ^ ulpExp x := by
    rw [le_div_iff₀ (two_zpow_pos _)]
    have := ulpExp_bot_le x hx hu
    rw [zpow_add₀ (by norm_num : (2 : ℚ) ≠ 0)] at this
    have e : ((2 ^ 52 : Int) : ℚ) * 2 ^ ulpExp x = 2 ^ ulpExp x * 2 ^ (52 : Int) := by
      push_cast
      rw [mul_comm]
      norm_num
    rw [e]
    exact this
  have h2 := roundHalfEven_mono h1
  rw [roundHalfEven_intCast] at h2
  have h3 : ((2 ^ 52 : Int) : ℚ) ≤ (roundHalfEven (x / 2 ^ ulpExp x) : ℚ) := by exact_mod_cast h2
  calc (2 : ℚ) ^ (ulpExp x + 52) = ((2 ^ 52 : Int) : ℚ) * 2 ^ ulpExp x := by
        rw [zpow_add₀ (by norm_num : (2 : ℚ) ≠ 0)]
        push_cast
        rw [mul_comm]
        norm_num
    _ ≤ (roundHalfEven (x / 2 ^ ulpExp x) : ℚ) * 2 ^ ulpExp x :=
        mul_le_mul_of_nonneg_right h3 (le_of_lt (two_zpow_pos _))

theorem roundD_mono_pos {x y : ℚ} (hx : 0 < x) (hxy : x ≤ y) : roundD x ≤ roundD y := by
  have hy : 0 < y := lt_of_lt_of_le hx hxy
  rcases (ulpExp_mono_pos hx hxy).lt_or_eq with hlt | heq
  · have h1 := roundD_le_top x hx
    have h2 := roundD_ge_bot y hy (lt_of_le_of_lt (ulpExp_ge x) hlt)
    have h3 : (2 : ℚ) ^ (ulpExp x + 53) ≤ 2 ^ (ulpExp y + 52) :=
      zpow_le_zpow_right₀ (by norm_num) (by omega)
    linarith
  · unfold roundD
    rw [← heq]
    have h1 : x / 2 ^ ulpExp x ≤ y / 2 ^ ulpExp x :=
      div_le_div_of_nonneg_right hxy (le_of_lt (two_zpow_pos _))
    have h2 := roundHalfEven_mono h1
    have h3 : (roundHalfEven (x / 2 ^ ulpExp x) : ℚ) ≤ (roundHalfEven (y / 2 ^ ulpExp x) : ℚ) := by
      exact_mod_cast h2
    exact mul_le_mul_of_nonneg_right h3 (le_of_lt (two_zpow_pos _))

/-- Rounding to binary64 is monotone. -/
theorem roundD_mono {x y : ℚ} (hxy : x ≤ y) : roundD x ≤ roundD y := by
  rcases lt_trichotomy 0 x with hx | hx | hx
  · exact roundD_mono_pos hx hxy
  · rw [← hx, roundD_zero]
    exact roundD_nonneg (by linarith)
  · rcases le_or_lt 0 y with hy | hy
    · have h1 : 0 ≤ roundD (-x) := roundD_nonneg (by linarith)
      rw [roundD_neg] at h1
      have h2 := roundD_nonneg hy
      linarith
    · have h1 : roundD (-y) ≤ roundD (-x) := roundD_mono_pos (by linarith) (by linarith)
      rw [roundD_neg, roundD_neg] at h1
      linarith

theorem abs_roundD_sub_le (x : ℚ) : |roundD x - x| ≤ 2 ^ ulpExp x / 2 := by
  unfold roundD
  have h := abs_sub_roundHalfEven_le (x / 2 ^ ulpExp x)
  have hp := two_zpow_pos (ulpExp x)
  have e : (roundHalfEven (x / 2 ^ ulpExp x) : ℚ) * 2 ^ ulpExp x - x
      = -((x / 2 ^ ulpExp x - roundHalfEven (x / 2 ^ ulpExp x)) * 2 ^ ulpExp x) := by
    field_simp
    ring
  rw [e, abs_neg, abs_mul, abs_of_pos hp]
  calc |x / 2 ^ ulpExp x - ↑(roundHalfEven (x / 2 ^ ulpExp x))| * 2 ^ ulpExp x
      ≤ 1 / 2 * 2 ^ ulpExp x := mul_le_mul_of_nonneg_right h (le_of_lt hp)
    _ = 2 ^ ulpExp x / 2 := by ring

theorem ulpExp_eq (x : ℚ) (e : Int) (he : -1074 ≤ e) (hlo : (2 : ℚ) ^ (e + 52) ≤ |x|)
    (hhi : |x| < 2 ^ (e + 53)) : ulpExp x = e := by
  have hpos : 0 < |x| := lt_of_lt_of_le (two_zpow_pos _) hlo
  have h1 : e + 52 ≤ Int.log 2 |x| := by
    rw [← Int.zpow_le_iff_le_log (by norm_num) hpos]
    exact_mod_cast hlo
  have h2 : Int.log 2 |x| < e + 53 := by
    rw [← Int.lt_zpow_iff_log_lt (by norm_num) hpos]
    exact_mod_cast hhi
  unfold ulpExp
  have : Int.log 2 |x| - 52 = e := by omega
  rw [this]
  exact max_eq_left he

/-- Evaluation of `roundD`: the value `m * 2 ^ e` is the rounding of every `x` of its binade
that is nearer to it than half a unit in the last place (or at that distance, `m` even). -/
theorem roundD_eq (x : ℚ) (m e : Int) (he : -1074 ≤ e) (hlo : (2 : ℚ) ^ (e + 52) ≤ |x|)
    (hhi : |x| < 2 ^ (e + 53))
    (h : |x / 2 ^ e - m| < 1 / 2 ∨ (|x / 2 ^ e - m| = 1 / 2 ∧ m % 2 = 0)) :
    roundD x = m * 2 ^ e := by
  unfold roundD
  rw [ulpExp_eq x e he hlo hhi, roundHalfEven_eq _ m h]

/-- A binary64 number is its own rounding. -/
theorem roundD_repr (m e : Int) (hm : |m| ≤ 2 ^ 53) (he : -1074 ≤ e) :
    roundD ((m : ℚ) * 2 ^ e) = (m : ℚ) * 2 ^ e := by
  have key : ∀ (m e : Int), 0 < m → m < 2 ^ 53 → -1074 ≤ e →
      roundD ((m : ℚ) * 2 ^ e) = (m : ℚ) * 2 ^ e := by
    intro m e hm0 hm1 he
    have hx : (0 : ℚ) < (m : ℚ) * 2 ^ e := mul_pos (by exact_mod_cast hm0) (two_zpow_pos e)
    have hlt : (m : ℚ) * 2 ^ e < 2 ^ (e + 53) := by
      rw [zpow_add₀ (by norm_num : (2 : ℚ) ≠ 0), mul_comm]
      apply mul_lt_mul_of_pos_left _ (two_zpow_pos e)
      have : (m : ℚ) < ((2 ^ 53 : Int) : ℚ) := by exact_mod_cast hm1
      calc (m : ℚ) < ((2 ^ 53 : Int) : ℚ) := this
        _ = 2 ^ (53 : Int) := by norm_num
    have hu : ulpExp ((m : ℚ) * 2 ^ e) ≤ e := by
      unfold ulpExp
      rw [abs_of_pos hx]
      apply max_le _ he
      have : Int.log 2 ((m : ℚ) * 2 ^ e) < e + 53 := by
        rw [← Int.lt_zpow_iff_log_lt (by norm_num) hx]
        exact_mod_cast hlt
      omega
    obtain ⟨k, hk⟩ : ∃ k : Nat, e = ulpExp ((m : ℚ) * 2 ^ e) + k :=
      ⟨(e - ulpExp ((m : ℚ) * 2 ^ e)).toNat, by omega⟩
    unfold roundD
    generalize ulpExp ((m : ℚ) * 2 ^ e) = u at hk
    have e1 : (m : ℚ) * 2 ^ e / 2 ^ u = ((m * 2 ^ k : Int) : ℚ) := by
      rw [hk, zpow_add₀ (by norm_num : (2 : ℚ) ≠ 0), zpow_natCast]
      push_cast
      field_simp
      ring
    rw [e1, roundHalfEven_intCast, hk, zpow_add₀ (by norm_num : (2 : ℚ) ≠ 0), zpow_natCast]
    push_cast
    ring
  have key2 : ∀ (m e : Int), 0 < m → m ≤ 2 ^ 53 → -1074 ≤ e →
      roundD ((m : ℚ) * 2 ^ e) = (m : ℚ) * 2 ^ e := by
    intro m e hm0 hm1 he
    rcases hm1.lt_or_eq with h | h
    · exact key m e hm0 h he
    · have e2 : (m : ℚ) * 2 ^ e = ((2 ^ 52 : Int) : ℚ) * 2 ^ (e + 1) := by
        rw [h, zpow_add₀ (by norm_num : (2 : ℚ) ≠ 0)]
        push_cast
        ring
      rw [e2]
      exact key (2 ^ 52) (e + 1) (by norm_num) (by norm_num) (by omega)
  rcases lt_trichotomy 0 m with h0 | h0 | h0
  · exact key2 m e h0 (by rw [abs_of_pos h0] at hm; exact hm) he
  · rw [← h0]
    simp [roundD_zero]
  · have h1 := key2 (-m) e (by omega) (by rw [abs_of_neg h0] at hm; exact hm) he
    have e3 : ((-m : Int) : ℚ) * 2 ^ e = -((m : ℚ) * 2 ^ e) := by
      push_cast
      ring
    rw [e3, roundD_neg] at h1
    linarith

theorem roundD_intCast (n : Int) (hn : |n| ≤ 2 ^ 53) : roundD (n : ℚ) = n := by
  have := roundD_repr n 0 hn (by norm_num)
  simpa using this

/-- The ceiling of a rounded value that lies in `(n - 1, n]` by a margin of `2 ^ (-k)`. -/
theorem ceil_roundD (x : ℚ) (n : Int) (k : Nat) (hk : k ≤ 52) (hn : (|n| + 1) * 2 ^ k ≤ 2 ^ 53)
    (h1 : (n : ℚ) - 1 + 1 / 2 ^ k ≤ x) (h2 : x ≤ n) : ⌈roundD x⌉ = n := by
  have hk1 : (1 : Int) ≤ 2 ^ k := one_le_pow₀ (by norm_num)
  have hn1 : |n| ≤ 2 ^ 53 := by nlinarith [abs_nonneg n]
  have hup : roundD x ≤ n := by
    have := roundD_mono h2
    rwa [roundD_intCast n hn1] at this
  have hlo : (n : ℚ) - 1 + 1 / 2 ^ k ≤ roundD x := by
    have hr : roundD ((((n - 1) * 2 ^ k + 1 : Int) : ℚ) * 2 ^ (-(k : Int)))
        = (((n - 1) * 2 ^ k + 1 : Int) : ℚ) * 2 ^ (-(k : Int)) := by
      apply roundD_repr
      · rw [abs_le]
        rcases abs_cases n with ⟨ha, _⟩ | ⟨ha, _⟩ <;> rw [ha] at hn <;>
          constructor <;> nlinarith
      · omega
    have e : (((n - 1) * 2 ^ k + 1 : Int) : ℚ) * 2 ^ (-(k : Int)) = (n : ℚ) - 1 + 1 / 2 ^ k := by
      rw [zpow_neg, zpow_natCast]
      push_cast
      field_simp
    rw [e] at hr
    have := roundD_mono h1
    rwa [hr] at this
  rw [Int.ceil_eq_iff]
  have hpos : (0 : ℚ) < 1 / 2 ^ k := by positivity
  constructor <;> linarith


/-- Evaluation of `roundD` with the result written as a number `y`. -/
theorem roundD_eval (x y : ℚ) (m e : Int) (he : -1074 ≤ e) (hy : y = m * 2 ^ e)
    (hlo : (2 : ℚ) ^ (e + 52) ≤ |x|) (hhi : |x| < 2 ^ (e + 53))
    (h : |x / 2 ^ e - m| < 1 / 2 ∨ (|x / 2 ^ e - m| = 1 / 2 ∧ m % 2 = 0)) : roundD x = y := by
  rw [hy]
  exact roundD_eq x m e he hlo hhi h

theorem roundD_dyadic (n : Int) (k : Nat) (hn : |n| ≤ 2 ^ 53) (hk : k ≤ 1074) :
    roundD ((n : ℚ) / 2 ^ k) = (n : ℚ) / 2 ^ k := by
  have h := roundD_repr n (-(k : Int)) hn (by omega)
  rw [zpow_neg, zpow_natCast] at h
  exact h

/-- Rounding keeps a value between 0 and a binary64 number `n / 2 ^ k`. -/
theorem roundD_mem_dyadic (x : ℚ) (n : Int) (k : Nat) (hn : |n| ≤ 2 ^ 53) (hk : k ≤ 1074)
    (h0 : 0 ≤ x) (h1 : x ≤ (n : ℚ) / 2 ^ k) : 0 ≤ roundD x ∧ roundD x ≤ (n : ℚ) / 2 ^ k := by
  refine ⟨roundD_nonneg h0, ?_⟩
  have := roundD_mono h1
  rwa [roundD_dyadic n k hn hk] at this

/-- Rounding keeps a value above a binary64 number `n / 2 ^ k`. -/
theorem dyadic_le_roundD (x : ℚ) (n : Int) (k : Nat) (hn : |n| ≤ 2 ^ 53) (hk : k ≤ 1074)
    (h1 : (n : ℚ) / 2 ^ k ≤ x) : (n : ℚ) / 2 ^ k ≤ roundD x := by
  have := roundD_mono h1
  rwa [roundD_dyadic n k hn hk] at this

theorem roundD_le_dyadic (x : ℚ) (n : Int) (k : Nat) (hn : |n| ≤ 2 ^ 53) (hk : k ≤ 1074)
    (h1 : x ≤ (n : ℚ) / 2 ^ k) : roundD x ≤ (n : ℚ) / 2 ^ k := by
  have := roundD_mono h1
  rwa [roundD_dyadic n k hn hk] at this

/-- The rounding error of a value below `2 ^ (k + 53)` in size is at most `2 ^ k / 2`. -/
theorem abs_roundD_sub_le_of (x : ℚ) (k : Int) (hk : -1074 ≤ k) (hx : |x| < 2 ^ (k + 53)) :
    |roundD x - x| ≤ 2 ^ k / 2 := by
  rcases eq_or_ne x 0 with h0 | h0
  · rw [h0, roundD_zero]
    simp only [sub_zero, abs_zero]
    exact le_of_lt (div_pos (two_zpow_pos k) (by norm_num))
  · have hpos : 0 < |x| := abs_pos.mpr h0
    have hu : ulpExp x ≤ k := by
      unfold ulpExp
      apply max_le _ hk
      have : Int.log 2 |x| < k + 53 := by
        rw [← Int.lt_zpow_iff_log_lt (by norm_num) hpos]
        exact_mod_cast hx
      omega
    have h1 := abs_roundD_sub_le x
    have h2 : (2 : ℚ) ^ ulpExp x ≤ 2 ^ k := zpow_le_zpow_right₀ (by norm_num) hu
    linarith

theorem wrapInt32_of_mem (x : Int) (h1 : -2147483648 ≤ x) (h2 : x < 2147483648) :
    wrapInt32 x = x := by
  unfold wrapInt32
  omega

theorem castInt_of_mem (t : Int) (h1 : -2147483648 ≤ t) (h2 : t < 2147483648) :
    castInt t = t := by
  unfold castInt
  rw [if_pos ⟨h1, h2⟩]

theorem castInt_of_ge (t : Int) (h : 2147483648 ≤ t) : castInt t = -2147483648 := by
  unfold castInt
  rw [if_neg (by omega)]

theorem castInt_of_lt (t : Int) (h : t < -2147483648) : castInt t = -2147483648 := by
  unfold castInt
  rw [if_neg (by omega)]

/-- One step of the interval loop whose product lies in `(n - 1, n]` by a margin. -/
theorem castInt_ceil_roundD (x : ℚ) (n : Int) (k : Nat) (hk : k ≤ 52)
    (hn : (|n| + 1) * 2 ^ k ≤ 2 ^ 53) (h1 : (n : ℚ) - 1 + 1 / 2 ^ k ≤ x) (h2 : x ≤ n)
    (hr1 : -2147483648 ≤ n) (hr2 : n < 2147483648) : castInt ⌈roundD x⌉ = n := by
  rw [ceil_roundD x n k hk hn h1 h2, castInt_of_mem n hr1 hr2]

/-- One step of the interval loop whose product is too large for an `int`. -/
theorem castInt_ceil_roundD_of_ge (x : ℚ) (h : 2147483648 ≤ x) :
    castInt ⌈roundD x⌉ = -2147483648 := by
  apply castInt_of_ge
  have h1 : ((2147483648 : Int) : ℚ) ≤ roundD x := by
    have := roundD_mono h
    rw [show (2147483648 : ℚ) = ((2147483648 : Int) : ℚ) by norm_num,
      roundD_intCast _ (by norm_num)] at this
    exact this
  exact Int.le_ceil_iff.mpr (by
    have : ((2147483648 : Int) : ℚ) - 1 < roundD x := by linarith
    exact this)

/-- One step of the interval loop whose product is too small for an `int`. -/
theorem castInt_ceil_roundD_of_le (x : ℚ) (h : x ≤ -2147483649) :
    castInt ⌈roundD x⌉ = -2147483648 := by
  apply castInt_of_lt
  have h1 : roundD x ≤ ((-2147483649 : Int) : ℚ) := by
    have := roundD_mono h
    rw [show (-2147483649 : ℚ) = ((-2147483649 : Int) : ℚ) by norm_num,
      roundD_intCast _ (by norm_num)] at this
    exact this
  have h2 : ⌈roundD x⌉ ≤ -2147483649 := Int.ceil_le.mpr h1
  omega

/-- Rounding keeps a value between 0 and a binary64 number `b = n / 2 ^ k`. -/
theorem roundD_mem (x b : ℚ) (n : Int) (k : Nat) (hb : b = (n : ℚ) / 2 ^ k)
    (hn : |n| ≤ 2 ^ 53) (hk : k ≤ 1074) (h0 : 0 ≤ x) (h1 : x ≤ b) :
    0 ≤ roundD x ∧ roundD x ≤ b := by
  rw [hb] at h1 ⊢
  exact roundD_mem_dyadic x n k hn hk h0 h1

/-- One step of the interval loop whose rounded product is the integer `n` itself. -/
theorem castInt_ceil_of_roundD_eq (x : ℚ) (n : Int) (h : roundD x = (n : ℚ))
    (hr1 : -2147483648 ≤ n) (hr2 : n < 2147483648) : castInt ⌈roundD x⌉ = n := by
  rw [h, Int.ceil_intCast, castInt_of_mem n hr1 hr2]

/-- Rounding keeps a value within a symmetric bound that is a binary64 number. -/
theorem abs_roundD_le (x b : ℚ) (n : Int) (k : Nat) (hb : b = (n : ℚ) / 2 ^ k)
    (hn : |n| ≤ 2 ^ 53) (hk : k ≤ 1074) (h : |x| ≤ b) : |roundD x| ≤ b := by
  rw [abs_le] at h ⊢
  constructor
  · have h1 : roundD (-b) ≤ roundD x := roundD_mono h.1
    rw [roundD_neg, hb, roundD_dyadic n k hn hk, ← hb] at h1
    exact h1
  · have h1 : roundD x ≤ roundD b := roundD_mono h.2
    rw [hb, roundD_dyadic n k hn hk, ← hb] at h1
    exact h1


namespace RevisionEngine

/-! ### Lemmas on `completeRevision` -/

theorem completeRevision_easeFactor (env : Env) (q : Question) (quality timeTaken : Int) :
    (completeRevision env q quality timeTaken).2.easeFactor
      = updateEaseFactor q.easeFactor quality := by
  unfold completeRevision
  by_cases h3 : quality ≥ 3 <;> simp only [h3, if_true, if_false] <;> split_ifs <;> rfl

theorem completeRevision_newEaseFactor (env : Env) (q : Question) (quality timeTaken : Int) :
    (completeRevision env q quality timeTaken).1.newEaseFactor
      = updateEaseFactor q.easeFactor quality := rfl

theorem completeRevision_revisionCycle (env : Env) (q : Question) (quality timeTaken : Int) :
    (completeRevision env q quality timeTaken).2.revisionCycle
      = if quality ≥ 3 then q.revisionCycle + 1 else 1 := by
  unfold completeRevision
  by_cases h3 : quality ≥ 3 <;> simp only [h3, if_true, if_false] <;> split_ifs <;> rfl

theorem completeRevision_streak (env : Env) (q : Question) (quality timeTaken : Int) :
    (completeRevision env q quality timeTaken).2.streak
      = if quality ≥ 3 then q.streak + 1 else 0 := by
  unfold completeRevision
  by_cases h3 : quality ≥ 3 <;> simp only [h3, if_true, if_false] <;> split_ifs <;> rfl

theorem completeRevision_newCycle (env : Env) (q : Question) (quality timeTaken : Int) :
    (completeRevision env q quality timeTaken).1.newCycle
      = if quality ≥ 3 then q.revisionCycle + 1 else 1 := by
  unfold completeRevision
  by_cases h3 : quality ≥ 3 <;> simp only [h3, if_true, if_false]

theorem completeRevision_newStreak (env : Env) (q : Question) (quality timeTaken : Int) :
    (completeRevision env q quality timeTaken).1.newStreak
      = if quality ≥ 3 then q.streak + 1 else 0 := by
  unfold completeRevision
  by_cases h3 : quality ≥ 3 <;> simp only [h3, if_true, if_false]

theorem completeRevision_wasReset (env : Env) (q : Question) (quality timeTaken : Int) :
    (completeRevision env q quality timeTaken).1.wasReset = decide (quality < 3) := by
  unfold completeRevision
  by_cases h3 : quality ≥ 3
  · simp only [h3, if_true]
    exact (decide_eq_false (by omega)).symm
  · simp only [h3, if_false]
    exact (decide_eq_true (by omega)).symm

theorem completeRevision_status (env : Env) (q : Question) (quality timeTaken : Int) :
    (completeRevision env q quality timeTaken).2.status
      = if (if quality ≥ 3 then q.revisionCycle + 1 else 1) ≥ 5
            ∧ updateEaseFactor q.easeFactor quality ≥ 23 / 10 then QuestionStatus.MASTERED
        else if quality < 3 then QuestionStatus.NEEDS_REVISION
        else QuestionStatus.SOLVED := by
  unfold completeRevision
  by_cases h3 : quality ≥ 3 <;> simp only [h3, if_true, if_false] <;> split_ifs <;> rfl

theorem completeRevision_newStatus (env : Env) (q : Question) (quality timeTaken : Int) :
    (completeRevision env q quality timeTaken).1.newStatus
      = (completeRevision env q quality timeTaken).2.status := by
  unfold completeRevision
  by_cases h3 : quality ≥ 3 <;> simp only [h3, if_true, if_false]

/-! ### The interval of `calculateNextDate` -/

theorem intervalLoop_succ (ef : ℚ) (cycle : Int) (fuel : Nat) (i p : Int) (h : i ≤ cycle) :
    intervalLoop ef cycle (fuel + 1) i p
      = intervalLoop ef cycle fuel (i + 1) (castInt ⌈roundD ((p : ℚ) * ef)⌉) := by
  rw [intervalLoop, if_pos h]

theorem intervalLoop_zero (ef : ℚ) (cycle i p : Int) : intervalLoop ef cycle 0 i p = p := rfl

/-- The interval reads only the cycle, the ease factor and the difficulty of the item. -/
theorem nextInterval_congr (q1 q2 : Question) (hc : q1.revisionCycle = q2.revisionCycle)
    (he : q1.easeFactor = q2.easeFactor) (hd : q1.difficulty = q2.difficulty) :
    nextInterval q1 = nextInterval q2 := by
  unfold nextInterval
  rw [hc, he, hd]

theorem one_le_nextInterval (q : Question) : 1 ≤ nextInterval q := by
  unfold nextInterval
  exact le_max_left _ _

/-- The interval of an item beyond its second cycle: the loop, then the multiplier of the
difficulty. -/
theorem nextInterval_loop (c : Int) (e : ℚ) (d : Difficulty) (fuel : Nat) (m : ℚ) (hc : 2 < c)
    (hf : (c - 2).toNat = fuel)
    (hm : (if d = Difficulty.EASY then roundD (6 / 5)
      else if d = Difficulty.HARD then roundD (4 / 5) else 1) = m) :
    nextInterval { Question.mk0 with revisionCycle := c, easeFactor := e, difficulty := d }
      = max 1 (castInt ⌈roundD ((intervalLoop e c fuel 3 3 : ℚ) * m)⌉) := by
  unfold nextInterval
  simp only []
  rw [if_neg (by omega), if_neg (by omega), hf, ← hm]
  rfl

theorem baseDate_eq_spec (env : Env) (q : Question) :
    (if (if q.lastRevisionDate = "" then q.dateSolved else q.lastRevisionDate) = ""
      then todayStr env
      else (if q.lastRevisionDate = "" then q.dateSolved else q.lastRevisionDate))
      = specBaseDate env q := by
  unfold specBaseDate todayStr
  by_cases h1 : q.lastRevisionDate = "" <;> by_cases h2 : q.dateSolved = "" <;> simp [h1, h2]

/-- The date `calculateNextDate` returns: `addDaysToDate` of the base date and the
interval. -/
theorem calculateNextDate_eq (env : Env) (q : Question) :
    calculateNextDate env q = addDaysToDate env (specBaseDate env q) (nextInterval q) := by
  unfold calculateNextDate
  simp only []
  rw [baseDate_eq_spec]

/-! ### Concrete intervals -/

/-- Cycle 12 at ease 2.5, Medium: 30595 days. -/
theorem nextInterval_cycle12 :
    nextInterval
        { Question.mk0 with
          revisionCycle := 12, easeFactor := 5 / 2, difficulty := Difficulty.MEDIUM }
      = 30595 := by
  refine (nextInterval_loop 12 (5 / 2) Difficulty.MEDIUM 10 (1)
    (by decide) (by decide) rfl).trans ?_
  rw [intervalLoop_succ _ _ _ _ _ (by decide),
    show castInt ⌈roundD (((3 : Int) : ℚ) * (5 / 2))⌉ = 8 from
      castInt_ceil_roundD _ 8 1 (by norm_num) (by norm_num) (by norm_num)
        (by norm_num) (by norm_num) (by norm_num)]
  rw [intervalLoop_succ _ _ _ _ _ (by decide),
    show castInt ⌈roundD (((8 : Int) : ℚ) * (5 / 2))⌉ = 20 from
      castInt_ceil_roundD _ 20 0 (by norm_num) (by norm_num) (by norm_num)
        (by norm_num) (by norm_num) (by norm_num)]
  rw [intervalLoop_succ _ _ _ _ _ (by decide),
    show castInt ⌈roundD (((20 : Int) : ℚ) * (5 / 2))⌉ = 50 from
      castInt_ceil_roundD _ 50 0 (by norm_num) (by norm_num) (by norm_num)
        (by norm_num) (by norm_num) (by norm_num)]
  rw [intervalLoop_succ _ _ _ _ _ (by decide),
    show castInt ⌈roundD (((50 : Int) : ℚ) * (5 / 2))⌉ = 125 from
      castInt_ceil_roundD _ 125 0 (by norm_num) (by norm_num) (by norm_num)
        (by norm_num) (by norm_num) (by norm_num)]
  rw [intervalLoop_succ _ _ _ _ _ (by decide),
    show castInt ⌈roundD (((125 : Int) : ℚ) * (5 / 2))⌉ = 313 from
      castInt_ceil_roundD _ 313 1 (by norm_num) (by norm_num) (by norm_num)
        (by norm_num) (by norm_num) (by norm_num)]
  rw [intervalLoop_succ _ _ _ _ _ (by decide),
    show castInt ⌈roundD (((313 : Int) : ℚ) * (5 / 2))⌉ = 783 from
      castInt_ceil_roundD _ 783 1 (by norm_num) (by norm_num) (by norm_num)
        (by norm_num) (by norm_num) (by norm_num)]
  rw [intervalLoop_succ _ _ _ _ _ (by decide),
    show castInt ⌈roundD (((783 : Int) : ℚ) * (5 / 2))⌉ = 1958 from
      castInt_ceil_roundD _ 1958 1 (by norm_num) (by norm_num) (by norm_num)
        (by norm_num) (by norm_num) (by norm_num)]
  rw [intervalLoop_succ _ _ _ _ _ (by decide),
    show castInt ⌈roundD (((1958 : Int) : ℚ) * (5 / 2))⌉ = 4895 from
      castInt_ceil_roundD _ 4895 0 (by norm_num) (by norm_num) (by norm_num)
        (by norm_num) (by norm_num) (by norm_num)]
  rw [intervalLoop_succ _ _ _ _ _ (by decide),
    show castInt ⌈roundD (((4895 : Int) : ℚ) * (5 / 2))⌉ = 12238 from
      castInt_ceil_roundD _ 12238 1 (by norm_num) (by norm_num) (by norm_num)
        (by norm_num) (by norm_num) (by norm_num)]
  rw [intervalLoop_succ _ _ _ _ _ (by decide),
    show castInt ⌈roundD (((12238 : Int) : ℚ) * (5 / 2))⌉ = 30595 from
      castInt_ceil_roundD _ 30595 0 (by norm_num) (by norm_num) (by norm_num)
        (by norm_num) (by norm_num) (by norm_num)]
  rw [intervalLoop_zero]
  rw [show castInt ⌈roundD (((30595 : Int) : ℚ) * 1)⌉ = 30595 from
      castInt_ceil_roundD _ 30595 0 (by norm_num) (by norm_num) (by norm_num)
        (by norm_num) (by norm_num) (by norm_num)]
  decide

/-- Cycle 12 at ease 2.3, Medium: 13665 days. -/
theorem nextInterval_cycle12_ease23 :
    nextInterval
        { Question.mk0 with
          revisionCycle := 12, easeFactor := roundD (23 / 10), difficulty := Difficulty.MEDIUM }
      = 13665 := by
  refine (nextInterval_loop 12 (roundD (23 / 10)) Difficulty.MEDIUM 10 (1)
    (by decide) (by decide) rfl).trans ?_
  have hE : roundD (23 / 10) = (2589569785738035 / 1125899906842624) :=
    roundD_eval _ _ 5179139571476070 (-51) (by norm_num) (by norm_num)
      (by norm_num [abs_of_pos, abs_of_neg]) (by norm_num [abs_of_pos, abs_of_neg])
      (Or.inl (by norm_num [abs_lt]))
  rw [hE]
  rw [intervalLoop_succ _ _ _ _ _ (by decide),
    show castInt ⌈roundD (((3 : Int) : ℚ) * (2589569785738035 / 1125899906842624))⌉ = 7 from
      castInt_ceil_roundD _ 7 1 (by norm_num) (by norm_num) (by norm_num)
        (by norm_num) (by norm_num) (by norm_num)]
  rw [intervalLoop_succ _ _ _ _ _ (by decide),
    show castInt ⌈roundD (((7 : Int) : ℚ) * (2589569785738035 / 1125899906842624))⌉ = 17 from
      castInt_ceil_roundD _ 17 4 (by norm_num) (by norm_num) (by norm_num)
        (by norm_num) (by norm_num) (by norm_num)]
  rw [intervalLoop_succ _ _ _ _ _ (by decide),
    show castInt ⌈roundD (((17 : Int) : ℚ) * (2589569785738035 / 1125899906842624))⌉ = 40 from
      castInt_ceil_roundD _ 40 4 (by norm_num) (by norm_num) (by norm_num)
        (by norm_num) (by norm_num) (by norm_num)]
  rw [intervalLoop_succ _ _ _ _ _ (by decide),
    show castInt ⌈roundD (((40 : Int) : ℚ) * (2589569785738035 / 1125899906842624))⌉ = 92 from
      castInt_ceil_roundD _ 92 1 (by norm_num) (by norm_num) (by norm_num)
        (by norm_num) (by norm_num) (by norm_num)]
  rw [intervalLoop_succ _ _ _ _ _ (by decide),
    show castInt ⌈roundD (((92 : Int) : ℚ) * (2589569785738035 / 1125899906842624))⌉ = 212 from
      castInt_ceil_roundD _ 212 1 (by norm_num) (by norm_num) (by norm_num)
        (by norm_num) (by norm_num) (by norm_num)]
  rw [intervalLoop_succ _ _ _ _ _ (by decide),
    show castInt ⌈roundD (((212 : Int) : ℚ) * (2589569785738035 / 1125899906842624))⌉ = 488 from
      castInt_ceil_roundD _ 488 1 (by norm_num) (by norm_num) (by norm_num)
        (by norm_num) (by norm_num) (by norm_num)]
  rw [intervalLoop_succ _ _ _ _ _ (by decide),
    show castInt ⌈roundD (((488 : Int) : ℚ) * (2589569785738035 / 1125899906842624))⌉ = 1123 from
      castInt_ceil_roundD _ 1123 2 (by norm_num) (by norm_num) (by norm_num)
        (by norm_num) (by norm_num) (by norm_num)]
  rw [intervalLoop_succ _ _ _ _ _ (by decide),
    show castInt ⌈roundD (((1123 : Int) : ℚ) * (2589569785738035 / 1125899906842624))⌉ = 2583 from
      castInt_ceil_roundD _ 2583 1 (by norm_num) (by norm_num) (by norm_num)
        (by norm_num) (by norm_num) (by norm_num)]
  rw [intervalLoop_succ _ _ _ _ _ (by decide),
    show castInt ⌈roundD (((2583 : Int) : ℚ) * (2589569785738035 / 1125899906842624))⌉ = 5941 from
      castInt_ceil_roundD _ 5941 1 (by norm_num) (by norm_num) (by norm_num)
        (by norm_num) (by norm_num) (by norm_num)]
  rw [intervalLoop_succ _ _ _ _ _ (by decide),
    show castInt ⌈roundD (((5941 : Int) : ℚ) * (2589569785738035 / 1125899906842624))⌉ = 13665 from
      castInt_ceil_roundD _ 13665 2 (by norm_num) (by norm_num) (by norm_num)
        (by norm_num) (by norm_num) (by norm_num)]
  rw [intervalLoop_zero]
  rw [show castInt ⌈roundD (((13665 : Int) : ℚ) * 1)⌉ = 13665 from
      castInt_ceil_roundD _ 13665 0 (by norm_num) (by norm_num) (by norm_num)
        (by norm_num) (by norm_num) (by norm_num)]
  decide

/-- Cycle 30 at ease 2.5, Medium: the interval leaves the range of `int` and 1 day is
left. -/
theorem nextInterval_cycle30 :
    nextInterval
        { Question.mk0 with
          revisionCycle := 30, easeFactor := 5 / 2, difficulty := Difficulty.MEDIUM }
      = 1 := by
  refine (nextInterval_loop 30 (5 / 2) Difficulty.MEDIUM 28 (1)
    (by decide) (by decide) rfl).trans ?_
  rw [intervalLoop_succ _ _ _ _ _ (by decide),
    show castInt ⌈roundD (((3 : Int) : ℚ) * (5 / 2))⌉ = 8 from
      castInt_ceil_roundD _ 8 1 (by norm_num) (by norm_num) (by norm_num)
        (by norm_num) (by norm_num) (by norm_num)]
  rw [intervalLoop_succ _ _ _ _ _ (by decide),
    show castInt ⌈roundD (((8 : Int) : ℚ) * (5 / 2))⌉ = 20 from
      castInt_ceil_roundD _ 20 0 (by norm_num) (by norm_num) (by norm_num)
        (by norm_num) (by norm_num) (by norm_num)]
  rw [intervalLoop_succ _ _ _ _ _ (by decide),
    show castInt ⌈roundD (((20 : Int) : ℚ) * (5 / 2))⌉ = 50 from
      castInt_ceil_roundD _ 50 0 (by norm_num) (by norm_num) (by norm_num)
        (by norm_num) (by norm_num) (by norm_num)]
  rw [intervalLoop_succ _ _ _ _ _ (by decide),
    show castInt ⌈roundD (((50 : Int) : ℚ) * (5 / 2))⌉ = 125 from
      castInt_ceil_roundD _ 125 0 (by norm_num) (by norm_num) (by norm_num)
        (by norm_num) (by norm_num) (by norm_num)]
  rw [intervalLoop_succ _ _ _ _ _ (by decide),
    show castInt ⌈roundD (((125 : Int) : ℚ) * (5 / 2))⌉ = 313 from
      castInt_ceil_roundD _ 313 1 (by norm_num) (by norm_num) (by norm_num)
        (by norm_num) (by norm_num) (by norm_num)]
  rw [intervalLoop_succ _ _ _ _ _ (by decide),
    show castInt ⌈roundD (((313 : Int) : ℚ) * (5 / 2))⌉ = 783 from
      castInt_ceil_roundD _ 783 1 (by norm_num) (by norm_num) (by norm_num)
        (by norm_num) (by norm_num) (by norm_num)]
  rw [intervalLoop_succ _ _ _ _ _ (by decide),
    show castInt ⌈roundD (((783 : Int) : ℚ) * (5 / 2))⌉ = 1958 from
      castInt_ceil_roundD _ 1958 1 (by norm_num) (by norm_num) (by norm_num)
        (by norm_num) (by norm_num) (by norm_num)]
  rw [intervalLoop_succ _ _ _ _ _ (by decide),
    show castInt ⌈roundD (((1958 : Int) : ℚ) * (5 / 2))⌉ = 4895 from
      castInt_ceil_roundD _ 4895 0 (by norm_num) (by norm_num) (by norm_num)
        (by norm_num) (by norm_num) (by norm_num)]
  rw [intervalLoop_succ _ _ _ _ _ (by decide),
    show castInt ⌈roundD (((4895 : Int) : ℚ) * (5 / 2))⌉ = 12238 from
      castInt_ceil_roundD _ 12238 1 (by norm_num) (by norm_num) (by norm_num)
        (by norm_num) (by norm_num) (by norm_num)]
  rw [intervalLoop_succ _ _ _ _ _ (by decide),
    show castInt ⌈roundD (((12238 : Int) : ℚ) * (5 / 2))⌉ = 30595 from
      castInt_ceil_roundD _ 30595 0 (by norm_num) (by norm_num) (by norm_num)
        (by norm_num) (by norm_num) (by norm_num)]
  rw [intervalLoop_succ _ _ _ _ _ (by decide),
    show castInt ⌈roundD (((30595 : Int) : ℚ) * (5 / 2))⌉ = 76488 from
      castInt_ceil_roundD _ 76488 1 (by norm_num) (by norm_num) (by norm_num)
        (by norm_num) (by norm_num) (by norm_num)]
  rw [intervalLoop_succ _ _ _ _ _ (by decide),
    show castInt ⌈roundD (((76488 : Int) : ℚ) * (5 / 2))⌉ = 191220 from
      castInt_ceil_roundD _ 191220 0 (by norm_num) (by norm_num) (by norm_num)
        (by norm_num) (by norm_num) (by norm_num)]
  rw [intervalLoop_succ _ _ _ _ _ (by decide),
    show castInt ⌈roundD (((191220 : Int) : ℚ) * (5 / 2))⌉ = 478050 from
      castInt_ceil_roundD _ 478050 0 (by norm_num) (by norm_num) (by norm_num)
        (by norm_num) (by norm_num) (by norm_num)]
  rw [intervalLoop_succ _ _ _ _ _ (by decide),
    show castInt ⌈roundD (((478050 : Int) : ℚ) * (5 / 2))⌉ = 1195125 from
      castInt_ceil_roundD _ 1195125 0 (by norm_num) (by norm_num) (by norm_num)
        (by norm_num) (by norm_num) (by norm_num)]
  rw [intervalLoop_succ _ _ _ _ _ (by decide),
    show castInt ⌈roundD (((1195125 : Int) : ℚ) * (5 / 2))⌉ = 2987813 from
      castInt_ceil_roundD _ 2987813 1 (by norm_num) (by norm_num) (by norm_num)
        (by norm_num) (by norm_num) (by norm_num)]
  rw [intervalLoop_succ _ _ _ _ _ (by decide),
    show castInt ⌈roundD (((2987813 : Int) : ℚ) * (5 / 2))⌉ = 7469533 from
      castInt_ceil_roundD _ 7469533 1 (by norm_num) (by norm_num) (by norm_num)
        (by norm_num) (by norm_num) (by norm_num)]
  rw [intervalLoop_succ _ _ _ _ _ (by decide),
    show castInt ⌈roundD (((7469533 : Int) : ℚ) * (5 / 2))⌉ = 18673833 from
      castInt_ceil_roundD _ 18673833 1 (by norm_num) (by norm_num) (by norm_num)
        (by norm_num) (by norm_num) (by norm_num)]
  rw [intervalLoop_succ _ _ _ _ _ (by decide),
    show castInt ⌈roundD (((18673833 : Int) : ℚ) * (5 / 2))⌉ = 46684583 from
      castInt_ceil_roundD _ 46684583 1 (by norm_num) (by norm_num) (by norm_num)
        (by norm_num) (by norm_num) (by norm_num)]
  rw [intervalLoop_succ _ _ _ _ _ (by decide),
    show castInt ⌈roundD (((46684583 : Int) : ℚ) * (5 / 2))⌉ = 116711458 from
      castInt_ceil_roundD _ 116711458 1 (by norm_num) (by norm_num) (by norm_num)
        (by norm_num) (by norm_num) (by norm_num)]
  rw [intervalLoop_succ _ _ _ _ _ (by decide),
    show castInt ⌈roundD (((116711458 : Int) : ℚ) * (5 / 2))⌉ = 291778645 from
      castInt_ceil_roundD _ 291778645 0 (by norm_num) (by norm_num) (by norm_num)
        (by norm_num) (by norm_num) (by norm_num)]
  rw [intervalLoop_succ _ _ _ _ _ (by decide),
    show castInt ⌈roundD (((291778645 : Int) : ℚ) * (5 / 2))⌉ = 729446613 from
      castInt_ceil_roundD _ 729446613 1 (by norm_num) (by norm_num) (by norm_num)
        (by norm_num) (by norm_num) (by norm_num)]
  rw [intervalLoop_succ _ _ _ _ _ (by decide),
    show castInt ⌈roundD (((729446613 : Int) : ℚ) * (5 / 2))⌉ = 1823616533 from
      castInt_ceil_roundD _ 1823616533 1 (by norm_num) (by norm_num) (by norm_num)
        (by norm_num) (by norm_num) (by norm_num)]
  rw [intervalLoop_succ _ _ _ _ _ (by decide),
    show castInt ⌈roundD (((1823616533 : Int) : ℚ) * (5 / 2))⌉ = (-2147483648) from
      castInt_ceil_roundD_of_ge _ (by norm_num)]
  rw [intervalLoop_succ _ _ _ _ _ (by decide),
    show castInt ⌈roundD ((((-2147483648) : Int) : ℚ) * (5 / 2))⌉ = (-2147483648) from
      castInt_ceil_roundD_of_le _ (by norm_num)]
  rw [intervalLoop_succ _ _ _ _ _ (by decide),
    show castInt ⌈roundD ((((-2147483648) : Int) : ℚ) * (5 / 2))⌉ = (-2147483648) from
      castInt_ceil_roundD_of_le _ (by norm_num)]
  rw [intervalLoop_succ _ _ _ _ _ (by decide),
    show castInt ⌈roundD ((((-2147483648) : Int) : ℚ) * (5 / 2))⌉ = (-2147483648) from
      castInt_ceil_roundD_of_le _ (by norm_num)]
  rw [intervalLoop_succ _ _ _ _ _ (by decide),
    show castInt ⌈roundD ((((-2147483648) : Int) : ℚ) * (5 / 2))⌉ = (-2147483648) from
      castInt_ceil_roundD_of_le _ (by norm_num)]
  rw [intervalLoop_succ _ _ _ _ _ (by decide),
    show castInt ⌈roundD ((((-2147483648) : Int) : ℚ) * (5 / 2))⌉ = (-2147483648) from
      castInt_ceil_roundD_of_le _ (by norm_num)]
  rw [intervalLoop_zero]
  rw [show castInt ⌈roundD ((((-2147483648) : Int) : ℚ) * 1)⌉ = (-2147483648) from
      castInt_ceil_roundD _ (-2147483648) 0 (by norm_num) (by norm_num) (by norm_num)
        (by norm_num) (by norm_num) (by norm_num)]
  decide

/-- Cycle 30 at ease 1.3, Medium: 6832 days. -/
theorem nextInterval_cycle30_ease13 :
    nextInterval
        { Question.mk0 with
          revisionCycle := 30, easeFactor := roundD (13 / 10), difficulty := Difficulty.MEDIUM }
      = 6832 := by
  refine (nextInterval_loop 30 (roundD (13 / 10)) Difficulty.MEDIUM 28 (1)
    (by decide) (by decide) rfl).trans ?_
  have hE : roundD (13 / 10) = (5854679515581645 / 4503599627370496) :=
    roundD_eval _ _ 5854679515581645 (-52) (by norm_num) (by norm_num)
      (by norm_num [abs_of_pos, abs_of_neg]) (by norm_num [abs_of_pos, abs_of_neg])
      (Or.inl (by norm_num [abs_lt]))
  rw [hE]
  rw [intervalLoop_succ _ _ _ _ _ (by decide),
    show castInt ⌈roundD (((3 : Int) : ℚ) * (5854679515581645 / 4503599627370496))⌉ = 4 from
      castInt_ceil_roundD _ 4 1 (by norm_num) (by norm_num) (by norm_num)
        (by norm_num) (by norm_num) (by norm_num)]
  rw [intervalLoop_succ _ _ _ _ _ (by decide),
    show castInt ⌈roundD (((4 : Int) : ℚ) * (5854679515581645 / 4503599627370496))⌉ = 6 from
      castInt_ceil_roundD _ 6 3 (by norm_num) (by norm_num) (by norm_num)
        (by norm_num) (by norm_num) (by norm_num)]
  rw [intervalLoop_succ _ _ _ _ _ (by decide),
    show castInt ⌈roundD (((6 : Int) : ℚ) * (5854679515581645 / 4503599627370496))⌉ = 8 from
      castInt_ceil_roundD _ 8 1 (by norm_num) (by norm_num) (by norm_num)
        (by norm_num) (by norm_num) (by norm_num)]
  rw [intervalLoop_succ _ _ _ _ _ (by decide),
    show castInt ⌈roundD (((8 : Int) : ℚ) * (5854679515581645 / 4503599627370496))⌉ = 11 from
      castInt_ceil_roundD _ 11 2 (by norm_num) (by norm_num) (by norm_num)
        (by norm_num) (by norm_num) (by norm_num)]
  rw [intervalLoop_succ _ _ _ _ _ (by decide),
    show castInt ⌈roundD (((11 : Int) : ℚ) * (5854679515581645 / 4503599627370496))⌉ = 15 from
      castInt_ceil_roundD _ 15 2 (by norm_num) (by norm_num) (by norm_num)
        (by norm_num) (by norm_num) (by norm_num)]
  rw [intervalLoop_succ _ _ _ _ _ (by decide),
    show castInt ⌈roundD (((15 : Int) : ℚ) * (5854679515581645 / 4503599627370496))⌉ = 20 from
      castInt_ceil_roundD _ 20 1 (by norm_num) (by norm_num) (by norm_num)
        (by norm_num) (by norm_num) (by norm_num)]
  rw [intervalLoop_succ _ _ _ _ _ (by decide),
    show castInt ⌈roundD (((20 : Int) : ℚ) * (5854679515581645 / 4503599627370496))⌉ = 26 from
      castInt_ceil_of_roundD_eq _ 26
        (roundD_eval _ _ 7318349394477056 (-48) (by norm_num) (by norm_num)
          (by norm_num [abs_of_pos, abs_of_neg]) (by norm_num [abs_of_pos, abs_of_neg])
          (Or.inl (by norm_num [abs_lt])))
        (by norm_num) (by norm_num)]
  rw [intervalLoop_succ _ _ _ _ _ (by decide),
    show castInt ⌈roundD (((26 : Int) : ℚ) * (5854679515581645 / 4503599627370496))⌉ = 34 from
      castInt_ceil_roundD _ 34 1 (by norm_num) (by norm_num) (by norm_num)
        (by norm_num) (by norm_num) (by norm_num)]
  rw [intervalLoop_succ _ _ _ _ _ (by decide),
    show castInt ⌈roundD (((34 : Int) : ℚ) * (5854679515581645 / 4503599627370496))⌉ = 45 from
      castInt_ceil_roundD _ 45 3 (by norm_num) (by norm_num) (by norm_num)
        (by norm_num) (by norm_num) (by norm_num)]
  rw [intervalLoop_succ _ _ _ _ _ (by decide),
    show castInt ⌈roundD (((45 : Int) : ℚ) * (5854679515581645 / 4503599627370496))⌉ = 59 from
      castInt_ceil_roundD _ 59 1 (by norm_num) (by norm_num) (by norm_num)
        (by norm_num) (by norm_num) (by norm_num)]
  rw [intervalLoop_succ _ _ _ _ _ (by decide),
    show castInt ⌈roundD (((59 : Int) : ℚ) * (5854679515581645 / 4503599627370496))⌉ = 77 from
      castInt_ceil_roundD _ 77 1 (by norm_num) (by norm_num) (by norm_num)
        (by norm_num) (by norm_num) (by norm_num)]
  rw [intervalLoop_succ _ _ _ _ _ (by decide),
    show castInt ⌈roundD (((77 : Int) : ℚ) * (5854679515581645 / 4503599627370496))⌉ = 101 from
      castInt_ceil_roundD _ 101 4 (by norm_num) (by norm_num) (by norm_num)
        (by norm_num) (by norm_num) (by norm_num)]
  rw [intervalLoop_succ _ _ _ _ _ (by decide),
    show castInt ⌈roundD (((101 : Int) : ℚ) * (5854679515581645 / 4503599627370496))⌉ = 132 from
      castInt_ceil_roundD _ 132 2 (by norm_num) (by norm_num) (by norm_num)
        (by norm_num) (by norm_num) (by norm_num)]
  rw [intervalLoop_succ _ _ _ _ _ (by decide),
    show castInt ⌈roundD (((132 : Int) : ℚ) * (5854679515581645 / 4503599627370496))⌉ = 172 from
      castInt_ceil_roundD _ 172 1 (by norm_num) (by norm_num) (by norm_num)
        (by norm_num) (by norm_num) (by norm_num)]
  rw [intervalLoop_succ _ _ _ _ _ (by decide),
    show castInt ⌈roundD (((172 : Int) : ℚ) * (5854679515581645 / 4503599627370496))⌉ = 224 from
      castInt_ceil_roundD _ 224 1 (by norm_num) (by norm_num) (by norm_num)
        (by norm_num) (by norm_num) (by norm_num)]
  rw [intervalLoop_succ _ _ _ _ _ (by decide),
    show castInt ⌈roundD (((224 : Int) : ℚ) * (5854679515581645 / 4503599627370496))⌉ = 292 from
      castInt_ceil_roundD _ 292 3 (by norm_num) (by norm_num) (by norm_num)
        (by norm_num) (by norm_num) (by norm_num)]
  rw [intervalLoop_succ _ _ _ _ _ (by decide),
    show castInt ⌈roundD (((292 : Int) : ℚ) * (5854679515581645 / 4503599627370496))⌉ = 380 from
      castInt_ceil_roundD _ 380 1 (by norm_num) (by norm_num) (by norm_num)
        (by norm_num) (by norm_num) (by norm_num)]
  rw [intervalLoop_succ _ _ _ _ _ (by decide),
    show castInt ⌈roundD (((380 : Int) : ℚ) * (5854679515581645 / 4503599627370496))⌉ = 494 from
      castInt_ceil_of_roundD_eq _ 494
        (roundD_eval _ _ 8690539905941504 (-44) (by norm_num) (by norm_num)
          (by norm_num [abs_of_pos, abs_of_neg]) (by norm_num [abs_of_pos, abs_of_neg])
          (Or.inl (by norm_num [abs_lt])))
        (by norm_num) (by norm_num)]
  rw [intervalLoop_succ _ _ _ _ _ (by decide),
    show castInt ⌈roundD (((494 : Int) : ℚ) * (5854679515581645 / 4503599627370496))⌉ = 643 from
      castInt_ceil_roundD _ 643 3 (by norm_num) (by norm_num) (by norm_num)
        (by norm_num) (by norm_num) (by norm_num)]
  rw [intervalLoop_succ _ _ _ _ _ (by decide),
    show castInt ⌈roundD (((643 : Int) : ℚ) * (5854679515581645 / 4503599627370496))⌉ = 836 from
      castInt_ceil_roundD _ 836 1 (by norm_num) (by norm_num) (by norm_num)
        (by norm_num) (by norm_num) (by norm_num)]
  rw [intervalLoop_succ _ _ _ _ _ (by decide),
    show castInt ⌈roundD (((836 : Int) : ℚ) * (5854679515581645 / 4503599627370496))⌉ = 1087 from
      castInt_ceil_roundD _ 1087 1 (by norm_num) (by norm_num) (by norm_num)
        (by norm_num) (by norm_num) (by norm_num)]
  rw [intervalLoop_succ _ _ _ _ _ (by decide),
    show castInt ⌈roundD (((1087 : Int) : ℚ) * (5854679515581645 / 4503599627370496))⌉ = 1414 from
      castInt_ceil_roundD _ 1414 4 (by norm_num) (by norm_num) (by norm_num)
        (by norm_num) (by norm_num) (by norm_num)]
  rw [intervalLoop_succ _ _ _ _ _ (by decide),
    show castInt ⌈roundD (((1414 : Int) : ℚ) * (5854679515581645 / 4503599627370496))⌉ = 1839 from
      castInt_ceil_roundD _ 1839 3 (by norm_num) (by norm_num) (by norm_num)
        (by norm_num) (by norm_num) (by norm_num)]
  rw [intervalLoop_succ _ _ _ _ _ (by decide),
    show castInt ⌈roundD (((1839 : Int) : ℚ) * (5854679515581645 / 4503599627370496))⌉ = 2391 from
      castInt_ceil_roundD _ 2391 1 (by norm_num) (by norm_num) (by norm_num)
        (by norm_num) (by norm_num) (by norm_num)]
  rw [intervalLoop_succ _ _ _ _ _ (by decide),
    show castInt ⌈roundD (((2391 : Int) : ℚ) * (5854679515581645 / 4503599627370496))⌉ = 3109 from
      castInt_ceil_roundD _ 3109 2 (by norm_num) (by norm_num) (by norm_num)
        (by norm_num) (by norm_num) (by norm_num)]
  rw [intervalLoop_succ _ _ _ _ _ (by decide),
    show castInt ⌈roundD (((3109 : Int) : ℚ) * (5854679515581645 / 4503599627370496))⌉ = 4042 from
      castInt_ceil_roundD _ 4042 1 (by norm_num) (by norm_num) (by norm_num)
        (by norm_num) (by norm_num) (by norm_num)]
  rw [intervalLoop_succ _ _ _ _ _ (by decide),
    show castInt ⌈roundD (((4042 : Int) : ℚ) * (5854679515581645 / 4503599627370496))⌉ = 5255 from
      castInt_ceil_roundD _ 5255 1 (by norm_num) (by norm_num) (by norm_num)
        (by norm_num) (by norm_num) (by norm_num)]
  rw [intervalLoop_succ _ _ _ _ _ (by decide),
    show castInt ⌈roundD (((5255 : Int) : ℚ) * (5854679515581645 / 4503599627370496))⌉ = 6832 from
      castInt_ceil_roundD _ 6832 1 (by norm_num) (by norm_num) (by norm_num)
        (by norm_num) (by norm_num) (by norm_num)]
  rw [intervalLoop_zero]
  rw [show castInt ⌈roundD (((6832 : Int) : ℚ) * 1)⌉ = 6832 from
      castInt_ceil_roundD _ 6832 0 (by norm_num) (by norm_num) (by norm_num)
        (by norm_num) (by norm_num) (by norm_num)]
  decide

/-- Cycle 14 at ease 2.22, Medium: 47466 days. -/
theorem nextInterval_cycle14 :
    nextInterval
        { Question.mk0 with
          revisionCycle := 14, easeFactor := roundD (111 / 50), difficulty := Difficulty.MEDIUM }
      = 47466 := by
  refine (nextInterval_loop 14 (roundD (111 / 50)) Difficulty.MEDIUM 12 (1)
    (by decide) (by decide) rfl).trans ?_
  have hE : roundD (111 / 50) = (4998995586381251 / 2251799813685248) :=
    roundD_eval _ _ 4998995586381251 (-51) (by norm_num) (by norm_num)
      (by norm_num [abs_of_pos, abs_of_neg]) (by norm_num [abs_of_pos, abs_of_neg])
      (Or.inl (by norm_num [abs_lt]))
  rw [hE]
  rw [intervalLoop_succ _ _ _ _ _ (by decide),
    show castInt ⌈roundD (((3 : Int) : ℚ) * (4998995586381251 / 2251799813685248))⌉ = 7 from
      castInt_ceil_roundD _ 7 1 (by norm_num) (by norm_num) (by norm_num)
        (by norm_num) (by norm_num) (by norm_num)]
  rw [intervalLoop_succ _ _ _ _ _ (by decide),
    show castInt ⌈roundD (((7 : Int) : ℚ) * (4998995586381251 / 2251799813685248))⌉ = 16 from
      castInt_ceil_roundD _ 16 1 (by norm_num) (by norm_num) (by norm_num)
        (by norm_num) (by norm_num) (by norm_num)]
  rw [intervalLoop_succ _ _ _ _ _ (by decide),
    show castInt ⌈roundD (((16 : Int) : ℚ) * (4998995586381251 / 2251799813685248))⌉ = 36 from
      castInt_ceil_roundD _ 36 1 (by norm_num) (by norm_num) (by norm_num)
        (by norm_num) (by norm_num) (by norm_num)]
  rw [intervalLoop_succ _ _ _ _ _ (by decide),
    show castInt ⌈roundD (((36 : Int) : ℚ) * (4998995586381251 / 2251799813685248))⌉ = 80 from
      castInt_ceil_roundD _ 80 1 (by norm_num) (by norm_num) (by norm_num)
        (by norm_num) (by norm_num) (by norm_num)]
  rw [intervalLoop_succ _ _ _ _ _ (by decide),
    show castInt ⌈roundD (((80 : Int) : ℚ) * (4998995586381251 / 2251799813685248))⌉ = 178 from
      castInt_ceil_roundD _ 178 1 (by norm_num) (by norm_num) (by norm_num)
        (by norm_num) (by norm_num) (by norm_num)]
  rw [intervalLoop_succ _ _ _ _ _ (by decide),
    show castInt ⌈roundD (((178 : Int) : ℚ) * (4998995586381251 / 2251799813685248))⌉ = 396 from
      castInt_ceil_roundD _ 396 3 (by norm_num) (by norm_num) (by norm_num)
        (by norm_num) (by norm_num) (by norm_num)]
  rw [intervalLoop_succ _ _ _ _ _ (by decide),
    show castInt ⌈roundD (((396 : Int) : ℚ) * (4998995586381251 / 2251799813685248))⌉ = 880 from
      castInt_ceil_roundD _ 880 4 (by norm_num) (by norm_num) (by norm_num)
        (by norm_num) (by norm_num) (by norm_num)]
  rw [intervalLoop_succ _ _ _ _ _ (by decide),
    show castInt ⌈roundD (((880 : Int) : ℚ) * (4998995586381251 / 2251799813685248))⌉ = 1954 from
      castInt_ceil_roundD _ 1954 1 (by norm_num) (by norm_num) (by norm_num)
        (by norm_num) (by norm_num) (by norm_num)]
  rw [intervalLoop_succ _ _ _ _ _ (by decide),
    show castInt ⌈roundD (((1954 : Int) : ℚ) * (4998995586381251 / 2251799813685248))⌉ = 4338 from
      castInt_ceil_roundD _ 4338 1 (by norm_num) (by norm_num) (by norm_num)
        (by norm_num) (by norm_num) (by norm_num)]
  rw [intervalLoop_succ _ _ _ _ _ (by decide),
    show castInt ⌈roundD (((4338 : Int) : ℚ) * (4998995586381251 / 2251799813685248))⌉ = 9631 from
      castInt_ceil_roundD _ 9631 2 (by norm_num) (by norm_num) (by norm_num)
        (by norm_num) (by norm_num) (by norm_num)]
  rw [intervalLoop_succ _ _ _ _ _ (by decide),
    show castInt ⌈roundD (((9631 : Int) : ℚ) * (4998995586381251 / 2251799813685248))⌉ = 21381 from
      castInt_ceil_roundD _ 21381 1 (by norm_num) (by norm_num) (by norm_num)
        (by norm_num) (by norm_num) (by norm_num)]
  rw [intervalLoop_succ _ _ _ _ _ (by decide),
    show castInt ⌈roundD (((21381 : Int) : ℚ) * (4998995586381251 / 2251799813685248))⌉ = 47466 from
      castInt_ceil_roundD _ 47466 1 (by norm_num) (by norm_num) (by norm_num)
        (by norm_num) (by norm_num) (by norm_num)]
  rw [intervalLoop_zero]
  rw [show castInt ⌈roundD (((47466 : Int) : ℚ) * 1)⌉ = 47466 from
      castInt_ceil_roundD _ 47466 0 (by norm_num) (by norm_num) (by norm_num)
        (by norm_num) (by norm_num) (by norm_num)]
  decide

/-- Cycle 3 at ease 1.8, Medium: 6 days. -/
theorem nextInterval_cycle3 :
    nextInterval
        { Question.mk0 with
          revisionCycle := 3, easeFactor := 9 / 5, difficulty := Difficulty.MEDIUM }
      = 6 := by
  refine (nextInterval_loop 3 (9 / 5) Difficulty.MEDIUM 1 (1)
    (by decide) (by decide) rfl).trans ?_
  rw [intervalLoop_succ _ _ _ _ _ (by decide),
    show castInt ⌈roundD (((3 : Int) : ℚ) * (9 / 5))⌉ = 6 from
      castInt_ceil_roundD _ 6 2 (by norm_num) (by norm_num) (by norm_num)
        (by norm_num) (by norm_num) (by norm_num)]
  rw [intervalLoop_zero]
  rw [show castInt ⌈roundD (((6 : Int) : ℚ) * 1)⌉ = 6 from
      castInt_ceil_roundD _ 6 0 (by norm_num) (by norm_num) (by norm_num)
        (by norm_num) (by norm_num) (by norm_num)]
  decide

/-! ### Claims C6 to C9 -/

/-- C6: for every integer quality and every ease factor, `updateEaseFactor` returns a value
at least 1.3, and the ease factor of the item after `completeRevision` (also the one
reported in the result) is at least 1.3. -/
theorem updateEaseFactor_ge_EF_MIN (currentEF : ℚ) (quality : Int) (env : Env) (q : Question)
    (timeTaken : Int) :
    13 / 10 ≤ updateEaseFactor currentEF quality
      ∧ 13 / 10 ≤ (completeRevision env q quality timeTaken).2.easeFactor
      ∧ 13 / 10 ≤ (completeRevision env q quality timeTaken).1.newEaseFactor := by
  have key : ∀ (e : ℚ) (k : Int), 13 / 10 ≤ updateEaseFactor e k := by
    intro e k
    unfold updateEaseFactor EF_MIN
    exact le_max_left _ _
  refine ⟨key _ _, ?_, ?_⟩
  · rw [completeRevision_easeFactor]; exact key _ _
  · rw [completeRevision_newEaseFactor]; exact key _ _

/-- C7: for every item and every quality below 3, `completeRevision` leaves the item with
`revisionCycle = 1` and `streak = 0` and returns `wasReset = true`, `newCycle = 1`,
`newStreak = 0`; on scenario A (ease 1.6, Hard, quality 1, 200 s) it gives new ease 1.3
and status NeedsRevision. -/
theorem completeRevision_failed_resets (env : Env) (q : Question) (quality timeTaken : Int)
    (hq : quality < 3) :
    ((completeRevision env q quality timeTaken).2.revisionCycle = 1
      ∧ (completeRevision env q quality timeTaken).2.streak = 0
      ∧ (completeRevision env q quality timeTaken).1.wasReset = true
      ∧ (completeRevision env q quality timeTaken).1.newCycle = 1
      ∧ (completeRevision env q quality timeTaken).1.newStreak = 0)
    ∧ ((completeRevision env scenarioA 1 200).1.newEaseFactor = 13 / 10
      ∧ (completeRevision env scenarioA 1 200).2.easeFactor = 13 / 10
      ∧ (completeRevision env scenarioA 1 200).2.status = QuestionStatus.NEEDS_REVISION
      ∧ (completeRevision env scenarioA 1 200).1.newStatus = QuestionStatus.NEEDS_REVISION) := by
  have h3 : ¬ quality ≥ 3 := by omega
  have hA : updateEaseFactor scenarioA.easeFactor 1 = 13 / 10 := by
    simp [updateEaseFactor, scenarioA, EF_MIN]; norm_num
  refine ⟨⟨?_, ?_, ?_, ?_, ?_⟩, ?_, ?_, ?_, ?_⟩
  · rw [completeRevision_revisionCycle, if_neg h3]
  · rw [completeRevision_streak, if_neg h3]
  · rw [completeRevision_wasReset]; exact decide_eq_true hq
  · rw [completeRevision_newCycle, if_neg h3]
  · rw [completeRevision_newStreak, if_neg h3]
  · rw [completeRevision_newEaseFactor, hA]
  · rw [completeRevision_easeFactor, hA]
  · rw [completeRevision_status, hA]; norm_num
  · rw [completeRevision_newStatus, completeRevision_status, hA]; norm_num

/-- Witness for C7: scenario A, quality 1, 200 seconds. -/
theorem completeRevision_failed_resets_witness :
    (1 : Int) < 3
      ∧ (completeRevision (utcEnv "2025-07-10") scenarioA 1 200).2.revisionCycle = 1
      ∧ (completeRevision (utcEnv "2025-07-10") scenarioA 1 200).2.streak = 0
      ∧ (completeRevision (utcEnv "2025-07-10") scenarioA 1 200).1.wasReset = true :=
  ⟨by decide,
   (completeRevision_failed_resets (utcEnv "2025-07-10") scenarioA 1 200 (by decide)).1.1,
   (completeRevision_failed_resets (utcEnv "2025-07-10") scenarioA 1 200 (by decide)).1.2.1,
   (completeRevision_failed_resets (utcEnv "2025-07-10") scenarioA 1 200 (by decide)).1.2.2.1⟩

/-- C8: for every item and every quality of at least 3, `completeRevision` leaves
`revisionCycle` and `streak` each exactly one greater than before the review (the result
reports the same values) and returns `wasReset = false`. -/
theorem completeRevision_success_increments (env : Env) (q : Question)
    (quality timeTaken : Int) (hq : quality ≥ 3) :
    (completeRevision env q quality timeTaken).2.revisionCycle = q.revisionCycle + 1
      ∧ (completeRevision env q quality timeTaken).2.streak = q.streak + 1
      ∧ (completeRevision env q quality timeTaken).1.newCycle = q.revisionCycle + 1
      ∧ (completeRevision env q quality timeTaken).1.newStreak = q.streak + 1
      ∧ (completeRevision env q quality timeTaken).1.wasReset = false := by
  refine ⟨?_, ?_, ?_, ?_, ?_⟩
  · rw [completeRevision_revisionCycle, if_pos hq]
  · rw [completeRevision_streak, if_pos hq]
  · rw [completeRevision_newCycle, if_pos hq]
  · rw [completeRevision_newStreak, if_pos hq]
  · rw [completeRevision_wasReset]; exact decide_eq_false (by omega)

/-- Witness for C8: scenario A reviewed with quality 4. -/
theorem completeRevision_success_increments_witness :
    (4 : Int) ≥ 3
      ∧ (completeRevision (utcEnv "2025-07-10") scenarioA 4 45).2.revisionCycle = 2
      ∧ (completeRevision (utcEnv "2025-07-10") scenarioA 4 45).2.streak = 1 :=
  ⟨by decide,
   (completeRevision_success_increments (utcEnv "2025-07-10") scenarioA 4 45 (by decide)).1,
   (completeRevision_success_increments (utcEnv "2025-07-10") scenarioA 4 45 (by decide)).2.1⟩

end RevisionEngine

namespace RevisionHeap

/-! ### Elementary facts on `entry` and `swap` -/

theorem entry_eq_getElem (h : Heap) {i : Nat} (hi : i < h.length) : entry h i = h[i] := by
  unfold entry
  exact List.getD_eq_getElem h default hi

theorem entry_mem (h : Heap) {i : Nat} (hi : i < h.length) : entry h i ∈ h := by
  rw [entry_eq_getElem h hi]
  exact List.getElem_mem hi

theorem entry_set (h : Heap) (i : Nat) (e : HeapEntry) (k : Nat) (hk : k < h.length) :
    entry (h.set i e) k = if k = i then e else entry h k := by
  unfold entry
  simp only [List.getD_eq_getElem?_getD, List.getElem?_set]
  by_cases hki : k = i
  · subst hki
    simp [hk]
  · have : ¬ i = k := fun e => hki e.symm
    simp [hki, this]

theorem length_swap (h : Heap) (i j : Nat) : (swap h i j).length = h.length := by
  simp [swap]

theorem entry_swap (h : Heap) (i j k : Nat) (hk : k < h.length) :
    entry (swap h i j) k
      = if k = j then entry h i else if k = i then entry h j else entry h k := by
  unfold swap
  rw [entry_set _ _ _ _ (by simpa using hk), entry_set _ _ _ _ hk]

theorem score_swap (h : Heap) (i j k : Nat) (hk : k < h.length) :
    score (swap h i j) k
      = if k = j then score h i else if k = i then score h j else score h k := by
  unfold score
  rw [entry_swap h i j k hk]
  split_ifs <;> rfl

theorem perm_set_set (h : Heap) {i j : Nat} (hi : i < h.length) (hj : j < h.length) :
    ((h.set i h[j]).set j h[i]).Perm h := by
  rw [List.perm_iff_count]
  intro b
  have hj1 : j < (h.set i h[j]).length := by simpa using hj
  rw [List.count_set _ _ _ _ hj1, List.count_set _ _ _ _ hi]
  have e : (h.set i h[j])[j] = h[j] := by
    rw [List.getElem_set]
    split_ifs <;> rfl
  rw [e]
  have hc : (if h[i] == b then 1 else 0) ≤ h.count b := by
    by_cases hb : h[i] == b
    · simp only [hb, if_true]
      have : h[i] = b := by simpa using hb
      rw [← this]
      exact List.count_pos_iff.mpr (List.getElem_mem hi)
    · simp [hb]
  omega

theorem perm_swap (h : Heap) {i j : Nat} (hi : i < h.length) (hj : j < h.length) :
    (swap h i j).Perm h := by
  unfold swap
  rw [entry_eq_getElem h hi, entry_eq_getElem h hj]
  exact perm_set_set h hi hj

/-! ### Tree indices -/

theorem parent_lt {c : Nat} (hc : 0 < c) : parent c < c := by
  unfold parent
  omega

theorem child_cases {c p : Nat} (hc : 0 < c) (hp : parent c = p) : c = 2 * p + 1 ∨ c = 2 * p + 2 := by
  unfold parent at hp
  omega

theorem parent_left (i : Nat) : parent (2 * i + 1) = i := by
  unfold parent
  omega

theorem parent_right (i : Nat) : parent (2 * i + 2) = i := by
  unfold parent
  omega

/-! ### The heap property -/

theorem valid_iff_orderedFrom (h : Heap) : Valid h ↔ OrderedFrom h 0 0 := by
  constructor
  · intro hv c hc hn _ _
    exact hv c hc hn
  · intro ho c hc hn
    exact ho c hc hn (Nat.zero_le _) (by omega)

theorem isValidHeap_iff (h : Heap) : isValidHeap h = true ↔ Valid h := by
  unfold isValidHeap Valid EdgeOK
  simp only [List.all_eq_true, List.mem_range, Bool.and_eq_true, Bool.not_eq_true',
    decide_eq_false_iff_not, not_and, not_lt, leftChild, rightChild]
  constructor
  · intro hall c hc hn
    have hp : parent c < h.length := lt_trans (parent_lt hc) hn
    rcases child_cases hc rfl with e | e
    · have := (hall (parent c) hp).1 (by omega)
      rw [← e] at this
      exact this
    · have := (hall (parent c) hp).2 (by omega)
      rw [← e] at this
      exact this
  · intro hv i _
    constructor
    · intro hl
      have := hv (2 * i + 1) (by omega) hl
      rw [parent_left] at this
      exact this
    · intro hr
      have := hv (2 * i + 2) (by omega) hr
      rw [parent_right] at this
      exact this

/-! ### One iteration of `siftDown` -/

theorem smallestOf_cases (h : Heap) (i : Nat) :
    (smallestOf h i = i
        ∧ ∀ c, 0 < c → c < h.length → parent c = i → score h i ≤ score h c)
      ∨ (smallestOf h i ≠ i ∧ 0 < smallestOf h i ∧ smallestOf h i < h.length
        ∧ parent (smallestOf h i) = i ∧ score h (smallestOf h i) < score h i
        ∧ ∀ c, 0 < c → c < h.length → parent c = i →
            score h (smallestOf h i) ≤ score h c) := by
  unfold smallestOf leftChild rightChild
  simp only []
  by_cases hl : 2 * i + 1 < h.length ∧ score h (2 * i + 1) < score h i
  · rw [if_pos hl]
    by_cases hr : 2 * i + 2 < h.length ∧ score h (2 * i + 2) < score h (2 * i + 1)
    · rw [if_pos hr]
      right
      refine ⟨by omega, by omega, hr.1, parent_right i, lt_trans hr.2 hl.2, ?_⟩
      intro c hc _ hp
      rcases child_cases hc hp with e | e
      · rw [e]; exact le_of_lt hr.2
      · rw [e]
    · rw [if_neg hr]
      right
      refine ⟨by omega, by omega, hl.1, parent_left i, hl.2, ?_⟩
      intro c hc hn hp
      rcases child_cases hc hp with e | e
      · rw [e]
      · rw [e]
        rw [e] at hn
        exact not_lt.mp (fun hlt => hr ⟨hn, hlt⟩)
  · rw [if_neg hl]
    by_cases hr : 2 * i + 2 < h.length ∧ score h (2 * i + 2) < score h i
    · rw [if_pos hr]
      right
      refine ⟨by omega, by omega, hr.1, parent_right i, hr.2, ?_⟩
      intro c hc hn hp
      rcases child_cases hc hp with e | e
      · rw [e]
        rw [e] at hn
        have : score h i ≤ score h (2 * i + 1) := not_lt.mp (fun hlt => hl ⟨hn, hlt⟩)
        exact le_trans (le_of_lt hr.2) this
      · rw [e]
    · rw [if_neg hr]
      left
      refine ⟨rfl, ?_⟩
      intro c hc hn hp
      rcases child_cases hc hp with e | e
      · rw [e]
        rw [e] at hn
        exact not_lt.mp (fun hlt => hl ⟨hn, hlt⟩)
      · rw [e]
        rw [e] at hn
        exact not_lt.mp (fun hlt => hr ⟨hn, hlt⟩)

/-! ### `siftDown` -/

theorem siftDownAux_succ (fuel : Nat) (h : Heap) (i : Nat) :
    siftDownAux (fuel + 1) h i
      = if smallestOf h i ≠ i then siftDownAux fuel (swap h i (smallestOf h i)) (smallestOf h i)
        else h := rfl

theorem siftDownAux_length : ∀ (fuel : Nat) (h : Heap) (i : Nat),
    (siftDownAux fuel h i).length = h.length := by
  intro fuel
  induction fuel with
  | zero => intro h i; rfl
  | succ n ih =>
    intro h i
    unfold siftDownAux
    simp only []
    split_ifs with hs
    · rw [ih, length_swap]
    · rfl

theorem siftDownAux_perm : ∀ (fuel : Nat) (h : Heap) (i : Nat),
    (siftDownAux fuel h i).Perm h := by
  intro fuel
  induction fuel with
  | zero => intro h i; exact List.Perm.refl _
  | succ n ih =>
    intro h i
    unfold siftDownAux
    simp only []
    split_ifs with hs
    · rcases smallestOf_cases h i with ⟨e, _⟩ | ⟨_, hpos, hlt, hpar, _, _⟩
      · exact absurd e hs
      · have hi : i < h.length := by
          have := parent_lt hpos
          rw [hpar] at this
          omega
        exact (ih _ _).trans (perm_swap h hi hlt)
    · exact List.Perm.refl _

/-- The loop of `siftDown` started at `i` leaves every position above `i` untouched. -/
theorem siftDownAux_frame : ∀ (fuel : Nat) (h : Heap) (i j : Nat), j < i → j < h.length →
    entry (siftDownAux fuel h i) j = entry h j := by
  intro fuel
  induction fuel with
  | zero => intro h i j _ _; rfl
  | succ n ih =>
    intro h i j hji hj
    unfold siftDownAux
    simp only []
    split_ifs with hs
    · rcases smallestOf_cases h i with ⟨e, _⟩ | ⟨_, hpos, hlt, hpar, _, _⟩
      · exact absurd e hs
      · have hi : i < smallestOf h i := by
          have := parent_lt hpos
          rw [hpar] at this
          exact this
        rw [ih _ _ j (by omega) (by rw [length_swap]; exact hj), entry_swap h _ _ j hj]
        rw [if_neg (by omega), if_neg (by omega)]
    · rfl

theorem siftDownAux_ordered (lo t : Nat) : ∀ (fuel : Nat) (h : Heap) (cur : Nat),
    h.length ≤ fuel + cur → lo ≤ cur → t ≤ cur → DownPre h lo t cur →
      OrderedFrom (siftDownAux fuel h cur) lo t := by
  intro fuel
  induction fuel with
  | zero =>
    intro h cur hf _ _ hpre c hc hn hlo hct
    apply hpre.1 c hc hn hlo hct
    intro hp
    have := parent_lt hc
    simp only [siftDownAux] at hn
    omega
  | succ n ih =>
    intro h cur hf hlo ht hpre
    unfold siftDownAux
    simp only []
    rcases smallestOf_cases h cur with ⟨e, hmin⟩ | ⟨hne, hpos, hlt, hpar, hsc, hmin⟩
    · rw [if_neg (by rw [e]; exact fun hh => hh rfl)]
      intro c hc hn hloc hct
      by_cases hp : parent c = cur
      · unfold EdgeOK
        rw [hp]
        exact hmin c hc hn hp
      · exact hpre.1 c hc hn hloc hct hp
    · rw [if_pos hne]
      have hcs : cur < smallestOf h cur := by
        have := parent_lt hpos
        rw [hpar] at this
        exact this
      have hcur : cur < h.length := by omega
      apply ih
      · rw [length_swap]; omega
      · omega
      · omega
      · constructor
        · intro c hc hn hloc hct hps
          rw [length_swap] at hn
          have hpn : parent c < h.length := lt_trans (parent_lt hc) hn
          unfold EdgeOK
          rw [score_swap h _ _ c hn, score_swap h _ _ (parent c) hpn]
          by_cases hp : parent c = cur
          · -- an edge leaving `cur`
            have hc_ne_cur : c ≠ cur := by
              have := parent_lt hc
              omega
            rw [if_neg hps, if_pos hp]
            by_cases hcs' : c = smallestOf h cur
            · rw [if_pos hcs']
              exact le_of_lt hsc
            · rw [if_neg hcs', if_neg hc_ne_cur]
              exact hmin c hc hn hp
          · rw [if_neg hps, if_neg hp]
            by_cases hcs' : c = smallestOf h cur
            · exact absurd (hcs' ▸ hpar) hp
            · rw [if_neg hcs']
              by_cases hcc : c = cur
              · -- the edge into `cur`
                rw [if_pos hcc]
                have h2 := hpre.2 (by omega) (by omega) (by rw [← hcc]; exact hloc)
                  (smallestOf h cur) hpos hlt hpar
                rw [hcc]
                exact h2
              · rw [if_neg hcc]
                exact hpre.1 c hc hn hloc hct hp
        · intro _ _ _ c hc hn hp
          rw [length_swap] at hn
          have hsc' : smallestOf h cur < c := by
            have := parent_lt hc
            rw [hp] at this
            exact this
          have e1 : ¬ c = smallestOf h cur := by omega
          have e2 : ¬ c = cur := by omega
          have e3 : ¬ cur = smallestOf h cur := by omega
          rw [hpar, score_swap h _ _ c hn, score_swap h _ _ cur hcur]
          rw [if_neg e1, if_neg e2, if_neg e3, if_pos rfl]
          have := hpre.1 c hc hn (by rw [hp]; omega) (by omega) (by rw [hp]; omega)
          unfold EdgeOK at this
          rw [hp] at this
          exact this

theorem siftDown_length (h : Heap) (i : Nat) : (siftDown h i).length = h.length :=
  siftDownAux_length _ _ _

theorem siftDown_perm (h : Heap) (i : Nat) : (siftDown h i).Perm h :=
  siftDownAux_perm _ _ _

theorem siftDown_ordered (lo t : Nat) (h : Heap) (cur : Nat) (hlo : lo ≤ cur) (ht : t ≤ cur)
    (hpre : DownPre h lo t cur) : OrderedFrom (siftDown h cur) lo t :=
  siftDownAux_ordered lo t _ h cur (by omega) hlo ht hpre

/-- More fuel than the distance to the end of the vector does not change the result of the
loop of `siftDown`. -/
theorem siftDownAux_fuel : ∀ (fuel : Nat) (h : Heap) (i : Nat), h.length ≤ fuel + i →
    siftDownAux (fuel + 1) h i = siftDownAux fuel h i := by
  intro fuel
  induction fuel with
  | zero =>
    intro h i hf
    rw [siftDownAux_succ]
    rcases smallestOf_cases h i with ⟨e, _⟩ | ⟨_, hpos, hlt, hpar, _, _⟩
    · rw [if_neg (by rw [e]; exact fun hh => hh rfl)]
      rfl
    · have := parent_lt hpos
      omega
  | succ n ih =>
    intro h i hf
    rw [siftDownAux_succ (n + 1) h i, siftDownAux_succ n h i]
    split_ifs with hs
    · rcases smallestOf_cases h i with ⟨e, _⟩ | ⟨_, hpos, hlt, hpar, _, _⟩
      · exact absurd e hs
      · have := parent_lt hpos
        exact ih _ _ (by rw [length_swap]; omega)
    · rfl

/-! ### `siftUp` -/

theorem siftUpAux_succ (fuel : Nat) (h : Heap) (i : Nat) :
    siftUpAux (fuel + 1) h i
      = if i > 0 then
          (if score h i < score h (parent i) then siftUpAux fuel (swap h i (parent i)) (parent i)
           else h)
        else h := rfl

theorem siftUpAux_length : ∀ (fuel : Nat) (h : Heap) (i : Nat),
    (siftUpAux fuel h i).length = h.length := by
  intro fuel
  induction fuel with
  | zero => intro h i; rfl
  | succ n ih =>
    intro h i
    rw [siftUpAux_succ]
    split_ifs
    · rw [ih, length_swap]
    · rfl
    · rfl

theorem siftUpAux_perm : ∀ (fuel : Nat) (h : Heap) (i : Nat), i < h.length →
    (siftUpAux fuel h i).Perm h := by
  intro fuel
  induction fuel with
  | zero => intro h i _; exact List.Perm.refl _
  | succ n ih =>
    intro h i hi
    rw [siftUpAux_succ]
    split_ifs with h0 hlt
    · have hp : parent i < h.length := lt_trans (parent_lt h0) hi
      exact (ih _ _ (by rw [length_swap]; exact hp)).trans (perm_swap h hi hp)
    · exact List.Perm.refl _
    · exact List.Perm.refl _

theorem siftUpAux_valid : ∀ (fuel : Nat) (h : Heap) (cur : Nat),
    cur ≤ fuel → cur < h.length → UpPre h cur → Valid (siftUpAux fuel h cur) := by
  intro fuel
  induction fuel with
  | zero =>
    intro h cur hf _ hpre c hc hn
    exact hpre.1 c hc hn (by omega)
  | succ n ih =>
    intro h cur hf hcur hpre
    rw [siftUpAux_succ]
    by_cases h0 : cur > 0
    · rw [if_pos h0]
      have hpc : parent cur < cur := parent_lt h0
      have hpn : parent cur < h.length := lt_trans hpc hcur
      by_cases hlt : score h cur < score h (parent cur)
      · rw [if_pos hlt]
        apply ih
        · omega
        · rw [length_swap]; exact hpn
        · constructor
          · intro c hc hn hcp
            rw [length_swap] at hn
            have hpcn : parent c < h.length := lt_trans (parent_lt hc) hn
            have hpc' : parent c < c := parent_lt hc
            unfold EdgeOK
            rw [score_swap h _ _ c hn, score_swap h _ _ (parent c) hpcn]
            rw [if_neg hcp]
            by_cases hcc : c = cur
            · rw [if_pos hcc, hcc, if_pos rfl]
              exact le_of_lt hlt
            · rw [if_neg hcc]
              by_cases hq : parent c = parent cur
              · rw [if_pos hq]
                have := hpre.1 c hc hn hcc
                unfold EdgeOK at this
                rw [hq] at this
                exact le_trans (le_of_lt hlt) this
              · rw [if_neg hq]
                by_cases hq2 : parent c = cur
                · rw [if_pos hq2]
                  exact hpre.2 h0 c hc hn hq2
                · rw [if_neg hq2]
                  exact hpre.1 c hc hn hcc
          · intro hp0 c hc hn hq
            rw [length_swap] at hn
            have hppn : parent (parent cur) < h.length := lt_trans (parent_lt hp0) hpn
            have hpp : parent (parent cur) < parent cur := parent_lt hp0
            have e1 : ¬ parent (parent cur) = parent cur := by omega
            have e2 : ¬ parent (parent cur) = cur := by omega
            have e3 : ¬ c = parent cur := by
              have := parent_lt hc
              omega
            have hedge : score h (parent (parent cur)) ≤ score h (parent cur) :=
              hpre.1 (parent cur) hp0 hpn (by omega)
            rw [score_swap h _ _ c hn, score_swap h _ _ _ hppn]
            rw [if_neg e1, if_neg e2, if_neg e3]
            by_cases hcc : c = cur
            · rw [if_pos hcc]
              exact hedge
            · rw [if_neg hcc]
              have := hpre.1 c hc hn hcc
              unfold EdgeOK at this
              rw [hq] at this
              exact le_trans hedge this
      · rw [if_neg hlt]
        intro c hc hn
        by_cases hcc : c = cur
        · unfold EdgeOK
          rw [hcc]
          exact not_lt.mp hlt
        · exact hpre.1 c hc hn hcc
    · rw [if_neg h0]
      intro c hc hn
      exact hpre.1 c hc hn (by omega)

/-- More fuel than the index does not change the result of the loop of `siftUp`. -/
theorem siftUpAux_fuel : ∀ (fuel : Nat) (h : Heap) (i : Nat), i ≤ fuel →
    siftUpAux (fuel + 1) h i = siftUpAux fuel h i := by
  intro fuel
  induction fuel with
  | zero =>
    intro h i hf
    rw [siftUpAux_succ, if_neg (by omega)]
    rfl
  | succ n ih =>
    intro h i hf
    rw [siftUpAux_succ (n + 1) h i, siftUpAux_succ n h i]
    split_ifs with h0 hlt
    · have := parent_lt h0
      exact ih _ _ (by omega)
    · rfl
    · rfl

theorem siftUp_length (h : Heap) (i : Nat) : (siftUp h i).length = h.length :=
  siftUpAux_length _ _ _

theorem siftUp_perm (h : Heap) (i : Nat) (hi : i < h.length) : (siftUp h i).Perm h :=
  siftUpAux_perm _ _ _ hi

theorem siftUp_valid (h : Heap) (cur : Nat) (hcur : cur < h.length) (hpre : UpPre h cur) :
    Valid (siftUp h cur) :=
  siftUpAux_valid _ h cur (le_refl _) hcur hpre

/-! ### A vector that is a heap except at one position -/

theorem holeAt_of_valid (h g : Heap) (i : Nat) (hv : Valid h) (hlen : g.length ≤ h.length)
    (hi : i < h.length)
    (hsame : ∀ k, k < g.length → k ≠ i → score g k = score h k) : HoleAt g i := by
  constructor
  · intro c hc hn hci hpi
    unfold EdgeOK
    rw [hsame c hn hci, hsame (parent c) (lt_trans (parent_lt hc) hn) hpi]
    exact hv c hc (by omega)
  · intro h0 c hc hn hp
    have hpc : parent c < c := parent_lt hc
    have hpi : parent i < i := parent_lt h0
    rw [hsame c hn (by omega), hsame (parent i) (by omega) (by omega)]
    have h1 := hv i h0 hi
    have h2 := hv c hc (by omega)
    unfold EdgeOK at h1 h2
    rw [hp] at h2
    exact le_trans h1 h2

/-- The sequence `siftDown(i); siftUp(i)` of `remove` and `updatePriority` restores the heap
property of a vector that is a heap except at `i`. -/
theorem siftDown_siftUp_valid (g : Heap) (i : Nat) (hi : i < g.length) (hole : HoleAt g i) :
    Valid (siftUp (siftDown g i) i) := by
  have hord : OrderedFrom (siftDown g i) 0 i :=
    siftDown_ordered 0 i g i (Nat.zero_le _) (le_refl _)
      ⟨fun c hc hn _ hct hp => hole.1 c hc hn hct hp, fun hne => absurd rfl hne⟩
  apply siftUp_valid _ _ (by rw [siftDown_length]; exact hi)
  refine ⟨fun c hc hn hci => hord c hc hn (Nat.zero_le _) hci, ?_⟩
  intro h0 c hc hn hp
  rw [siftDown_length] at hn
  obtain ⟨m, hm⟩ : ∃ m, g.length = m + 1 := ⟨g.length - 1, by omega⟩
  have hpi : parent i < i := parent_lt h0
  rcases smallestOf_cases g i with ⟨e, _⟩ | ⟨hne, hpos, hlt, hpar, _, _⟩
  · have hsame : siftDown g i = g := by
      unfold siftDown
      rw [hm, siftDownAux_succ, if_neg (by rw [e]; exact fun hh => hh rfl)]
    rw [hsame]
    exact hole.2 h0 c hc hn hp
  · have his : i < smallestOf g i := by
      have := parent_lt hpos
      rw [hpar] at this
      exact this
    have hstep : siftDown g i
        = siftDownAux m (swap g i (smallestOf g i)) (smallestOf g i) := by
      unfold siftDown
      rw [hm, siftDownAux_succ, if_pos hne]
    have hgi : score (siftDown g i) i = score g (smallestOf g i) := by
      unfold score
      rw [hstep, siftDownAux_frame _ _ _ i his (by rw [length_swap]; exact hi),
        entry_swap g _ _ i hi, if_neg (by omega), if_pos rfl]
    have hgp : score (siftDown g i) (parent i) = score g (parent i) := by
      unfold score
      rw [hstep, siftDownAux_frame _ _ _ (parent i) (by omega) (by rw [length_swap]; omega),
        entry_swap g _ _ (parent i) (by omega), if_neg (by omega), if_neg (by omega)]
    have hedge : score (siftDown g i) (parent i) ≤ score (siftDown g i) i := by
      rw [hgi, hgp]
      exact hole.2 h0 _ hpos hlt hpar
    have hci : c ≠ i := by
      have := parent_lt hc
      omega
    have := hord c hc (by rw [siftDown_length]; exact hn) (Nat.zero_le _) hci
    unfold EdgeOK at this
    rw [hp] at this
    exact le_trans hedge this

/-! ### Floyd's build -/

theorem heapifyLoop_length : ∀ (k : Nat) (h : Heap), (heapifyLoop k h).length = h.length := by
  intro k
  induction k with
  | zero => intro h; rfl
  | succ k ih =>
    intro h
    show (heapifyLoop k (siftDown h k)).length = h.length
    rw [ih, siftDown_length]

theorem heapifyLoop_perm : ∀ (k : Nat) (h : Heap), (heapifyLoop k h).Perm h := by
  intro k
  induction k with
  | zero => intro h; exact List.Perm.refl _
  | succ k ih =>
    intro h
    show (heapifyLoop k (siftDown h k)).Perm h
    exact (ih _).trans (siftDown_perm h k)

theorem heapifyLoop_valid : ∀ (k : Nat) (h : Heap), OrderedFrom h k k →
    Valid (heapifyLoop k h) := by
  intro k
  induction k with
  | zero =>
    intro h ho
    exact (valid_iff_orderedFrom h).mpr ho
  | succ k ih =>
    intro h ho
    show Valid (heapifyLoop k (siftDown h k))
    apply ih
    apply siftDown_ordered k k h k (le_refl _) (le_refl _)
    refine ⟨?_, fun hne => absurd rfl hne⟩
    intro c hc hn hlo _ hp
    have := parent_lt hc
    exact ho c hc hn (by omega) (by omega)

theorem heapify_length (h : Heap) : (heapify h).length = h.length :=
  heapifyLoop_length _ _

theorem heapify_perm (h : Heap) : (heapify h).Perm h :=
  heapifyLoop_perm _ _

/-- Floyd's loop turns every vector into a heap. -/
theorem heapify_valid (h : Heap) : Valid (heapify h) := by
  apply heapifyLoop_valid
  intro c hc hn hlo _
  unfold parent at hlo
  omega

/-! ### The vector operations behind the methods -/

theorem valid_nil : Valid ([] : Heap) := by
  intro c _ hn
  simp at hn

theorem entry_append_left (h l : Heap) {k : Nat} (hk : k < h.length) :
    entry (h ++ l) k = entry h k := by
  unfold entry
  exact List.getD_append h l default k hk

theorem entry_dropLast (h : Heap) {k : Nat} (hk : k < h.length - 1) :
    entry h.dropLast k = entry h k := by
  have h1 : k < h.dropLast.length := by simpa using hk
  rw [entry_eq_getElem _ h1, entry_eq_getElem h (by omega), List.getElem_dropLast]

theorem score_set_dropLast (h : Heap) (i : Nat) (e : HeapEntry) {k : Nat}
    (hk : k < h.length - 1) (hki : k ≠ i) :
    score ((h.set i e).dropLast) k = score h k := by
  unfold score
  rw [entry_dropLast _ (by simpa using hk), entry_set h i e k (by omega), if_neg hki]

theorem set_last_eq (l : Heap) (a : HeapEntry) (hl : l ≠ []) :
    l.set (l.length - 1) a = l.dropLast ++ [a] := by
  induction l with
  | nil => exact absurd rfl hl
  | cons x xs ih =>
    cases xs with
    | nil => rfl
    | cons y ys =>
      have := ih (by simp)
      simp only [List.length_cons, Nat.add_sub_cancel] at this ⊢
      simp only [List.set_cons_succ, List.dropLast_cons₂, List.cons_append, this]

/-- Overwriting position `i` with the last element and dropping the last element removes
exactly the entry that stood at `i`. -/
theorem perm_set_last_dropLast (h : Heap) {i : Nat} (hi : i < h.length) :
    (entry h i :: (h.set i (entry h (h.length - 1))).dropLast).Perm h := by
  have hne : h.set i (entry h (h.length - 1)) ≠ [] := by
    intro e
    have hl : (h.set i (entry h (h.length - 1))).length = 0 := by rw [e]; rfl
    rw [List.length_set] at hl
    omega
  have hsw : swap h i (h.length - 1)
      = (h.set i (entry h (h.length - 1))).dropLast ++ [entry h i] := by
    unfold swap
    have := set_last_eq (h.set i (entry h (h.length - 1))) (entry h i) hne
    simpa using this
  have hp := perm_swap h hi (show h.length - 1 < h.length by omega)
  rw [hsw] at hp
  exact (List.perm_append_singleton _ _).symm.trans hp

/-! ### `push` -/

theorem push_valid (env : Env) (h : Heap) (q : Question) (today : String) (hv : Valid h) :
    Valid (push env h q today) := by
  unfold push
  simp only [List.length_append, List.length_singleton, Nat.add_sub_cancel]
  apply siftUp_valid _ _ (by simp)
  constructor
  · intro c hc hn hcn
    have hcl : c < h.length := by
      simp at hn
      omega
    unfold EdgeOK score
    rw [entry_append_left h _ hcl, entry_append_left h _ (lt_trans (parent_lt hc) hcl)]
    exact hv c hc hcl
  · intro _ c hc hn hp
    have := parent_lt hc
    simp at hn
    omega

theorem push_perm (env : Env) (h : Heap) (q : Question) (today : String) :
    (push env h q today).Perm (h ++ [⟨q, q.getPriorityScore env today⟩]) := by
  unfold push
  exact siftUp_perm _ _ (by simp)

/-! ### `pop` -/

theorem pop_eq_some (h : Heap) (hne : h ≠ []) :
    pop h = some (entry h 0,
      if ¬ ((h.set 0 (entry h (h.length - 1))).dropLast).isEmpty
        then siftDown ((h.set 0 (entry h (h.length - 1))).dropLast) 0
        else (h.set 0 (entry h (h.length - 1))).dropLast) := by
  unfold pop
  have : ¬ (h.isEmpty = true) := by
    rw [List.isEmpty_iff]
    exact hne
  rw [if_neg this]

theorem pop_eq_none (h : Heap) (he : h = []) : pop h = none := by
  subst he
  rfl

theorem siftDown_root_valid (g : Heap) (hole : HoleAt g 0) : Valid (siftDown g 0) := by
  rw [valid_iff_orderedFrom]
  apply siftDown_ordered 0 0 g 0 (le_refl _) (le_refl _)
  exact ⟨fun c hc hn _ hct hp => hole.1 c hc hn hct hp, fun hne => absurd rfl hne⟩

theorem pop_valid (h : Heap) (hv : Valid h) (e : HeapEntry) (h1 : Heap)
    (hpop : pop h = some (e, h1)) : Valid h1 := by
  by_cases hne : h = []
  · rw [pop_eq_none h hne] at hpop
    exact absurd hpop (by simp)
  · rw [pop_eq_some h hne] at hpop
    have hlen : 0 < h.length := List.length_pos.mpr hne
    injection hpop with hpop
    injection hpop with _ h3
    rw [← h3]
    split_ifs with hemp
    · rw [List.isEmpty_iff] at hemp
      rw [hemp]
      exact valid_nil
    · apply siftDown_root_valid
      apply holeAt_of_valid h _ 0 hv (by simp) hlen
      intro k hk hk0
      exact score_set_dropLast h 0 _ (by simpa using hk) hk0

theorem pop_perm (h : Heap) (e : HeapEntry) (h1 : Heap) (hpop : pop h = some (e, h1)) :
    (e :: h1).Perm h := by
  by_cases hne : h = []
  · rw [pop_eq_none h hne] at hpop
    exact absurd hpop (by simp)
  · rw [pop_eq_some h hne] at hpop
    have hlen : 0 < h.length := List.length_pos.mpr hne
    injection hpop with hpop
    injection hpop with h2 h3
    rw [← h2, ← h3]
    have hbase := perm_set_last_dropLast h hlen
    split_ifs with hemp
    · exact hbase
    · exact (List.Perm.cons _ (siftDown_perm _ 0)).trans hbase

/-- In a heap the root carries a smallest score. -/
theorem root_le (h : Heap) (hv : Valid h) : ∀ i, i < h.length → score h 0 ≤ score h i := by
  intro i
  induction i using Nat.strong_induction_on with
  | _ i ih =>
    intro hi
    by_cases h0 : i = 0
    · rw [h0]
    · have hpos : 0 < i := Nat.pos_of_ne_zero h0
      have hp := parent_lt hpos
      exact le_trans (ih (parent i) hp (by omega)) (hv i hpos hi)

/-! ### `remove` and `updatePriority` -/

theorem findId_lt (h : Heap) (qid : String) (i : Nat) (hf : findId h qid = some i) :
    i < h.length := by
  unfold findId at hf
  have := List.mem_of_find?_eq_some hf
  simpa using this

theorem remove_valid (h : Heap) (qid : String) (hv : Valid h) : Valid (remove h qid).2 := by
  unfold remove
  cases hf : findId h qid with
  | none => exact hv
  | some i =>
    have hi := findId_lt h qid i hf
    simp only []
    have hole : HoleAt ((h.set i (entry h (h.length - 1))).dropLast) i := by
      apply holeAt_of_valid h _ i hv (by simp) hi
      intro k hk hki
      exact score_set_dropLast h i _ (by simpa using hk) hki
    split_ifs with hlt
    · exact siftDown_siftUp_valid _ i hlt hole
    · intro c hc hn
      have hn' : c < h.length - 1 := by simpa using hn
      have hlen : ¬ i < h.length - 1 := by simpa using hlt
      have hp := parent_lt hc
      exact hole.1 c hc hn (by omega) (by omega)

theorem updatePriority_valid (env : Env) (h : Heap) (qid : String) (updated : Question)
    (today : String) (hv : Valid h) : Valid (updatePriority env h qid updated today) := by
  unfold updatePriority
  cases hf : findId h qid with
  | none => exact push_valid env h updated today hv
  | some i =>
    have hi := findId_lt h qid i hf
    simp only []
    apply siftDown_siftUp_valid _ i (by simpa using hi)
    apply holeAt_of_valid h _ i hv (by simp) hi
    intro k hk hki
    have hk' : k < h.length := by simpa using hk
    unfold score
    rw [entry_set _ i _ k (by simpa using hk'), if_neg hki, entry_set h i _ k hk', if_neg hki]

/-! ### `topK` and the constructor -/

theorem pop_length (h : Heap) (e : HeapEntry) (h1 : Heap) (hpop : pop h = some (e, h1)) :
    h1.length + 1 = h.length := by
  have := (pop_perm h e h1 hpop).length_eq
  simpa using this

/-- The first loop of `topK` never runs into the exception of `pop()` when it is asked for
at most `heap_.size()` entries. -/
theorem popLoop_some : ∀ (cnt : Nat) (h : Heap) (acc : List HeapEntry), cnt ≤ h.length →
    ∃ r h1, popLoop cnt h acc = some (r, h1) := by
  intro cnt
  induction cnt with
  | zero => intro h acc _; exact ⟨acc, h, rfl⟩
  | succ n ih =>
    intro h acc hle
    have hne : h ≠ [] := by
      intro e
      rw [e] at hle
      simp at hle
    have hp := pop_eq_some h hne
    have hl := pop_length h _ _ hp
    unfold popLoop
    rw [hp]
    simp only []
    exact ih _ _ (by omega)

theorem topK_some (h : Heap) (k : Int) : ∃ r h1, topK h k = some (r, h1) ∧ Valid h1 := by
  unfold topK
  simp only []
  obtain ⟨r, h1, hr⟩ := popLoop_some (min k (h.length : Int)).toNat h [] (by omega)
  rw [hr]
  exact ⟨r, heapify (h1 ++ r), rfl, heapify_valid _⟩

theorem build_valid (env : Env) (questions : List Question) (today : String) :
    Valid (build env questions today) :=
  heapify_valid _

theorem sampleHeap_valid : isValidHeap sampleHeap = true := by decide

theorem reachable_valid (env : Env) (h : Heap) (hr : Reachable env h) : Valid h := by
  induction hr with
  | ofEmpty => exact valid_nil
  | ofBuild questions today => exact build_valid env questions today
  | ofPush q today _ ih => exact push_valid env _ q today ih
  | ofPop _ hpop ih => exact pop_valid _ ih _ _ hpop
  | ofRemove qid _ ih => exact remove_valid _ qid ih
  | ofUpdatePriority qid q today _ ih => exact updatePriority_valid env _ qid q today ih
  | @ofTopK h0 r0 h1 k _ htop _ =>
    obtain ⟨r, h2, he, hv⟩ := topK_some h0 k
    rw [he] at htop
    injection htop with htop
    injection htop with _ e2
    rw [← e2]
    exact hv

/-! ### Claims C1 to C3 -/

/-- C1: heap validity (`isValidHeap`) is preserved by `push`, by `pop` on a non-empty heap,
by `remove`, by `updatePriority` and by `topK`; hence every heap reachable from the empty
heap or from the constructor by these operations is valid. -/
theorem isValidHeap_preserved (env : Env) :
    (∀ h : Heap, isValidHeap h = true →
        (∀ (q : Question) (today : String), isValidHeap (push env h q today) = true)
        ∧ (h ≠ [] → ∃ e h1, pop h = some (e, h1) ∧ isValidHeap h1 = true)
        ∧ (∀ qid : String, isValidHeap (remove h qid).2 = true)
        ∧ (∀ (qid : String) (q : Question) (today : String),
            isValidHeap (updatePriority env h qid q today) = true)
        ∧ (∀ k : Int, ∃ r h1, topK h k = some (r, h1) ∧ isValidHeap h1 = true))
      ∧ (∀ h : Heap, Reachable env h → isValidHeap h = true) := by
  constructor
  · intro h hv
    rw [isValidHeap_iff] at hv
    refine ⟨?_, ?_, ?_, ?_, ?_⟩
    · intro q today
      rw [isValidHeap_iff]
      exact push_valid env h q today hv
    · intro hne
      refine ⟨_, _, pop_eq_some h hne, ?_⟩
      rw [isValidHeap_iff]
      exact pop_valid h hv _ _ (pop_eq_some h hne)
    · intro qid
      rw [isValidHeap_iff]
      exact remove_valid h qid hv
    · intro qid q today
      rw [isValidHeap_iff]
      exact updatePriority_valid env h qid q today hv
    · intro k
      obtain ⟨r, h1, he, hv1⟩ := topK_some h k
      exact ⟨r, h1, he, (isValidHeap_iff h1).mpr hv1⟩
  · intro h hr
    rw [isValidHeap_iff]
    exact reachable_valid env h hr

/-- Witness for C1: removing `"b"` from the sample heap, and pushing onto it. -/
theorem isValidHeap_preserved_witness :
    isValidHeap sampleHeap = true
      ∧ isValidHeap (remove sampleHeap "b").2 = true
      ∧ isValidHeap (push (utcEnv "2025-07-10") sampleHeap Question.mk0 "2025-07-10") = true :=
  ⟨sampleHeap_valid,
   ((isValidHeap_preserved (utcEnv "2025-07-10")).1 sampleHeap sampleHeap_valid).2.2.1 "b",
   ((isValidHeap_preserved (utcEnv "2025-07-10")).1 sampleHeap sampleHeap_valid).1
      Question.mk0 "2025-07-10"⟩

/-- C2: for every list of items and every reference date, the heap produced by the
constructor (Floyd build: `siftDown` from index `size / 2 - 1` down to 0) satisfies
`isValidHeap`. -/
theorem build_isValidHeap (env : Env) (questions : List Question) (today : String) :
    isValidHeap (build env questions today) = true := by
  rw [isValidHeap_iff]
  exact build_valid env questions today

/-- C3: on a non-empty valid heap `pop` returns the entry `top` returns, whose score is at
most the score of every entry of the heap, and leaves exactly the original entries minus
that entry (as a multiset), so the size is one smaller. -/
theorem pop_min_and_rest (h : Heap) (hv : isValidHeap h = true) (hne : h ≠ []) :
    ∃ e h1, pop h = some (e, h1) ∧ top h = some e
      ∧ (∀ x ∈ h, e.priorityScore ≤ x.priorityScore)
      ∧ (e :: h1).Perm h ∧ size h1 = size h - 1 := by
  rw [isValidHeap_iff] at hv
  have hp := pop_eq_some h hne
  refine ⟨_, _, hp, ?_, ?_, pop_perm h _ _ hp, ?_⟩
  · unfold top
    have : ¬ (h.isEmpty = true) := by
      rw [List.isEmpty_iff]
      exact hne
    rw [if_neg this]
  · intro x hx
    obtain ⟨i, hi, hxi⟩ := List.mem_iff_getElem.mp hx
    have := root_le h hv i hi
    unfold score at this
    rw [entry_eq_getElem h hi, hxi] at this
    exact this
  · have := pop_length h _ _ hp
    unfold size
    omega

/-- Witness for C3: the sample heap. -/
theorem pop_min_and_rest_witness :
    isValidHeap sampleHeap = true ∧ sampleHeap ≠ []
      ∧ ∃ e h1, pop sampleHeap = some (e, h1) ∧ top sampleHeap = some e
          ∧ (∀ x ∈ sampleHeap, e.priorityScore ≤ x.priorityScore)
          ∧ (e :: h1).Perm sampleHeap ∧ size h1 = size sampleHeap - 1 :=
  ⟨sampleHeap_valid, by decide, pop_min_and_rest sampleHeap sampleHeap_valid (by decide)⟩

end RevisionHeap

namespace QuestionHashMap

/-! ### Buckets -/

theorem getD_set_bucket (bs : List Bucket) (i j : Nat) (b : Bucket) (hi : i < bs.length) :
    (bs.set i b).getD j [] = if j = i then b else bs.getD j [] := by
  simp only [List.getD_eq_getElem?_getD, List.getElem?_set]
  by_cases hji : j = i
  · subst hji
    simp [hi]
  · have : ¬ i = j := fun e => hji e.symm
    simp [hji, this]

theorem getD_replicate_nil (n j : Nat) : (List.replicate n ([] : Bucket)).getD j [] = [] := by
  simp only [List.getD_eq_getElem?_getD, List.getElem?_replicate]
  split_ifs <;> rfl

theorem mem_flatten_of_mem_getD (bs : List Bucket) (i : Nat) (e : Entry)
    (he : e ∈ bs.getD i []) : e ∈ bs.flatten := by
  by_cases hi : i < bs.length
  · rw [List.getD_eq_getElem bs [] hi] at he
    exact List.mem_flatten.mpr ⟨bs[i], List.getElem_mem hi, he⟩
  · rw [List.getD_eq_default bs [] (by omega)] at he
    simp at he

theorem exists_getD_of_mem_flatten (bs : List Bucket) (e : Entry) (he : e ∈ bs.flatten) :
    ∃ i, i < bs.length ∧ e ∈ bs.getD i [] := by
  obtain ⟨b, hb, heb⟩ := List.mem_flatten.mp he
  obtain ⟨i, hi, hbi⟩ := List.mem_iff_getElem.mp hb
  refine ⟨i, hi, ?_⟩
  rw [List.getD_eq_getElem bs [] hi, hbi]
  exact heb

/-- A search through all buckets finds what a search through bucket `j` finds when no other
bucket holds a match. -/
theorem find?_flatten_bucket (p : Entry → Bool) : ∀ (bs : List Bucket) (j : Nat),
    (∀ i, i ≠ j → ∀ e ∈ bs.getD i [], p e = false) →
      bs.flatten.find? p = (bs.getD j []).find? p := by
  intro bs
  induction bs with
  | nil => intro j _; rfl
  | cons b rest ih =>
    intro j h
    rw [List.flatten_cons, List.find?_append]
    cases j with
    | zero =>
      have hrest : rest.flatten.find? p = none := by
        rw [ih rest.length (fun i _ e he => h (i + 1) (by omega) e (by simpa using he))]
        rw [List.getD_eq_default rest [] (le_refl _)]
        rfl
      rw [hrest]
      simp
    | succ j =>
      have hb : b.find? p = none := by
        rw [List.find?_eq_none]
        intro e he
        have := h 0 (by omega) e (by simpa using he)
        simp [this]
      rw [hb, ih j (fun i hi e he => h (i + 1) (by omega) e (by simpa using he))]
      simp

theorem find?_filter_of_imp (p q : Entry → Bool) (hpq : ∀ e, p e = true → q e = true) :
    ∀ l : List Entry, (l.filter q).find? p = l.find? p := by
  intro l
  induction l with
  | nil => rfl
  | cons e es ih =>
    by_cases hq : q e = true
    · rw [List.filter_cons_of_pos hq]
      by_cases hp : p e = true
      · rw [List.find?_cons_of_pos _ hp, List.find?_cons_of_pos _ hp]
      · rw [List.find?_cons_of_neg _ hp, List.find?_cons_of_neg _ hp, ih]
    · rw [List.filter_cons_of_neg hq]
      have hp : ¬ p e = true := fun hp => hq (hpq e hp)
      rw [List.find?_cons_of_neg _ hp, ih]

/-! ### The well-formedness of a store -/

theorem indexFor_lt (cap : Int) (hcap : 0 < cap) (key : String) :
    indexFor cap key < cap.toNat := by
  unfold indexFor
  exact Nat.mod_lt _ (by omega)

theorem WF.index_lt {m : QuestionHashMap} (hw : WF m) (key : String) :
    index m key < m.buckets_.length := by
  rw [hw.2.1]
  exact indexFor_lt _ hw.1 key

theorem wf_mkCap (cap : Int) (hcap : 0 < cap) : WF (mkCap cap) := by
  refine ⟨hcap, by simp [mkCap], ?_⟩
  intro i e he
  unfold bucketAt mkCap at he
  rw [getD_replicate_nil] at he
  simp at he

/-- Under well-formedness `get` is a search through all buckets. -/
theorem find?_bucket_eq_flatten (m : QuestionHashMap) (hw : WF m) (key : String) :
    (bucketAt m (index m key)).find? (fun e => decide (e.1 = key))
      = m.buckets_.flatten.find? (fun e => decide (e.1 = key)) := by
  unfold bucketAt
  rw [find?_flatten_bucket]
  intro i hi e he
  have := hw.2.2 i e he
  simp only [decide_eq_false_iff_not]
  intro hk
  rw [hk] at this
  exact hi this.symm

/-! ### `rehash` -/

theorem relocate_length (cap : Int) (nb : List Bucket) (e : Entry) :
    (relocate cap nb e).length = nb.length := by
  simp [relocate]

theorem foldl_relocate_length (cap : Int) : ∀ (L : List Entry) (nb : List Bucket),
    (L.foldl (relocate cap) nb).length = nb.length := by
  intro L
  induction L with
  | nil => intro nb; rfl
  | cons e es ih =>
    intro nb
    rw [List.foldl_cons, ih, relocate_length]

theorem foldl_relocate_getD (cap : Int) (hcap : 0 < cap) :
    ∀ (L : List Entry) (nb : List Bucket), nb.length = cap.toNat → ∀ j,
      (L.foldl (relocate cap) nb).getD j []
        = nb.getD j [] ++ L.filter (fun e => decide (indexFor cap e.1 = j)) := by
  intro L
  induction L with
  | nil => intro nb _ j; simp
  | cons e es ih =>
    intro nb hlen j
    rw [List.foldl_cons, ih _ (by rw [relocate_length]; exact hlen) j]
    have hidx : indexFor cap e.1 < nb.length := by
      rw [hlen]
      exact indexFor_lt cap hcap e.1
    unfold relocate
    simp only []
    rw [getD_set_bucket nb _ j _ hidx]
    by_cases hj : j = indexFor cap e.1
    · rw [if_pos hj, List.filter_cons_of_pos (by simp [hj]), hj]
      simp
    · rw [if_neg hj, List.filter_cons_of_neg (by simpa using fun h => hj h.symm)]

theorem rehash_buckets (m : QuestionHashMap) :
    (rehash m).buckets_
      = m.buckets_.flatten.foldl (relocate (m.capacity_ * 2))
          (List.replicate (m.capacity_ * 2).toNat []) := by
  unfold rehash
  simp only []
  rw [List.foldl_flatten]

theorem rehash_capacity (m : QuestionHashMap) : (rehash m).capacity_ = m.capacity_ * 2 := rfl

theorem rehash_size (m : QuestionHashMap) : (rehash m).size_ = m.size_ := rfl

theorem bucketAt_rehash (m : QuestionHashMap) (hcap : 0 < m.capacity_) (j : Nat) :
    bucketAt (rehash m) j
      = m.buckets_.flatten.filter (fun e => decide (indexFor (m.capacity_ * 2) e.1 = j)) := by
  unfold bucketAt
  rw [rehash_buckets, foldl_relocate_getD _ (by omega) _ _ (by simp), getD_replicate_nil]
  rfl

theorem wf_rehash (m : QuestionHashMap) (hcap : 0 < m.capacity_) : WF (rehash m) := by
  refine ⟨by rw [rehash_capacity]; omega, ?_, ?_⟩
  · rw [rehash_buckets, foldl_relocate_length, rehash_capacity]
    simp
  · intro i e he
    rw [bucketAt_rehash m hcap] at he
    have := (List.mem_filter.mp he).2
    rw [rehash_capacity]
    simpa using this

theorem get_rehash (m : QuestionHashMap) (hw : WF m) (key : String) :
    get (rehash m) key = get m key := by
  unfold get
  rw [find?_bucket_eq_flatten m hw key, bucketAt_rehash m hw.1]
  rw [find?_filter_of_imp]
  intro e he
  have : e.1 = key := by simpa using he
  simp [index, rehash_capacity, this]

/-! ### The assignment loop of `put` -/

theorem assign_eq_none_iff (key : String) (val : Question) :
    ∀ b : Bucket, assign key val b = none ↔ ∀ e ∈ b, e.1 ≠ key := by
  intro b
  induction b with
  | nil => simp [assign]
  | cons e es ih =>
    unfold assign
    by_cases he : e.1 = key
    · simp [he]
    · rw [if_neg he]
      cases ha : assign key val es with
      | none =>
        have := ih.mp ha
        constructor
        · intro _ x hx
          rcases List.mem_cons.mp hx with h | h
          · rw [h]; exact he
          · exact this x h
        · intro _; rfl
      | some es1 =>
        simp only [false_iff, reduceCtorEq]
        intro hall
        have : assign key val es = none :=
          ih.mpr (fun x hx => hall x (List.mem_cons_of_mem _ hx))
        rw [this] at ha
        exact absurd ha (by simp)

theorem assign_none_find? (key : String) (val : Question) (b : Bucket)
    (h : assign key val b = none) : b.find? (fun e => decide (e.1 = key)) = none := by
  rw [List.find?_eq_none]
  intro e he
  have := (assign_eq_none_iff key val b).mp h e he
  simpa using this

theorem assign_some_find? (key : String) (val : Question) :
    ∀ (b b1 : Bucket), assign key val b = some b1 →
      (∃ e, b.find? (fun e => decide (e.1 = key)) = some e)
        ∧ b1.find? (fun e => decide (e.1 = key)) = some (key, val)
        ∧ (∀ k2, k2 ≠ key →
            b1.find? (fun e => decide (e.1 = k2)) = b.find? (fun e => decide (e.1 = k2)))
        ∧ b1.map (fun e => e.1) = b.map (fun e => e.1) := by
  intro b
  induction b with
  | nil => intro b1 h; simp [assign] at h
  | cons e es ih =>
    intro b1 h
    unfold assign at h
    by_cases he : e.1 = key
    · rw [if_pos he] at h
      injection h with h
      subst h
      refine ⟨⟨e, by simp [he]⟩, by simp [he], ?_, by simp⟩
      intro k2 hk2
      have hne : ¬ key = k2 := fun h => hk2 h.symm
      simp [he, hne]
    · rw [if_neg he] at h
      cases ha : assign key val es with
      | none => rw [ha] at h; simp at h
      | some es1 =>
        rw [ha] at h
        injection h with h
        subst h
        obtain ⟨⟨x, hx⟩, h2, h3, h4⟩ := ih es1 ha
        refine ⟨⟨x, by simp [he, hx]⟩, by simp [he, h2], ?_, by simp [h4]⟩
        intro k2 hk2
        by_cases hek : e.1 = k2
        · simp [hek]
        · simp [hek, h3 k2 hk2]

/-! ### The body of `put` -/

theorem putNoGrow_capacity (m : QuestionHashMap) (key : String) (val : Question) :
    (putNoGrow m key val).capacity_ = m.capacity_ := by
  unfold putNoGrow
  simp only []
  split <;> rfl

theorem putNoGrow_buckets (m : QuestionHashMap) (key : String) (val : Question) :
    (putNoGrow m key val).buckets_
      = m.buckets_.set (index m key)
          (match assign key val (bucketAt m (index m key)) with
           | some b1 => b1
           | none => bucketAt m (index m key) ++ [(key, val)]) := by
  unfold putNoGrow
  simp only []
  split <;> rfl

theorem putNoGrow_size (m : QuestionHashMap) (key : String) (val : Question) :
    (putNoGrow m key val).size_
      = if (get m key).1 = true then m.size_ else m.size_ + 1 := by
  unfold putNoGrow get
  simp only []
  cases ha : assign key val (bucketAt m (index m key)) with
  | none =>
    rw [assign_none_find? key val _ ha]
    simp
  | some b1 =>
    obtain ⟨⟨x, hx⟩, _⟩ := assign_some_find? key val _ b1 ha
    rw [hx]
    simp

theorem bucketAt_putNoGrow (m : QuestionHashMap) (hw : WF m) (key : String) (val : Question)
    (j : Nat) :
    bucketAt (putNoGrow m key val) j
      = if j = index m key then
          (match assign key val (bucketAt m (index m key)) with
           | some b1 => b1
           | none => bucketAt m (index m key) ++ [(key, val)])
        else bucketAt m j := by
  unfold bucketAt
  rw [putNoGrow_buckets, getD_set_bucket _ _ _ _ (hw.index_lt key)]
  rfl

theorem wf_putNoGrow (m : QuestionHashMap) (hw : WF m) (key : String) (val : Question) :
    WF (putNoGrow m key val) := by
  refine ⟨by rw [putNoGrow_capacity]; exact hw.1, ?_, ?_⟩
  · rw [putNoGrow_buckets, putNoGrow_capacity, List.length_set]
    exact hw.2.1
  · intro i e he
    rw [putNoGrow_capacity]
    rw [bucketAt_putNoGrow m hw] at he
    by_cases hi : i = index m key
    · rw [if_pos hi] at he
      cases ha : assign key val (bucketAt m (index m key)) with
      | none =>
        rw [ha] at he
        simp only [List.mem_append, List.mem_singleton] at he
        rcases he with he | he
        · rw [hi]
          exact hw.2.2 _ e he
        · rw [he, hi]
          rfl
      | some b1 =>
        rw [ha] at he
        simp only [] at he
        obtain ⟨_, _, _, hkeys⟩ := assign_some_find? key val _ b1 ha
        have hmem : e.1 ∈ b1.map (fun e => e.1) := List.mem_map_of_mem _ he
        rw [hkeys] at hmem
        obtain ⟨x, hx, hxe⟩ := List.mem_map.mp hmem
        rw [← hxe, hi]
        exact hw.2.2 _ x hx
    · rw [if_neg hi] at he
      exact hw.2.2 i e he

theorem get_putNoGrow_same (m : QuestionHashMap) (hw : WF m) (key : String) (val : Question) :
    get (putNoGrow m key val) key = (true, val) := by
  unfold get
  have hidx : index (putNoGrow m key val) key = index m key := by
    unfold index
    rw [putNoGrow_capacity]
  rw [hidx, bucketAt_putNoGrow m hw, if_pos rfl]
  cases ha : assign key val (bucketAt m (index m key)) with
  | none =>
    simp only []
    rw [List.find?_append, assign_none_find? key val _ ha]
    simp
  | some b1 =>
    simp only []
    rw [(assign_some_find? key val _ b1 ha).2.1]

theorem get_putNoGrow_other (m : QuestionHashMap) (hw : WF m) (key : String) (val : Question)
    (k2 : String) (hk : k2 ≠ key) : get (putNoGrow m key val) k2 = get m k2 := by
  unfold get
  have hidx : index (putNoGrow m key val) k2 = index m k2 := by
    unfold index
    rw [putNoGrow_capacity]
  rw [hidx, bucketAt_putNoGrow m hw]
  by_cases hi : index m k2 = index m key
  · rw [if_pos hi, hi]
    cases ha : assign key val (bucketAt m (index m key)) with
    | none =>
      simp only []
      rw [List.find?_append]
      have : ¬ key = k2 := fun h => hk h.symm
      simp [this]
    | some b1 =>
      simp only []
      rw [(assign_some_find? key val _ b1 ha).2.2.1 k2 hk]
  · rw [if_neg hi]

/-! ### `put`, `remove` and the stores they build -/

theorem wf_grow (m : QuestionHashMap) (hw : WF m) :
    WF (if overLoad m = true then rehash m else m) := by
  split_ifs
  · exact wf_rehash m hw.1
  · exact hw

theorem get_grow (m : QuestionHashMap) (hw : WF m) (key : String) :
    get (if overLoad m = true then rehash m else m) key = get m key := by
  split_ifs
  · exact get_rehash m hw key
  · rfl

theorem size_grow (m : QuestionHashMap) :
    (if overLoad m = true then rehash m else m).size_ = m.size_ := by
  split_ifs <;> rfl

theorem wf_put (m : QuestionHashMap) (hw : WF m) (key : String) (val : Question) :
    WF (put m key val) :=
  wf_putNoGrow _ (wf_grow m hw) key val

theorem wf_remove (m : QuestionHashMap) (hw : WF m) (key : String) : WF (remove m key).2 := by
  unfold remove
  simp only []
  by_cases hany : (bucketAt m (index m key)).any (fun e => decide (e.1 = key)) = true
  · rw [if_pos hany]
    refine ⟨hw.1, ?_, ?_⟩
    · simp only [List.length_set]
      exact hw.2.1
    · intro i e he
      unfold bucketAt at he
      simp only [] at he
      rw [getD_set_bucket _ _ _ _ (hw.index_lt key)] at he
      by_cases hi : i = index m key
      · rw [if_pos hi] at he
        rw [hi]
        exact hw.2.2 _ e (List.mem_of_mem_eraseP he)
      · rw [if_neg hi] at he
        exact hw.2.2 i e he
  · rw [if_neg hany]
    exact hw

theorem built_wf (m : QuestionHashMap) (hb : Built m) : WF m := by
  induction hb with
  | ofCap cap hcap => exact wf_mkCap cap hcap
  | ofPut key val _ ih => exact wf_put _ ih key val
  | ofRemove key _ ih => exact wf_remove _ ih key

/-! ### Claim C4 -/

/-- C4: on every store with positive capacity built by `put` and `remove`, after
`put(k, v)` the lookup `get(k)` returns `(true, v)` and `get(k2)` for every other key
returns what it returned before, whether or not the `put` rehashes or overwrites; an
overwrite leaves `size()` unchanged and a new key increases it by one. -/
theorem put_get_law (m : QuestionHashMap) (hb : Built m) (k : String) (v : Question)
    (k2 : String) :
    get (put m k v) k = (true, v)
      ∧ (k2 ≠ k → get (put m k v) k2 = get m k2)
      ∧ ((get m k).1 = true → size (put m k v) = size m)
      ∧ ((get m k).1 = false → size (put m k v) = size m + 1) := by
  have hw := built_wf m hb
  have hg := wf_grow m hw
  have hsize : (put m k v).size_ = if (get m k).1 = true then m.size_ else m.size_ + 1 := by
    unfold put
    rw [putNoGrow_size, get_grow m hw, size_grow]
  refine ⟨get_putNoGrow_same _ hg k v, ?_, ?_, ?_⟩
  · intro hk
    unfold put
    rw [get_putNoGrow_other _ hg k v k2 hk, get_grow m hw]
  · intro hfound
    unfold size
    rw [hsize, if_pos hfound]
  · intro hfound
    unfold size
    rw [hsize, if_neg (by simp [hfound])]

/-- Witness for C4: a store of capacity 1, where the first `put` rehashes. -/
theorem put_get_law_witness :
    get (put (mkCap 1) "q1" (sampleItem "q1" 120)) "q1" = (true, sampleItem "q1" 120)
      ∧ size (put (mkCap 1) "q1" (sampleItem "q1" 120)) = size (mkCap 1) + 1 :=
  ⟨(put_get_law (mkCap 1) (Built.ofCap 1 (by decide)) "q1" (sampleItem "q1" 120) "q2").1,
   (put_get_law (mkCap 1) (Built.ofCap 1 (by decide)) "q1" (sampleItem "q1" 120) "q2").2.2.2
     (by decide)⟩

/-! ### The contents of a store -/

theorem flatten_replicate_nil (n : Nat) : (List.replicate n ([] : Bucket)).flatten = [] := by
  induction n with
  | zero => rfl
  | succ n ih => rw [List.replicate_succ, List.flatten_cons, ih]; rfl

/-- Appending an entry to one bucket adds exactly that entry to the contents. -/
theorem flatten_set_append_perm (e : Entry) : ∀ (bs : List Bucket) (idx : Nat),
    idx < bs.length → (bs.set idx (bs.getD idx [] ++ [e])).flatten.Perm (e :: bs.flatten) := by
  intro bs
  induction bs with
  | nil => intro idx h; simp at h
  | cons b rest ih =>
    intro idx h
    cases idx with
    | zero =>
      simp only [List.set_cons_zero, List.getD_cons_zero, List.flatten_cons, List.append_assoc,
        List.singleton_append]
      exact List.perm_middle
    | succ idx =>
      simp only [List.set_cons_succ, List.getD_cons_succ, List.flatten_cons]
      have h1 : idx < rest.length := by simpa using h
      exact ((ih idx h1).append_left b).trans List.perm_middle

theorem foldl_relocate_perm (cap : Int) (hcap : 0 < cap) :
    ∀ (L : List Entry) (nb : List Bucket), nb.length = cap.toNat →
      (L.foldl (relocate cap) nb).flatten.Perm (nb.flatten ++ L) := by
  intro L
  induction L with
  | nil => intro nb _; simp
  | cons e es ih =>
    intro nb hlen
    rw [List.foldl_cons]
    have hidx : indexFor cap e.1 < nb.length := by
      rw [hlen]
      exact indexFor_lt cap hcap e.1
    have h1 := ih (relocate cap nb e) (by rw [relocate_length]; exact hlen)
    have h2 : (relocate cap nb e).flatten.Perm (e :: nb.flatten) :=
      flatten_set_append_perm e nb _ hidx
    exact h1.trans ((h2.append_right es).trans List.perm_middle.symm)

/-- The method `rehash` keeps the contents: no entry is lost and none is duplicated. -/
theorem rehash_flatten_perm (m : QuestionHashMap) (hcap : 0 < m.capacity_) :
    (rehash m).buckets_.flatten.Perm m.buckets_.flatten := by
  rw [rehash_buckets]
  have := foldl_relocate_perm (m.capacity_ * 2) (by omega) m.buckets_.flatten
    (List.replicate (m.capacity_ * 2).toNat []) (by simp)
  rw [flatten_replicate_nil] at this
  simpa using this

theorem grow_flatten_perm (m : QuestionHashMap) (hw : WF m) :
    (if overLoad m = true then rehash m else m).buckets_.flatten.Perm m.buckets_.flatten := by
  split_ifs
  · exact rehash_flatten_perm m hw.1
  · exact List.Perm.refl _

theorem assign_none_of_absent (m : QuestionHashMap) (key : String) (val : Question)
    (habs : key ∉ m.buckets_.flatten.map (fun e => e.1)) :
    assign key val (bucketAt m (index m key)) = none := by
  rw [assign_eq_none_iff]
  intro e he hk
  apply habs
  rw [← hk]
  exact List.mem_map_of_mem _ (mem_flatten_of_mem_getD _ _ e he)

theorem putNoGrow_absent (m : QuestionHashMap) (hw : WF m) (key : String) (val : Question)
    (habs : key ∉ m.buckets_.flatten.map (fun e => e.1)) :
    (putNoGrow m key val).buckets_.flatten.Perm ((key, val) :: m.buckets_.flatten)
      ∧ (putNoGrow m key val).size_ = m.size_ + 1 := by
  have ha := assign_none_of_absent m key val habs
  constructor
  · rw [putNoGrow_buckets, ha]
    exact flatten_set_append_perm (key, val) m.buckets_ _ (hw.index_lt key)
  · unfold putNoGrow
    simp only []
    rw [ha]

/-- Putting a key that is not in the store adds exactly one entry. -/
theorem put_absent (m : QuestionHashMap) (hw : WF m) (key : String) (val : Question)
    (habs : key ∉ m.buckets_.flatten.map (fun e => e.1)) :
    (put m key val).buckets_.flatten.Perm ((key, val) :: m.buckets_.flatten)
      ∧ (put m key val).size_ = m.size_ + 1 := by
  have hp := grow_flatten_perm m hw
  have habs1 : key ∉ (if overLoad m = true then rehash m else m).buckets_.flatten.map
      (fun e => e.1) := by
    intro hmem
    exact habs ((hp.map _).mem_iff.mp hmem)
  obtain ⟨h1, h2⟩ := putNoGrow_absent _ (wf_grow m hw) key val habs1
  constructor
  · exact h1.trans (hp.cons _)
  · unfold put
    rw [h2, size_grow]

theorem foldl_put_distinct : ∀ (qs : List Question) (m : QuestionHashMap), WF m →
    (∀ q ∈ qs, q.id ∉ m.buckets_.flatten.map (fun e => e.1)) →
    (qs.map (fun q => q.id)).Nodup →
      WF (qs.foldl (fun m q => put m q.id q) m)
        ∧ (qs.foldl (fun m q => put m q.id q) m).buckets_.flatten.Perm
            (m.buckets_.flatten ++ qs.map (fun q => (q.id, q)))
        ∧ (qs.foldl (fun m q => put m q.id q) m).size_ = m.size_ + qs.length := by
  intro qs
  induction qs with
  | nil => intro m hw _ _; exact ⟨hw, by simp, by simp⟩
  | cons q rest ih =>
    intro m hw habs hnd
    rw [List.foldl_cons]
    rw [List.map_cons, List.nodup_cons] at hnd
    obtain ⟨hp, hs⟩ := put_absent m hw q.id q (habs q (List.mem_cons_self _ _))
    have habs1 : ∀ x ∈ rest, x.id ∉ (put m q.id q).buckets_.flatten.map (fun e => e.1) := by
      intro x hx hmem
      have := (hp.map (fun e => e.1)).mem_iff.mp hmem
      rw [List.map_cons, List.mem_cons] at this
      rcases this with h | h
      · apply hnd.1
        simp only [] at h
        rw [← h]
        exact List.mem_map_of_mem (fun q => q.id) hx
      · exact habs x (List.mem_cons_of_mem _ hx) h
    obtain ⟨h1, h2, h3⟩ := ih (put m q.id q) (wf_put m hw q.id q) habs1 hnd.2
    refine ⟨h1, ?_, ?_⟩
    · refine h2.trans ?_
      rw [List.map_cons]
      exact (hp.append_right _).trans List.perm_middle.symm
    · rw [h3, hs, List.length_cons]
      push_cast
      ring

/-! ### The bulk accessors -/

theorem foldl_collect (f : Entry → List Question) :
    ∀ (b : List Entry) (out : List Question),
      b.foldl (fun out e => out ++ f e) out = out ++ (b.map f).flatten := by
  intro b
  induction b with
  | nil => intro out; simp
  | cons e es ih =>
    intro out
    rw [List.foldl_cons, ih]
    simp

theorem foldl_collect_buckets (f : Entry → List Question) :
    ∀ (bs : List Bucket) (out : List Question),
      bs.foldl (fun out b => b.foldl (fun out e => out ++ f e) out) out
        = out ++ (bs.flatten.map f).flatten := by
  intro bs
  induction bs with
  | nil => intro out; simp
  | cons b rest ih =>
    intro out
    rw [List.foldl_cons, ih, foldl_collect]
    simp

theorem getAllQuestions_eq (m : QuestionHashMap) :
    getAllQuestions m = m.buckets_.flatten.map (fun e => e.2) := by
  unfold getAllQuestions
  have := foldl_collect_buckets (fun e => [e.2]) m.buckets_ []
  simp only [List.nil_append] at this
  rw [this]
  induction m.buckets_.flatten with
  | nil => rfl
  | cons e es ih => simp [ih]

theorem filter_eq (m : QuestionHashMap) (pred : Question → Bool) :
    filter m pred = (m.buckets_.flatten.map (fun e => e.2)).filter pred := by
  unfold filter
  have hfun : (fun (out : List Question) (b : Bucket) =>
        b.foldl (fun out e => if pred e.2 = true then out ++ [e.2] else out) out)
      = (fun out b => b.foldl (fun out e => out ++ (if pred e.2 = true then [e.2] else [])) out) := by
    funext out b
    congr 1
    funext out e
    split_ifs <;> simp
  rw [hfun]
  have := foldl_collect_buckets (fun e => if pred e.2 = true then [e.2] else []) m.buckets_ []
  simp only [List.nil_append] at this
  rw [this]
  induction m.buckets_.flatten with
  | nil => rfl
  | cons e es ih =>
    by_cases hp : pred e.2 = true
    · simp [hp, ih]
    · simp [hp, ih]

theorem fromList_contents (qs : List Question) (hnd : (qs.map (fun q => q.id)).Nodup) :
    (getAllQuestions (fromList qs)).Perm qs ∧ (fromList qs).size_ = qs.length := by
  have hw : WF mk0 := wf_mkCap 16 (by decide)
  have hempty : mk0.buckets_.flatten = [] := flatten_replicate_nil _
  obtain ⟨_, h2, h3⟩ := foldl_put_distinct qs mk0 hw (by rw [hempty]; simp) hnd
  have hmap : ∀ l : List Question,
      (l.map (fun q => ((q.id, q) : Entry))).map (fun e => e.2) = l := by
    intro l
    induction l with
    | nil => rfl
    | cons q r ih => rw [List.map_cons, List.map_cons, ih]
  constructor
  · rw [getAllQuestions_eq]
    have := h2.map (fun e => e.2)
    rw [hempty, List.nil_append, hmap] at this
    exact this
  · unfold fromList
    rw [h3]
    simp [mk0, mkCap]

/-! ### Claim C5 -/

/-- C5: putting items with pairwise distinct identifiers into a fresh store (capacity 16)
and scanning gives back exactly those items: `filter(pred)` is a permutation of the
inserted items that satisfy `pred`, `getAllQuestions()` is a permutation of the inserted
items without duplicates, `size()` is their number, and another insertion order gives the
same items. -/
theorem store_round_trip (qs : List Question) (hnd : (qs.map (fun q => q.id)).Nodup)
    (pred : Question → Bool) :
    (filter (fromList qs) pred).Perm (qs.filter pred)
      ∧ (getAllQuestions (fromList qs)).Perm qs
      ∧ (getAllQuestions (fromList qs)).Nodup
      ∧ size (fromList qs) = qs.length
      ∧ ∀ qs2 : List Question, qs2.Perm qs →
          (getAllQuestions (fromList qs2)).Perm (getAllQuestions (fromList qs))
            ∧ (filter (fromList qs2) pred).Perm (filter (fromList qs) pred) := by
  have hall : ∀ l : List Question, (l.map (fun q => q.id)).Nodup →
      (filter (fromList l) pred).Perm (l.filter pred)
        ∧ (getAllQuestions (fromList l)).Perm l := by
    intro l hl
    obtain ⟨h1, _⟩ := fromList_contents l hl
    refine ⟨?_, h1⟩
    rw [filter_eq, ← getAllQuestions_eq]
    exact h1.filter pred
  obtain ⟨hf, hg⟩ := hall qs hnd
  refine ⟨hf, hg, ?_, (fromList_contents qs hnd).2, ?_⟩
  · exact hg.nodup_iff.mpr (List.Nodup.of_map _ hnd)
  · intro qs2 hperm
    have hnd2 : (qs2.map (fun q => q.id)).Nodup := (hperm.map _).nodup_iff.mpr hnd
    obtain ⟨hf2, hg2⟩ := hall qs2 hnd2
    exact ⟨hg2.trans (hperm.trans hg.symm), hf2.trans ((hperm.filter pred).trans hf.symm)⟩

/-- Witness for C5: thirteen items, one more than capacity 16 holds without doubling. -/
theorem store_round_trip_witness :
    (thirteen.map (fun q => q.id)).Nodup
      ∧ (getAllQuestions (fromList thirteen)).Perm thirteen
      ∧ size (fromList thirteen) = 13 :=
  ⟨by decide,
   (store_round_trip thirteen (by decide) (fun q => decide (q.xpEarned > 70))).2.1,
   (store_round_trip thirteen (by decide) (fun q => decide (q.xpEarned > 70))).2.2.2.1⟩

end QuestionHashMap

namespace RevisionEngine

/-! ### The next date and the awarded score inside `completeRevision` -/

theorem completeRevision_difficulty (env : Env) (q : Question) (quality timeTaken : Int) :
    (completeRevision env q quality timeTaken).2.difficulty = q.difficulty := by
  unfold completeRevision
  by_cases h3 : quality ≥ 3 <;> simp only [h3, if_true, if_false] <;> split_ifs <;> rfl

theorem completeRevision_lastRevisionDate (env : Env) (q : Question)
    (quality timeTaken : Int) :
    (completeRevision env q quality timeTaken).2.lastRevisionDate = env.today := by
  unfold completeRevision
  by_cases h3 : quality ≥ 3 <;> simp only [h3, if_true, if_false] <;> rfl

theorem completeRevision_nextDate (env : Env) (q : Question) (quality timeTaken : Int) :
    (completeRevision env q quality timeTaken).1.nextDate
      = (completeRevision env q quality timeTaken).2.nextRevisionDate := by
  unfold completeRevision
  by_cases h3 : quality ≥ 3 <;> simp only [h3, if_true, if_false]

/-- The date `completeRevision` stores: `addDaysToDate` of today and the interval of the
updated item. -/
theorem completeRevision_nextRevisionDate (env : Env) (hne : env.today ≠ "") (q : Question)
    (quality timeTaken : Int) :
    (completeRevision env q quality timeTaken).2.nextRevisionDate
      = addDaysToDate env env.today
          (nextInterval (completeRevision env q quality timeTaken).2) := by
  have key : ∀ q1 : Question,
      calculateNextDate env { q1 with lastRevisionDate := todayStr env }
        = addDaysToDate env env.today (nextInterval q1) := by
    intro q1
    rw [calculateNextDate_eq]
    have h1 : specBaseDate env { q1 with lastRevisionDate := todayStr env } = env.today := by
      unfold specBaseDate todayStr
      simp only [ne_eq, hne, not_false_eq_true, if_true]
    rw [h1]
    congr 1
  unfold completeRevision
  by_cases h3 : quality ≥ 3 <;> simp only [h3, if_true, if_false] <;> split_ifs <;>
    exact (key _).trans (congrArg _ (nextInterval_congr _ _ rfl rfl rfl))

theorem truncToInt_of_nonneg (x : ℚ) (hx : 0 ≤ x) : truncToInt x = ⌊x⌋ := by
  unfold truncToInt
  rw [if_pos hx]

theorem truncToInt_nonneg (x : ℚ) (hx : 0 ≤ x) : 0 ≤ truncToInt x := by
  rw [truncToInt_of_nonneg x hx]
  exact Int.floor_nonneg.mpr hx

/-- The score `calculateRevisionXP` awards reads only the difficulty, the cycle and the
streak of the item. -/
theorem calculateRevisionXP_congr (q1 q2 : Question) (quality timeTaken : Int)
    (hd : q1.difficulty = q2.difficulty) (hc : q1.revisionCycle = q2.revisionCycle)
    (hs : q1.streak = q2.streak) :
    calculateRevisionXP q1 quality timeTaken = calculateRevisionXP q2 quality timeTaken := by
  unfold calculateRevisionXP
  rw [hd, hc, hs]

/-- The score `completeRevision` awards is computed on the updated cycle and streak. -/
theorem completeRevision_xpAwarded (env : Env) (q : Question) (quality timeTaken : Int) :
    (completeRevision env q quality timeTaken).1.xpAwarded
      = calculateRevisionXP
          { q with
            revisionCycle := if quality ≥ 3 then q.revisionCycle + 1 else 1,
            streak := if quality ≥ 3 then q.streak + 1 else 0 } quality timeTaken := by
  unfold completeRevision
  by_cases h3 : quality ≥ 3 <;> simp only [h3, if_true, if_false] <;> split_ifs <;>
    exact calculateRevisionXP_congr _ _ _ _ rfl rfl rfl

theorem completeRevision_xpEarned (env : Env) (q : Question) (quality timeTaken : Int) :
    (completeRevision env q quality timeTaken).2.xpEarned
      = q.xpEarned + (completeRevision env q quality timeTaken).1.xpAwarded := by
  unfold completeRevision
  by_cases h3 : quality ≥ 3 <;> simp only [h3, if_true, if_false] <;> split_ifs <;> rfl

theorem qualityMult_bound (quality : Int) (h0 : 0 ≤ quality) (h5 : quality ≤ 5) :
    0 ≤ roundD (1 / 2 + roundD ((quality : ℚ) * roundD (1 / 5)))
      ∧ roundD (1 / 2 + roundD ((quality : ℚ) * roundD (1 / 5))) ≤ 7 / 4 := by
  have hq0 : (0 : ℚ) ≤ (quality : ℚ) := by exact_mod_cast h0
  have hq5 : (quality : ℚ) ≤ 5 := by exact_mod_cast h5
  obtain ⟨a0, a1⟩ := roundD_mem (1 / 5) (1 / 4) 1 2 (by norm_num) (by norm_num) (by norm_num)
    (by norm_num) (by norm_num)
  obtain ⟨b0, b1⟩ := roundD_mem ((quality : ℚ) * roundD (1 / 5)) (5 / 4) 5 2 (by norm_num)
    (by norm_num) (by norm_num) (mul_nonneg hq0 a0)
    (le_trans (mul_le_mul hq5 a1 a0 (by norm_num)) (by norm_num))
  exact roundD_mem _ (7 / 4) 7 2 (by norm_num) (by norm_num) (by norm_num) (by linarith)
    (by linarith)

theorem cycleMult_bound (cycle : Int) (h0 : 0 ≤ cycle) :
    0 ≤ roundD (1 + roundD (((min cycle 10 : Int) : ℚ) * roundD (1 / 10)))
      ∧ roundD (1 + roundD (((min cycle 10 : Int) : ℚ) * roundD (1 / 10))) ≤ 9 / 4 := by
  have hm0 : (0 : Int) ≤ min cycle 10 := le_min h0 (by norm_num)
  have hm1 : min cycle 10 ≤ 10 := min_le_right _ _
  have hq0 : (0 : ℚ) ≤ ((min cycle 10 : Int) : ℚ) := by exact_mod_cast hm0
  have hq1 : ((min cycle 10 : Int) : ℚ) ≤ 10 := by exact_mod_cast hm1
  obtain ⟨a0, a1⟩ := roundD_mem (1 / 10) (1 / 8) 1 3 (by norm_num) (by norm_num) (by norm_num)
    (by norm_num) (by norm_num)
  obtain ⟨b0, b1⟩ := roundD_mem (((min cycle 10 : Int) : ℚ) * roundD (1 / 10)) (5 / 4) 5 2
    (by norm_num) (by norm_num) (by norm_num) (mul_nonneg hq0 a0)
    (le_trans (mul_le_mul hq1 a1 a0 (by norm_num)) (by norm_num))
  exact roundD_mem _ (9 / 4) 9 2 (by norm_num) (by norm_num) (by norm_num) (by linarith)
    (by linarith)

theorem streakMult_bound (streak : Int) (h0 : 0 ≤ streak) :
    0 ≤ roundD (1 + roundD (((min streak 7 : Int) : ℚ) * roundD (1 / 20)))
      ∧ roundD (1 + roundD (((min streak 7 : Int) : ℚ) * roundD (1 / 20))) ≤ 23 / 16 := by
  have hm0 : (0 : Int) ≤ min streak 7 := le_min h0 (by norm_num)
  have hm1 : min streak 7 ≤ 7 := min_le_right _ _
  have hq0 : (0 : ℚ) ≤ ((min streak 7 : Int) : ℚ) := by exact_mod_cast hm0
  have hq1 : ((min streak 7 : Int) : ℚ) ≤ 7 := by exact_mod_cast hm1
  obtain ⟨a0, a1⟩ := roundD_mem (1 / 20) (1 / 16) 1 4 (by norm_num) (by norm_num) (by norm_num)
    (by norm_num) (by norm_num)
  obtain ⟨b0, b1⟩ := roundD_mem (((min streak 7 : Int) : ℚ) * roundD (1 / 20)) (7 / 16) 7 4
    (by norm_num) (by norm_num) (by norm_num) (mul_nonneg hq0 a0)
    (le_trans (mul_le_mul hq1 a1 a0 (by norm_num)) (by norm_num))
  exact roundD_mem _ (23 / 16) 23 4 (by norm_num) (by norm_num) (by norm_num) (by linarith)
    (by linarith)

theorem speedMult_bound (timeTaken threshold : Int) (h0 : 0 < timeTaken)
    (h1 : timeTaken < threshold) :
    0 ≤ roundD (1 + roundD (roundD (1 - roundD ((timeTaken : ℚ) / (threshold : ℚ)))
          * roundD (3 / 10)))
      ∧ roundD (1 + roundD (roundD (1 - roundD ((timeTaken : ℚ) / (threshold : ℚ)))
          * roundD (3 / 10))) ≤ 3 / 2 := by
  have ht0 : (0 : ℚ) < (timeTaken : ℚ) := by exact_mod_cast h0
  have ht1 : (timeTaken : ℚ) < (threshold : ℚ) := by exact_mod_cast h1
  have hth : (0 : ℚ) < (threshold : ℚ) := lt_trans ht0 ht1
  have hd0 : (0 : ℚ) ≤ (timeTaken : ℚ) / (threshold : ℚ) := le_of_lt (div_pos ht0 hth)
  have hd1 : (timeTaken : ℚ) / (threshold : ℚ) ≤ 1 := le_of_lt ((div_lt_one hth).mpr ht1)
  obtain ⟨a0, a1⟩ := roundD_mem ((timeTaken : ℚ) / (threshold : ℚ)) 1 1 0 (by norm_num)
    (by norm_num) (by norm_num) hd0 hd1
  obtain ⟨b0, b1⟩ := roundD_mem (1 - roundD ((timeTaken : ℚ) / (threshold : ℚ))) 1 1 0
    (by norm_num) (by norm_num) (by norm_num) (by linarith) (by linarith)
  obtain ⟨c0, c1⟩ := roundD_mem (3 / 10) (1 / 2) 1 1 (by norm_num) (by norm_num) (by norm_num)
    (by norm_num) (by norm_num)
  obtain ⟨d0, d1⟩ := roundD_mem (roundD (1 - roundD ((timeTaken : ℚ) / (threshold : ℚ)))
      * roundD (3 / 10)) (1 / 2) 1 1 (by norm_num) (by norm_num) (by norm_num)
    (mul_nonneg b0 c0) (le_trans (mul_le_mul b1 c1 c0 (by norm_num)) (by norm_num))
  exact roundD_mem _ (3 / 2) 3 1 (by norm_num) (by norm_num) (by norm_num) (by linarith)
    (by linarith)

/-- The product of factors within their ranges converts to an `int` that is not negative. -/
theorem xpCast_nonneg (base qm cm sm sp : ℚ) (hb : 0 ≤ base ∧ base ≤ 64)
    (hqm : 0 ≤ qm ∧ qm ≤ 7 / 4) (hcm : 0 ≤ cm ∧ cm ≤ 9 / 4) (hsm : 0 ≤ sm ∧ sm ≤ 23 / 16)
    (hsp : 0 ≤ sp ∧ sp ≤ 3 / 2) :
    0 ≤ castInt (truncToInt (roundD (roundD (roundD (roundD (base * qm) * cm) * sm) * sp))) := by
  obtain ⟨a0, a1⟩ := roundD_mem (base * qm) 112 112 0 (by norm_num) (by norm_num)
    (by norm_num) (mul_nonneg hb.1 hqm.1)
    (le_trans (mul_le_mul hb.2 hqm.2 hqm.1 (by norm_num)) (by norm_num))
  obtain ⟨b0, b1⟩ := roundD_mem (roundD (base * qm) * cm) 252 252 0 (by norm_num)
    (by norm_num) (by norm_num) (mul_nonneg a0 hcm.1)
    (le_trans (mul_le_mul a1 hcm.2 hcm.1 (by norm_num)) (by norm_num))
  obtain ⟨c0, c1⟩ := roundD_mem (roundD (roundD (base * qm) * cm) * sm) (1449 / 4) 1449 2
    (by norm_num) (by norm_num) (by norm_num) (mul_nonneg b0 hsm.1)
    (le_trans (mul_le_mul b1 hsm.2 hsm.1 (by norm_num)) (by norm_num))
  obtain ⟨d0, d1⟩ := roundD_mem (roundD (roundD (roundD (base * qm) * cm) * sm) * sp)
    (4347 / 8) 4347 3 (by norm_num) (by norm_num) (by norm_num) (mul_nonneg c0 hsp.1)
    (le_trans (mul_le_mul c1 hsp.2 hsp.1 (by norm_num)) (by norm_num))
  have h0 := truncToInt_nonneg _ d0
  have h1 : truncToInt (roundD (roundD (roundD (roundD (base * qm) * cm) * sm) * sp))
      < 2147483648 := by
    rw [truncToInt_of_nonneg _ d0, Int.floor_lt]
    push_cast
    linarith
  rw [castInt_of_mem _ (by omega) h1]
  exact h0

/-- With a quality in 0..5 and a cycle and streak of at least 0 the awarded score is not
negative. -/
theorem calculateRevisionXP_nonneg (q : Question) (quality timeTaken : Int)
    (hq0 : 0 ≤ quality) (hq5 : quality ≤ 5) (hc : 0 ≤ q.revisionCycle) (hs : 0 ≤ q.streak) :
    0 ≤ calculateRevisionXP q quality timeTaken := by
  have hqm := qualityMult_bound quality hq0 hq5
  have hcm := cycleMult_bound q.revisionCycle hc
  have hsm := streakMult_bound q.streak hs
  have hone : (0 : ℚ) ≤ 1 ∧ (1 : ℚ) ≤ 3 / 2 := by norm_num
  unfold calculateRevisionXP
  simp only []
  cases hd : q.difficulty
  · simp only [reduceCtorEq, if_false]
    apply xpCast_nonneg _ _ _ _ _ (by norm_num) hqm hcm hsm
    split_ifs with h1 h2
    · exact speedMult_bound timeTaken 60 h1 h2
    · exact hone
    · exact hone
  · simp only [reduceCtorEq, if_false, if_true]
    apply xpCast_nonneg _ _ _ _ _ (by norm_num) hqm hcm hsm
    split_ifs with h1 h2
    · exact speedMult_bound timeTaken 120 h1 h2
    · exact hone
    · exact hone
  · simp only [reduceCtorEq, if_false, if_true]
    apply xpCast_nonneg _ _ _ _ _ (by norm_num) hqm hcm hsm
    split_ifs with h1 h2
    · exact speedMult_bound timeTaken 180 h1 h2
    · exact hone
    · exact hone

/-! ### Concrete scores in binary64 -/

/-- Medium, cycle 2, streak 5, quality 2: the binary64 product is
`27 - 2 ^ (-48)` and the score is 26. -/
theorem calculateRevisionXP_roundingItem : calculateRevisionXP roundingItem 2 0 = 26 := by
  show castInt (truncToInt (roundD (roundD (roundD (roundD (((20 : Int) : ℚ)
      * roundD (1 / 2 + roundD (((2 : Int) : ℚ) * roundD (1 / 5))))
      * roundD (1 + roundD (((2 : Int) : ℚ) * roundD (1 / 10))))
      * roundD (1 + roundD (((5 : Int) : ℚ) * roundD (1 / 20))))
      * 1))) = 26
  have h1 : roundD (1 / 5) = (3602879701896397 / 18014398509481984) :=
    roundD_eval _ _ 7205759403792794 (-55) (by norm_num) (by norm_num)
      (by norm_num [abs_of_pos, abs_of_neg]) (by norm_num [abs_of_pos, abs_of_neg])
      (Or.inl (by norm_num [abs_lt]))
  have h2 : roundD (((2 : Int) : ℚ) * (3602879701896397 / 18014398509481984))
      = (3602879701896397 / 9007199254740992) :=
    roundD_eval _ _ 7205759403792794 (-54) (by norm_num) (by norm_num)
      (by norm_num [abs_of_pos, abs_of_neg]) (by norm_num [abs_of_pos, abs_of_neg])
      (Or.inl (by norm_num [abs_lt]))
  have h3 : roundD (1 / 2 + (3602879701896397 / 9007199254740992))
      = (8106479329266893 / 9007199254740992) :=
    roundD_eval _ _ 8106479329266893 (-53) (by norm_num) (by norm_num)
      (by norm_num [abs_of_pos, abs_of_neg]) (by norm_num [abs_of_pos, abs_of_neg])
      (Or.inl (by norm_num [abs_lt]))
  have h4 : roundD (1 / 10) = (3602879701896397 / 36028797018963968) :=
    roundD_eval _ _ 7205759403792794 (-56) (by norm_num) (by norm_num)
      (by norm_num [abs_of_pos, abs_of_neg]) (by norm_num [abs_of_pos, abs_of_neg])
      (Or.inl (by norm_num [abs_lt]))
  have h5 : roundD (((2 : Int) : ℚ) * (3602879701896397 / 36028797018963968))
      = (3602879701896397 / 18014398509481984) :=
    roundD_eval _ _ 7205759403792794 (-55) (by norm_num) (by norm_num)
      (by norm_num [abs_of_pos, abs_of_neg]) (by norm_num [abs_of_pos, abs_of_neg])
      (Or.inl (by norm_num [abs_lt]))
  have h6 : roundD (1 + (3602879701896397 / 18014398509481984))
      = (5404319552844595 / 4503599627370496) :=
    roundD_eval _ _ 5404319552844595 (-52) (by norm_num) (by norm_num)
      (by norm_num [abs_of_pos, abs_of_neg]) (by norm_num [abs_of_pos, abs_of_neg])
      (Or.inl (by norm_num [abs_lt]))
  have h7 : roundD (1 / 20) = (3602879701896397 / 72057594037927936) :=
    roundD_eval _ _ 7205759403792794 (-57) (by norm_num) (by norm_num)
      (by norm_num [abs_of_pos, abs_of_neg]) (by norm_num [abs_of_pos, abs_of_neg])
      (Or.inl (by norm_num [abs_lt]))
  have h8 : roundD (((5 : Int) : ℚ) * (3602879701896397 / 72057594037927936)) = (1 / 4) :=
    roundD_eval _ _ 4503599627370496 (-54) (by norm_num) (by norm_num)
      (by norm_num [abs_of_pos, abs_of_neg]) (by norm_num [abs_of_pos, abs_of_neg])
      (Or.inl (by norm_num [abs_lt]))
  have h9 : roundD (1 + (1 / 4)) = (5 / 4) :=
    roundD_eval _ _ 5629499534213120 (-52) (by norm_num) (by norm_num)
      (by norm_num [abs_of_pos, abs_of_neg]) (by norm_num [abs_of_pos, abs_of_neg])
      (Or.inl (by norm_num [abs_lt]))
  have h10 : roundD (((20 : Int) : ℚ) * (8106479329266893 / 9007199254740992)) = 18 :=
    roundD_eval _ _ 5066549580791808 (-48) (by norm_num) (by norm_num)
      (by norm_num [abs_of_pos, abs_of_neg]) (by norm_num [abs_of_pos, abs_of_neg])
      (Or.inl (by norm_num [abs_lt]))
  have h11 : roundD (18 * (5404319552844595 / 4503599627370496))
      = (6079859496950169 / 281474976710656) :=
    roundD_eval _ _ 6079859496950169 (-48) (by norm_num) (by norm_num)
      (by norm_num [abs_of_pos, abs_of_neg]) (by norm_num [abs_of_pos, abs_of_neg])
      (Or.inl (by norm_num [abs_lt]))
  have h12 : roundD ((6079859496950169 / 281474976710656) * (5 / 4))
      = (7599824371187711 / 281474976710656) :=
    roundD_eval _ _ 7599824371187711 (-48) (by norm_num) (by norm_num)
      (by norm_num [abs_of_pos, abs_of_neg]) (by norm_num [abs_of_pos, abs_of_neg])
      (Or.inl (by norm_num [abs_lt]))
  have h13 : roundD ((7599824371187711 / 281474976710656) * 1)
      = (7599824371187711 / 281474976710656) :=
    roundD_eval _ _ 7599824371187711 (-48) (by norm_num) (by norm_num)
      (by norm_num [abs_of_pos, abs_of_neg]) (by norm_num [abs_of_pos, abs_of_neg])
      (Or.inl (by norm_num [abs_lt]))
  rw [h1, h2, h3, h4, h5, h6, h7, h8, h9, h10, h11, h12, h13]
  have hfloor : ⌊(7599824371187711 / 281474976710656 : ℚ)⌋ = 26 := by
    rw [Int.floor_eq_iff]
    norm_num
  rw [truncToInt_of_nonneg _ (by norm_num), hfloor]
  decide

/-- Medium, cycle 2, streak 4, quality 5 after 20 s: the score is 53. -/
theorem calculateRevisionXP_quickItem :
    calculateRevisionXP
        { quickItem with
          revisionCycle := if (5 : Int) ≥ 3 then quickItem.revisionCycle + 1 else 1,
          streak := if (5 : Int) ≥ 3 then quickItem.streak + 1 else 0 } 5 20 = 53 := by
  show castInt (truncToInt (roundD (roundD (roundD (roundD (((20 : Int) : ℚ)
      * roundD (1 / 2 + roundD (((5 : Int) : ℚ) * roundD (1 / 5))))
      * roundD (1 + roundD (((2 : Int) : ℚ) * roundD (1 / 10))))
      * roundD (1 + roundD (((4 : Int) : ℚ) * roundD (1 / 20))))
      * roundD (1 + roundD (roundD (1 - roundD (((20 : Int) : ℚ) / ((120 : Int) : ℚ)))
        * roundD (3 / 10)))))) = 53
  have h1 : roundD (1 / 5) = (3602879701896397 / 18014398509481984) :=
    roundD_eval _ _ 7205759403792794 (-55) (by norm_num) (by norm_num)
      (by norm_num [abs_of_pos, abs_of_neg]) (by norm_num [abs_of_pos, abs_of_neg])
      (Or.inl (by norm_num [abs_lt]))
  have h2 : roundD (((5 : Int) : ℚ) * (3602879701896397 / 18014398509481984)) = 1 :=
    roundD_eval _ _ 4503599627370496 (-52) (by norm_num) (by norm_num)
      (by norm_num [abs_of_pos, abs_of_neg]) (by norm_num [abs_of_pos, abs_of_neg])
      (Or.inl (by norm_num [abs_lt]))
  have h3 : roundD (1 / 2 + 1) = (3 / 2) :=
    roundD_eval _ _ 6755399441055744 (-52) (by norm_num) (by norm_num)
      (by norm_num [abs_of_pos, abs_of_neg]) (by norm_num [abs_of_pos, abs_of_neg])
      (Or.inl (by norm_num [abs_lt]))
  have h4 : roundD (1 / 10) = (3602879701896397 / 36028797018963968) :=
    roundD_eval _ _ 7205759403792794 (-56) (by norm_num) (by norm_num)
      (by norm_num [abs_of_pos, abs_of_neg]) (by norm_num [abs_of_pos, abs_of_neg])
      (Or.inl (by norm_num [abs_lt]))
  have h5 : roundD (((2 : Int) : ℚ) * (3602879701896397 / 36028797018963968))
      = (3602879701896397 / 18014398509481984) :=
    roundD_eval _ _ 7205759403792794 (-55) (by norm_num) (by norm_num)
      (by norm_num [abs_of_pos, abs_of_neg]) (by norm_num [abs_of_pos, abs_of_neg])
      (Or.inl (by norm_num [abs_lt]))
  have h6 : roundD (1 + (3602879701896397 / 18014398509481984))
      = (5404319552844595 / 4503599627370496) :=
    roundD_eval _ _ 5404319552844595 (-52) (by norm_num) (by norm_num)
      (by norm_num [abs_of_pos, abs_of_neg]) (by norm_num [abs_of_pos, abs_of_neg])
      (Or.inl (by norm_num [abs_lt]))
  have h7 : roundD (1 / 20) = (3602879701896397 / 72057594037927936) :=
    roundD_eval _ _ 7205759403792794 (-57) (by norm_num) (by norm_num)
      (by norm_num [abs_of_pos, abs_of_neg]) (by norm_num [abs_of_pos, abs_of_neg])
      (Or.inl (by norm_num [abs_lt]))
  have h8 : roundD (((4 : Int) : ℚ) * (3602879701896397 / 72057594037927936))
      = (3602879701896397 / 18014398509481984) :=
    roundD_eval _ _ 7205759403792794 (-55) (by norm_num) (by norm_num)
      (by norm_num [abs_of_pos, abs_of_neg]) (by norm_num [abs_of_pos, abs_of_neg])
      (Or.inl (by norm_num [abs_lt]))
  have h9 : roundD (1 + (3602879701896397 / 18014398509481984))
      = (5404319552844595 / 4503599627370496) :=
    roundD_eval _ _ 5404319552844595 (-52) (by norm_num) (by norm_num)
      (by norm_num [abs_of_pos, abs_of_neg]) (by norm_num [abs_of_pos, abs_of_neg])
      (Or.inl (by norm_num [abs_lt]))
  have h10 : roundD (((20 : Int) : ℚ) / ((120 : Int) : ℚ))
      = (6004799503160661 / 36028797018963968) :=
    roundD_eval _ _ 6004799503160661 (-55) (by norm_num) (by norm_num)
      (by norm_num [abs_of_pos, abs_of_neg]) (by norm_num [abs_of_pos, abs_of_neg])
      (Or.inl (by norm_num [abs_lt]))
  have h11 : roundD (1 - (6004799503160661 / 36028797018963968))
      = (7505999378950827 / 9007199254740992) :=
    roundD_eval _ _ 7505999378950827 (-53) (by norm_num) (by norm_num)
      (by norm_num [abs_of_pos, abs_of_neg]) (by norm_num [abs_of_pos, abs_of_neg])
      (Or.inl (by norm_num [abs_lt]))
  have h12 : roundD (3 / 10) = (5404319552844595 / 18014398509481984) :=
    roundD_eval _ _ 5404319552844595 (-54) (by norm_num) (by norm_num)
      (by norm_num [abs_of_pos, abs_of_neg]) (by norm_num [abs_of_pos, abs_of_neg])
      (Or.inl (by norm_num [abs_lt]))
  have h13 : roundD ((7505999378950827 / 9007199254740992) * (5404319552844595 / 18014398509481984))
      = (1 / 4) :=
    roundD_eval _ _ 4503599627370496 (-54) (by norm_num) (by norm_num)
      (by norm_num [abs_of_pos, abs_of_neg]) (by norm_num [abs_of_pos, abs_of_neg])
      (Or.inl (by norm_num [abs_lt]))
  have h14 : roundD (1 + (1 / 4)) = (5 / 4) :=
    roundD_eval _ _ 5629499534213120 (-52) (by norm_num) (by norm_num)
      (by norm_num [abs_of_pos, abs_of_neg]) (by norm_num [abs_of_pos, abs_of_neg])
      (Or.inl (by norm_num [abs_lt]))
  have h15 : roundD (((20 : Int) : ℚ) * (3 / 2)) = 30 :=
    roundD_eval _ _ 8444249301319680 (-48) (by norm_num) (by norm_num)
      (by norm_num [abs_of_pos, abs_of_neg]) (by norm_num [abs_of_pos, abs_of_neg])
      (Or.inl (by norm_num [abs_lt]))
  have h16 : roundD (30 * (5404319552844595 / 4503599627370496)) = 36 :=
    roundD_eval _ _ 5066549580791808 (-47) (by norm_num) (by norm_num)
      (by norm_num [abs_of_pos, abs_of_neg]) (by norm_num [abs_of_pos, abs_of_neg])
      (Or.inl (by norm_num [abs_lt]))
  have h17 : roundD (36 * (5404319552844595 / 4503599627370496))
      = (6079859496950169 / 140737488355328) :=
    roundD_eval _ _ 6079859496950169 (-47) (by norm_num) (by norm_num)
      (by norm_num [abs_of_pos, abs_of_neg]) (by norm_num [abs_of_pos, abs_of_neg])
      (Or.inl (by norm_num [abs_lt]))
  have h18 : roundD ((6079859496950169 / 140737488355328) * (5 / 4))
      = (7599824371187711 / 140737488355328) :=
    roundD_eval _ _ 7599824371187711 (-47) (by norm_num) (by norm_num)
      (by norm_num [abs_of_pos, abs_of_neg]) (by norm_num [abs_of_pos, abs_of_neg])
      (Or.inl (by norm_num [abs_lt]))
  rw [h1, h2, h3, h4, h5, h6, h7, h8, h9, h10, h11, h12, h13, h14, h15, h16, h17, h18]
  have hfloor : ⌊(7599824371187711 / 140737488355328 : ℚ)⌋ = 53 := by
    rw [Int.floor_eq_iff]
    norm_num
  rw [truncToInt_of_nonneg _ (by norm_num), hfloor]
  decide

/-- Hard, cycle 1, streak 0, quality 1 after 200 s: the score is 26. -/
theorem calculateRevisionXP_scenarioA : calculateRevisionXP scenarioA 1 200 = 26 := by
  show castInt (truncToInt (roundD (roundD (roundD (roundD (((35 : Int) : ℚ)
      * roundD (1 / 2 + roundD (((1 : Int) : ℚ) * roundD (1 / 5))))
      * roundD (1 + roundD (((1 : Int) : ℚ) * roundD (1 / 10))))
      * roundD (1 + roundD (((0 : Int) : ℚ) * roundD (1 / 20))))
      * 1))) = 26
  have h1 : roundD (1 / 5) = (3602879701896397 / 18014398509481984) :=
    roundD_eval _ _ 7205759403792794 (-55) (by norm_num) (by norm_num)
      (by norm_num [abs_of_pos, abs_of_neg]) (by norm_num [abs_of_pos, abs_of_neg])
      (Or.inl (by norm_num [abs_lt]))
  have h2 : roundD (((1 : Int) : ℚ) * (3602879701896397 / 18014398509481984))
      = (3602879701896397 / 18014398509481984) :=
    roundD_eval _ _ 7205759403792794 (-55) (by norm_num) (by norm_num)
      (by norm_num [abs_of_pos, abs_of_neg]) (by norm_num [abs_of_pos, abs_of_neg])
      (Or.inl (by norm_num [abs_lt]))
  have h3 : roundD (1 / 2 + (3602879701896397 / 18014398509481984))
      = (3152519739159347 / 4503599627370496) :=
    roundD_eval _ _ 6305039478318694 (-53) (by norm_num) (by norm_num)
      (by norm_num [abs_of_pos, abs_of_neg]) (by norm_num [abs_of_pos, abs_of_neg])
      (Or.inr ⟨by norm_num [abs_of_pos, abs_of_neg], by decide⟩)
  have h4 : roundD (1 / 10) = (3602879701896397 / 36028797018963968) :=
    roundD_eval _ _ 7205759403792794 (-56) (by norm_num) (by norm_num)
      (by norm_num [abs_of_pos, abs_of_neg]) (by norm_num [abs_of_pos, abs_of_neg])
      (Or.inl (by norm_num [abs_lt]))
  have h5 : roundD (((1 : Int) : ℚ) * (3602879701896397 / 36028797018963968))
      = (3602879701896397 / 36028797018963968) :=
    roundD_eval _ _ 7205759403792794 (-56) (by norm_num) (by norm_num)
      (by norm_num [abs_of_pos, abs_of_neg]) (by norm_num [abs_of_pos, abs_of_neg])
      (Or.inl (by norm_num [abs_lt]))
  have h6 : roundD (1 + (3602879701896397 / 36028797018963968))
      = (2476979795053773 / 2251799813685248) :=
    roundD_eval _ _ 4953959590107546 (-52) (by norm_num) (by norm_num)
      (by norm_num [abs_of_pos, abs_of_neg]) (by norm_num [abs_of_pos, abs_of_neg])
      (Or.inl (by norm_num [abs_lt]))
  have h7 : roundD (1 / 20) = (3602879701896397 / 72057594037927936) :=
    roundD_eval _ _ 7205759403792794 (-57) (by norm_num) (by norm_num)
      (by norm_num [abs_of_pos, abs_of_neg]) (by norm_num [abs_of_pos, abs_of_neg])
      (Or.inl (by norm_num [abs_lt]))
  have h8 : roundD (((0 : Int) : ℚ) * (3602879701896397 / 72057594037927936)) = 0 :=
    (congrArg roundD (show (((0 : Int) : ℚ) * (3602879701896397 / 72057594037927936) : ℚ) = 0 by norm_num)).trans roundD_zero
  have h9 : roundD (1 + 0) = 1 :=
    roundD_eval _ _ 4503599627370496 (-52) (by norm_num) (by norm_num)
      (by norm_num [abs_of_pos, abs_of_neg]) (by norm_num [abs_of_pos, abs_of_neg])
      (Or.inl (by norm_num [abs_lt]))
  have h10 : roundD (((35 : Int) : ℚ) * (3152519739159347 / 4503599627370496)) = (49 / 2) :=
    roundD_eval _ _ 6896136929411072 (-48) (by norm_num) (by norm_num)
      (by norm_num [abs_of_pos, abs_of_neg]) (by norm_num [abs_of_pos, abs_of_neg])
      (Or.inl (by norm_num [abs_lt]))
  have h11 : roundD ((49 / 2) * (2476979795053773 / 2251799813685248))
      = (1896437655588045 / 70368744177664) :=
    roundD_eval _ _ 7585750622352180 (-48) (by norm_num) (by norm_num)
      (by norm_num [abs_of_pos, abs_of_neg]) (by norm_num [abs_of_pos, abs_of_neg])
      (Or.inl (by norm_num [abs_lt]))
  have h12 : roundD ((1896437655588045 / 70368744177664) * 1)
      = (1896437655588045 / 70368744177664) :=
    roundD_eval _ _ 7585750622352180 (-48) (by norm_num) (by norm_num)
      (by norm_num [abs_of_pos, abs_of_neg]) (by norm_num [abs_of_pos, abs_of_neg])
      (Or.inl (by norm_num [abs_lt]))
  have h13 : roundD ((1896437655588045 / 70368744177664) * 1)
      = (1896437655588045 / 70368744177664) :=
    roundD_eval _ _ 7585750622352180 (-48) (by norm_num) (by norm_num)
      (by norm_num [abs_of_pos, abs_of_neg]) (by norm_num [abs_of_pos, abs_of_neg])
      (Or.inl (by norm_num [abs_lt]))
  rw [h1, h2, h3, h4, h5, h6, h7, h8, h9, h10, h11, h12, h13]
  have hfloor : ⌊(1896437655588045 / 70368744177664 : ℚ)⌋ = 26 := by
    rw [Int.floor_eq_iff]
    norm_num
  rw [truncToInt_of_nonneg _ (by norm_num), hfloor]
  decide

/-- Medium, cycle 1, streak 1, quality 7: the score is 43. -/
theorem calculateRevisionXP_quality7 :
    calculateRevisionXP
        { Question.mk0 with
          revisionCycle := if (7 : Int) ≥ 3 then Question.mk0.revisionCycle + 1 else 1,
          streak := if (7 : Int) ≥ 3 then Question.mk0.streak + 1 else 0 } 7 0 = 43 := by
  show castInt (truncToInt (roundD (roundD (roundD (roundD (((20 : Int) : ℚ)
      * roundD (1 / 2 + roundD (((7 : Int) : ℚ) * roundD (1 / 5))))
      * roundD (1 + roundD (((1 : Int) : ℚ) * roundD (1 / 10))))
      * roundD (1 + roundD (((1 : Int) : ℚ) * roundD (1 / 20))))
      * 1))) = 43
  have h1 : roundD (1 / 5) = (3602879701896397 / 18014398509481984) :=
    roundD_eval _ _ 7205759403792794 (-55) (by norm_num) (by norm_num)
      (by norm_num [abs_of_pos, abs_of_neg]) (by norm_num [abs_of_pos, abs_of_neg])
      (Or.inl (by norm_num [abs_lt]))
  have h2 : roundD (((7 : Int) : ℚ) * (3602879701896397 / 18014398509481984))
      = (6305039478318695 / 4503599627370496) :=
    roundD_eval _ _ 6305039478318695 (-52) (by norm_num) (by norm_num)
      (by norm_num [abs_of_pos, abs_of_neg]) (by norm_num [abs_of_pos, abs_of_neg])
      (Or.inl (by norm_num [abs_lt]))
  have h3 : roundD (1 / 2 + (6305039478318695 / 4503599627370496))
      = (8556839292003943 / 4503599627370496) :=
    roundD_eval _ _ 8556839292003943 (-52) (by norm_num) (by norm_num)
      (by norm_num [abs_of_pos, abs_of_neg]) (by norm_num [abs_of_pos, abs_of_neg])
      (Or.inl (by norm_num [abs_lt]))
  have h4 : roundD (1 / 10) = (3602879701896397 / 36028797018963968) :=
    roundD_eval _ _ 7205759403792794 (-56) (by norm_num) (by norm_num)
      (by norm_num [abs_of_pos, abs_of_neg]) (by norm_num [abs_of_pos, abs_of_neg])
      (Or.inl (by norm_num [abs_lt]))
  have h5 : roundD (((1 : Int) : ℚ) * (3602879701896397 / 36028797018963968))
      = (3602879701896397 / 36028797018963968) :=
    roundD_eval _ _ 7205759403792794 (-56) (by norm_num) (by norm_num)
      (by norm_num [abs_of_pos, abs_of_neg]) (by norm_num [abs_of_pos, abs_of_neg])
      (Or.inl (by norm_num [abs_lt]))
  have h6 : roundD (1 + (3602879701896397 / 36028797018963968))
      = (2476979795053773 / 2251799813685248) :=
    roundD_eval _ _ 4953959590107546 (-52) (by norm_num) (by norm_num)
      (by norm_num [abs_of_pos, abs_of_neg]) (by norm_num [abs_of_pos, abs_of_neg])
      (Or.inl (by norm_num [abs_lt]))
  have h7 : roundD (1 / 20) = (3602879701896397 / 72057594037927936) :=
    roundD_eval _ _ 7205759403792794 (-57) (by norm_num) (by norm_num)
      (by norm_num [abs_of_pos, abs_of_neg]) (by norm_num [abs_of_pos, abs_of_neg])
      (Or.inl (by norm_num [abs_lt]))
  have h8 : roundD (((1 : Int) : ℚ) * (3602879701896397 / 72057594037927936))
      = (3602879701896397 / 72057594037927936) :=
    roundD_eval _ _ 7205759403792794 (-57) (by norm_num) (by norm_num)
      (by norm_num [abs_of_pos, abs_of_neg]) (by norm_num [abs_of_pos, abs_of_neg])
      (Or.inl (by norm_num [abs_lt]))
  have h9 : roundD (1 + (3602879701896397 / 72057594037927936))
      = (4728779608739021 / 4503599627370496) :=
    roundD_eval _ _ 4728779608739021 (-52) (by norm_num) (by norm_num)
      (by norm_num [abs_of_pos, abs_of_neg]) (by norm_num [abs_of_pos, abs_of_neg])
      (Or.inl (by norm_num [abs_lt]))
  have h10 : roundD (((20 : Int) : ℚ) * (8556839292003943 / 4503599627370496)) = 38 :=
    roundD_eval _ _ 5348024557502464 (-47) (by norm_num) (by norm_num)
      (by norm_num [abs_of_pos, abs_of_neg]) (by norm_num [abs_of_pos, abs_of_neg])
      (Or.inl (by norm_num [abs_lt]))
  have h11 : roundD (38 * (2476979795053773 / 2251799813685248))
      = (5882827013252711 / 140737488355328) :=
    roundD_eval _ _ 5882827013252711 (-47) (by norm_num) (by norm_num)
      (by norm_num [abs_of_pos, abs_of_neg]) (by norm_num [abs_of_pos, abs_of_neg])
      (Or.inl (by norm_num [abs_lt]))
  have h12 : roundD ((5882827013252711 / 140737488355328) * (4728779608739021 / 4503599627370496))
      = (6176968363915347 / 140737488355328) :=
    roundD_eval _ _ 6176968363915347 (-47) (by norm_num) (by norm_num)
      (by norm_num [abs_of_pos, abs_of_neg]) (by norm_num [abs_of_pos, abs_of_neg])
      (Or.inl (by norm_num [abs_lt]))
  have h13 : roundD ((6176968363915347 / 140737488355328) * 1)
      = (6176968363915347 / 140737488355328) :=
    roundD_eval _ _ 6176968363915347 (-47) (by norm_num) (by norm_num)
      (by norm_num [abs_of_pos, abs_of_neg]) (by norm_num [abs_of_pos, abs_of_neg])
      (Or.inl (by norm_num [abs_lt]))
  rw [h1, h2, h3, h4, h5, h6, h7, h8, h9, h10, h11, h12, h13]
  have hfloor : ⌊(6176968363915347 / 140737488355328 : ℚ)⌋ = 43 := by
    rw [Int.floor_eq_iff]
    norm_num
  rw [truncToInt_of_nonneg _ (by norm_num), hfloor]
  decide

/-- Medium, cycle 1, streak 1, quality 5: the score is 34. -/
theorem calculateRevisionXP_quality5 :
    calculateRevisionXP
        { Question.mk0 with
          revisionCycle := if (5 : Int) ≥ 3 then Question.mk0.revisionCycle + 1 else 1,
          streak := if (5 : Int) ≥ 3 then Question.mk0.streak + 1 else 0 } 5 0 = 34 := by
  show castInt (truncToInt (roundD (roundD (roundD (roundD (((20 : Int) : ℚ)
      * roundD (1 / 2 + roundD (((5 : Int) : ℚ) * roundD (1 / 5))))
      * roundD (1 + roundD (((1 : Int) : ℚ) * roundD (1 / 10))))
      * roundD (1 + roundD (((1 : Int) : ℚ) * roundD (1 / 20))))
      * 1))) = 34
  have h1 : roundD (1 / 5) = (3602879701896397 / 18014398509481984) :=
    roundD_eval _ _ 7205759403792794 (-55) (by norm_num) (by norm_num)
      (by norm_num [abs_of_pos, abs_of_neg]) (by norm_num [abs_of_pos, abs_of_neg])
      (Or.inl (by norm_num [abs_lt]))
  have h2 : roundD (((5 : Int) : ℚ) * (3602879701896397 / 18014398509481984)) = 1 :=
    roundD_eval _ _ 4503599627370496 (-52) (by norm_num) (by norm_num)
      (by norm_num [abs_of_pos, abs_of_neg]) (by norm_num [abs_of_pos, abs_of_neg])
      (Or.inl (by norm_num [abs_lt]))
  have h3 : roundD (1 / 2 + 1) = (3 / 2) :=
    roundD_eval _ _ 6755399441055744 (-52) (by norm_num) (by norm_num)
      (by norm_num [abs_of_pos, abs_of_neg]) (by norm_num [abs_of_pos, abs_of_neg])
      (Or.inl (by norm_num [abs_lt]))
  have h4 : roundD (1 / 10) = (3602879701896397 / 36028797018963968) :=
    roundD_eval _ _ 7205759403792794 (-56) (by norm_num) (by norm_num)
      (by norm_num [abs_of_pos, abs_of_neg]) (by norm_num [abs_of_pos, abs_of_neg])
      (Or.inl (by norm_num [abs_lt]))
  have h5 : roundD (((1 : Int) : ℚ) * (3602879701896397 / 36028797018963968))
      = (3602879701896397 / 36028797018963968) :=
    roundD_eval _ _ 7205759403792794 (-56) (by norm_num) (by norm_num)
      (by norm_num [abs_of_pos, abs_of_neg]) (by norm_num [abs_of_pos, abs_of_neg])
      (Or.inl (by norm_num [abs_lt]))
  have h6 : roundD (1 + (3602879701896397 / 36028797018963968))
      = (2476979795053773 / 2251799813685248) :=
    roundD_eval _ _ 4953959590107546 (-52) (by norm_num) (by norm_num)
      (by norm_num [abs_of_pos, abs_of_neg]) (by norm_num [abs_of_pos, abs_of_neg])
      (Or.inl (by norm_num [abs_lt]))
  have h7 : roundD (1 / 20) = (3602879701896397 / 72057594037927936) :=
    roundD_eval _ _ 7205759403792794 (-57) (by norm_num) (by norm_num)
      (by norm_num [abs_of_pos, abs_of_neg]) (by norm_num [abs_of_pos, abs_of_neg])
      (Or.inl (by norm_num [abs_lt]))
  have h8 : roundD (((1 : Int) : ℚ) * (3602879701896397 / 72057594037927936))
      = (3602879701896397 / 72057594037927936) :=
    roundD_eval _ _ 7205759403792794 (-57) (by norm_num) (by norm_num)
      (by norm_num [abs_of_pos, abs_of_neg]) (by norm_num [abs_of_pos, abs_of_neg])
      (Or.inl (by norm_num [abs_lt]))
  have h9 : roundD (1 + (3602879701896397 / 72057594037927936))
      = (4728779608739021 / 4503599627370496) :=
    roundD_eval _ _ 4728779608739021 (-52) (by norm_num) (by norm_num)
      (by norm_num [abs_of_pos, abs_of_neg]) (by norm_num [abs_of_pos, abs_of_neg])
      (Or.inl (by norm_num [abs_lt]))
  have h10 : roundD (((20 : Int) : ℚ) * (3 / 2)) = 30 :=
    roundD_eval _ _ 8444249301319680 (-48) (by norm_num) (by norm_num)
      (by norm_num [abs_of_pos, abs_of_neg]) (by norm_num [abs_of_pos, abs_of_neg])
      (Or.inl (by norm_num [abs_lt]))
  have h11 : roundD (30 * (2476979795053773 / 2251799813685248)) = 33 :=
    roundD_eval _ _ 4644337115725824 (-47) (by norm_num) (by norm_num)
      (by norm_num [abs_of_pos, abs_of_neg]) (by norm_num [abs_of_pos, abs_of_neg])
      (Or.inl (by norm_num [abs_lt]))
  have h12 : roundD (33 * (4728779608739021 / 4503599627370496))
      = (4876553971512115 / 140737488355328) :=
    roundD_eval _ _ 4876553971512115 (-47) (by norm_num) (by norm_num)
      (by norm_num [abs_of_pos, abs_of_neg]) (by norm_num [abs_of_pos, abs_of_neg])
      (Or.inl (by norm_num [abs_lt]))
  have h13 : roundD ((4876553971512115 / 140737488355328) * 1)
      = (4876553971512115 / 140737488355328) :=
    roundD_eval _ _ 4876553971512115 (-47) (by norm_num) (by norm_num)
      (by norm_num [abs_of_pos, abs_of_neg]) (by norm_num [abs_of_pos, abs_of_neg])
      (Or.inl (by norm_num [abs_lt]))
  rw [h1, h2, h3, h4, h5, h6, h7, h8, h9, h10, h11, h12, h13]
  have hfloor : ⌊(4876553971512115 / 140737488355328 : ℚ)⌋ = 34 := by
    rw [Int.floor_eq_iff]
    norm_num
  rw [truncToInt_of_nonneg _ (by norm_num), hfloor]
  decide

/-! ### Concrete evaluations -/

theorem scenarioB_ease : updateEaseFactor scenarioB.easeFactor 4 = 9 / 5 := by
  simp [updateEaseFactor, scenarioB, EF_MIN]
  norm_num

theorem scenarioB_interval : specInterval 3 (9 / 5) Difficulty.MEDIUM = 6 := by
  have h1 : ⌈(3 : ℚ) * (9 / 5)⌉ = 6 := by
    rw [Int.ceil_eq_iff]
    norm_num
  simp [specInterval, h1]

theorem xpProduct_scenarioA : xpProduct Difficulty.HARD 1 0 1 200 = 539 / 20 := by
  simp [xpProduct]
  norm_num

theorem xpProduct_roundingItem : xpProduct Difficulty.MEDIUM 2 5 2 0 = 27 := by
  simp [xpProduct]
  norm_num

theorem xpProduct_quickItem : xpProduct Difficulty.MEDIUM 2 4 5 20 = 54 := by
  simp [xpProduct]
  norm_num

/-- C12, the behaviour of the code where the product of the spec is an integer: for a Medium
item with revision cycle 2 and streak 5 reviewed with quality 2 the product is
`20 * 0.9 * 1.2 * 1.25 = 27`, but the binary64 product is `27 - 2 ^ (-48)` and the code
returns 26; `completeRevision` of a Medium item (cycle 1, streak 3) with quality 5 after
20 s awards 53 where the product of the spec is 54. On the example of the claim (Hard,
quality 1, cycle 1, streak 0, 200 s) the code returns 26, the floor of the product. -/
theorem calculateRevisionXP_below_floor :
    xpProduct Difficulty.MEDIUM 2 5 2 0 = 27
      ∧ specXP roundingItem.difficulty roundingItem.revisionCycle roundingItem.streak 2 0 = 27
      ∧ calculateRevisionXP roundingItem 2 0 = 26
      ∧ specXP quickItem.difficulty (quickItem.revisionCycle + 1) (quickItem.streak + 1) 5 20
          = 54
      ∧ (completeRevision (utcEnv "2025-07-10") quickItem 5 20).1.xpAwarded = 53
      ∧ (completeRevision (utcEnv "2025-07-10") quickItem 5 20).2.xpEarned
          = quickItem.xpEarned + 53
      ∧ specXP scenarioA.difficulty scenarioA.revisionCycle scenarioA.streak 1 200 = 26
      ∧ calculateRevisionXP scenarioA 1 200 = 26 := by
  have h27 : xpProduct Difficulty.MEDIUM 2 5 2 0 = 27 := xpProduct_roundingItem
  have hx : (completeRevision (utcEnv "2025-07-10") quickItem 5 20).1.xpAwarded = 53 := by
    rw [completeRevision_xpAwarded]
    exact calculateRevisionXP_quickItem
  refine ⟨h27, ?_, calculateRevisionXP_roundingItem, ?_, hx, ?_, ?_,
    calculateRevisionXP_scenarioA⟩
  · show ⌊xpProduct Difficulty.MEDIUM 2 5 2 0⌋ = 27
    rw [h27]
    exact Int.floor_intCast 27
  · show ⌊xpProduct Difficulty.MEDIUM 2 4 5 20⌋ = 54
    rw [xpProduct_quickItem]
    exact Int.floor_intCast 54
  · rw [completeRevision_xpEarned, hx]
  · show ⌊xpProduct Difficulty.HARD 1 0 1 200⌋ = 26
    rw [xpProduct_scenarioA, Int.floor_eq_iff]
    norm_num

/-- C13: for every item with `revisionCycle ≥ 0` and `streak ≥ 0`, every quality in 0..5 and
every elapsed time, the XP awarded by `completeRevision` is at least 0 and `xpEarned`
afterwards is at least its value before. -/
theorem completeRevision_xp_monotone (env : Env) (q : Question) (quality timeTaken : Int)
    (hc : 0 ≤ q.revisionCycle) (hs : 0 ≤ q.streak) (hq0 : 0 ≤ quality) (_hq5 : quality ≤ 5) :
    0 ≤ (completeRevision env q quality timeTaken).1.xpAwarded
      ∧ q.xpEarned ≤ (completeRevision env q quality timeTaken).2.xpEarned := by
  have hx : 0 ≤ (completeRevision env q quality timeTaken).1.xpAwarded := by
    rw [completeRevision_xpAwarded]
    apply calculateRevisionXP_nonneg _ _ _ hq0 _hq5
    · show 0 ≤ (if quality ≥ 3 then q.revisionCycle + 1 else 1)
      split_ifs <;> omega
    · show 0 ≤ (if quality ≥ 3 then q.streak + 1 else 0)
      split_ifs <;> omega
  refine ⟨hx, ?_⟩
  rw [completeRevision_xpEarned]
  omega


/-- Witness for C13: scenario A reviewed with quality 1 and a negative elapsed time. -/
theorem completeRevision_xp_monotone_witness :
    0 ≤ (completeRevision (utcEnv "2025-07-10") scenarioA 1 (-5)).1.xpAwarded
      ∧ scenarioA.xpEarned
          ≤ (completeRevision (utcEnv "2025-07-10") scenarioA 1 (-5)).2.xpEarned :=
  completeRevision_xp_monotone (utcEnv "2025-07-10") scenarioA 1 (-5) (by decide) (by decide)
    (by decide) (by decide)

/-- C14, the behaviour of the code at quality 7: the ease factor, cycle, streak, status,
next date and reset flag agree with those for the clamped quality 5 (for every quality and
its clamped value), but the awarded XP does not: a fresh Medium item gets 43 XP for
quality 7 and 34 XP for quality 5. -/
theorem completeRevision_xp_unclamped (env : Env) :
    (∀ (q : Question) (quality timeTaken : Int),
        (completeRevision env q quality timeTaken).1.newEaseFactor
            = (completeRevision env q (clampQuality quality) timeTaken).1.newEaseFactor
          ∧ (completeRevision env q quality timeTaken).1.newCycle
            = (completeRevision env q (clampQuality quality) timeTaken).1.newCycle
          ∧ (completeRevision env q quality timeTaken).1.newStreak
            = (completeRevision env q (clampQuality quality) timeTaken).1.newStreak
          ∧ (completeRevision env q quality timeTaken).1.newStatus
            = (completeRevision env q (clampQuality quality) timeTaken).1.newStatus
          ∧ (completeRevision env q quality timeTaken).1.wasReset
            = (completeRevision env q (clampQuality quality) timeTaken).1.wasReset)
      ∧ clampQuality 7 = 5
      ∧ (completeRevision env Question.mk0 7 0).1.xpAwarded = 43
      ∧ (completeRevision env Question.mk0 (clampQuality 7) 0).1.xpAwarded = 34
      ∧ (completeRevision env Question.mk0 7 0).2.xpEarned = 43
      ∧ (completeRevision env Question.mk0 (clampQuality 7) 0).2.xpEarned = 34 := by
  have hclamp : ∀ quality : Int, (clampQuality quality ≥ 3 ↔ quality ≥ 3)
      ∧ (clampQuality quality < 3 ↔ quality < 3)
      ∧ max 0 (min 5 (clampQuality quality)) = max 0 (min 5 quality) := by
    intro quality
    unfold clampQuality
    split_ifs <;> refine ⟨?_, ?_, ?_⟩ <;> omega
  have hef : ∀ (e : ℚ) (quality : Int),
      updateEaseFactor e (clampQuality quality) = updateEaseFactor e quality := by
    intro e quality
    unfold updateEaseFactor
    simp only []
    rw [(hclamp quality).2.2]
  have h7 : (completeRevision env Question.mk0 7 0).1.xpAwarded = 43 := by
    rw [completeRevision_xpAwarded]
    exact calculateRevisionXP_quality7
  have h5 : (completeRevision env Question.mk0 (clampQuality 7) 0).1.xpAwarded = 34 := by
    rw [completeRevision_xpAwarded]
    exact calculateRevisionXP_quality5
  refine ⟨?_, by decide, h7, h5, ?_, ?_⟩
  · intro q quality timeTaken
    have hge := (hclamp quality).1
    have hlt := (hclamp quality).2.1
    refine ⟨?_, ?_, ?_, ?_, ?_⟩
    · rw [completeRevision_newEaseFactor, completeRevision_newEaseFactor, hef]
    · rw [completeRevision_newCycle, completeRevision_newCycle]
      simp only [hge]
    · rw [completeRevision_newStreak, completeRevision_newStreak]
      simp only [hge]
    · rw [completeRevision_newStatus, completeRevision_newStatus, completeRevision_status,
        completeRevision_status, hef]
      simp only [hge, hlt]
    · rw [completeRevision_wasReset, completeRevision_wasReset]
      simp only [hlt]
  · rw [completeRevision_xpEarned, h7]
    rfl
  · rw [completeRevision_xpEarned, h5]
    rfl

end RevisionEngine

/-! ### Claim C16 -/

theorem getPriorityScore_sentinel (env : Env) (q : Question) (today : String)
    (h : q.status = QuestionStatus.MASTERED ∨ q.nextRevisionDate = "") :
    q.getPriorityScore env today = -1 := by
  unfold Question.getPriorityScore
  rw [if_pos h.symm]

theorem getPriorityScore_eq_spec (env : Env) (q : Question) (today : String)
    (hs : q.status ≠ QuestionStatus.MASTERED) (hd : q.nextRevisionDate ≠ "") :
    q.getPriorityScore env today = specScore env q today := by
  unfold Question.getPriorityScore specScore
  rw [if_neg (by rintro (h | h); exact hd h; exact hs h)]
  cases hdiff : q.difficulty <;> simp

theorem dateDiffDays_utc_overdue :
    dateDiffDays (utcEnv "2025-07-10") "2025-07-01" "2025-07-10" = 9 := by decide

theorem dateDiffDays_utc_one :
    dateDiffDays (utcEnv "2025-07-10") "2025-07-09" "2025-07-10" = 1 := by decide

theorem dateDiffDays_utc_notDue :
    dateDiffDays (utcEnv "2025-07-10") "2025-07-15" "2025-07-10" = -5 := by decide

/-- The score of a `datedItem` is the number of days it is overdue. -/
theorem datedItem_score (env : Env) (qid next today : String) (hn : next ≠ "") :
    (datedItem qid next).getPriorityScore env today = (dateDiffDays env next today : ℚ) := by
  have hs : (datedItem qid next).status ≠ QuestionStatus.MASTERED := by
    show QuestionStatus.SOLVED ≠ QuestionStatus.MASTERED
    decide
  rw [getPriorityScore_eq_spec env _ today hs hn]
  simp [specScore, datedItem, Question.mk0]

/-- C16: `getPriorityScore` returns the sentinel -1 whenever the status is Mastered or
`nextRevisionDate` is empty, and otherwise exactly
`(daysOverdue * m + (2.5 - easeFactor) * 2.0) * p` with
`daysOverdue = dateDiffDays(nextRevisionDate, today)`, `m` 1.5/1.2/1.0 for
Hard/Medium/Easy and `p` 1.5 if `streak < 3`, else 1.0. -/
theorem getPriorityScore_spec (env : Env) (q : Question) (today : String) :
    (q.status = QuestionStatus.MASTERED ∨ q.nextRevisionDate = "" →
        q.getPriorityScore env today = -1)
      ∧ (q.status ≠ QuestionStatus.MASTERED → q.nextRevisionDate ≠ "" →
          q.getPriorityScore env today = specScore env q today) :=
  ⟨getPriorityScore_sentinel env q today, getPriorityScore_eq_spec env q today⟩

/-- Witness for C16: the mastered item of the demo gets -1; scenario B, nine days overdue on
2025-07-10, gets `(9 * 1.2 + 1.4) * 1.5 = 18.3`; an item due in five days has -5 days
overdue. -/
theorem getPriorityScore_spec_witness :
    RevisionEngine.masteredItem.getPriorityScore (utcEnv "2025-07-10") "2025-07-10" = -1
      ∧ RevisionEngine.scenarioB.getPriorityScore (utcEnv "2025-07-10") "2025-07-10"
          = specScore (utcEnv "2025-07-10") RevisionEngine.scenarioB "2025-07-10"
      ∧ specScore (utcEnv "2025-07-10") RevisionEngine.scenarioB "2025-07-10" = 183 / 10
      ∧ dateDiffDays (utcEnv "2025-07-10") "2025-07-15" "2025-07-10" = -5 :=
  ⟨(getPriorityScore_spec (utcEnv "2025-07-10") RevisionEngine.masteredItem "2025-07-10").1
     (Or.inl rfl),
   (getPriorityScore_spec (utcEnv "2025-07-10") RevisionEngine.scenarioB "2025-07-10").2
     (by decide) (by decide),
   by
     have hd : dateDiffDays (utcEnv "2025-07-10") RevisionEngine.scenarioB.nextRevisionDate
         "2025-07-10" = 9 := dateDiffDays_utc_overdue
     unfold specScore
     rw [hd]
     simp [RevisionEngine.scenarioB]
     norm_num,
   dateDiffDays_utc_notDue⟩

namespace RevisionHeap

/-! ### The entries the constructor collects -/

theorem collectStep_eq (env : Env) (today : String) (acc : Heap) (q : Question) :
    collectStep env today acc q
      = if keptByBuild env today q = true then acc ++ [entryOf env today q] else acc := by
  unfold collectStep keptByBuild schedulable entryOf
  by_cases h1 : q.status = QuestionStatus.MASTERED
  · simp [h1]
  · by_cases h2 : q.nextRevisionDate = ""
    · simp [h2]
    · by_cases h3 : q.getPriorityScore env today ≥ 0
      · simp [h1, h2, h3]
      · simp [h1, h2, h3]

theorem foldl_collectStep (env : Env) (today : String) :
    ∀ (qs : List Question) (acc : Heap),
      qs.foldl (collectStep env today) acc
        = acc ++ (qs.filter (keptByBuild env today)).map (entryOf env today) := by
  intro qs
  induction qs with
  | nil => intro acc; simp
  | cons q rest ih =>
    intro acc
    rw [List.foldl_cons, ih, collectStep_eq]
    by_cases hk : keptByBuild env today q = true
    · rw [if_pos hk, List.filter_cons_of_pos hk]
      simp
    · rw [if_neg hk, List.filter_cons_of_neg hk]

/-- The heap the constructor builds holds exactly the entries of the kept items. -/
theorem build_perm (env : Env) (questions : List Question) (today : String) :
    (build env questions today).Perm
      ((questions.filter (keptByBuild env today)).map (entryOf env today)) := by
  unfold build
  have h := heapify_perm (questions.foldl (collectStep env today) [])
  have e : questions.foldl (collectStep env today) []
      = (questions.filter (keptByBuild env today)).map (entryOf env today) := by
    rw [foldl_collectStep, List.nil_append]
  exact h.trans (e ▸ List.Perm.refl _)

theorem keptByBuild_datedItem (env : Env) (qid next today : String) (hn : next ≠ "") :
    keptByBuild env today (datedItem qid next) = decide (0 ≤ dateDiffDays env next today) := by
  unfold keptByBuild schedulable
  rw [datedItem_score env qid next today hn]
  have h1 : (datedItem qid next).status ≠ QuestionStatus.MASTERED := by
    show QuestionStatus.SOLVED ≠ QuestionStatus.MASTERED
    decide
  have h2 : (datedItem qid next).nextRevisionDate ≠ "" := hn
  simp [h1, h2]

/-! ### Claims C17 to C19 -/

/-- C17, as amended: the heap built by the constructor contains exactly one entry
`(item, getPriorityScore(item, today))` for each input item that is not Mastered, has a
non-empty `nextRevisionDate` and has a score of at least 0, and no other entry: besides
mastered and undated items, the items with a negative score are discarded. -/
theorem build_contents (env : Env) (questions : List Question) (today : String) :
    (build env questions today).Perm
        ((questions.filter (keptByBuild env today)).map
          (fun q => (⟨q, q.getPriorityScore env today⟩ : HeapEntry)))
      ∧ ∀ q : Question, keptByBuild env today q = true
          ↔ q.status ≠ QuestionStatus.MASTERED ∧ q.nextRevisionDate ≠ ""
              ∧ q.getPriorityScore env today ≥ 0 := by
  refine ⟨build_perm env questions today, ?_⟩
  intro q
  unfold keptByBuild schedulable
  simp only [Bool.and_eq_true, decide_eq_true_eq]
  constructor
  · rintro ⟨⟨h1, h2⟩, h3⟩
    exact ⟨h1, h2, h3⟩
  · rintro ⟨h1, h2, h3⟩
    exact ⟨⟨h1, h2⟩, h3⟩

/-- Counterexample to C17 as stated: a solved item due on 2025-07-15 is schedulable, yet the
heap built from it on 2025-07-10 is empty, its score being -5. -/
theorem build_drops_negative_score :
    schedulable (datedItem "f1" "2025-07-15") = true
      ∧ (datedItem "f1" "2025-07-15").getPriorityScore (utcEnv "2025-07-10") "2025-07-10" = -5
      ∧ build (utcEnv "2025-07-10") [datedItem "f1" "2025-07-15"] "2025-07-10" = []
      ∧ ¬ (build (utcEnv "2025-07-10") [datedItem "f1" "2025-07-15"] "2025-07-10").Perm
          (([datedItem "f1" "2025-07-15"].filter schedulable).map
            (entryOf (utcEnv "2025-07-10") "2025-07-10")) := by
  have hs : schedulable (datedItem "f1" "2025-07-15") = true := by decide
  have hscore : (datedItem "f1" "2025-07-15").getPriorityScore (utcEnv "2025-07-10")
      "2025-07-10" = -5 := by
    rw [datedItem_score _ _ _ _ (by decide), dateDiffDays_utc_notDue]
    norm_num
  have hk : keptByBuild (utcEnv "2025-07-10") "2025-07-10" (datedItem "f1" "2025-07-15")
      = false := by
    rw [keptByBuild_datedItem _ _ _ _ (by decide), dateDiffDays_utc_notDue]
    decide
  have hb : build (utcEnv "2025-07-10") [datedItem "f1" "2025-07-15"] "2025-07-10" = [] := by
    have := build_perm (utcEnv "2025-07-10") [datedItem "f1" "2025-07-15"] "2025-07-10"
    rw [List.filter_cons_of_neg (by rw [hk]; decide)] at this
    exact List.Perm.eq_nil this
  refine ⟨hs, hscore, hb, ?_⟩
  rw [hb, List.filter_cons_of_pos hs]
  intro hp
  have := hp.length_eq
  simp at this

/-- The behaviour of the code C18 is about: of two items built into a heap on 2025-07-10,
one nine days overdue (score 9) and one a single day overdue (score 1), `pop` and `topK(1)`
return the one with score 1, although the other entry has the larger urgency score. -/
theorem pop_returns_least_overdue :
    (datedItem "A" "2025-07-01").getPriorityScore (utcEnv "2025-07-10") "2025-07-10" = 9
      ∧ (datedItem "B" "2025-07-09").getPriorityScore (utcEnv "2025-07-10") "2025-07-10" = 1
      ∧ (⟨datedItem "A" "2025-07-01", 9⟩ : HeapEntry)
          ∈ build (utcEnv "2025-07-10") [datedItem "A" "2025-07-01", datedItem "B" "2025-07-09"]
              "2025-07-10"
      ∧ ∃ h1 : Heap,
          pop (build (utcEnv "2025-07-10")
              [datedItem "A" "2025-07-01", datedItem "B" "2025-07-09"] "2025-07-10")
            = some (⟨datedItem "B" "2025-07-09", 1⟩, h1)
          ∧ ∃ h2 : Heap,
              topK (build (utcEnv "2025-07-10")
                  [datedItem "A" "2025-07-01", datedItem "B" "2025-07-09"] "2025-07-10") 1
                = some ([⟨datedItem "B" "2025-07-09", 1⟩], h2) := by
  have hA : (datedItem "A" "2025-07-01").getPriorityScore (utcEnv "2025-07-10") "2025-07-10"
      = 9 := by
    rw [datedItem_score _ _ _ _ (by decide), dateDiffDays_utc_overdue]
    norm_num
  have hB : (datedItem "B" "2025-07-09").getPriorityScore (utcEnv "2025-07-10") "2025-07-10"
      = 1 := by
    rw [datedItem_score _ _ _ _ (by decide), dateDiffDays_utc_one]
    norm_num
  have hkA : keptByBuild (utcEnv "2025-07-10") "2025-07-10" (datedItem "A" "2025-07-01")
      = true := by
    rw [keptByBuild_datedItem _ _ _ _ (by decide), dateDiffDays_utc_overdue]
    decide
  have hkB : keptByBuild (utcEnv "2025-07-10") "2025-07-10" (datedItem "B" "2025-07-09")
      = true := by
    rw [keptByBuild_datedItem _ _ _ _ (by decide), dateDiffDays_utc_one]
    decide
  have hperm := build_perm (utcEnv "2025-07-10")
    [datedItem "A" "2025-07-01", datedItem "B" "2025-07-09"] "2025-07-10"
  rw [List.filter_cons_of_pos hkA, List.filter_cons_of_pos hkB, List.filter_nil,
    List.map_cons, List.map_cons, List.map_nil] at hperm
  unfold entryOf at hperm
  rw [hA, hB] at hperm
  have hne : build (utcEnv "2025-07-10")
      [datedItem "A" "2025-07-01", datedItem "B" "2025-07-09"] "2025-07-10" ≠ [] := by
    intro h
    rw [h] at hperm
    have := hperm.length_eq
    simp at this
  have hv := build_valid (utcEnv "2025-07-10")
    [datedItem "A" "2025-07-01", datedItem "B" "2025-07-09"] "2025-07-10"
  have hpop := pop_eq_some _ hne
  have hmemB : (⟨datedItem "B" "2025-07-09", 1⟩ : HeapEntry)
      ∈ build (utcEnv "2025-07-10")
          [datedItem "A" "2025-07-01", datedItem "B" "2025-07-09"] "2025-07-10" :=
    hperm.symm.subset (by simp)
  have hroot : entry (build (utcEnv "2025-07-10")
      [datedItem "A" "2025-07-01", datedItem "B" "2025-07-09"] "2025-07-10") 0
        = ⟨datedItem "B" "2025-07-09", 1⟩ := by
    have hlen := List.length_pos.mpr hne
    have hmem0 := hperm.subset (entry_mem _ hlen)
    obtain ⟨i, hi, hBi⟩ := List.mem_iff_getElem.mp hmemB
    have hle := root_le _ hv i hi
    unfold score at hle
    rw [entry_eq_getElem _ hi, hBi] at hle
    simp only [List.mem_cons, List.mem_singleton, List.not_mem_nil, or_false] at hmem0
    rcases hmem0 with h | h
    · rw [h] at hle
      norm_num at hle
    · exact h
  rw [hroot] at hpop
  refine ⟨hA, hB, hperm.symm.subset (by simp), _, hpop, ?_⟩
  unfold topK
  have hcnt : (min (1 : Int) ((build (utcEnv "2025-07-10")
      [datedItem "A" "2025-07-01", datedItem "B" "2025-07-09"] "2025-07-10").length : Int)).toNat
        = 1 := by
    rw [hperm.length_eq]
    decide
  simp only [hcnt, popLoop, hpop, List.nil_append]
  exact ⟨_, rfl⟩

/-- The behaviour of the code C19 is about: `push` of the mastered, undated item of the demo
onto the empty heap, and likewise `updatePriority`, gives a reachable heap whose only entry
is that item, stored with the sentinel score -1. -/
theorem push_admits_mastered (env : Env) (today : String) :
    RevisionEngine.masteredItem.status = QuestionStatus.MASTERED
      ∧ RevisionEngine.masteredItem.nextRevisionDate = ""
      ∧ push env empty RevisionEngine.masteredItem today = [⟨RevisionEngine.masteredItem, -1⟩]
      ∧ updatePriority env empty "q1" RevisionEngine.masteredItem today
          = [⟨RevisionEngine.masteredItem, -1⟩]
      ∧ Reachable env (push env empty RevisionEngine.masteredItem today)
      ∧ Reachable env (updatePriority env empty "q1" RevisionEngine.masteredItem today)
      ∧ ∃ e ∈ push env empty RevisionEngine.masteredItem today,
          e.question.status = QuestionStatus.MASTERED ∧ e.question.nextRevisionDate = "" := by
  have hs : RevisionEngine.masteredItem.getPriorityScore env today = -1 :=
    getPriorityScore_sentinel env _ today (Or.inl rfl)
  have hp : push env empty RevisionEngine.masteredItem today
      = [⟨RevisionEngine.masteredItem, -1⟩] := by
    rw [← hs]
    rfl
  have hu : updatePriority env empty "q1" RevisionEngine.masteredItem today
      = [⟨RevisionEngine.masteredItem, -1⟩] := by
    rw [← hs]
    rfl
  refine ⟨rfl, rfl, hp, hu, Reachable.ofPush _ _ Reachable.ofEmpty,
    Reachable.ofUpdatePriority _ _ _ Reachable.ofEmpty, ?_⟩
  rw [hp]
  exact ⟨_, List.mem_singleton.mpr rfl, rfl, rfl⟩

/-! ### Claim C20 -/

theorem find?_range_some (p : Nat → Bool) : ∀ (n i : Nat),
    (List.range n).find? p = some i → i < n ∧ p i = true ∧ ∀ j, j < i → p j = false := by
  intro n
  induction n with
  | zero => intro i h; simp at h
  | succ n ih =>
    intro i h
    rw [List.range_succ, List.find?_append] at h
    cases hf : (List.range n).find? p with
    | some k =>
      rw [hf] at h
      simp only [Option.or_some] at h
      injection h with h
      subst h
      obtain ⟨h1, h2, h3⟩ := ih k hf
      exact ⟨by omega, h2, h3⟩
    | none =>
      rw [hf, Option.none_or] at h
      have hn : p n = true := by
        by_contra hc
        rw [List.find?_cons_of_neg _ hc] at h
        simp at h
      rw [List.find?_cons_of_pos _ hn] at h
      injection h with h
      subst h
      refine ⟨by omega, hn, ?_⟩
      intro j hj
      have := List.find?_eq_none.mp hf j (List.mem_range.mpr hj)
      simpa using this

theorem findId_some (h : Heap) (qid : String) (i : Nat) (hf : findId h qid = some i) :
    i < h.length ∧ (entry h i).question.id = qid
      ∧ ∀ j, j < i → (entry h j).question.id ≠ qid := by
  unfold findId at hf
  obtain ⟨h1, h2, h3⟩ := find?_range_some _ _ _ hf
  refine ⟨h1, by simpa using h2, ?_⟩
  intro j hj
  have := h3 j hj
  simpa using this

theorem findId_none (h : Heap) (qid : String) (hf : findId h qid = none) :
    ∀ e ∈ h, e.question.id ≠ qid := by
  unfold findId at hf
  intro e he
  obtain ⟨i, hi, hei⟩ := List.mem_iff_getElem.mp he
  have := List.find?_eq_none.mp hf i (List.mem_range.mpr hi)
  rw [entry_eq_getElem h hi, hei] at this
  simpa using this

theorem remove_found (h : Heap) (qid : String) (i : Nat) (hf : findId h qid = some i) :
    (remove h qid).1 = true ∧ (entry h i :: (remove h qid).2).Perm h := by
  have hi := findId_lt h qid i hf
  unfold remove
  rw [hf]
  refine ⟨rfl, ?_⟩
  simp only []
  have hbase := perm_set_last_dropLast h hi
  split_ifs with hlt
  · have h1 : (siftUp (siftDown ((h.set i (entry h (h.length - 1))).dropLast) i) i).Perm
        ((h.set i (entry h (h.length - 1))).dropLast) :=
      (siftUp_perm _ i (by rw [siftDown_length]; exact hlt)).trans (siftDown_perm _ i)
    exact (List.Perm.cons _ h1).trans hbase
  · exact hbase

theorem remove_not_found (h : Heap) (qid : String) (hf : findId h qid = none) :
    remove h qid = (false, h) := by
  unfold remove
  rw [hf]

/-- C20: `remove(id)` returns true iff some entry's question id equals `id`; when it returns
true the resulting heap holds the original entries minus the entry with that id at the
lowest index, and its size is one smaller; when it returns false the heap is unchanged. -/
theorem remove_spec (h : Heap) (qid : String) :
    ((remove h qid).1 = true ↔ ∃ e ∈ h, e.question.id = qid)
      ∧ ((remove h qid).1 = true →
          ∃ i, i < h.length ∧ (entry h i).question.id = qid
            ∧ (∀ j, j < i → (entry h j).question.id ≠ qid)
            ∧ (entry h i :: (remove h qid).2).Perm h
            ∧ size (remove h qid).2 = size h - 1)
      ∧ ((remove h qid).1 = false → (remove h qid).2 = h) := by
  cases hf : findId h qid with
  | none =>
    have hr := remove_not_found h qid hf
    have hno := findId_none h qid hf
    refine ⟨?_, ?_, ?_⟩
    · rw [hr]
      constructor
      · intro hc
        exact absurd hc Bool.false_ne_true
      · rintro ⟨e, he, hid⟩
        exact absurd hid (hno e he)
    · rw [hr]
      intro hc
      exact absurd hc Bool.false_ne_true
    · intro _
      rw [hr]
  | some i =>
    obtain ⟨hi, hid, hfirst⟩ := findId_some h qid i hf
    obtain ⟨htrue, hperm⟩ := remove_found h qid i hf
    refine ⟨?_, ?_, ?_⟩
    · constructor
      · intro _
        exact ⟨entry h i, entry_mem h hi, hid⟩
      · intro _
        exact htrue
    · intro _
      refine ⟨i, hi, hid, hfirst, hperm, ?_⟩
      have := hperm.length_eq
      simp only [List.length_cons] at this
      unfold size
      omega
    · intro hc
      rw [htrue] at hc
      exact absurd hc.symm Bool.false_ne_true

/-- Witness for C20: removing `"b"` from the sample heap, and removing an absent id. -/
theorem remove_spec_witness :
    (remove sampleHeap "b").1 = true
      ∧ (∃ i, i < sampleHeap.length ∧ (entry sampleHeap i).question.id = "b"
          ∧ (∀ j, j < i → (entry sampleHeap j).question.id ≠ "b")
          ∧ (entry sampleHeap i :: (remove sampleHeap "b").2).Perm sampleHeap
          ∧ size (remove sampleHeap "b").2 = size sampleHeap - 1)
      ∧ (remove sampleHeap "zz").1 = false
      ∧ (remove sampleHeap "zz").2 = sampleHeap :=
  ⟨by decide, (remove_spec sampleHeap "b").2.1 (by decide), by decide,
   (remove_spec sampleHeap "zz").2.2 (by decide)⟩

end RevisionHeap

namespace RevisionHeap

/-! ### Claims C21 to C24 -/

theorem updatePriority_found (env : Env) (h : Heap) (qid : String) (u : Question)
    (today : String) (i : Nat) (hf : findId h qid = some i) :
    (updatePriority env h qid u today).Perm (h.set i ⟨u, u.getPriorityScore env today⟩) := by
  have hi := findId_lt h qid i hf
  unfold updatePriority
  rw [hf]
  simp only []
  have hset : (h.set i { entry h i with question := u }).set i
      { entry (h.set i { entry h i with question := u }) i with
        priorityScore := u.getPriorityScore env today }
      = h.set i ⟨u, u.getPriorityScore env today⟩ := by
    rw [List.set_set, entry_set h i _ i hi, if_pos rfl]
  rw [hset]
  exact (siftUp_perm _ i (by rw [siftDown_length]; simpa using hi)).trans (siftDown_perm _ i)

theorem updatePriority_not_found (env : Env) (h : Heap) (qid : String) (u : Question)
    (today : String) (hf : findId h qid = none) :
    updatePriority env h qid u today = push env h u today := by
  unfold updatePriority
  rw [hf]

/-- C21: if some entry has the id, `updatePriority(id, u, today)` leaves the size unchanged
and the resulting entries are the original ones with the first such entry replaced by
`(u, getPriorityScore(u, today))`; if no entry has the id, the call is `push(u, today)`:
the original entries plus the new one, size + 1. -/
theorem updatePriority_spec (env : Env) (h : Heap) (qid : String) (u : Question)
    (today : String) :
    ((∃ e ∈ h, e.question.id = qid) →
        ∃ i, i < h.length ∧ (entry h i).question.id = qid
          ∧ (∀ j, j < i → (entry h j).question.id ≠ qid)
          ∧ (updatePriority env h qid u today).Perm
              (h.set i ⟨u, u.getPriorityScore env today⟩)
          ∧ size (updatePriority env h qid u today) = size h)
      ∧ ((∀ e ∈ h, e.question.id ≠ qid) →
          updatePriority env h qid u today = push env h u today
            ∧ (updatePriority env h qid u today).Perm
                (h ++ [⟨u, u.getPriorityScore env today⟩])
            ∧ size (updatePriority env h qid u today) = size h + 1) := by
  cases hf : findId h qid with
  | none =>
    have hno := findId_none h qid hf
    have heq := updatePriority_not_found env h qid u today hf
    constructor
    · rintro ⟨e, he, hid⟩
      exact absurd hid (hno e he)
    · intro _
      refine ⟨heq, ?_, ?_⟩
      · rw [heq]
        exact push_perm env h u today
      · rw [heq]
        have := (push_perm env h u today).length_eq
        unfold size
        rw [this]
        simp
  | some i =>
    obtain ⟨hi, hid, hfirst⟩ := findId_some h qid i hf
    have hp := updatePriority_found env h qid u today i hf
    constructor
    · intro _
      refine ⟨i, hi, hid, hfirst, hp, ?_⟩
      have := hp.length_eq
      unfold size
      rw [this]
      simp
    · intro hno
      exact absurd hid (hno _ (entry_mem h hi))

/-- Witness for C21: updating `"b"` in the sample heap, and updating an absent id. -/
theorem updatePriority_spec_witness :
    (∃ e ∈ sampleHeap, e.question.id = "b")
      ∧ size (updatePriority (utcEnv "2025-07-10") sampleHeap "b" Question.mk0 "2025-07-10")
          = size sampleHeap
      ∧ (∀ e ∈ sampleHeap, e.question.id ≠ "zz")
      ∧ size (updatePriority (utcEnv "2025-07-10") sampleHeap "zz" Question.mk0 "2025-07-10")
          = size sampleHeap + 1 := by
  have h1 : ∃ e ∈ sampleHeap, e.question.id = "b" :=
    ⟨sampleEntry "b" 3, by simp [sampleHeap], rfl⟩
  have h2 : ∀ e ∈ sampleHeap, e.question.id ≠ "zz" := by
    intro e he
    simp only [sampleHeap, List.mem_cons, List.mem_singleton, List.not_mem_nil, or_false] at he
    rcases he with h | h | h | h <;> rw [h] <;> decide
  obtain ⟨i, _, _, _, _, hs⟩ :=
    (updatePriority_spec (utcEnv "2025-07-10") sampleHeap "b" Question.mk0 "2025-07-10").1 h1
  exact ⟨h1, hs, h2,
    ((updatePriority_spec (utcEnv "2025-07-10") sampleHeap "zz" Question.mk0
      "2025-07-10").2 h2).2.2⟩

theorem pop_min (h : Heap) (hv : Valid h) (e : HeapEntry) (h1 : Heap)
    (hpop : pop h = some (e, h1)) : ∀ x ∈ h, e.priorityScore ≤ x.priorityScore := by
  by_cases hne : h = []
  · rw [pop_eq_none h hne] at hpop
    exact absurd hpop (by simp)
  · rw [pop_eq_some h hne] at hpop
    injection hpop with hpop
    injection hpop with he _
    intro x hx
    obtain ⟨i, hi, hxi⟩ := List.mem_iff_getElem.mp hx
    have := root_le h hv i hi
    unfold score at this
    rw [entry_eq_getElem h hi, hxi, he] at this
    exact this

/-- The first loop of `topK` on a valid heap: the entries it pops come out in non-decreasing
order of score, none of them is above an entry left in the heap, and popped and left
entries together are the original ones. -/
theorem popLoop_spec : ∀ (cnt : Nat) (h : Heap) (acc : List HeapEntry), Valid h →
    cnt ≤ h.length →
    ∃ popped h1, popLoop cnt h acc = some (acc ++ popped, h1) ∧ popped.length = cnt
      ∧ ScoreSorted popped
      ∧ (∀ x ∈ popped, ∀ y ∈ h1, x.priorityScore ≤ y.priorityScore)
      ∧ (popped ++ h1).Perm h ∧ Valid h1 := by
  intro cnt
  induction cnt with
  | zero =>
    intro h acc hv _
    refine ⟨[], h, by simp [popLoop], rfl, List.Pairwise.nil, ?_, List.Perm.refl _, hv⟩
    intro x hx
    simp at hx
  | succ n ih =>
    intro h acc hv hle
    have hne : h ≠ [] := by
      intro e
      rw [e] at hle
      simp at hle
    have hp := pop_eq_some h hne
    have hl := pop_length h _ _ hp
    have hperm := pop_perm h _ _ hp
    have hmin := pop_min h hv _ _ hp
    have hv2 := pop_valid h hv _ _ hp
    obtain ⟨popped, h1, hloop, hlen, hsorted, hle1, hperm1, hv1⟩ :=
      ih _ (acc ++ [entry h 0]) hv2 (by omega)
    have hsub : ∀ x, x ∈ popped ++ h1 → x ∈ h := by
      intro x hx
      exact hperm.subset (List.mem_cons_of_mem _ (hperm1.subset hx))
    refine ⟨entry h 0 :: popped, h1, ?_, by simp [hlen], ?_, ?_, ?_, hv1⟩
    · unfold popLoop
      rw [hp]
      simp only []
      rw [hloop, List.append_assoc]
      rfl
    · exact List.Pairwise.cons
        (fun x hx => hmin x (hsub x (List.mem_append_left _ hx))) hsorted
    · intro x hx y hy
      rcases List.mem_cons.mp hx with h0 | h0
      · rw [h0]
        exact hmin y (hsub y (List.mem_append_right _ hy))
      · exact hle1 x h0 y hy
    · rw [List.cons_append]
      exact (List.Perm.cons _ hperm1).trans hperm

/-- C22: on a valid heap of size `n`, `topK(k)` returns `max(0, min(k, n))` entries in
non-decreasing order of score, each with a score at most that of every entry not returned,
and the heap afterwards holds the same entries as before (same size) and is valid. -/
theorem topK_spec (h : Heap) (k : Int) (hv : isValidHeap h = true) :
    ∃ r h1 rest, topK h k = some (r, h1)
      ∧ (r.length : Int) = max 0 (min k (size h))
      ∧ ScoreSorted r
      ∧ (r ++ rest).Perm h
      ∧ (∀ x ∈ r, ∀ y ∈ rest, x.priorityScore ≤ y.priorityScore)
      ∧ h1.Perm h ∧ size h1 = size h ∧ isValidHeap h1 = true := by
  rw [isValidHeap_iff] at hv
  obtain ⟨popped, h2, hloop, hlen, hsorted, hle, hperm, _⟩ :=
    popLoop_spec (min k (h.length : Int)).toNat h [] hv (by omega)
  rw [List.nil_append] at hloop
  have hfinal : (heapify (h2 ++ popped)).Perm h :=
    (heapify_perm _).trans (List.perm_append_comm.trans hperm)
  refine ⟨popped, heapify (h2 ++ popped), h2, ?_, ?_, hsorted, hperm, hle, hfinal, ?_, ?_⟩
  · unfold topK
    simp only []
    rw [hloop]
  · rw [hlen]
    unfold size
    omega
  · unfold size
    rw [hfinal.length_eq]
  · rw [isValidHeap_iff]
    exact heapify_valid _

/-- Witness for C22: the two smallest entries of the sample heap. -/
theorem topK_spec_witness :
    isValidHeap sampleHeap = true
      ∧ ∃ r h1 rest, topK sampleHeap 2 = some (r, h1)
          ∧ (r.length : Int) = max 0 (min 2 (size sampleHeap))
          ∧ ScoreSorted r
          ∧ (r ++ rest).Perm sampleHeap
          ∧ (∀ x ∈ r, ∀ y ∈ rest, x.priorityScore ≤ y.priorityScore)
          ∧ h1.Perm sampleHeap ∧ size h1 = size sampleHeap ∧ isValidHeap h1 = true :=
  ⟨sampleHeap_valid, topK_spec sampleHeap 2 sampleHeap_valid⟩

theorem siftUpAux_of_le : ∀ (d : Nat) (h : Heap) (i : Nat),
    siftUpAux (i + d) h i = siftUpAux i h i := by
  intro d
  induction d with
  | zero => intro h i; rfl
  | succ d ih =>
    intro h i
    rw [← Nat.add_assoc, siftUpAux_fuel (i + d) h i (by omega), ih]

theorem siftUpAux_ge (fuel : Nat) (h : Heap) (i : Nat) (hle : i ≤ fuel) :
    siftUpAux fuel h i = siftUpAux i h i := by
  have e : fuel = i + (fuel - i) := by omega
  rw [e]
  exact siftUpAux_of_le _ h i

/-- The loop of `siftUp`: the entry at `i` moves to its parent as long as `i > 0` and its
score is strictly smaller than the parent's. -/
theorem siftUp_unfold (g : Heap) (i : Nat) :
    siftUp g i
      = if i > 0 then
          (if score g i < score g (parent i) then siftUp (swap g i (parent i)) (parent i)
           else g)
        else g := by
  unfold siftUp
  cases i with
  | zero => rfl
  | succ m =>
    rw [siftUpAux_succ]
    have hp : parent (m + 1) ≤ m := by
      have : parent (m + 1) < m + 1 := parent_lt (by omega)
      omega
    rw [siftUpAux_ge m _ _ hp]

/-- C23: `push(q, today)` appends the entry `(q, getPriorityScore(q, today))` and sifts it
up from the last position, moving it while its score is strictly smaller than its parent's;
the resulting heap holds the original entries plus the new one (size + 1). -/
theorem push_spec (env : Env) (h : Heap) (q : Question) (today : String) :
    (push env h q today).Perm (h ++ [⟨q, q.getPriorityScore env today⟩])
      ∧ size (push env h q today) = size h + 1
      ∧ push env h q today = siftUp (h ++ [⟨q, q.getPriorityScore env today⟩]) h.length
      ∧ ∀ (g : Heap) (i : Nat),
          siftUp g i
            = if i > 0 then
                (if score g i < score g (parent i) then
                  siftUp (swap g i (parent i)) (parent i)
                 else g)
              else g := by
  refine ⟨push_perm env h q today, ?_, ?_, siftUp_unfold⟩
  · have := (push_perm env h q today).length_eq
    unfold size
    rw [this]
    simp
  · unfold push
    simp

/-- C24: `pop()` and `top()` fail exactly on the empty heap, so neither fails on a non-empty
one, and a failed `pop()` on the empty heap leaves it empty (size 0). -/
theorem pop_top_fail_iff (h : Heap) :
    (pop h = none ↔ h = [])
      ∧ (top h = none ↔ h = [])
      ∧ pop empty = none
      ∧ heapAfterPop empty = empty
      ∧ size (heapAfterPop empty) = 0 := by
  refine ⟨?_, ?_, rfl, rfl, rfl⟩
  · constructor
    · intro hp
      by_contra hne
      rw [pop_eq_some h hne] at hp
      exact absurd hp (by simp)
    · exact pop_eq_none h
  · unfold top
    constructor
    · intro ht
      by_contra hne
      have : ¬ (h.isEmpty = true) := by
        rw [List.isEmpty_iff]
        exact hne
      rw [if_neg this] at ht
      exact absurd ht (by simp)
    · intro he
      rw [he]
      rfl

end RevisionHeap

namespace QuestionHashMap

/-! ### Distinct keys -/

theorem flatten_set_sublist : ∀ (bs : List Bucket) (i : Nat) (b1 : Bucket),
    b1.Sublist (bs.getD i []) → (bs.set i b1).flatten.Sublist bs.flatten := by
  intro bs
  induction bs with
  | nil => intro i b1 _; exact List.Sublist.refl _
  | cons b rest ih =>
    intro i b1 hsub
    cases i with
    | zero =>
      simp only [List.set_cons_zero, List.flatten_cons]
      exact List.Sublist.append hsub (List.Sublist.refl _)
    | succ i =>
      simp only [List.set_cons_succ, List.flatten_cons]
      exact List.Sublist.append (List.Sublist.refl _) (ih i b1 (by simpa using hsub))

theorem flatten_set_map_eq (f : Entry → String) : ∀ (bs : List Bucket) (i : Nat) (b1 : Bucket),
    b1.map f = (bs.getD i []).map f → (bs.set i b1).flatten.map f = bs.flatten.map f := by
  intro bs
  induction bs with
  | nil => intro i b1 _; rfl
  | cons b rest ih =>
    intro i b1 hmap
    cases i with
    | zero =>
      simp only [List.set_cons_zero, List.flatten_cons, List.map_append]
      rw [hmap]
      rfl
    | succ i =>
      simp only [List.set_cons_succ, List.flatten_cons, List.map_append]
      rw [ih i b1 (by simpa using hmap)]

theorem bucket_sublist_flatten (bs : List Bucket) (i : Nat) :
    (bs.getD i []).Sublist bs.flatten := by
  by_cases hi : i < bs.length
  · rw [List.getD_eq_getElem bs [] hi]
    exact List.sublist_flatten_of_mem (List.getElem_mem hi)
  · rw [List.getD_eq_default bs [] (by omega)]
    exact List.nil_sublist _

theorem KeysDistinct.bucket {m : QuestionHashMap} (hk : KeysDistinct m) (i : Nat) :
    ((bucketAt m i).map (fun e => e.1)).Nodup :=
  List.Nodup.sublist ((bucket_sublist_flatten m.buckets_ i).map _) hk

theorem keysDistinct_mkCap (cap : Int) : KeysDistinct (mkCap cap) := by
  unfold KeysDistinct mkCap
  simp only []
  rw [flatten_replicate_nil]
  exact List.nodup_nil

theorem keysDistinct_grow (m : QuestionHashMap) (hw : WF m) (hk : KeysDistinct m) :
    KeysDistinct (if overLoad m = true then rehash m else m) :=
  ((grow_flatten_perm m hw).map _).nodup_iff.mpr hk

/-- A key the assignment loop of `put` does not find is in no bucket at all. -/
theorem absent_of_assign_none (m : QuestionHashMap) (hw : WF m) (key : String)
    (val : Question) (ha : assign key val (bucketAt m (index m key)) = none) :
    key ∉ m.buckets_.flatten.map (fun e => e.1) := by
  intro hmem
  obtain ⟨e, he, hek⟩ := List.mem_map.mp hmem
  obtain ⟨i, _, hei⟩ := exists_getD_of_mem_flatten _ e he
  have hidx := hw.2.2 i e hei
  have hek1 : e.1 = key := hek
  rw [hek1] at hidx
  have hin : e ∈ bucketAt m (index m key) := by
    unfold index
    rw [hidx]
    exact hei
  exact (assign_eq_none_iff key val _).mp ha e hin hek1

theorem keysDistinct_putNoGrow (m : QuestionHashMap) (hw : WF m) (hk : KeysDistinct m)
    (key : String) (val : Question) : KeysDistinct (putNoGrow m key val) := by
  unfold KeysDistinct
  cases ha : assign key val (bucketAt m (index m key)) with
  | none =>
    have habs := absent_of_assign_none m hw key val ha
    have hp := (putNoGrow_absent m hw key val habs).1
    rw [(hp.map _).nodup_iff, List.map_cons]
    exact List.nodup_cons.mpr ⟨habs, hk⟩
  | some b1 =>
    rw [putNoGrow_buckets, ha]
    simp only []
    rw [flatten_set_map_eq _ _ _ _ (assign_some_find? key val _ b1 ha).2.2.2]
    exact hk

theorem keysDistinct_put (m : QuestionHashMap) (hw : WF m) (hk : KeysDistinct m)
    (key : String) (val : Question) : KeysDistinct (put m key val) :=
  keysDistinct_putNoGrow _ (wf_grow m hw) (keysDistinct_grow m hw hk) key val

theorem keysDistinct_remove (m : QuestionHashMap) (hk : KeysDistinct m) (key : String) :
    KeysDistinct (remove m key).2 := by
  unfold remove
  simp only []
  by_cases hany : (bucketAt m (index m key)).any (fun e => decide (e.1 = key)) = true
  · rw [if_pos hany]
    unfold KeysDistinct
    simp only []
    exact List.Nodup.sublist
      ((flatten_set_sublist _ _ _ (List.eraseP_sublist _)).map _) hk
  · rw [if_neg hany]
    exact hk

theorem built_keysDistinct (m : QuestionHashMap) (hb : Built m) : KeysDistinct m := by
  induction hb with
  | ofCap cap _ => exact keysDistinct_mkCap cap
  | @ofPut m0 key val hb0 ih => exact keysDistinct_put m0 (built_wf m0 hb0) ih key val
  | ofRemove key _ ih => exact keysDistinct_remove _ ih key

/-! ### `remove` -/

theorem find?_eraseP_same (k : String) : ∀ b : Bucket, (b.map (fun e => e.1)).Nodup →
    (b.eraseP (fun e => decide (e.1 = k))).find? (fun e => decide (e.1 = k)) = none := by
  intro b
  induction b with
  | nil => intro _; rfl
  | cons e es ih =>
    intro hnd
    rw [List.map_cons, List.nodup_cons] at hnd
    by_cases he : e.1 = k
    · rw [List.eraseP_cons_of_pos (by simpa using he), List.find?_eq_none]
      intro x hx hxk
      apply hnd.1
      have : x.1 = e.1 := by
        rw [he]
        simpa using hxk
      rw [← this]
      exact List.mem_map_of_mem (fun e => e.1) hx
    · rw [List.eraseP_cons_of_neg (by simpa using he),
        List.find?_cons_of_neg _ (by simpa using he)]
      exact ih hnd.2

theorem find?_eraseP_other (k k2 : String) (hk : k2 ≠ k) : ∀ b : Bucket,
    (b.eraseP (fun e => decide (e.1 = k))).find? (fun e => decide (e.1 = k2))
      = b.find? (fun e => decide (e.1 = k2)) := by
  intro b
  induction b with
  | nil => rfl
  | cons e es ih =>
    by_cases he : e.1 = k
    · rw [List.eraseP_cons_of_pos (by simpa using he)]
      have : ¬ e.1 = k2 := by
        rw [he]
        exact fun h => hk h.symm
      rw [List.find?_cons_of_neg _ (by simpa using this)]
    · rw [List.eraseP_cons_of_neg (by simpa using he)]
      by_cases he2 : e.1 = k2
      · rw [List.find?_cons_of_pos _ (by simpa using he2),
          List.find?_cons_of_pos _ (by simpa using he2)]
      · rw [List.find?_cons_of_neg _ (by simpa using he2),
          List.find?_cons_of_neg _ (by simpa using he2), ih]

theorem get_fst_eq_any (m : QuestionHashMap) (key : String) :
    (get m key).1 = (bucketAt m (index m key)).any (fun e => decide (e.1 = key)) := by
  unfold get
  induction bucketAt m (index m key) with
  | nil => rfl
  | cons e es ih =>
    by_cases he : e.1 = key
    · rw [List.find?_cons_of_pos _ (by simpa using he)]
      simp [he]
    · rw [List.find?_cons_of_neg _ (by simpa using he)]
      simp only [List.any_cons]
      rw [ih]
      simp [he]

theorem remove_absent (m : QuestionHashMap) (key : String) (h : (get m key).1 = false) :
    remove m key = (false, m) := by
  unfold remove
  simp only []
  rw [get_fst_eq_any] at h
  rw [if_neg (by rw [h]; exact Bool.false_ne_true)]

theorem remove_present (m : QuestionHashMap) (key : String) (h : (get m key).1 = true) :
    remove m key
      = (true,
          { m with
            buckets_ := m.buckets_.set (index m key)
              ((bucketAt m (index m key)).eraseP (fun e => decide (e.1 = key))),
            size_ := m.size_ - 1,
            collisions_ :=
              if ¬ ((bucketAt m (index m key)).eraseP
                  (fun e => decide (e.1 = key))).isEmpty
              then m.collisions_ - 1 else m.collisions_ }) := by
  unfold remove
  simp only []
  rw [get_fst_eq_any] at h
  rw [if_pos h]

theorem bucketAt_remove_present (m : QuestionHashMap) (hw : WF m) (key : String)
    (h : (get m key).1 = true) (j : Nat) :
    bucketAt (remove m key).2 j
      = if j = index m key then
          (bucketAt m (index m key)).eraseP (fun e => decide (e.1 = key))
        else bucketAt m j := by
  rw [remove_present m key h]
  unfold bucketAt
  simp only []
  rw [getD_set_bucket _ _ _ _ (hw.index_lt key)]

theorem index_remove (m : QuestionHashMap) (key k2 : String) :
    index (remove m key).2 k2 = index m k2 := by
  unfold remove
  simp only []
  split_ifs <;> rfl

theorem get_put_same (m : QuestionHashMap) (hw : WF m) (key : String) (val : Question) :
    get (put m key val) key = (true, val) :=
  get_putNoGrow_same _ (wf_grow m hw) key val

/-! ### Claim C25 -/

/-- C25: on every store with positive capacity built by `put` and `remove`, `remove(k)`
returns true iff `k` was present; when present, `get(k)` afterwards reports not found,
`size()` is one smaller and `get(k2)` is unchanged for every other key; when absent, it
returns false and the store (contents, size, capacity, collision count) is unchanged. -/
theorem remove_law (m : QuestionHashMap) (hb : Built m) (k k2 : String) :
    ((remove m k).1 = true ↔ (get m k).1 = true)
      ∧ ((get m k).1 = true →
          get (remove m k).2 k = (false, Question.mk0)
            ∧ size (remove m k).2 = size m - 1
            ∧ capacity (remove m k).2 = capacity m
            ∧ (k2 ≠ k → get (remove m k).2 k2 = get m k2))
      ∧ ((get m k).1 = false → (remove m k).1 = false ∧ (remove m k).2 = m) := by
  have hw := built_wf m hb
  have hk := built_keysDistinct m hb
  refine ⟨?_, ?_, ?_⟩
  · cases hg : (get m k).1 with
    | true =>
      rw [remove_present m k hg]
    | false =>
      rw [remove_absent m k hg]
  · intro hg
    refine ⟨?_, ?_, ?_, ?_⟩
    · unfold get
      rw [index_remove, bucketAt_remove_present m hw k hg, if_pos rfl,
        find?_eraseP_same k _ (hk.bucket _)]
    · rw [remove_present m k hg]
      rfl
    · rw [remove_present m k hg]
      rfl
    · intro hne
      unfold get
      rw [index_remove, bucketAt_remove_present m hw k hg]
      by_cases hi : index m k2 = index m k
      · rw [if_pos hi, find?_eraseP_other k k2 hne, hi]
      · rw [if_neg hi]
  · intro hg
    rw [remove_absent m k hg]
    exact ⟨rfl, rfl⟩

/-- Witness for C25: removing the key just put into a store of capacity 1, and removing an
absent key from the fresh store. -/
theorem remove_law_witness :
    (get (put (mkCap 1) "q1" (sampleItem "q1" 120)) "q1").1 = true
      ∧ get (remove (put (mkCap 1) "q1" (sampleItem "q1" 120)) "q1").2 "q1"
          = (false, Question.mk0)
      ∧ size (remove (put (mkCap 1) "q1" (sampleItem "q1" 120)) "q1").2
          = size (put (mkCap 1) "q1" (sampleItem "q1" 120)) - 1
      ∧ (get mk0 "q1").1 = false
      ∧ (remove mk0 "q1").2 = mk0 := by
  have hb : Built (put (mkCap 1) "q1" (sampleItem "q1" 120)) :=
    Built.ofPut _ _ (Built.ofCap 1 (by decide))
  have hg : (get (put (mkCap 1) "q1" (sampleItem "q1" 120)) "q1").1 = true := by
    rw [get_put_same _ (wf_mkCap 1 (by decide))]
  have h0 : (get mk0 "q1").1 = false := by decide
  exact ⟨hg, ((remove_law _ hb "q1" "q2").2.1 hg).1, ((remove_law _ hb "q1" "q2").2.1 hg).2.1,
    h0, ((remove_law mk0 (Built.ofCap 16 (by decide)) "q1" "q2").2.2 h0).2⟩

/-! ### Claim C26 -/

theorem overLoad_iff (m : QuestionHashMap) (hc : 0 < m.capacity_) :
    overLoad m = true ↔ ((m.size_ + 1 : Int) : ℚ) / (m.capacity_ : ℚ) > 3 / 4 := by
  unfold overLoad LOAD_THRESHOLD
  rw [if_neg (by omega)]
  simp

theorem overLoad_iff_int (m : QuestionHashMap) (hc : 0 < m.capacity_) :
    overLoad m = true ↔ 3 * m.capacity_ < 4 * (m.size_ + 1) := by
  rw [overLoad_iff m hc]
  have hcq : (0 : ℚ) < (m.capacity_ : ℚ) := by exact_mod_cast hc
  rw [gt_iff_lt, lt_div_iff₀ hcq]
  constructor
  · intro h
    have h1 : (3 : ℚ) * (m.capacity_ : ℚ) < 4 * ((m.size_ + 1 : Int) : ℚ) := by linarith
    exact_mod_cast h1
  · intro h
    have h1 : (3 : ℚ) * (m.capacity_ : ℚ) < 4 * ((m.size_ + 1 : Int) : ℚ) := by exact_mod_cast h
    linarith

theorem put_capacity (m : QuestionHashMap) (key : String) (val : Question) :
    (put m key val).capacity_
      = if overLoad m = true then m.capacity_ * 2 else m.capacity_ := by
  unfold put
  rw [putNoGrow_capacity]
  split_ifs <;> rfl

theorem fromList_append_singleton (qs : List Question) (q : Question) :
    fromList (qs ++ [q]) = put (fromList qs) q.id q := by
  unfold fromList
  rw [List.foldl_append]
  rfl

theorem fromList_capacity_le12 : ∀ qs : List Question, (qs.map (fun q => q.id)).Nodup →
    qs.length ≤ 12 → (fromList qs).capacity_ = 16 := by
  intro qs
  induction qs using List.reverseRecOn with
  | nil => intro _ _; rfl
  | append_singleton qs q ih =>
    intro hnd hlen
    have hnd1 : (qs.map (fun q => q.id)).Nodup := by
      rw [List.map_append] at hnd
      exact (List.nodup_append.mp hnd).1
    have hl : qs.length ≤ 11 := by
      simp at hlen
      omega
    have hcap := ih hnd1 (by omega)
    have hsize := (fromList_contents qs hnd1).2
    rw [fromList_append_singleton, put_capacity]
    have hno : ¬ overLoad (fromList qs) = true := by
      rw [overLoad_iff_int _ (by rw [hcap]; decide), hcap, hsize]
      omega
    rw [if_neg hno, hcap]

theorem fromList_capacity_13 (qs : List Question) (hnd : (qs.map (fun q => q.id)).Nodup)
    (hlen : qs.length = 13) : (fromList qs).capacity_ = 32 := by
  induction qs using List.reverseRecOn with
  | nil => simp at hlen
  | append_singleton qs q _ =>
    have hnd1 : (qs.map (fun q => q.id)).Nodup := by
      rw [List.map_append] at hnd
      exact (List.nodup_append.mp hnd).1
    have hl : qs.length = 12 := by
      simp at hlen
      omega
    have hcap := fromList_capacity_le12 qs hnd1 (by omega)
    have hsize := (fromList_contents qs hnd1).2
    rw [fromList_append_singleton, put_capacity]
    have hyes : overLoad (fromList qs) = true := by
      rw [overLoad_iff_int _ (by rw [hcap]; decide), hcap, hsize]
      omega
    rw [if_pos hyes, hcap]
    rfl

/-- C26: on a store of size `s` and capacity `c > 0`, `put(k, v)` doubles the capacity exactly
when `(s + 1) / c > 0.75`, decided on the size before the insertion, and otherwise leaves it
unchanged; from the initial capacity 16 the first 12 insertions of distinct keys leave the
capacity at 16 and the 13th makes it 32. -/
theorem put_capacity_rule (m : QuestionHashMap) (k : String) (v : Question)
    (hc : 0 < m.capacity_) :
    ((((m.size_ + 1 : Int) : ℚ) / (m.capacity_ : ℚ) > 3 / 4 →
        capacity (put m k v) = 2 * capacity m)
      ∧ (¬ ((m.size_ + 1 : Int) : ℚ) / (m.capacity_ : ℚ) > 3 / 4 →
        capacity (put m k v) = capacity m))
      ∧ ∀ qs : List Question, (qs.map (fun q => q.id)).Nodup →
          (qs.length ≤ 12 → capacity (fromList qs) = 16)
            ∧ (qs.length = 13 → capacity (fromList qs) = 32) := by
  refine ⟨⟨?_, ?_⟩, ?_⟩
  · intro h
    unfold capacity
    rw [put_capacity, if_pos ((overLoad_iff m hc).mpr h)]
    ring
  · intro h
    unfold capacity
    rw [put_capacity, if_neg (fun ho => h ((overLoad_iff m hc).mp ho))]
  · intro qs hnd
    exact ⟨fromList_capacity_le12 qs hnd, fromList_capacity_13 qs hnd⟩

/-- Witness for C26: the thirteen sample items bring the fresh store to capacity 32, the
first twelve leave it at 16. -/
theorem put_capacity_rule_witness :
    (0 : Int) < mk0.capacity_
      ∧ (thirteen.map (fun q => q.id)).Nodup
      ∧ capacity (fromList thirteen) = 32
      ∧ capacity (fromList (thirteen.take 12)) = 16 :=
  ⟨by decide, by decide,
   ((put_capacity_rule mk0 "q1" (sampleItem "q1" 120) (by decide)).2 thirteen
      (by decide)).2 (by decide),
   ((put_capacity_rule mk0 "q1" (sampleItem "q1" 120) (by decide)).2 (thirteen.take 12)
      (by decide)).1 (by decide)⟩

/-! ### Claim C27 -/

/-- C27: for every store, after `rehash` the capacity is doubled, the size is unchanged, there
are as many buckets as the new capacity, the entries over all buckets are exactly those
before (none lost, none duplicated), and every entry lies in the bucket
`djb2(key) mod` the new capacity. -/
theorem rehash_preserves (m : QuestionHashMap) (hs : IsStore m) :
    capacity (rehash m) = 2 * capacity m
      ∧ size (rehash m) = size m
      ∧ (rehash m).buckets_.length = (capacity (rehash m)).toNat
      ∧ (rehash m).buckets_.flatten.Perm m.buckets_.flatten
      ∧ ∀ (j : Nat) (e : Entry), e ∈ bucketAt (rehash m) j →
          djb2 e.1 % (capacity (rehash m)).toNat = j := by
  have hcapEq : capacity (rehash m) = 2 * capacity m := by
    unfold capacity
    rw [rehash_capacity]
    ring
  have hlen : (rehash m).buckets_.length = (capacity (rehash m)).toNat := by
    unfold capacity
    rw [rehash_buckets, foldl_relocate_length, rehash_capacity]
    simp
  refine ⟨hcapEq, rfl, hlen, ?_, ?_⟩
  · rcases lt_or_eq_of_le hs.1 with hpos | hzero
    · exact rehash_flatten_perm m hpos
    · have hb : m.buckets_ = [] := by
        apply List.eq_nil_of_length_eq_zero
        rw [hs.2, ← hzero]
        rfl
      rw [rehash_buckets, hb]
      simp only [List.flatten_nil, List.foldl_nil]
      rw [flatten_replicate_nil]
  · intro j e he
    rcases lt_or_eq_of_le hs.1 with hpos | hzero
    · have := (wf_rehash m hpos).2.2 j e he
      unfold indexFor at this
      exact this
    · have hb : m.buckets_ = [] := by
        apply List.eq_nil_of_length_eq_zero
        rw [hs.2, ← hzero]
        rfl
      unfold bucketAt at he
      rw [rehash_buckets, hb] at he
      simp only [List.flatten_nil, List.foldl_nil] at he
      rw [getD_replicate_nil] at he
      simp at he

/-- Witness for C27: rehashing a store of capacity 1 that holds two entries. -/
theorem rehash_preserves_witness :
    IsStore crowdedStore
      ∧ capacity (rehash crowdedStore) = 2
      ∧ size (rehash crowdedStore) = 2
      ∧ (rehash crowdedStore).buckets_.flatten.Perm
          [("q1", sampleItem "q1" 120), ("q2", sampleItem "q2" 80)] :=
  ⟨⟨by decide, rfl⟩, (rehash_preserves crowdedStore ⟨by decide, rfl⟩).1,
   (rehash_preserves crowdedStore ⟨by decide, rfl⟩).2.1,
   (rehash_preserves crowdedStore ⟨by decide, rfl⟩).2.2.2.1⟩

end QuestionHashMap

namespace RevisionEngine

/-! ### Claim C28 -/

theorem clampQuality_eq (quality : Int) : clampQuality quality = max 0 (min 5 quality) := by
  unfold clampQuality
  split_ifs <;> omega

theorem specDelta_strictMono (a b : Int) (ha : 0 ≤ a) (hab : a < b) (hb : b ≤ 5) :
    specDelta a < specDelta b := by
  unfold specDelta
  have h1 : (0 : ℚ) ≤ (a : ℚ) := by exact_mod_cast ha
  have h2 : (a : ℚ) < (b : ℚ) := by exact_mod_cast hab
  have h3 : (b : ℚ) ≤ 5 := by exact_mod_cast hb
  nlinarith [mul_pos (sub_pos.mpr h2) (sub_pos.mpr h2), mul_nonneg (sub_nonneg.mpr h3) (sub_pos.mpr h2).le]

/-- C28: `updateEaseFactor(ef, q) = max(1.3, ef + delta(c))` with `c` the quality clamped to
0..5 and `delta(c) = 0.1 - (5 - c) * (0.08 + (5 - c) * 0.02)`; delta is +0.1 at 5, 0 at 4,
-0.14 at 3, -0.32 at 2, -0.54 at 1 and -0.8 at 0, strictly increasing on 0..5, so quality 0
gives the most negative delta. -/
theorem updateEaseFactor_delta (ef : ℚ) (quality : Int) :
    updateEaseFactor ef quality = max (13 / 10) (ef + specDelta (clampQuality quality))
      ∧ (specDelta 5 = 1 / 10 ∧ specDelta 4 = 0 ∧ specDelta 3 = -(7 / 50)
          ∧ specDelta 2 = -(8 / 25) ∧ specDelta 1 = -(27 / 50) ∧ specDelta 0 = -(4 / 5))
      ∧ (∀ a b : Int, 0 ≤ a → a < b → b ≤ 5 → specDelta a < specDelta b)
      ∧ (∀ c : Int, 0 ≤ c → c ≤ 5 → specDelta 0 ≤ specDelta c) := by
  refine ⟨?_, ?_, specDelta_strictMono, ?_⟩
  · unfold updateEaseFactor specDelta EF_MIN
    simp only []
    rw [clampQuality_eq]
  · unfold specDelta
    refine ⟨?_, ?_, ?_, ?_, ?_, ?_⟩ <;> norm_num
  · intro c h0 h5
    rcases eq_or_lt_of_le h0 with h | h
    · rw [← h]
    · exact le_of_lt (specDelta_strictMono 0 c (le_refl _) h h5)

/-- Witness for C28: the delta at quality 2 is below the delta at quality 3. -/
theorem updateEaseFactor_delta_witness :
    (0 : Int) ≤ 2 ∧ (2 : Int) < 3 ∧ (3 : Int) ≤ 5 ∧ specDelta 2 < specDelta 3 :=
  ⟨by decide, by decide, by decide,
   (updateEaseFactor_delta (5 / 2) 3).2.2.1 2 3 (by decide) (by decide) (by decide)⟩

end RevisionEngine

/-! ### Claims C29 and C30 -/

theorem specScore_factors (q : Question) :
    (0 : ℚ) < (match q.difficulty with
      | Difficulty.HARD => (3 / 2 : ℚ)
      | Difficulty.MEDIUM => 6 / 5
      | Difficulty.EASY => 1)
      ∧ (0 : ℚ) < (if q.streak < 3 then (3 / 2 : ℚ) else 1) := by
  constructor
  · cases q.difficulty <;> norm_num
  · split_ifs <;> norm_num

namespace Binary64

theorem getPriorityScore_eq (env : Env) (q : Question) (today : String)
    (hs : q.status ≠ QuestionStatus.MASTERED) (hd : q.nextRevisionDate ≠ "") :
    getPriorityScore env q today
      = roundD (roundD (roundD ((dateDiffDays env q.nextRevisionDate today : ℚ)
            * (if q.difficulty = Difficulty.HARD then 3 / 2
                else if q.difficulty = Difficulty.MEDIUM then roundD (6 / 5) else 1))
          + roundD (roundD (5 / 2 - q.easeFactor) * 2))
          * (if q.streak < 3 then 3 / 2 else 1)) := by
  unfold getPriorityScore
  rw [if_neg (by
    rintro (h | h)
    · exact hd h
    · exact hs h)]

theorem diffMult_range (d : Difficulty) :
    (1 : ℚ) ≤ (if d = Difficulty.HARD then 3 / 2
        else if d = Difficulty.MEDIUM then roundD (6 / 5) else 1)
      ∧ (if d = Difficulty.HARD then (3 / 2 : ℚ)
        else if d = Difficulty.MEDIUM then roundD (6 / 5) else 1) ≤ 2 := by
  have h1 : (1 : ℚ) ≤ roundD (6 / 5) := by
    have := dyadic_le_roundD (6 / 5) 1 0 (by norm_num) (by norm_num) (by norm_num)
    simpa using this
  have h2 : roundD (6 / 5) ≤ 2 := by
    have := roundD_le_dyadic (6 / 5) 2 0 (by norm_num) (by norm_num) (by norm_num)
    simpa using this
  cases d <;> simp only [reduceCtorEq, if_false, if_true] <;> constructor <;>
    first | exact h1 | exact h2 | norm_num

theorem streakPen_range (s : Int) :
    (1 : ℚ) ≤ (if s < 3 then 3 / 2 else 1) ∧ (if s < 3 then (3 / 2 : ℚ) else 1) ≤ 3 / 2 := by
  split_ifs <;> norm_num

/-- The rounded score grows strictly with the days overdue while the numbers are of the size
of an `int`. -/
theorem score_strict (d1 d2 : Int) (m P p : ℚ) (hd : d1 < d2) (h1 : |d1| ≤ 2 ^ 31)
    (h2 : |d2| ≤ 2 ^ 31) (hm1 : 1 ≤ m) (hm2 : m ≤ 2) (hP : |P| ≤ 2 ^ 33) (hp1 : 1 ≤ p)
    (hp2 : p ≤ 3 / 2) :
    roundD (roundD (roundD ((d1 : ℚ) * m) + P) * p)
      < roundD (roundD (roundD ((d2 : ℚ) * m) + P) * p) := by
  have hq1 : |(d1 : ℚ)| ≤ 2 ^ 31 := by exact_mod_cast h1
  have hq2 : |(d2 : ℚ)| ≤ 2 ^ 31 := by exact_mod_cast h2
  have hdq : (d1 : ℚ) + 1 ≤ (d2 : ℚ) := by exact_mod_cast hd
  have hmabs : |m| = m := abs_of_nonneg (by linarith)
  have hpabs : |p| = p := abs_of_nonneg (by linarith)
  -- first product
  have hx : ∀ d : ℚ, |d| ≤ 2 ^ 31 → |d * m| ≤ 2 ^ 32 := by
    intro d hd
    rw [abs_mul, hmabs]
    calc |d| * m ≤ 2 ^ 31 * 2 := mul_le_mul hd hm2 (by linarith) (by norm_num)
      _ = 2 ^ 32 := by norm_num
  have ha : ∀ d : ℚ, |d| ≤ 2 ^ 31 →
      |roundD (d * m) - d * m| ≤ 2 ^ (-20 : Int) / 2 ∧ |roundD (d * m)| ≤ 2 ^ 32 := by
    intro d hd
    refine ⟨abs_roundD_sub_le_of _ (-20) (by norm_num)
      (lt_of_le_of_lt (hx d hd) (by norm_num)), ?_⟩
    exact abs_roundD_le _ (2 ^ 32) (2 ^ 32) 0 (by norm_num) (by norm_num) (by norm_num)
      (hx d hd)
  obtain ⟨ea1, ba1⟩ := ha d1 hq1
  obtain ⟨ea2, ba2⟩ := ha d2 hq2
  -- the sum
  have hs : ∀ a : ℚ, |a| ≤ 2 ^ 32 →
      |roundD (a + P) - (a + P)| ≤ 2 ^ (-18 : Int) / 2 ∧ |roundD (a + P)| ≤ 2 ^ 34 := by
    intro a ha
    have hsum : |a + P| ≤ 2 ^ 34 :=
      le_trans (abs_add a P) (by
        have : (2 : ℚ) ^ 32 + 2 ^ 33 ≤ 2 ^ 34 := by norm_num
        linarith)
    refine ⟨abs_roundD_sub_le_of _ (-18) (by norm_num)
      (lt_of_le_of_lt hsum (by norm_num)), ?_⟩
    exact abs_roundD_le _ (2 ^ 34) (2 ^ 34) 0 (by norm_num) (by norm_num) (by norm_num) hsum
  obtain ⟨eb1, bb1⟩ := hs _ ba1
  obtain ⟨eb2, bb2⟩ := hs _ ba2
  -- the last product
  have ht : ∀ b : ℚ, |b| ≤ 2 ^ 34 → |roundD (b * p) - b * p| ≤ 2 ^ (-18 : Int) / 2 := by
    intro b hb
    apply abs_roundD_sub_le_of _ (-18) (by norm_num)
    rw [abs_mul, hpabs]
    calc |b| * p ≤ 2 ^ 34 * (3 / 2) := mul_le_mul hb hp2 (by linarith) (by norm_num)
      _ < 2 ^ (-18 + 53 : Int) := by norm_num
  have ec1 := ht _ bb1
  have ec2 := ht _ bb2
  rw [abs_le] at ea1 ea2 eb1 eb2 ec1 ec2
  have g1 : (d1 : ℚ) * m + 1 ≤ (d2 : ℚ) * m := by nlinarith
  have e20 : (2 : ℚ) ^ (-20 : Int) / 2 = 1 / 2097152 := by norm_num
  have e18 : (2 : ℚ) ^ (-18 : Int) / 2 = 1 / 524288 := by norm_num
  rw [e20] at ea1 ea2
  rw [e18] at eb1 eb2 ec1 ec2
  have g2 : roundD (roundD ((d1 : ℚ) * m) + P) + 1 / 2
      ≤ roundD (roundD ((d2 : ℚ) * m) + P) := by linarith [ea1.1, ea1.2, ea2.1, ea2.2,
        eb1.1, eb1.2, eb2.1, eb2.2]
  have g3 : roundD (roundD ((d1 : ℚ) * m) + P) * p + 1 / 2
      ≤ roundD (roundD ((d2 : ℚ) * m) + P) * p := by nlinarith
  linarith [ec1.1, ec1.2, ec2.1, ec2.2]

/-- The rounded score does not grow with the ease factor. -/
theorem score_antitone_ease (a e1 e2 p : ℚ) (hp : 0 ≤ p) (he : e2 ≤ e1) :
    roundD (roundD (a + roundD (roundD (5 / 2 - e1) * 2)) * p)
      ≤ roundD (roundD (a + roundD (roundD (5 / 2 - e2) * 2)) * p) := by
  apply roundD_mono
  apply mul_le_mul_of_nonneg_right _ hp
  apply roundD_mono
  apply add_le_add_left
  apply roundD_mono
  apply mul_le_mul_of_nonneg_right _ (by norm_num)
  apply roundD_mono
  linarith

theorem easePen_bound (e : ℚ) (he : |e| ≤ 2 ^ 31) :
    |roundD (roundD (5 / 2 - e) * 2)| ≤ 2 ^ 33 := by
  have h1 : |5 / 2 - e| ≤ 2 ^ 32 := by
    have := abs_sub (5 / 2 : ℚ) e
    have h52 : |(5 / 2 : ℚ)| = 5 / 2 := abs_of_pos (by norm_num)
    rw [h52] at this
    have : (5 / 2 : ℚ) + 2 ^ 31 ≤ 2 ^ 32 := by norm_num
    linarith
  have h2 := abs_roundD_le _ (2 ^ 32) (2 ^ 32) 0 (by norm_num) (by norm_num) (by norm_num) h1
  have h3 : |roundD (5 / 2 - e) * 2| ≤ 2 ^ 33 := by
    rw [abs_mul, abs_of_pos (by norm_num : (0 : ℚ) < 2)]
    have : (2 : ℚ) ^ 32 * 2 = 2 ^ 33 := by norm_num
    linarith
  exact abs_roundD_le _ (2 ^ 33) (2 ^ 33) 0 (by norm_num) (by norm_num) (by norm_num) h3

end Binary64

namespace Binary64

theorem updateEaseFactor_eq (e : ℚ) (quality c : Int) (hc : max 0 (min 5 quality) = c) :
    updateEaseFactor e quality
      = max (roundD (13 / 10))
          (roundD (e + roundD (roundD (1 / 10)
            - roundD (roundD (5 - (c : ℚ))
                * roundD (roundD (2 / 25) + roundD (roundD (5 - (c : ℚ)) * roundD (1 / 50))))))) := by
  unfold updateEaseFactor
  simp only []
  rw [hc]

theorem updateEaseFactor_review1 : updateEaseFactor (5 / 2) 0 = (1914029841632461 / 1125899906842624) := by
  rw [updateEaseFactor_eq (5 / 2) 0 0 (by decide)]
  have h1 : roundD (5 - ((0 : Int) : ℚ)) = 5 :=
    roundD_eval _ _ 5629499534213120 (-50) (by norm_num) (by norm_num)
      (by norm_num [abs_of_pos, abs_of_neg]) (by norm_num [abs_of_pos, abs_of_neg])
      (Or.inl (by norm_num [abs_lt]))
  have h2 : roundD (1 / 50) = (5764607523034235 / 288230376151711744) :=
    roundD_eval _ _ 5764607523034235 (-58) (by norm_num) (by norm_num)
      (by norm_num [abs_of_pos, abs_of_neg]) (by norm_num [abs_of_pos, abs_of_neg])
      (Or.inl (by norm_num [abs_lt]))
  have h3 : roundD (5 * (5764607523034235 / 288230376151711744))
      = (3602879701896397 / 36028797018963968) :=
    roundD_eval _ _ 7205759403792794 (-56) (by norm_num) (by norm_num)
      (by norm_num [abs_of_pos, abs_of_neg]) (by norm_num [abs_of_pos, abs_of_neg])
      (Or.inl (by norm_num [abs_lt]))
  have h4 : roundD (2 / 25) = (5764607523034235 / 72057594037927936) :=
    roundD_eval _ _ 5764607523034235 (-56) (by norm_num) (by norm_num)
      (by norm_num [abs_of_pos, abs_of_neg]) (by norm_num [abs_of_pos, abs_of_neg])
      (Or.inl (by norm_num [abs_lt]))
  have h5 : roundD ((5764607523034235 / 72057594037927936) + (3602879701896397 / 36028797018963968))
      = (3242591731706757 / 18014398509481984) :=
    roundD_eval _ _ 6485183463413514 (-55) (by norm_num) (by norm_num)
      (by norm_num [abs_of_pos, abs_of_neg]) (by norm_num [abs_of_pos, abs_of_neg])
      (Or.inr ⟨by norm_num [abs_of_pos, abs_of_neg], by decide⟩)
  have h6 : roundD (5 * (3242591731706757 / 18014398509481984))
      = (2026619832316723 / 2251799813685248) :=
    roundD_eval _ _ 8106479329266892 (-53) (by norm_num) (by norm_num)
      (by norm_num [abs_of_pos, abs_of_neg]) (by norm_num [abs_of_pos, abs_of_neg])
      (Or.inr ⟨by norm_num [abs_of_pos, abs_of_neg], by decide⟩)
  have h7 : roundD (1 / 10) = (3602879701896397 / 36028797018963968) :=
    roundD_eval _ _ 7205759403792794 (-56) (by norm_num) (by norm_num)
      (by norm_num [abs_of_pos, abs_of_neg]) (by norm_num [abs_of_pos, abs_of_neg])
      (Or.inl (by norm_num [abs_lt]))
  have h8 : roundD ((3602879701896397 / 36028797018963968) - (2026619832316723 / 2251799813685248))
      = (-7205759403792793 / 9007199254740992) :=
    roundD_eval _ _ (-7205759403792793) (-53) (by norm_num) (by norm_num)
      (by norm_num [abs_of_pos, abs_of_neg]) (by norm_num [abs_of_pos, abs_of_neg])
      (Or.inl (by norm_num [abs_lt]))
  have h9 : roundD ((5 / 2) + (-7205759403792793 / 9007199254740992))
      = (1914029841632461 / 1125899906842624) :=
    roundD_eval _ _ 7656119366529844 (-52) (by norm_num) (by norm_num)
      (by norm_num [abs_of_pos, abs_of_neg]) (by norm_num [abs_of_pos, abs_of_neg])
      (Or.inr ⟨by norm_num [abs_of_pos, abs_of_neg], by decide⟩)
  have h10 : roundD (13 / 10) = (5854679515581645 / 4503599627370496) :=
    roundD_eval _ _ 5854679515581645 (-52) (by norm_num) (by norm_num)
      (by norm_num [abs_of_pos, abs_of_neg]) (by norm_num [abs_of_pos, abs_of_neg])
      (Or.inl (by norm_num [abs_lt]))
  rw [h1, h2, h3, h4, h5, h6, h7, h8, h9, h10]
  exact max_eq_right (by norm_num)

theorem updateEaseFactor_review2 : updateEaseFactor (1914029841632461 / 1125899906842624) 5 = (4053239664633447 / 2251799813685248) := by
  rw [updateEaseFactor_eq (1914029841632461 / 1125899906842624) 5 5 (by decide)]
  have h1 : roundD (5 - ((5 : Int) : ℚ)) = 0 :=
    (congrArg roundD (show (5 - ((5 : Int) : ℚ) : ℚ) = 0 by norm_num)).trans roundD_zero
  have h2 : roundD (1 / 50) = (5764607523034235 / 288230376151711744) :=
    roundD_eval _ _ 5764607523034235 (-58) (by norm_num) (by norm_num)
      (by norm_num [abs_of_pos, abs_of_neg]) (by norm_num [abs_of_pos, abs_of_neg])
      (Or.inl (by norm_num [abs_lt]))
  have h3 : roundD (0 * (5764607523034235 / 288230376151711744)) = 0 :=
    (congrArg roundD (show (0 * (5764607523034235 / 288230376151711744) : ℚ) = 0 by norm_num)).trans roundD_zero
  have h4 : roundD (2 / 25) = (5764607523034235 / 72057594037927936) :=
    roundD_eval _ _ 5764607523034235 (-56) (by norm_num) (by norm_num)
      (by norm_num [abs_of_pos, abs_of_neg]) (by norm_num [abs_of_pos, abs_of_neg])
      (Or.inl (by norm_num [abs_lt]))
  have h5 : roundD ((5764607523034235 / 72057594037927936) + 0)
      = (5764607523034235 / 72057594037927936) :=
    roundD_eval _ _ 5764607523034235 (-56) (by norm_num) (by norm_num)
      (by norm_num [abs_of_pos, abs_of_neg]) (by norm_num [abs_of_pos, abs_of_neg])
      (Or.inl (by norm_num [abs_lt]))
  have h6 : roundD (0 * (5764607523034235 / 72057594037927936)) = 0 :=
    (congrArg roundD (show (0 * (5764607523034235 / 72057594037927936) : ℚ) = 0 by norm_num)).trans roundD_zero
  have h7 : roundD (1 / 10) = (3602879701896397 / 36028797018963968) :=
    roundD_eval _ _ 7205759403792794 (-56) (by norm_num) (by norm_num)
      (by norm_num [abs_of_pos, abs_of_neg]) (by norm_num [abs_of_pos, abs_of_neg])
      (Or.inl (by norm_num [abs_lt]))
  have h8 : roundD ((3602879701896397 / 36028797018963968) - 0)
      = (3602879701896397 / 36028797018963968) :=
    roundD_eval _ _ 7205759403792794 (-56) (by norm_num) (by norm_num)
      (by norm_num [abs_of_pos, abs_of_neg]) (by norm_num [abs_of_pos, abs_of_neg])
      (Or.inl (by norm_num [abs_lt]))
  have h9 : roundD ((1914029841632461 / 1125899906842624) + (3602879701896397 / 36028797018963968))
      = (4053239664633447 / 2251799813685248) :=
    roundD_eval _ _ 8106479329266894 (-52) (by norm_num) (by norm_num)
      (by norm_num [abs_of_pos, abs_of_neg]) (by norm_num [abs_of_pos, abs_of_neg])
      (Or.inl (by norm_num [abs_lt]))
  have h10 : roundD (13 / 10) = (5854679515581645 / 4503599627370496) :=
    roundD_eval _ _ 5854679515581645 (-52) (by norm_num) (by norm_num)
      (by norm_num [abs_of_pos, abs_of_neg]) (by norm_num [abs_of_pos, abs_of_neg])
      (Or.inl (by norm_num [abs_lt]))
  rw [h1, h2, h3, h4, h5, h6, h7, h8, h9, h10]
  exact max_eq_right (by norm_num)

theorem updateEaseFactor_review3 : updateEaseFactor (4053239664633447 / 2251799813685248) 5 = (1069604911500493 / 562949953421312) := by
  rw [updateEaseFactor_eq (4053239664633447 / 2251799813685248) 5 5 (by decide)]
  have h1 : roundD (5 - ((5 : Int) : ℚ)) = 0 :=
    (congrArg roundD (show (5 - ((5 : Int) : ℚ) : ℚ) = 0 by norm_num)).trans roundD_zero
  have h2 : roundD (1 / 50) = (5764607523034235 / 288230376151711744) :=
    roundD_eval _ _ 5764607523034235 (-58) (by norm_num) (by norm_num)
      (by norm_num [abs_of_pos, abs_of_neg]) (by norm_num [abs_of_pos, abs_of_neg])
      (Or.inl (by norm_num [abs_lt]))
  have h3 : roundD (0 * (5764607523034235 / 288230376151711744)) = 0 :=
    (congrArg roundD (show (0 * (5764607523034235 / 288230376151711744) : ℚ) = 0 by norm_num)).trans roundD_zero
  have h4 : roundD (2 / 25) = (5764607523034235 / 72057594037927936) :=
    roundD_eval _ _ 5764607523034235 (-56) (by norm_num) (by norm_num)
      (by norm_num [abs_of_pos, abs_of_neg]) (by norm_num [abs_of_pos, abs_of_neg])
      (Or.inl (by norm_num [abs_lt]))
  have h5 : roundD ((5764607523034235 / 72057594037927936) + 0)
      = (5764607523034235 / 72057594037927936) :=
    roundD_eval _ _ 5764607523034235 (-56) (by norm_num) (by norm_num)
      (by norm_num [abs_of_pos, abs_of_neg]) (by norm_num [abs_of_pos, abs_of_neg])
      (Or.inl (by norm_num [abs_lt]))
  have h6 : roundD (0 * (5764607523034235 / 72057594037927936)) = 0 :=
    (congrArg roundD (show (0 * (5764607523034235 / 72057594037927936) : ℚ) = 0 by norm_num)).trans roundD_zero
  have h7 : roundD (1 / 10) = (3602879701896397 / 36028797018963968) :=
    roundD_eval _ _ 7205759403792794 (-56) (by norm_num) (by norm_num)
      (by norm_num [abs_of_pos, abs_of_neg]) (by norm_num [abs_of_pos, abs_of_neg])
      (Or.inl (by norm_num [abs_lt]))
  have h8 : roundD ((3602879701896397 / 36028797018963968) - 0)
      = (3602879701896397 / 36028797018963968) :=
    roundD_eval _ _ 7205759403792794 (-56) (by norm_num) (by norm_num)
      (by norm_num [abs_of_pos, abs_of_neg]) (by norm_num [abs_of_pos, abs_of_neg])
      (Or.inl (by norm_num [abs_lt]))
  have h9 : roundD ((4053239664633447 / 2251799813685248) + (3602879701896397 / 36028797018963968))
      = (1069604911500493 / 562949953421312) :=
    roundD_eval _ _ 8556839292003944 (-52) (by norm_num) (by norm_num)
      (by norm_num [abs_of_pos, abs_of_neg]) (by norm_num [abs_of_pos, abs_of_neg])
      (Or.inl (by norm_num [abs_lt]))
  have h10 : roundD (13 / 10) = (5854679515581645 / 4503599627370496) :=
    roundD_eval _ _ 5854679515581645 (-52) (by norm_num) (by norm_num)
      (by norm_num [abs_of_pos, abs_of_neg]) (by norm_num [abs_of_pos, abs_of_neg])
      (Or.inl (by norm_num [abs_lt]))
  rw [h1, h2, h3, h4, h5, h6, h7, h8, h9, h10]
  exact max_eq_right (by norm_num)

theorem updateEaseFactor_review4 : updateEaseFactor (1069604911500493 / 562949953421312) 5 = (4503599627370497 / 2251799813685248) := by
  rw [updateEaseFactor_eq (1069604911500493 / 562949953421312) 5 5 (by decide)]
  have h1 : roundD (5 - ((5 : Int) : ℚ)) = 0 :=
    (congrArg roundD (show (5 - ((5 : Int) : ℚ) : ℚ) = 0 by norm_num)).trans roundD_zero
  have h2 : roundD (1 / 50) = (5764607523034235 / 288230376151711744) :=
    roundD_eval _ _ 5764607523034235 (-58) (by norm_num) (by norm_num)
      (by norm_num [abs_of_pos, abs_of_neg]) (by norm_num [abs_of_pos, abs_of_neg])
      (Or.inl (by norm_num [abs_lt]))
  have h3 : roundD (0 * (5764607523034235 / 288230376151711744)) = 0 :=
    (congrArg roundD (show (0 * (5764607523034235 / 288230376151711744) : ℚ) = 0 by norm_num)).trans roundD_zero
  have h4 : roundD (2 / 25) = (5764607523034235 / 72057594037927936) :=
    roundD_eval _ _ 5764607523034235 (-56) (by norm_num) (by norm_num)
      (by norm_num [abs_of_pos, abs_of_neg]) (by norm_num [abs_of_pos, abs_of_neg])
      (Or.inl (by norm_num [abs_lt]))
  have h5 : roundD ((5764607523034235 / 72057594037927936) + 0)
      = (5764607523034235 / 72057594037927936) :=
    roundD_eval _ _ 5764607523034235 (-56) (by norm_num) (by norm_num)
      (by norm_num [abs_of_pos, abs_of_neg]) (by norm_num [abs_of_pos, abs_of_neg])
      (Or.inl (by norm_num [abs_lt]))
  have h6 : roundD (0 * (5764607523034235 / 72057594037927936)) = 0 :=
    (congrArg roundD (show (0 * (5764607523034235 / 72057594037927936) : ℚ) = 0 by norm_num)).trans roundD_zero
  have h7 : roundD (1 / 10) = (3602879701896397 / 36028797018963968) :=
    roundD_eval _ _ 7205759403792794 (-56) (by norm_num) (by norm_num)
      (by norm_num [abs_of_pos, abs_of_neg]) (by norm_num [abs_of_pos, abs_of_neg])
      (Or.inl (by norm_num [abs_lt]))
  have h8 : roundD ((3602879701896397 / 36028797018963968) - 0)
      = (3602879701896397 / 36028797018963968) :=
    roundD_eval _ _ 7205759403792794 (-56) (by norm_num) (by norm_num)
      (by norm_num [abs_of_pos, abs_of_neg]) (by norm_num [abs_of_pos, abs_of_neg])
      (Or.inl (by norm_num [abs_lt]))
  have h9 : roundD ((1069604911500493 / 562949953421312) + (3602879701896397 / 36028797018963968))
      = (4503599627370497 / 2251799813685248) :=
    roundD_eval _ _ 4503599627370497 (-51) (by norm_num) (by norm_num)
      (by norm_num [abs_of_pos, abs_of_neg]) (by norm_num [abs_of_pos, abs_of_neg])
      (Or.inl (by norm_num [abs_lt]))
  have h10 : roundD (13 / 10) = (5854679515581645 / 4503599627370496) :=
    roundD_eval _ _ 5854679515581645 (-52) (by norm_num) (by norm_num)
      (by norm_num [abs_of_pos, abs_of_neg]) (by norm_num [abs_of_pos, abs_of_neg])
      (Or.inl (by norm_num [abs_lt]))
  rw [h1, h2, h3, h4, h5, h6, h7, h8, h9, h10]
  exact max_eq_right (by norm_num)

/-- Nine days overdue at ease 2.0 (Easy, streak of 3 or more): the score is 10. -/
theorem score_ease2 :
    roundD (roundD (roundD (((9 : Int) : ℚ) * 1) + roundD (roundD (5 / 2 - 2) * 2)) * 1)
      = 10 := by
  have h1 : roundD (((9 : Int) : ℚ) * 1) = 9 :=
    roundD_eval _ _ 5066549580791808 (-49) (by norm_num) (by norm_num)
      (by norm_num [abs_of_pos, abs_of_neg]) (by norm_num [abs_of_pos, abs_of_neg])
      (Or.inl (by norm_num [abs_lt]))
  have h2 : roundD (5 / 2 - 2) = (1 / 2) :=
    roundD_eval _ _ 4503599627370496 (-53) (by norm_num) (by norm_num)
      (by norm_num [abs_of_pos, abs_of_neg]) (by norm_num [abs_of_pos, abs_of_neg])
      (Or.inl (by norm_num [abs_lt]))
  have h3 : roundD ((1 / 2) * 2) = 1 :=
    roundD_eval _ _ 4503599627370496 (-52) (by norm_num) (by norm_num)
      (by norm_num [abs_of_pos, abs_of_neg]) (by norm_num [abs_of_pos, abs_of_neg])
      (Or.inl (by norm_num [abs_lt]))
  have h4 : roundD (9 + 1) = 10 :=
    roundD_eval _ _ 5629499534213120 (-49) (by norm_num) (by norm_num)
      (by norm_num [abs_of_pos, abs_of_neg]) (by norm_num [abs_of_pos, abs_of_neg])
      (Or.inl (by norm_num [abs_lt]))
  have h5 : roundD (10 * 1) = 10 :=
    roundD_eval _ _ 5629499534213120 (-49) (by norm_num) (by norm_num)
      (by norm_num [abs_of_pos, abs_of_neg]) (by norm_num [abs_of_pos, abs_of_neg])
      (Or.inl (by norm_num [abs_lt]))
  rw [h1, h2, h3, h4, h5]

/-- Nine days overdue at the next ease factor above 2.0: the sum `10 - 2 ^ (-50)` lies halfway
between two binary64 numbers and rounds to 10. -/
theorem score_ease2next :
    roundD (roundD (roundD (((9 : Int) : ℚ) * 1) + roundD (roundD (5 / 2 - (2 + 1 / 2 ^ 51)) * 2)) * 1)
      = 10 := by
  have h1 : roundD (((9 : Int) : ℚ) * 1) = 9 :=
    roundD_eval _ _ 5066549580791808 (-49) (by norm_num) (by norm_num)
      (by norm_num [abs_of_pos, abs_of_neg]) (by norm_num [abs_of_pos, abs_of_neg])
      (Or.inl (by norm_num [abs_lt]))
  have h2 : roundD (5 / 2 - (2 + 1 / 2 ^ 51)) = (1125899906842623 / 2251799813685248) :=
    roundD_eval _ _ 9007199254740984 (-54) (by norm_num) (by norm_num)
      (by norm_num [abs_of_pos, abs_of_neg]) (by norm_num [abs_of_pos, abs_of_neg])
      (Or.inl (by norm_num [abs_lt]))
  have h3 : roundD ((1125899906842623 / 2251799813685248) * 2)
      = (1125899906842623 / 1125899906842624) :=
    roundD_eval _ _ 9007199254740984 (-53) (by norm_num) (by norm_num)
      (by norm_num [abs_of_pos, abs_of_neg]) (by norm_num [abs_of_pos, abs_of_neg])
      (Or.inl (by norm_num [abs_lt]))
  have h4 : roundD (9 + (1125899906842623 / 1125899906842624)) = 10 :=
    roundD_eval _ _ 5629499534213120 (-49) (by norm_num) (by norm_num)
      (by norm_num [abs_of_pos, abs_of_neg]) (by norm_num [abs_of_pos, abs_of_neg])
      (Or.inr ⟨by norm_num [abs_of_pos, abs_of_neg], by decide⟩)
  have h5 : roundD (10 * 1) = 10 :=
    roundD_eval _ _ 5629499534213120 (-49) (by norm_num) (by norm_num)
      (by norm_num [abs_of_pos, abs_of_neg]) (by norm_num [abs_of_pos, abs_of_neg])
      (Or.inl (by norm_num [abs_lt]))
  rw [h1, h2, h3, h4, h5]

end Binary64

/-- C29, as amended: in the binary64 arithmetic of the code, of two schedulable items that
differ only in `nextRevisionDate` the one with the larger `daysOverdue` has the strictly
larger score (the day counts and the ease factor being at most `2 ^ 31` in size); of two
schedulable items that differ only in `easeFactor` the one with the lower ease factor has a
score that is at least as large. -/
theorem getPriorityScore_order (env : Env) (today : String) (q : Question)
    (hs : q.status ≠ QuestionStatus.MASTERED) (hd : q.nextRevisionDate ≠ "") :
    (∀ next2 : String, next2 ≠ "" →
        dateDiffDays env q.nextRevisionDate today < dateDiffDays env next2 today →
        |dateDiffDays env q.nextRevisionDate today| ≤ 2 ^ 31 →
        |dateDiffDays env next2 today| ≤ 2 ^ 31 → |q.easeFactor| ≤ 2 ^ 31 →
        Binary64.getPriorityScore env q today
          < Binary64.getPriorityScore env { q with nextRevisionDate := next2 } today)
      ∧ (∀ ease2 : ℚ, ease2 ≤ q.easeFactor →
          Binary64.getPriorityScore env q today
            ≤ Binary64.getPriorityScore env { q with easeFactor := ease2 } today) := by
  constructor
  · intro next2 hn2 hlt h1 h2 he
    rw [Binary64.getPriorityScore_eq env q today hs hd,
      Binary64.getPriorityScore_eq env ({ q with nextRevisionDate := next2 } : Question) today
        hs hn2]
    exact Binary64.score_strict _ _ _ _ _ hlt h1 h2 (Binary64.diffMult_range _).1
      (Binary64.diffMult_range _).2 (Binary64.easePen_bound _ he)
      (Binary64.streakPen_range _).1 (Binary64.streakPen_range _).2
  · intro ease2 hle
    rw [Binary64.getPriorityScore_eq env q today hs hd,
      Binary64.getPriorityScore_eq env ({ q with easeFactor := ease2 } : Question) today hs hd]
    exact Binary64.score_antitone_ease _ _ _ _
      (le_trans (by norm_num) (Binary64.streakPen_range _).1) hle

namespace Binary64

/-- The rounded score of an Easy item with a streak of at least 3. -/
theorem getPriorityScore_easy (env : Env) (q : Question) (today : String)
    (hs : q.status ≠ QuestionStatus.MASTERED) (hd : q.nextRevisionDate ≠ "")
    (hdiff : q.difficulty = Difficulty.EASY) (hst : ¬ q.streak < 3) (days : Int)
    (hdays : dateDiffDays env q.nextRevisionDate today = days) (e : ℚ)
    (he : q.easeFactor = e) :
    getPriorityScore env q today
      = roundD (roundD (roundD ((days : ℚ) * 1) + roundD (roundD (5 / 2 - e) * 2)) * 1) := by
  rw [getPriorityScore_eq env q today hs hd, hdays, he, hdiff]
  simp only [reduceCtorEq, if_false, hst]

end Binary64

/-- Witness for C29 as amended: an item one day overdue against the same item nine days
overdue. -/
theorem getPriorityScore_order_witness :
    Binary64.getPriorityScore (utcEnv "2025-07-10") (datedItem "A" "2025-07-09") "2025-07-10"
      < Binary64.getPriorityScore (utcEnv "2025-07-10")
          { datedItem "A" "2025-07-09" with nextRevisionDate := "2025-07-01" } "2025-07-10" :=
  (getPriorityScore_order (utcEnv "2025-07-10") "2025-07-10" (datedItem "A" "2025-07-09")
    (by decide) (by decide)).1 "2025-07-01" (by decide) (by decide) (by decide) (by decide)
    (by
      show |(5 / 2 : ℚ)| ≤ 2 ^ 31
      rw [abs_of_pos (by norm_num)]
      norm_num)

/-- Counterexample to C29 as stated: reviews of quality 0, 5, 5, 5 take the ease factor 2.5
to `2 + 2 ^ (-51)`, the binary64 number next above 2; two Easy items nine days overdue with
a streak of 3 that differ only in the ease factors 2 and `2 + 2 ^ (-51)` both score 10, so
the lower ease factor does not give the strictly larger score. -/
theorem getPriorityScore_ease_tie :
    Binary64.updateEaseFactor (Binary64.updateEaseFactor (Binary64.updateEaseFactor
        (Binary64.updateEaseFactor (5 / 2) 0) 5) 5) 5 = 2 + 1 / 2 ^ 51
      ∧ (2 : ℚ) < 2 + 1 / 2 ^ 51
      ∧ Binary64.getPriorityScore (utcEnv "2025-07-10")
          { datedItem "A" "2025-07-01" with easeFactor := 2 } "2025-07-10" = 10
      ∧ Binary64.getPriorityScore (utcEnv "2025-07-10")
          { datedItem "A" "2025-07-01" with easeFactor := 2 + 1 / 2 ^ 51 } "2025-07-10" = 10
      ∧ ¬ (Binary64.getPriorityScore (utcEnv "2025-07-10")
            { datedItem "A" "2025-07-01" with easeFactor := 2 + 1 / 2 ^ 51 } "2025-07-10"
          < Binary64.getPriorityScore (utcEnv "2025-07-10")
            { datedItem "A" "2025-07-01" with easeFactor := 2 } "2025-07-10") := by
  have h1 : Binary64.getPriorityScore (utcEnv "2025-07-10")
      { datedItem "A" "2025-07-01" with easeFactor := 2 } "2025-07-10" = 10 :=
    (Binary64.getPriorityScore_easy _ _ _ (by decide) (by decide) rfl (by decide) 9
      (by decide) 2 rfl).trans Binary64.score_ease2
  have h2 : Binary64.getPriorityScore (utcEnv "2025-07-10")
      { datedItem "A" "2025-07-01" with easeFactor := 2 + 1 / 2 ^ 51 } "2025-07-10" = 10 :=
    (Binary64.getPriorityScore_easy _ _ _ (by decide) (by decide) rfl (by decide) 9
      (by decide) (2 + 1 / 2 ^ 51) rfl).trans Binary64.score_ease2next
  refine ⟨?_, by norm_num, h1, h2, ?_⟩
  · rw [Binary64.updateEaseFactor_review1, Binary64.updateEaseFactor_review2,
      Binary64.updateEaseFactor_review3, Binary64.updateEaseFactor_review4]
    norm_num
  · rw [h1, h2]
    exact lt_irrefl _


/-- C30, as amended: of three schedulable items that differ only in difficulty, the scores
satisfy Hard ≥ Medium ≥ Easy when the item is due or overdue (`daysOverdue ≥ 0`); when it is
not yet due (`daysOverdue < 0`) the order is reversed, Hard < Medium < Easy. -/
theorem getPriorityScore_difficulty_order (env : Env) (today : String) (q : Question)
    (hs : q.status ≠ QuestionStatus.MASTERED) (hd : q.nextRevisionDate ≠ "") :
    (0 ≤ dateDiffDays env q.nextRevisionDate today →
        ({ q with difficulty := Difficulty.MEDIUM } : Question).getPriorityScore env today
            ≤ ({ q with difficulty := Difficulty.HARD } : Question).getPriorityScore env today
          ∧ ({ q with difficulty := Difficulty.EASY } : Question).getPriorityScore env today
            ≤ ({ q with difficulty := Difficulty.MEDIUM } : Question).getPriorityScore env
                today)
      ∧ (dateDiffDays env q.nextRevisionDate today < 0 →
          ({ q with difficulty := Difficulty.HARD } : Question).getPriorityScore env today
              < ({ q with difficulty := Difficulty.MEDIUM } : Question).getPriorityScore env
                  today
            ∧ ({ q with difficulty := Difficulty.MEDIUM } : Question).getPriorityScore env
                  today
              < ({ q with difficulty := Difficulty.EASY } : Question).getPriorityScore env
                  today) := by
  have hp : (0 : ℚ) < (if q.streak < 3 then (3 / 2 : ℚ) else 1) := (specScore_factors q).2
  rw [getPriorityScore_eq_spec env ({ q with difficulty := Difficulty.HARD } : Question) today
      hs hd,
    getPriorityScore_eq_spec env ({ q with difficulty := Difficulty.MEDIUM } : Question) today
      hs hd,
    getPriorityScore_eq_spec env ({ q with difficulty := Difficulty.EASY } : Question) today
      hs hd]
  unfold specScore
  simp only []
  constructor
  · intro h0
    have hq : (0 : ℚ) ≤ (dateDiffDays env q.nextRevisionDate today : ℚ) := by exact_mod_cast h0
    constructor
    · apply mul_le_mul_of_nonneg_right _ hp.le
      nlinarith
    · apply mul_le_mul_of_nonneg_right _ hp.le
      nlinarith
  · intro h0
    have hq : (dateDiffDays env q.nextRevisionDate today : ℚ) < 0 := by exact_mod_cast h0
    constructor
    · apply mul_lt_mul_of_pos_right _ hp
      nlinarith
    · apply mul_lt_mul_of_pos_right _ hp
      nlinarith

/-- Witness for C30 as amended: an item nine days overdue. -/
theorem getPriorityScore_difficulty_order_witness :
    ({ datedItem "A" "2025-07-01" with difficulty := Difficulty.MEDIUM } :
          Question).getPriorityScore (utcEnv "2025-07-10") "2025-07-10"
        ≤ ({ datedItem "A" "2025-07-01" with difficulty := Difficulty.HARD } :
            Question).getPriorityScore (utcEnv "2025-07-10") "2025-07-10"
      ∧ ({ datedItem "A" "2025-07-01" with difficulty := Difficulty.EASY } :
            Question).getPriorityScore (utcEnv "2025-07-10") "2025-07-10"
        ≤ ({ datedItem "A" "2025-07-01" with difficulty := Difficulty.MEDIUM } :
            Question).getPriorityScore (utcEnv "2025-07-10") "2025-07-10" :=
  (getPriorityScore_difficulty_order (utcEnv "2025-07-10") "2025-07-10"
    (datedItem "A" "2025-07-01") (by decide) (by decide)).1 (by decide)

/-- Counterexample to C30 as stated: for an item due in five days (ease 2.5, streak 3) the
Hard variant scores -15/2, the Medium variant -6 and the Easy variant -5, so Hard is below
Medium and Medium below Easy. -/
theorem getPriorityScore_harder_not_higher :
    ({ datedItem "f1" "2025-07-15" with difficulty := Difficulty.HARD } :
          Question).getPriorityScore (utcEnv "2025-07-10") "2025-07-10" = -(15 / 2)
      ∧ ({ datedItem "f1" "2025-07-15" with difficulty := Difficulty.MEDIUM } :
          Question).getPriorityScore (utcEnv "2025-07-10") "2025-07-10" = -6
      ∧ ({ datedItem "f1" "2025-07-15" with difficulty := Difficulty.EASY } :
          Question).getPriorityScore (utcEnv "2025-07-10") "2025-07-10" = -5
      ∧ ¬ (({ datedItem "f1" "2025-07-15" with difficulty := Difficulty.HARD } :
            Question).getPriorityScore (utcEnv "2025-07-10") "2025-07-10"
          ≥ ({ datedItem "f1" "2025-07-15" with difficulty := Difficulty.MEDIUM } :
            Question).getPriorityScore (utcEnv "2025-07-10") "2025-07-10") := by
  have hd : dateDiffDays (utcEnv "2025-07-10") "2025-07-15" "2025-07-10" = -5 :=
    dateDiffDays_utc_notDue
  have hH : ({ datedItem "f1" "2025-07-15" with difficulty := Difficulty.HARD } :
      Question).getPriorityScore (utcEnv "2025-07-10") "2025-07-10" = -(15 / 2) := by
    rw [getPriorityScore_eq_spec _ _ _ (by decide) (by decide)]
    unfold specScore
    simp only [datedItem, Question.mk0, hd]
    norm_num
  have hM : ({ datedItem "f1" "2025-07-15" with difficulty := Difficulty.MEDIUM } :
      Question).getPriorityScore (utcEnv "2025-07-10") "2025-07-10" = -6 := by
    rw [getPriorityScore_eq_spec _ _ _ (by decide) (by decide)]
    unfold specScore
    simp only [datedItem, Question.mk0, hd]
    norm_num
  have hE : ({ datedItem "f1" "2025-07-15" with difficulty := Difficulty.EASY } :
      Question).getPriorityScore (utcEnv "2025-07-10") "2025-07-10" = -5 := by
    rw [getPriorityScore_eq_spec _ _ _ (by decide) (by decide)]
    unfold specScore
    simp only [datedItem, Question.mk0, hd]
    norm_num
  refine ⟨hH, hM, hE, ?_⟩
  rw [hH, hM]
  norm_num

namespace RevisionEngine

/-! ### Claims C31 and C32 -/

theorem updateEaseFactor_at (ef : ℚ) (quality c : Int) (hc : max 0 (min 5 quality) = c) :
    updateEaseFactor ef quality = max (13 / 10) (ef + specDelta c) := by
  unfold updateEaseFactor specDelta EF_MIN
  simp only []
  rw [hc]

/-- C31, as amended: for every ease factor `ef ≥ 1.3`, `updateEaseFactor(ef, q) ≥ ef` for
every quality `q ≥ 4` and `updateEaseFactor(ef, q) ≤ ef` for every quality `q ≤ 3`; in
particular quality 3, a successful recall, lowers every ease factor above 1.3. -/
theorem updateEaseFactor_direction (ef : ℚ) (quality : Int) (hef : 13 / 10 ≤ ef) :
    (4 ≤ quality → ef ≤ updateEaseFactor ef quality)
      ∧ (quality ≤ 3 → updateEaseFactor ef quality ≤ ef)
      ∧ (quality = 3 → 13 / 10 < ef → updateEaseFactor ef quality < ef) := by
  refine ⟨?_, ?_, ?_⟩
  · intro hq
    rcases le_or_lt 5 quality with h | h
    · rw [updateEaseFactor_at ef quality 5 (by omega)]
      refine le_trans ?_ (le_max_right _ _)
      unfold specDelta
      norm_num
    · rw [updateEaseFactor_at ef quality 4 (by omega)]
      refine le_trans ?_ (le_max_right _ _)
      unfold specDelta
      norm_num
  · intro hq
    have hd : specDelta (max 0 (min 5 quality)) ≤ 0 := by
      have h3 : max 0 (min 5 quality) ≤ 3 := by omega
      have h0 : (0 : Int) ≤ max 0 (min 5 quality) := le_max_left _ _
      rcases eq_or_lt_of_le h3 with h | h
      · rw [h]
        unfold specDelta
        norm_num
      · have := specDelta_strictMono _ 3 h0 h (by decide)
        have h3v : specDelta 3 = -(7 / 50) := by
          unfold specDelta
          norm_num
        linarith
    rw [updateEaseFactor_at ef quality _ rfl]
    exact max_le hef (by linarith)
  · intro hq hlt
    rw [updateEaseFactor_at ef quality 3 (by omega)]
    have h3v : specDelta 3 = -(7 / 50) := by
      unfold specDelta
      norm_num
    rw [h3v]
    exact max_lt hlt (by linarith)

/-- Witness for C31 as amended: ease 2.5 reviewed with quality 3 does not grow. -/
theorem updateEaseFactor_direction_witness :
    (13 / 10 : ℚ) ≤ 5 / 2 ∧ updateEaseFactor (5 / 2) 3 ≤ 5 / 2 :=
  ⟨by norm_num, (updateEaseFactor_direction (5 / 2) 3 (by norm_num)).2.1 (by decide)⟩

/-- Counterexample to C31 as stated: quality 3 counts as a successful recall, yet it takes
the ease factor 2.5 down to 2.36. -/
theorem updateEaseFactor_success_shrinks :
    updateEaseFactor (5 / 2) 3 = 59 / 25 ∧ ¬ (updateEaseFactor (5 / 2) 3 ≥ 5 / 2) := by
  have h : updateEaseFactor (5 / 2) 3 = 59 / 25 := by
    rw [updateEaseFactor_at (5 / 2) 3 3 (by decide)]
    unfold specDelta
    norm_num
  refine ⟨h, ?_⟩
  rw [h]
  norm_num

/-- C32: `completeRevision` leaves the item's `id`, `difficulty`, `dateSolved`, `tags`,
`name`, `subject`, `platform` and `notes` as they were, and sets `lastRevisionDate` to
today's date. -/
theorem completeRevision_frame (env : Env) (q : Question) (quality timeTaken : Int) :
    (completeRevision env q quality timeTaken).2.id = q.id
      ∧ (completeRevision env q quality timeTaken).2.difficulty = q.difficulty
      ∧ (completeRevision env q quality timeTaken).2.dateSolved = q.dateSolved
      ∧ (completeRevision env q quality timeTaken).2.tags = q.tags
      ∧ (completeRevision env q quality timeTaken).2.name = q.name
      ∧ (completeRevision env q quality timeTaken).2.subject = q.subject
      ∧ (completeRevision env q quality timeTaken).2.platform = q.platform
      ∧ (completeRevision env q quality timeTaken).2.notes = q.notes
      ∧ (completeRevision env q quality timeTaken).2.lastRevisionDate = todayStr env := by
  refine ⟨?_, ?_, ?_, ?_, ?_, ?_, ?_, ?_, ?_⟩ <;> unfold completeRevision <;>
    by_cases h3 : quality ≥ 3 <;> simp only [h3, if_true, if_false] <;>
    first
      | rfl
      | (split_ifs <;> rfl)

end RevisionEngine

namespace QuestionHashMap

/-! ### The collision counter and the size -/

theorem sum_map_set (g : Bucket → Int) : ∀ (bs : List Bucket) (i : Nat) (b : Bucket),
    i < bs.length →
      ((bs.set i b).map g).sum = (bs.map g).sum - g (bs.getD i []) + g b := by
  intro bs
  induction bs with
  | nil => intro i b h; simp at h
  | cons b0 rest ih =>
    intro i b h
    cases i with
    | zero =>
      simp only [List.set_cons_zero, List.map_cons, List.sum_cons, List.getD_cons_zero]
      ring
    | succ i =>
      have h1 : i < rest.length := by simpa using h
      simp only [List.set_cons_succ, List.map_cons, List.sum_cons, List.getD_cons_succ]
      rw [ih i b h1]
      ring

theorem flatten_length_eq_sum : ∀ bs : List Bucket,
    (bs.flatten.length : Int) = (bs.map (fun b => (b.length : Int))).sum := by
  intro bs
  induction bs with
  | nil => rfl
  | cons b rest ih =>
    rw [List.flatten_cons, List.length_append, List.map_cons, List.sum_cons, ← ih]
    push_cast
    rfl

theorem countCollisions_foldl : ∀ (bs : List Bucket) (c : Int),
    bs.foldl (fun c b => if b.length > 1 then c + ((b.length : Int) - 1) else c) c
      = c + specCollisions bs := by
  intro bs
  induction bs with
  | nil => intro c; simp [specCollisions]
  | cons b rest ih =>
    intro c
    rw [List.foldl_cons, ih]
    unfold specCollisions
    rw [List.map_cons, List.sum_cons]
    split_ifs with h
    · have : (0 : Int) ≤ (b.length : Int) - 1 := by omega
      rw [max_eq_right this]
      ring
    · have : (b.length : Int) - 1 ≤ 0 := by omega
      rw [max_eq_left this]
      ring

/-- The recomputation at the end of `rehash` gives the sum of `max(0, length − 1)`. -/
theorem countCollisions_eq (bs : List Bucket) : countCollisions bs = specCollisions bs := by
  unfold countCollisions
  rw [countCollisions_foldl, zero_add]

theorem specCollisions_eq_sub : ∀ bs : List Bucket,
    specCollisions bs = (bs.flatten.length : Int) - usedBuckets bs := by
  intro bs
  induction bs with
  | nil => rfl
  | cons b rest ih =>
    unfold specCollisions usedBuckets at *
    rw [List.map_cons, List.sum_cons, List.map_cons, List.sum_cons, List.flatten_cons,
      List.length_append, ih]
    cases b with
    | nil => simp
    | cons e es =>
      have : (0 : Int) ≤ (((e :: es).length : Nat) : Int) - 1 := by
        rw [List.length_cons]
        push_cast
        omega
      rw [max_eq_right this]
      simp only [List.isEmpty_cons, Bool.false_eq_true, if_false]
      push_cast
      ring

theorem specCollisions_replicate (n : Nat) :
    specCollisions (List.replicate n ([] : Bucket)) = 0 := by
  rw [specCollisions_eq_sub, flatten_replicate_nil]
  unfold usedBuckets
  induction n with
  | zero => rfl
  | succ n ih =>
    rw [List.replicate_succ, List.map_cons, List.sum_cons]
    simp [ih]

theorem assign_length (key : String) (val : Question) (b b1 : Bucket)
    (h : assign key val b = some b1) : b1.length = b.length := by
  have := (assign_some_find? key val b b1 h).2.2.2
  have h2 := congrArg List.length this
  simpa using h2

/-- The counter and the size a store should have for its buckets. -/
theorem consistent_mkCap (cap : Int) :
    (mkCap cap).collisions_ = specCollisions (mkCap cap).buckets_
      ∧ (mkCap cap).size_ = ((mkCap cap).buckets_.flatten.length : Int) := by
  unfold mkCap
  simp only []
  rw [specCollisions_replicate, flatten_replicate_nil]
  exact ⟨rfl, rfl⟩

theorem consistent_rehash (m : QuestionHashMap) (hcap : 0 < m.capacity_)
    (hs : m.size_ = (m.buckets_.flatten.length : Int)) :
    (rehash m).collisions_ = specCollisions (rehash m).buckets_
      ∧ (rehash m).size_ = ((rehash m).buckets_.flatten.length : Int) := by
  constructor
  · show countCollisions _ = specCollisions (rehash m).buckets_
    rw [countCollisions_eq]
    rfl
  · rw [rehash_size, (rehash_flatten_perm m hcap).length_eq, hs]

theorem consistent_putNoGrow (m : QuestionHashMap) (hw : WF m) (key : String)
    (val : Question) (hc : m.collisions_ = specCollisions m.buckets_)
    (hs : m.size_ = (m.buckets_.flatten.length : Int)) :
    (putNoGrow m key val).collisions_ = specCollisions (putNoGrow m key val).buckets_
      ∧ (putNoGrow m key val).size_
          = ((putNoGrow m key val).buckets_.flatten.length : Int) := by
  have hi := hw.index_lt key
  unfold putNoGrow
  simp only []
  cases ha : assign key val (bucketAt m (index m key)) with
  | some b1 =>
    simp only []
    have hl := assign_length key val _ b1 ha
    constructor
    · unfold specCollisions
      rw [sum_map_set _ _ _ _ hi]
      rw [hl, hc]
      unfold specCollisions bucketAt
      ring
    · rw [flatten_length_eq_sum, sum_map_set _ _ _ _ hi]
      rw [hl, hs, flatten_length_eq_sum]
      unfold bucketAt
      ring
  | none =>
    simp only []
    constructor
    · unfold specCollisions
      rw [sum_map_set _ _ _ _ hi]
      rw [hc]
      unfold specCollisions
      have hb : m.buckets_.getD (index m key) [] = bucketAt m (index m key) := rfl
      rw [hb]
      cases hbk : bucketAt m (index m key) with
      | nil => simp
      | cons e es =>
        simp only [List.isEmpty_cons, Bool.false_eq_true, not_false_eq_true, if_true,
          List.length_append, List.length_cons, List.length_nil]
        push_cast
        have h1 : max (0 : Int) ((es.length : Int) + 1 - 1) = (es.length : Int) := by
          rw [max_eq_right (by omega)]
          ring
        have h2 : max (0 : Int) ((es.length : Int) + 1 + 1 - 1) = (es.length : Int) + 1 := by
          rw [max_eq_right (by omega)]
          ring
        rw [h1, h2]
        ring
    · rw [flatten_length_eq_sum, sum_map_set _ _ _ _ hi]
      rw [hs, flatten_length_eq_sum]
      have hb : m.buckets_.getD (index m key) [] = bucketAt m (index m key) := rfl
      rw [hb, List.length_append]
      push_cast
      simp only [List.length_cons, List.length_nil]
      push_cast
      ring

theorem consistent_put (m : QuestionHashMap) (hw : WF m) (key : String) (val : Question)
    (hc : m.collisions_ = specCollisions m.buckets_)
    (hs : m.size_ = (m.buckets_.flatten.length : Int)) :
    (put m key val).collisions_ = specCollisions (put m key val).buckets_
      ∧ (put m key val).size_ = ((put m key val).buckets_.flatten.length : Int) := by
  unfold put
  by_cases ho : overLoad m = true
  · rw [if_pos ho]
    obtain ⟨h1, h2⟩ := consistent_rehash m hw.1 hs
    exact consistent_putNoGrow _ (wf_rehash m hw.1) key val h1 h2
  · rw [if_neg ho]
    exact consistent_putNoGrow m hw key val hc hs

theorem length_eraseP_key (key : String) : ∀ b : Bucket,
    b.any (fun e => decide (e.1 = key)) = true →
      ((b.eraseP (fun e => decide (e.1 = key))).length : Int) = (b.length : Int) - 1 := by
  intro b
  induction b with
  | nil => intro h; simp at h
  | cons e es ih =>
    intro h
    by_cases he : e.1 = key
    · rw [List.eraseP_cons_of_pos (by simpa using he), List.length_cons]
      push_cast
      ring
    · rw [List.eraseP_cons_of_neg (by simpa using he), List.length_cons, List.length_cons]
      have h1 : es.any (fun e => decide (e.1 = key)) = true := by
        simpa [he] using h
      push_cast
      rw [ih h1]
      ring

theorem consistent_remove (m : QuestionHashMap) (hw : WF m) (key : String)
    (hc : m.collisions_ = specCollisions m.buckets_)
    (hs : m.size_ = (m.buckets_.flatten.length : Int)) :
    (remove m key).2.collisions_ = specCollisions (remove m key).2.buckets_
      ∧ (remove m key).2.size_ = ((remove m key).2.buckets_.flatten.length : Int) := by
  have hi := hw.index_lt key
  by_cases hg : (get m key).1 = true
  · rw [remove_present m key hg]
    simp only []
    have hany := hg
    rw [get_fst_eq_any] at hany
    have hl := length_eraseP_key key _ hany
    have hb : m.buckets_.getD (index m key) [] = bucketAt m (index m key) := rfl
    have hpos : (1 : Int) ≤ ((bucketAt m (index m key)).length : Int) := by
      cases hbk : bucketAt m (index m key) with
      | nil => rw [hbk] at hany; simp at hany
      | cons e es =>
        rw [List.length_cons]
        push_cast
        omega
    constructor
    · unfold specCollisions
      rw [sum_map_set _ _ _ _ hi]
      rw [hb, hl, hc]
      unfold specCollisions
      have hemp : ((bucketAt m (index m key)).eraseP (fun e => decide (e.1 = key))).isEmpty
          = decide (((bucketAt m (index m key)).length : Int) - 1 = 0) := by
        rw [← hl]
        cases (bucketAt m (index m key)).eraseP (fun e => decide (e.1 = key)) with
        | nil => simp
        | cons x xs =>
          simp only [List.isEmpty_cons, List.length_cons]
          symm
          rw [decide_eq_false_iff_not]
          push_cast
          omega
      rw [hemp]
      by_cases h1 : ((bucketAt m (index m key)).length : Int) - 1 = 0
      · simp only [h1, decide_True, not_true_eq_false, if_false]
        norm_num
      · simp only [h1, decide_False, Bool.false_eq_true, not_false_eq_true, if_true]
        rw [max_eq_right (by omega), max_eq_right (by omega)]
        ring
    · rw [flatten_length_eq_sum, sum_map_set _ _ _ _ hi]
      rw [hb, hl, hs, flatten_length_eq_sum]
      ring
  · have hg0 : (get m key).1 = false := by
      cases h : (get m key).1
      · rfl
      · exact absurd h hg
    rw [remove_absent m key hg0]
    exact ⟨hc, hs⟩

theorem built_consistent (m : QuestionHashMap) (hb : Built m) :
    m.collisions_ = specCollisions m.buckets_
      ∧ m.size_ = (m.buckets_.flatten.length : Int) := by
  induction hb with
  | ofCap cap hcap => exact consistent_mkCap cap
  | ofPut key val hb ih => exact consistent_put _ (built_wf _ hb) key val ih.1 ih.2
  | ofRemove key hb ih => exact consistent_remove _ (built_wf _ hb) key ih.1 ih.2

/-! ### Claim C34 -/

/-- C34: after every sequence of `put` and `remove` calls on a fresh store,
`collisionCount()` equals the value the recomputation of `rehash` gives for the current
buckets, which is the sum over all buckets of `max(0, bucket length − 1)` and equals
`size()` minus the number of non-empty buckets. -/
theorem collisionCount_consistent (m : QuestionHashMap) (hb : Built m) :
    collisionCount m = countCollisions m.buckets_
      ∧ countCollisions m.buckets_ = specCollisions m.buckets_
      ∧ collisionCount m = size m - usedBuckets m.buckets_ := by
  obtain ⟨hc, hs⟩ := built_consistent m hb
  refine ⟨?_, countCollisions_eq _, ?_⟩
  · rw [countCollisions_eq]
    exact hc
  · unfold collisionCount size
    rw [hc, hs]
    exact specCollisions_eq_sub _

/-- Witness for C34: the default store after `put("q1", _)` and `put("q10", _)`, two keys
of the same bucket. -/
theorem collisionCount_consistent_witness :
    collisionCount (put (put mk0 "q1" (sampleItem "q1" 120)) "q10" (sampleItem "q10" 0))
      = countCollisions
          (put (put mk0 "q1" (sampleItem "q1" 120)) "q10" (sampleItem "q10" 0)).buckets_ :=
  (collisionCount_consistent _
    (Built.ofPut "q10" (sampleItem "q10" 0)
      (Built.ofPut "q1" (sampleItem "q1" 120) (Built.ofCap 16 (by decide))))).1

/-! ### Claim C37 -/

theorem built_load (m : QuestionHashMap) (hb : Built m) :
    0 < m.capacity_ ∧ 4 * m.size_ ≤ 3 * m.capacity_ := by
  induction hb with
  | ofCap cap hcap =>
    refine ⟨hcap, ?_⟩
    show 4 * (0 : Int) ≤ 3 * cap
    omega
  | @ofPut m0 key val hb ih =>
    obtain ⟨hcap, hl⟩ := ih
    have ho := overLoad_iff_int m0 hcap
    have hsz : (put m0 key val).size_ ≤ m0.size_ + 1 := by
      unfold put
      rw [putNoGrow_size, size_grow]
      split_ifs <;> omega
    rw [put_capacity]
    by_cases hov : overLoad m0 = true
    · rw [if_pos hov]
      constructor <;> omega
    · rw [if_neg hov]
      have hno : ¬ 3 * m0.capacity_ < 4 * (m0.size_ + 1) := fun h => hov (ho.mpr h)
      constructor <;> omega
  | @ofRemove m0 key hb ih =>
    obtain ⟨hcap, hl⟩ := ih
    by_cases hg : (get m0 key).1 = true
    · rw [remove_present m0 key hg]
      simp only []
      constructor <;> omega
    · have hg0 : (get m0 key).1 = false := by
        cases h : (get m0 key).1
        · rfl
        · exact absurd h hg
      rw [remove_absent m0 key hg0]
      exact ⟨hcap, hl⟩

/-- C37: after every sequence of `put` and `remove` calls on a store created with a
capacity of at least 1, `size() ≤ 0.75 × capacity()`; and whenever `put` finds the
projected load factor above 0.75, the load factor projected on the doubled capacity is at
most 0.75. -/
theorem load_factor_bound (m : QuestionHashMap) (hb : Built m) :
    ((size m : Int) : ℚ) ≤ 3 / 4 * ((capacity m : Int) : ℚ)
      ∧ (overLoad m = true →
          ((size m + 1 : Int) : ℚ) / ((capacity (rehash m) : Int) : ℚ) ≤ 3 / 4) := by
  obtain ⟨hcap, hl⟩ := built_load m hb
  unfold size capacity
  constructor
  · have h : ((4 * m.size_ : Int) : ℚ) ≤ ((3 * m.capacity_ : Int) : ℚ) := by exact_mod_cast hl
    push_cast at h
    linarith
  · intro _
    rw [rehash_capacity]
    have hc2 : (0 : ℚ) < ((m.capacity_ * 2 : Int) : ℚ) := by exact_mod_cast (by omega)
    rw [div_le_iff₀ hc2]
    have h : ((4 * (m.size_ + 1) : Int) : ℚ) ≤ ((6 * m.capacity_ : Int) : ℚ) := by
      exact_mod_cast (by omega : 4 * (m.size_ + 1) ≤ 6 * m.capacity_)
    push_cast at h ⊢
    linarith

/-- Witness for C37: a store of capacity 1 after one `put`. -/
theorem load_factor_bound_witness :
    ((size (put (mkCap 1) "q1" (sampleItem "q1" 120)) : Int) : ℚ)
      ≤ 3 / 4 * ((capacity (put (mkCap 1) "q1" (sampleItem "q1" 120)) : Int) : ℚ) :=
  (load_factor_bound _ (Built.ofPut "q1" (sampleItem "q1" 120) (Built.ofCap 1 (by decide)))).1

/-! ### Claim C40 -/

/-- The behaviour of the code C40 is about: `operator[]` inserts an absent key without
touching `collisions_`. After `map["q1"]` and `map["q10"]` on the default store both keys
lie in bucket 7, the counter is 0 where the buckets have one collision, and a following
`remove("q1")` takes the counter to -1; the same keys inserted by `put` give the counter 1. -/
theorem subscript_skips_collision_count :
    BuiltWithSubscript subscriptedTwice
      ∧ size subscriptedTwice = 2
      ∧ (bucketAt subscriptedTwice 7).map (fun e => e.1) = ["q1", "q10"]
      ∧ collisionCount subscriptedTwice = 0
      ∧ specCollisions subscriptedTwice.buckets_ = 1
      ∧ collisionCount (remove subscriptedTwice "q1").2 = -1
      ∧ collisionCount (put (put mk0 "q1" Question.mk0) "q10" Question.mk0) = 1 := by
  refine ⟨?_, ?_, ?_, ?_, ?_, ?_, ?_⟩
  · exact BuiltWithSubscript.ofSubscript "q10"
      (BuiltWithSubscript.ofSubscript "q1" (BuiltWithSubscript.ofCap 16 (by decide)))
  · decide
  · decide
  · decide
  · decide
  · decide
  · have h1 : ¬ overLoad mk0 = true := by
      rw [overLoad_iff_int mk0 (by decide)]
      decide
    have e1 : put mk0 "q1" Question.mk0 = putNoGrow mk0 "q1" Question.mk0 := by
      unfold put
      rw [if_neg h1]
    have h2 : ¬ overLoad (putNoGrow mk0 "q1" Question.mk0) = true := by
      rw [overLoad_iff_int _ (by decide)]
      decide
    have e2 : put (putNoGrow mk0 "q1" Question.mk0) "q10" Question.mk0
        = putNoGrow (putNoGrow mk0 "q1" Question.mk0) "q10" Question.mk0 := by
      unfold put
      rw [if_neg h2]
    rw [e1, e2]
    decide

end QuestionHashMap

namespace RevisionHeap

/-! ### Claim C38 -/

/-- C38: the heap built by the constructor contains the entry of an input item if and only
if the item is not Mastered, has a non-empty `nextRevisionDate` and has
`getPriorityScore(item, today) ≥ 0`; every entry of the heap is the entry of such an input
item, so every stored `priorityScore` is at least 0, and a dated, non-mastered input item
whose score is negative is left out. -/
theorem build_membership (env : Env) (questions : List Question) (today : String) :
    (∀ q ∈ questions,
        (⟨q, q.getPriorityScore env today⟩ : HeapEntry) ∈ build env questions today
          ↔ q.status ≠ QuestionStatus.MASTERED ∧ q.nextRevisionDate ≠ ""
              ∧ q.getPriorityScore env today ≥ 0)
      ∧ (∀ e ∈ build env questions today,
          e.question ∈ questions ∧ e.priorityScore = e.question.getPriorityScore env today
            ∧ 0 ≤ e.priorityScore)
      ∧ (∀ q ∈ questions, q.status ≠ QuestionStatus.MASTERED → q.nextRevisionDate ≠ "" →
          q.getPriorityScore env today < 0 →
            ∀ e ∈ build env questions today, e.question ≠ q) := by
  have hp := build_perm env questions today
  have hk : ∀ q : Question, keptByBuild env today q = true
      ↔ q.status ≠ QuestionStatus.MASTERED ∧ q.nextRevisionDate ≠ ""
          ∧ q.getPriorityScore env today ≥ 0 := by
    intro q
    unfold keptByBuild schedulable
    simp only [Bool.and_eq_true, decide_eq_true_eq]
    constructor
    · rintro ⟨⟨h1, h2⟩, h3⟩
      exact ⟨h1, h2, h3⟩
    · rintro ⟨h1, h2, h3⟩
      exact ⟨⟨h1, h2⟩, h3⟩
  have hmem : ∀ e : HeapEntry, e ∈ build env questions today
      ↔ ∃ q, (q ∈ questions ∧ keptByBuild env today q = true) ∧ entryOf env today q = e := by
    intro e
    rw [hp.mem_iff, List.mem_map]
    simp only [List.mem_filter]
  have hall : ∀ e ∈ build env questions today,
      e.question ∈ questions ∧ e.priorityScore = e.question.getPriorityScore env today
        ∧ 0 ≤ e.priorityScore := by
    intro e he
    obtain ⟨q, ⟨hq, hkq⟩, rfl⟩ := (hmem e).mp he
    exact ⟨hq, rfl, ((hk q).mp hkq).2.2⟩
  refine ⟨?_, hall, ?_⟩
  · intro q hq
    rw [← hk q, hmem]
    constructor
    · rintro ⟨q2, ⟨_, hk2⟩, he⟩
      have : q2 = q := congrArg HeapEntry.question he
      rw [← this]
      exact hk2
    · intro hkq
      exact ⟨q, ⟨hq, hkq⟩, rfl⟩
  · intro q _ _ _ hneg e he heq
    obtain ⟨_, h2, h3⟩ := hall e he
    rw [h2, heq] at h3
    exact absurd h3 (not_le.mpr hneg)

/-- Witness for C38: of an item nine days overdue and an item due in five days, the heap
built on 2025-07-10 holds the first and not the second. -/
theorem build_membership_witness :
    ((⟨datedItem "A" "2025-07-01",
          (datedItem "A" "2025-07-01").getPriorityScore (utcEnv "2025-07-10") "2025-07-10"⟩ :
          HeapEntry)
        ∈ build (utcEnv "2025-07-10")
            [datedItem "A" "2025-07-01", datedItem "f1" "2025-07-15"] "2025-07-10")
      ∧ ∀ e ∈ build (utcEnv "2025-07-10")
            [datedItem "A" "2025-07-01", datedItem "f1" "2025-07-15"] "2025-07-10",
          e.question ≠ datedItem "f1" "2025-07-15" := by
  have h := build_membership (utcEnv "2025-07-10")
    [datedItem "A" "2025-07-01", datedItem "f1" "2025-07-15"] "2025-07-10"
  have hA : (datedItem "A" "2025-07-01").getPriorityScore (utcEnv "2025-07-10") "2025-07-10"
      = 9 := by
    rw [datedItem_score _ _ _ _ (by decide), dateDiffDays_utc_overdue]
    norm_num
  have hF : (datedItem "f1" "2025-07-15").getPriorityScore (utcEnv "2025-07-10") "2025-07-10"
      = -5 := by
    rw [datedItem_score _ _ _ _ (by decide), dateDiffDays_utc_notDue]
    norm_num
  constructor
  · refine (h.1 _ (List.mem_cons_self _ _)).mpr ⟨by decide, by decide, ?_⟩
    rw [hA]
    norm_num
  · refine h.2.2 _ (List.mem_cons_of_mem _ (List.mem_cons_self _ _)) (by decide) (by decide) ?_
    rw [hF]
    norm_num

end RevisionHeap

/-! ### The calendar -/

/-- The year-of-era formula of `civilFromDays`: the year found is within the era, the day
of the year is within the year, and day 365 occurs only before a leap day. -/
theorem yoe_facts (doe b : Int) (h0 : 0 ≤ doe) (h1 : doe ≤ 146096)
    (hb : b = (doe - doe / 1460 + doe / 36524 - doe / 146096) / 365) :
    0 ≤ b ∧ b ≤ 399 ∧ 0 ≤ doe - (365 * b + b / 4 - b / 100)
      ∧ doe - (365 * b + b / 4 - b / 100) ≤ 365
      ∧ (doe - (365 * b + b / 4 - b / 100) = 365 →
          (b + 1) % 4 = 0 ∧ ((b + 1) % 100 ≠ 0 ∨ b = 399)) := by
  by_cases hlast : doe = 146096
  · subst hlast
    norm_num at hb
    subst hb
    norm_num
  · obtain ⟨f, hf⟩ : ∃ f, f = doe / 36524 := ⟨_, rfl⟩
    obtain ⟨q, hq⟩ : ∃ q, q = (doe - 36524 * f) / 1461 := ⟨_, rfl⟩
    obtain ⟨r, hr⟩ : ∃ r, r = doe - 36524 * f - 1461 * q := ⟨_, rfl⟩
    obtain ⟨t, ht⟩ : ∃ t, t = (q + r + 24 * f) / 1460 := ⟨_, rfl⟩
    obtain ⟨j, hj⟩ : ∃ j, j = (r - t) / 365 := ⟨_, rfl⟩
    have hf0 : 0 ≤ f := by omega
    have hf1 : f ≤ 3 := by omega
    have hq0 : 0 ≤ q := by omega
    have hq1 : q ≤ 24 := by omega
    have hr0 : 0 ≤ r := by omega
    have hr1 : r ≤ 1460 := by omega
    have hr2 : q = 24 → r ≤ 1459 := by omega
    have ht0 : 0 ≤ t := by omega
    have ht1 : t ≤ 1 := by omega
    have hj0 : 0 ≤ j := by omega
    have hj1 : j ≤ 3 := by omega
    have hg : doe / 146096 = 0 := by omega
    have he : doe / 1460 = 25 * f + q + t := by omega
    rw [hg, he, ← hf] at hb
    have hbv : b = 100 * f + 4 * q + j := by omega
    have hb4 : b / 4 = 25 * f + q := by omega
    have hb100 : b / 100 = f := by omega
    rw [hb4, hb100]
    refine ⟨by omega, by omega, by omega, by omega, ?_⟩
    intro hd
    have hj3 : j = 3 := by omega
    have hr3 : r = 1460 := by omega
    have hq2 : q ≤ 23 := by omega
    constructor
    · omega
    · left
      omega

theorem daysInMonth_cases (y m : Int) :
    daysInMonth y m
      = if m = 2 then (if y % 4 = 0 ∧ (y % 100 ≠ 0 ∨ y % 400 = 0) then 29 else 28)
        else if m = 4 ∨ m = 6 ∨ m = 9 ∨ m = 11 then 30 else 31 := by
  unfold daysInMonth isLeapYear
  by_cases h : y % 4 = 0 ∧ (y % 100 ≠ 0 ∨ y % 400 = 0)
  · simp only [h, decide_True, if_true]
    rfl
  · simp only [h, decide_False, if_false]
    rfl

set_option maxHeartbeats 4000000 in
/-- The arithmetic of `civilFromDays`: the date found is a date of the calendar and
`daysFromCivil` takes it back to the day count. -/
theorem civil_core (z era doe b doy mp d m y : Int)
    (hera : era = (z + 719468) / 146097) (hdoe : doe = z + 719468 - era * 146097)
    (hb : b = (doe - doe / 1460 + doe / 36524 - doe / 146096) / 365)
    (hdoy : doy = doe - (365 * b + b / 4 - b / 100))
    (hmp : mp = (5 * doy + 2) / 153) (hd : d = doy - (153 * mp + 2) / 5 + 1)
    (hm : m = if mp < 10 then mp + 3 else mp - 9)
    (hy : y = if m ≤ 2 then b + era * 400 + 1 else b + era * 400) :
    1 ≤ m ∧ m ≤ 12 ∧ 1 ≤ d ∧ d ≤ daysInMonth y m ∧ daysFromCivil y m d = z := by
  have h0 : 0 ≤ doe := by omega
  have h1 : doe ≤ 146096 := by omega
  obtain ⟨hb0, hb1, hd0, hd1, hleap⟩ := yoe_facts doe b h0 h1 hb
  rw [← hdoy] at hd0 hd1 hleap
  have hmp0 : 0 ≤ mp := by omega
  have hmp1 : mp ≤ 11 := by omega
  rw [daysInMonth_cases]
  unfold daysFromCivil
  simp only []
  have e1 : (b + era * 400) / 400 = era := by omega
  have e2 : b + era * 400 - era * 400 = b := by ring
  interval_cases mp
  all_goals
    simp only [Int.reduceLT, if_true, if_false, Int.reduceAdd, Int.reduceSub] at hm
    subst hm
    simp only [Int.reduceLE, if_true, if_false] at hy
    subst hy
    refine ⟨by omega, by omega, by omega, ?_, ?_⟩
    · simp only [Int.reduceEq, if_false, false_or, or_false, or_true, true_or, if_true]
      omega
    · simp only [Int.reduceLE, Int.reduceLT, gt_iff_lt, if_true, if_false, Int.reduceSub,
        Int.reduceAdd, add_sub_cancel_right, e1, e2]
      clear hleap hb
      omega

theorem daysFromCivil_closed (y m d : Int) :
    daysFromCivil y m d
      = 365 * (if m ≤ 2 then y - 1 else y) + (if m ≤ 2 then y - 1 else y) / 4
        - (if m ≤ 2 then y - 1 else y) / 100 + (if m ≤ 2 then y - 1 else y) / 400
        + (153 * (if m > 2 then m - 3 else m + 9) + 2) / 5 + d - 1 - 719468 := by
  unfold daysFromCivil
  simp only []
  split_ifs <;> omega

theorem yearStart_mono (a b : Int) (h : a ≤ b) :
    365 * a + a / 4 - a / 100 + a / 400 ≤ 365 * b + b / 4 - b / 100 + b / 400 := by
  rcases eq_or_lt_of_le h with h | h
  · rw [h]
  · omega

theorem yearStart_succ (a : Int) :
    365 * (a + 1) + (a + 1) / 4 - (a + 1) / 100 + (a + 1) / 400
      = 365 * a + a / 4 - a / 100 + a / 400 + 365
        + (if (a + 1) % 4 = 0 ∧ ((a + 1) % 100 ≠ 0 ∨ (a + 1) % 400 = 0) then 1 else 0) := by
  split_ifs <;> omega

/-- The day of the March-based year of a date of the calendar lies within its month, and
within the year. -/
theorem dayOfYear_range (y m d : Int) (hm1 : 1 ≤ m) (hm2 : m ≤ 12) (hd1 : 1 ≤ d)
    (hd2 : d ≤ daysInMonth y m) :
    (153 * (if m > 2 then m - 3 else m + 9) + 2) / 5
        ≤ (153 * (if m > 2 then m - 3 else m + 9) + 2) / 5 + d - 1
      ∧ (153 * (if m > 2 then m - 3 else m + 9) + 2) / 5 + d - 1
          < (153 * ((if m > 2 then m - 3 else m + 9) + 1) + 2) / 5
      ∧ (153 * (if m > 2 then m - 3 else m + 9) + 2) / 5 + d - 1
          ≤ 364 + (if ((if m ≤ 2 then y - 1 else y) + 1) % 4 = 0
              ∧ (((if m ≤ 2 then y - 1 else y) + 1) % 100 ≠ 0
                ∨ ((if m ≤ 2 then y - 1 else y) + 1) % 400 = 0) then 1 else 0) := by
  rw [daysInMonth_cases] at hd2
  interval_cases m <;>
    simp only [Int.reduceLE, Int.reduceLT, gt_iff_lt, if_true, if_false, Int.reduceEq,
      false_or, or_false, or_true, true_or, Int.reduceSub, Int.reduceAdd, Int.reduceMul,
      Int.reduceDiv, sub_add_cancel] at hd2 ⊢ <;>
    omega

/-- Later dates of the calendar have larger day counts. -/
theorem daysFromCivil_lt (y m d y2 m2 d2 : Int) (hm1 : 1 ≤ m) (hm2 : m ≤ 12) (hd1 : 1 ≤ d)
    (hd2 : d ≤ daysInMonth y m) (hn1 : 1 ≤ m2) (hn2 : m2 ≤ 12) (he1 : 1 ≤ d2)
    (he2 : d2 ≤ daysInMonth y2 m2)
    (hlex : y < y2 ∨ (y = y2 ∧ (m < m2 ∨ (m = m2 ∧ d < d2)))) :
    daysFromCivil y m d < daysFromCivil y2 m2 d2 := by
  rw [daysFromCivil_closed, daysFromCivil_closed]
  obtain ⟨r1, r2, r3⟩ := dayOfYear_range y m d hm1 hm2 hd1 hd2
  obtain ⟨s1, s2, s3⟩ := dayOfYear_range y2 m2 d2 hn1 hn2 he1 he2
  generalize hn : (if m ≤ 2 then y - 1 else y) = n at r3 ⊢
  generalize hk : (if m2 ≤ 2 then y2 - 1 else y2) = n2 at s3 ⊢
  generalize hp : (if m > 2 then m - 3 else m + 9) = p at r1 r2 r3 ⊢
  generalize hq : (if m2 > 2 then m2 - 3 else m2 + 9) = p2 at s1 s2 s3 ⊢
  have hp0 : 0 ≤ p2 := by
    rw [← hq]
    split_ifs <;> omega
  have hs0 : 0 ≤ (153 * p2 + 2) / 5 := by omega
  rcases lt_trichotomy n n2 with hlt | heq | hgt
  · have hstep := yearStart_succ n
    have hmono := yearStart_mono (n + 1) n2 (by omega)
    generalize (if (n + 1) % 4 = 0 ∧ ((n + 1) % 100 ≠ 0 ∨ (n + 1) % 400 = 0) then (1 : Int)
      else 0) = L at r3 hstep
    clear s3 s2 r2 r1 hd2 he2 hlex hn hk hp hq
    omega
  · rw [← heq]
    have hpp : p < p2 ∨ (p = p2 ∧ d < d2) := by
      rw [← hp, ← hq]
      rw [← hn, ← hk] at heq
      clear r1 r2 r3 s1 s2 s3 hd2 he2 hs0 hp0 hn hk hp hq
      split_ifs at heq ⊢ <;> omega
    clear r3 s3 hd2 he2 hlex hn hk hp hq
    rcases hpp with h | ⟨h1, h2⟩
    · have : (153 * (p + 1) + 2) / 5 ≤ (153 * p2 + 2) / 5 := by omega
      omega
    · rw [h1]
      omega
  · exfalso
    rw [← hn, ← hk] at hgt
    clear r1 r2 r3 s1 s2 s3 hd2 he2 hs0 hp0 hn hk hp hq
    split_ifs at hgt <;> omega

/-- The date `civilFromDays` finds is a date of the calendar and `daysFromCivil` takes it
back to the day count. -/
theorem civilFromDays_spec (z : Int) :
    1 ≤ (civilFromDays z).2.1 ∧ (civilFromDays z).2.1 ≤ 12 ∧ 1 ≤ (civilFromDays z).2.2
      ∧ (civilFromDays z).2.2 ≤ daysInMonth (civilFromDays z).1 (civilFromDays z).2.1
      ∧ daysFromCivil (civilFromDays z).1 (civilFromDays z).2.1 (civilFromDays z).2.2 = z :=
  civil_core z _ _ _ _ _ _ _ _ rfl rfl rfl rfl rfl rfl rfl rfl

theorem daysFromCivil_first : daysFromCivil 0 1 1 = firstDay := by decide

theorem daysFromCivil_last : daysFromCivil 9999 12 31 = lastDay := by decide

theorem daysFromCivil_firstPadded : daysFromCivil 1000 1 1 = firstPaddedDay := by decide

/-- Day counts between 1000-01-01 and 9999-12-31 have a four-digit year. -/
theorem civilFromDays_year (z : Int) (hlo : firstPaddedDay ≤ z) (hhi : z ≤ lastDay) :
    1000 ≤ (civilFromDays z).1 ∧ (civilFromDays z).1 ≤ 9999 := by
  obtain ⟨h1, h2, h3, h4, h5⟩ := civilFromDays_spec z
  constructor
  · by_contra hneg
    have := daysFromCivil_lt _ _ _ 1000 1 1 h1 h2 h3 h4 (by decide) (by decide) (by decide)
      (by decide) (Or.inl (by omega))
    rw [h5, daysFromCivil_firstPadded] at this
    omega
  · by_contra hneg
    have := daysFromCivil_lt 9999 12 31 _ _ _ (by decide) (by decide) (by decide) (by decide)
      h1 h2 h3 h4 (Or.inl (by omega))
    rw [h5, daysFromCivil_last] at this
    omega

/-! ### Reading and printing dates -/

theorem digitVal_digitChar (n : Int) : digitVal (digitChar n) = some (n % 10) := by
  unfold digitChar
  have h0 : 0 ≤ n % 10 := Int.emod_nonneg _ (by decide)
  have h1 : n % 10 < 10 := Int.emod_lt_of_pos _ (by decide)
  obtain ⟨k, hk⟩ : ∃ k : Nat, n % 10 = (k : Int) := ⟨(n % 10).toNat, (Int.toNat_of_nonneg h0).symm⟩
  rw [hk] at h1 ⊢
  rw [Int.toNat_ofNat]
  have hk10 : k < 10 := by omega
  interval_cases k <;> rfl

theorem natDigits_four (n : Nat) (h0 : 1000 ≤ n) (h1 : n ≤ 9999) :
    natDigits 20 n
      = [digitChar ((n / 1000 : Nat) : Int), digitChar ((n / 100 : Nat) : Int),
          digitChar ((n / 10 : Nat) : Int), digitChar (n : Int)] := by
  have d2 : n / 10 / 10 = n / 100 := by omega
  have d3 : n / 100 / 10 = n / 1000 := by omega
  rw [show (20 : Nat) = 16 + 1 + 1 + 1 + 1 from rfl]
  rw [natDigits, if_neg (by omega), natDigits, if_neg (by omega), d2, natDigits,
    if_neg (by omega), d3, natDigits, if_pos (by omega)]
  rfl

/-- A year of four digits is printed as these digits. -/
theorem yearText_four (y : Int) (h0 : 1000 ≤ y) (h1 : y ≤ 9999) :
    yearText y = [digitChar (y / 1000), digitChar (y / 100), digitChar (y / 10), digitChar y] := by
  obtain ⟨n, hn⟩ : ∃ n : Nat, y = (n : Int) := ⟨y.toNat, (Int.toNat_of_nonneg (by omega)).symm⟩
  unfold yearText
  rw [if_neg (by omega), hn, Int.toNat_ofNat, natDigits_four n (by omega) (by omega)]
  push_cast
  rfl

theorem formatDate_length (y m d : Int) (hy0 : 1000 ≤ y) (hy1 : y ≤ 9999) :
    (formatDate (y, m, d)).length = 10 := by
  unfold formatDate
  simp only []
  rw [yearText_four y hy0 hy1]
  rfl

theorem parseDate_formatDate (y m d : Int) (hy0 : 1000 ≤ y) (hy1 : y ≤ 9999) (hm0 : 0 ≤ m)
    (hm1 : m ≤ 99) (hd0 : 0 ≤ d) (hd1 : d ≤ 99) :
    parseDate (formatDate (y, m, d)) = some (y, m, d) := by
  unfold formatDate
  simp only []
  rw [yearText_four y hy0 hy1]
  unfold parseDate
  simp only [List.cons_append, List.nil_append, digitsVal, digitVal_digitChar, List.length_cons,
    List.length_nil]
  have e1 : y / 1000 % 10 * 10 ^ (0 + 1 + 1 + 1) + (y / 100 % 10 * 10 ^ (0 + 1 + 1)
      + (y / 10 % 10 * 10 ^ (0 + 1) + (y % 10 * 10 ^ 0 + 0))) = y := by
    norm_num
    omega
  have e2 : m / 10 % 10 * 10 ^ (0 + 1) + (m % 10 * 10 ^ 0 + 0) = m := by
    norm_num
    omega
  have e3 : d / 10 % 10 * 10 ^ (0 + 1) + (d % 10 * 10 ^ 0 + 0) = d := by
    norm_num
    omega
  rw [e1, e2, e3]

/-! ### The calendar of `utcEnv` -/

theorem daysInMonth_le (y m : Int) : daysInMonth y m ≤ 31 := by
  rw [daysInMonth_cases]
  split_ifs <;> decide

/-- Under `utcEnv`, `mktime` gives midnight of the day it reads. -/
theorem utc_mktime (t s : String) : (utcEnv t).mktime s = dayNumber s * 86400 := by
  unfold dayNumber utcEnv
  simp only []
  cases parseDate s with
  | none => simp
  | some ymd => simp

/-- Under `utcEnv`, the text `strftime` prints for midnight of a day between 1000-01-01 and
9999-12-31 is a well-formed date that `mktime` reads as that day. -/
theorem utc_strftime (t : String) (z : Int) (hlo : firstPaddedDay ≤ z) (hhi : z ≤ lastDay) :
    wellFormedDate ((utcEnv t).strftime (z * 86400)) = true
      ∧ dayNumber ((utcEnv t).strftime (z * 86400)) = z := by
  obtain ⟨h1, h2, h3, h4, h5⟩ := civilFromDays_spec z
  obtain ⟨hy0, hy1⟩ := civilFromDays_year z hlo hhi
  have h31 := daysInMonth_le (civilFromDays z).1 (civilFromDays z).2.1
  have hs : (utcEnv t).strftime (z * 86400) = formatDate (civilFromDays z) := by
    show (if (formatDate (civilFromDays (z * 86400 / 86400))).length ≤ 10
      then formatDate (civilFromDays (z * 86400 / 86400)) else "") = _
    rw [Int.mul_ediv_cancel z (by decide),
      if_pos (le_of_eq (formatDate_length _ _ _ hy0 hy1))]
  have hp : parseDate (formatDate (civilFromDays z))
      = some ((civilFromDays z).1, (civilFromDays z).2.1, (civilFromDays z).2.2) :=
    parseDate_formatDate _ _ _ hy0 hy1 (by omega) (by omega) (by omega) (by omega)
  rw [hs]
  constructor
  · unfold wellFormedDate
    rw [hp]
    simp only [decide_eq_true_eq]
    exact ⟨h1, h2, h3, h4⟩
  · unfold dayNumber utcEnv
    simp only []
    rw [hp]
    simp only []
    rw [h5, Int.mul_ediv_cancel z (by decide)]

theorem utc_dateDiffDays (t a b : String) :
    dateDiffDays (utcEnv t) a b = dayNumber b - dayNumber a := by
  unfold dateDiffDays
  rw [utc_mktime, utc_mktime, ← Int.sub_mul, Int.mul_tdiv_cancel _ (by decide)]

/-- Under `utcEnv`, a number of days whose product with 86400 fits an `int` is added as it
is. -/
theorem utc_addDaysToDate (t d : String) (n : Int) (h1 : -24855 ≤ n) (h2 : n ≤ 24855) :
    addDaysToDate (utcEnv t) d n = (utcEnv t).strftime ((dayNumber d + n) * 86400) := by
  unfold addDaysToDate
  rw [wrapInt32_of_mem _ (by omega) (by omega), utc_mktime, Int.add_mul]

/-- Under the calendar of `utcEnv`, for at most 24855 days in either direction and a
resulting day between 1000-01-01 and 9999-12-31, `addDaysToDate(d, n)` is a well-formed date
and lies `n` days after `d`. -/
theorem addDaysToDate_in_range (today d : String) (n : Int) (h1 : -24855 ≤ n)
    (h2 : n ≤ 24855) (hlo : firstPaddedDay ≤ dayNumber d + n)
    (hhi : dayNumber d + n ≤ lastDay) :
    wellFormedDate (addDaysToDate (utcEnv today) d n) = true
      ∧ dayNumber (addDaysToDate (utcEnv today) d n) = dayNumber d + n
      ∧ dateDiffDays (utcEnv today) d (addDaysToDate (utcEnv today) d n) = n := by
  obtain ⟨hw, hday⟩ := utc_strftime today (dayNumber d + n) hlo hhi
  rw [utc_addDaysToDate today d n h1 h2, utc_dateDiffDays, hday]
  exact ⟨hw, rfl, by ring⟩

/-! ### Claim C33 -/

/-- C33, the behaviour of the code from 24856 days on: `addDaysToDate("2025-01-01", 24855)`
is 2093-01-19, the well-formed date 24855 days later; for 24856 days the `int` product
`24856 * 86400` exceeds `2 ^ 31 - 1` and wraps to `-2147408896` seconds, so the date
returned is 1956-12-14 and `dateDiffDays` from 2025-01-01 to it is -24855, not 24856. -/
theorem addDaysToDate_int_overflow :
    wellFormedDate "2025-01-01" = true
      ∧ addDaysToDate (utcEnv "2025-07-10") "2025-01-01" 24855 = "2093-01-19"
      ∧ dateDiffDays (utcEnv "2025-07-10") "2025-01-01"
          (addDaysToDate (utcEnv "2025-07-10") "2025-01-01" 24855) = 24855
      ∧ wrapInt32 (24856 * 86400) = -2147408896
      ∧ addDaysToDate (utcEnv "2025-07-10") "2025-01-01" 24856 = "1956-12-14"
      ∧ dateDiffDays (utcEnv "2025-07-10") "2025-01-01"
          (addDaysToDate (utcEnv "2025-07-10") "2025-01-01" 24856) = -24855 := by
  refine ⟨by decide, by decide, by decide, by decide, by decide, by decide⟩

/-! ### The text of a well-formed date -/

theorem digitVal_some (c : Char) (v : Int) (h : digitVal c = some v) :
    ∃ (k : Nat) (b : UInt8), k ≤ 9 ∧ v = (k : Int) ∧ String.utf8EncodeChar c = [b]
      ∧ b.toNat = 48 + k := by
  unfold digitVal at h
  split_ifs at h with hc
  obtain ⟨n, hn⟩ : ∃ n, n = c.toNat := ⟨_, rfl⟩
  have hcn : c = Char.ofNat n := by rw [hn, Char.ofNat_toNat]
  rw [← hn] at hc h
  obtain ⟨h1, h2⟩ := hc
  injection h with h
  subst hcn
  interval_cases n
  · exact ⟨0, _, by decide, by omega, rfl, rfl⟩
  · exact ⟨1, _, by decide, by omega, rfl, rfl⟩
  · exact ⟨2, _, by decide, by omega, rfl, rfl⟩
  · exact ⟨3, _, by decide, by omega, rfl, rfl⟩
  · exact ⟨4, _, by decide, by omega, rfl, rfl⟩
  · exact ⟨5, _, by decide, by omega, rfl, rfl⟩
  · exact ⟨6, _, by decide, by omega, rfl, rfl⟩
  · exact ⟨7, _, by decide, by omega, rfl, rfl⟩
  · exact ⟨8, _, by decide, by omega, rfl, rfl⟩
  · exact ⟨9, _, by decide, by omega, rfl, rfl⟩

theorem parseDate_shape (s : String) (y m d : Int) (h : parseDate s = some (y, m, d)) :
    ∃ c1 c2 c3 c4 c5 c6 c7 c8 : Char,
      s.data = [c1, c2, c3, c4, '-', c5, c6, '-', c7, c8]
        ∧ digitsVal [c1, c2, c3, c4] = some y ∧ digitsVal [c5, c6] = some m
        ∧ digitsVal [c7, c8] = some d := by
  unfold parseDate at h
  split at h
  · rename_i y1 y2 y3 y4 m1 m2 d1 d2 heq
    refine ⟨y1, y2, y3, y4, m1, m2, d1, d2, heq, ?_⟩
    split at h
    · rename_i a b c ha hb hc
      injection h with h
      injection h with h1 h2
      injection h2 with h2 h3
      subst h1 h2 h3
      exact ⟨ha, hb, hc⟩
    · exact absurd h (by simp)
  · exact absurd h (by simp)

theorem digitsVal_two (c1 c2 : Char) (v : Int) (h : digitsVal [c1, c2] = some v) :
    ∃ (k1 k2 : Nat) (b1 b2 : UInt8), k1 ≤ 9 ∧ k2 ≤ 9 ∧ v = 10 * (k1 : Int) + (k2 : Int)
      ∧ String.utf8EncodeChar c1 = [b1] ∧ b1.toNat = 48 + k1
      ∧ String.utf8EncodeChar c2 = [b2] ∧ b2.toNat = 48 + k2 := by
  simp only [digitsVal] at h
  cases h1 : digitVal c1 with
  | none => rw [h1] at h; simp at h
  | some v1 =>
    cases h2 : digitVal c2 with
    | none => rw [h1, h2] at h; simp at h
    | some v2 =>
      rw [h1, h2] at h
      simp only [List.length_cons, List.length_nil] at h
      injection h with h
      obtain ⟨k1, b1, hk1, hv1, he1, hb1⟩ := digitVal_some c1 v1 h1
      obtain ⟨k2, b2, hk2, hv2, he2, hb2⟩ := digitVal_some c2 v2 h2
      refine ⟨k1, k2, b1, b2, hk1, hk2, ?_, he1, hb1, he2, hb2⟩
      rw [← h, hv1, hv2]
      norm_num
      ring

theorem digitsVal_four (c1 c2 c3 c4 : Char) (v : Int)
    (h : digitsVal [c1, c2, c3, c4] = some v) :
    ∃ (k1 k2 k3 k4 : Nat) (b1 b2 b3 b4 : UInt8), k1 ≤ 9 ∧ k2 ≤ 9 ∧ k3 ≤ 9 ∧ k4 ≤ 9
      ∧ v = 1000 * (k1 : Int) + 100 * (k2 : Int) + 10 * (k3 : Int) + (k4 : Int)
      ∧ String.utf8EncodeChar c1 = [b1] ∧ b1.toNat = 48 + k1
      ∧ String.utf8EncodeChar c2 = [b2] ∧ b2.toNat = 48 + k2
      ∧ String.utf8EncodeChar c3 = [b3] ∧ b3.toNat = 48 + k3
      ∧ String.utf8EncodeChar c4 = [b4] ∧ b4.toNat = 48 + k4 := by
  simp only [digitsVal] at h
  cases h1 : digitVal c1 with
  | none => rw [h1] at h; simp at h
  | some v1 =>
    cases h2 : digitVal c2 with
    | none => rw [h1, h2] at h; simp at h
    | some v2 =>
      cases h3 : digitVal c3 with
      | none => rw [h1, h2, h3] at h; simp at h
      | some v3 =>
        cases h4 : digitVal c4 with
        | none => rw [h1, h2, h3, h4] at h; simp at h
        | some v4 =>
          rw [h1, h2, h3, h4] at h
          simp only [List.length_cons, List.length_nil] at h
          injection h with h
          obtain ⟨k1, b1, hk1, hv1, he1, hb1⟩ := digitVal_some c1 v1 h1
          obtain ⟨k2, b2, hk2, hv2, he2, hb2⟩ := digitVal_some c2 v2 h2
          obtain ⟨k3, b3, hk3, hv3, he3, hb3⟩ := digitVal_some c3 v3 h3
          obtain ⟨k4, b4, hk4, hv4, he4, hb4⟩ := digitVal_some c4 v4 h4
          refine ⟨k1, k2, k3, k4, b1, b2, b3, b4, hk1, hk2, hk3, hk4, ?_, he1, hb1, he2, hb2,
            he3, hb3, he4, hb4⟩
          rw [← h, hv1, hv2, hv3, hv4]
          norm_num
          ring

/-- The text of a well-formed date: ten bytes, digits around two `-`, and the date they
spell is a date of the calendar. -/
theorem wellFormedDate_shape (s : String) (h : wellFormedDate s = true) :
    ∃ (k1 k2 k3 k4 k5 k6 k7 k8 : Nat) (b1 b2 b3 b4 b5 b6 b7 b8 bd : UInt8),
      (k1 ≤ 9 ∧ k2 ≤ 9 ∧ k3 ≤ 9 ∧ k4 ≤ 9 ∧ k5 ≤ 9 ∧ k6 ≤ 9 ∧ k7 ≤ 9 ∧ k8 ≤ 9)
        ∧ (b1.toNat = 48 + k1 ∧ b2.toNat = 48 + k2 ∧ b3.toNat = 48 + k3 ∧ b4.toNat = 48 + k4
            ∧ b5.toNat = 48 + k5 ∧ b6.toNat = 48 + k6 ∧ b7.toNat = 48 + k7
            ∧ b8.toNat = 48 + k8 ∧ bd.toNat = 45)
        ∧ QuestionHashMap.keyBytes s = [b1, b2, b3, b4, bd, b5, b6, bd, b7, b8]
        ∧ dayNumber s
            = daysFromCivil
                (1000 * (k1 : Int) + 100 * (k2 : Int) + 10 * (k3 : Int) + (k4 : Int))
                (10 * (k5 : Int) + (k6 : Int)) (10 * (k7 : Int) + (k8 : Int))
        ∧ 1 ≤ 10 * (k5 : Int) + (k6 : Int) ∧ 10 * (k5 : Int) + (k6 : Int) ≤ 12
        ∧ 1 ≤ 10 * (k7 : Int) + (k8 : Int)
        ∧ 10 * (k7 : Int) + (k8 : Int)
            ≤ daysInMonth
                (1000 * (k1 : Int) + 100 * (k2 : Int) + 10 * (k3 : Int) + (k4 : Int))
                (10 * (k5 : Int) + (k6 : Int)) := by
  unfold wellFormedDate at h
  cases hp : parseDate s with
  | none => rw [hp] at h; exact absurd h (by simp)
  | some ymd =>
    obtain ⟨y, m, d⟩ := ymd
    rw [hp] at h
    simp only [decide_eq_true_eq] at h
    obtain ⟨c1, c2, c3, c4, c5, c6, c7, c8, hdata, hy, hm, hd⟩ := parseDate_shape s y m d hp
    obtain ⟨k1, k2, k3, k4, b1, b2, b3, b4, hk1, hk2, hk3, hk4, hyv, e1, t1, e2, t2, e3, t3,
      e4, t4⟩ := digitsVal_four c1 c2 c3 c4 y hy
    obtain ⟨k5, k6, b5, b6, hk5, hk6, hmv, e5, t5, e6, t6⟩ := digitsVal_two c5 c6 m hm
    obtain ⟨k7, k8, b7, b8, hk7, hk8, hdv, e7, t7, e8, t8⟩ := digitsVal_two c7 c8 d hd
    refine ⟨k1, k2, k3, k4, k5, k6, k7, k8, b1, b2, b3, b4, b5, b6, b7, b8, 45,
      ⟨hk1, hk2, hk3, hk4, hk5, hk6, hk7, hk8⟩, ⟨t1, t2, t3, t4, t5, t6, t7, t8, rfl⟩, ?_, ?_,
      ?_⟩
    · unfold QuestionHashMap.keyBytes
      rw [hdata]
      have edash : String.utf8EncodeChar '-' = [45] := rfl
      simp only [List.flatMap_cons, List.flatMap_nil, e1, e2, e3, e4, e5, e6, e7, e8, edash,
        List.singleton_append, List.append_nil]
    · unfold dayNumber utcEnv
      simp only []
      rw [hp]
      simp only []
      rw [Int.mul_ediv_cancel _ (by decide), hyv, hmv, hdv]
    · rw [← hyv, ← hmv, ← hdv]
      exact h

theorem bytesLt_cons (a b : UInt8) (as bs : List UInt8) :
    bytesLt (a :: as) (b :: bs)
      = if a.toNat < b.toNat then true
        else if b.toNat < a.toNat then false
        else bytesLt as bs := rfl

theorem bytesLt_nil : bytesLt [] [] = false := rfl

theorem bytesLt_cons_iff (a b : UInt8) (as bs : List UInt8) :
    bytesLt (a :: as) (b :: bs) = true
      ↔ a.toNat < b.toNat ∨ (a.toNat = b.toNat ∧ bytesLt as bs = true) := by
  rw [bytesLt_cons]
  by_cases h1 : a.toNat < b.toNat
  · rw [if_pos h1]
    exact ⟨fun _ => Or.inl h1, fun _ => rfl⟩
  · rw [if_neg h1]
    by_cases h2 : b.toNat < a.toNat
    · rw [if_pos h2]
      constructor
      · intro h
        exact absurd h (by decide)
      · rintro (h | ⟨h, _⟩) <;> omega
    · rw [if_neg h2]
      constructor
      · intro h
        exact Or.inr ⟨by omega, h⟩
      · rintro (h | ⟨_, h⟩)
        · exact absurd h h1
        · exact h

theorem lex_pair10 (x1 x2 y1 y2 : Nat) (h2 : x2 ≤ 9) (h3 : y2 ≤ 9) (R : Prop) :
    (x1 < y1 ∨ (x1 = y1 ∧ (x2 < y2 ∨ (x2 = y2 ∧ R))))
      ↔ (10 * x1 + x2 < 10 * y1 + y2 ∨ (10 * x1 + x2 = 10 * y1 + y2 ∧ R)) := by
  constructor
  · rintro (h | ⟨h, h4 | ⟨h4, r⟩⟩)
    · exact Or.inl (by omega)
    · exact Or.inl (by omega)
    · exact Or.inr ⟨by omega, r⟩
  · rintro (h | ⟨h, r⟩)
    · rcases Nat.lt_or_ge x1 y1 with a | a
      · exact Or.inl a
      · exact Or.inr ⟨by omega, Or.inl (by omega)⟩
    · exact Or.inr ⟨by omega, Or.inr ⟨by omega, r⟩⟩

theorem lex_pair100 (x1 x2 y1 y2 : Nat) (h2 : x2 ≤ 99) (h3 : y2 ≤ 99) (R : Prop) :
    (x1 < y1 ∨ (x1 = y1 ∧ (x2 < y2 ∨ (x2 = y2 ∧ R))))
      ↔ (100 * x1 + x2 < 100 * y1 + y2 ∨ (100 * x1 + x2 = 100 * y1 + y2 ∧ R)) := by
  constructor
  · rintro (h | ⟨h, h4 | ⟨h4, r⟩⟩)
    · exact Or.inl (by omega)
    · exact Or.inl (by omega)
    · exact Or.inr ⟨by omega, r⟩
  · rintro (h | ⟨h, r⟩)
    · rcases Nat.lt_or_ge x1 y1 with a | a
      · exact Or.inl a
      · exact Or.inr ⟨by omega, Or.inl (by omega)⟩
    · exact Or.inr ⟨by omega, Or.inr ⟨by omega, r⟩⟩

/-- On well-formed dates the byte order of the texts is the order of the days. -/
theorem stringLe_iff (a b : String) (ha : wellFormedDate a = true)
    (hb : wellFormedDate b = true) : stringLe a b = true ↔ dayNumber a ≤ dayNumber b := by
  obtain ⟨k1, k2, k3, k4, k5, k6, k7, k8, a1, a2, a3, a4, a5, a6, a7, a8, ad, ⟨hk1, hk2, hk3,
    hk4, hk5, hk6, hk7, hk8⟩, ⟨t1, t2, t3, t4, t5, t6, t7, t8, t9⟩, hbytes, hday, hm1, hm2,
    hd1, hd2⟩ := wellFormedDate_shape a ha
  obtain ⟨j1, j2, j3, j4, j5, j6, j7, j8, b1, b2, b3, b4, b5, b6, b7, b8, bd, ⟨hj1, hj2, hj3,
    hj4, hj5, hj6, hj7, hj8⟩, ⟨u1, u2, u3, u4, u5, u6, u7, u8, u9⟩, hbytes2, hday2, hn1, hn2,
    he1, he2⟩ := wellFormedDate_shape b hb
  have hlex : bytesLt (QuestionHashMap.keyBytes b) (QuestionHashMap.keyBytes a) = true
      ↔ (1000 * (j1 : Int) + 100 * (j2 : Int) + 10 * (j3 : Int) + (j4 : Int)
            < 1000 * (k1 : Int) + 100 * (k2 : Int) + 10 * (k3 : Int) + (k4 : Int)
          ∨ (1000 * (j1 : Int) + 100 * (j2 : Int) + 10 * (j3 : Int) + (j4 : Int)
              = 1000 * (k1 : Int) + 100 * (k2 : Int) + 10 * (k3 : Int) + (k4 : Int)
            ∧ (10 * (j5 : Int) + (j6 : Int) < 10 * (k5 : Int) + (k6 : Int)
              ∨ (10 * (j5 : Int) + (j6 : Int) = 10 * (k5 : Int) + (k6 : Int)
                ∧ 10 * (j7 : Int) + (j8 : Int) < 10 * (k7 : Int) + (k8 : Int))))) := by
    rw [hbytes, hbytes2, bytesLt_cons_iff, bytesLt_cons_iff, bytesLt_cons_iff,
      bytesLt_cons_iff, bytesLt_cons_iff, bytesLt_cons_iff, bytesLt_cons_iff, bytesLt_cons_iff,
      bytesLt_cons_iff, bytesLt_cons_iff, bytesLt_nil, t1, t2, t3, t4, t5, t6, t7, t8, t9, u1,
      u2, u3, u4, u5, u6, u7, u8, u9]
    have hf : (false = true) ↔ (1 : Nat) < 0 := by decide
    rw [hf]
    simp only [add_lt_add_iff_left, add_right_inj, lt_self_iff_false, false_or, true_and]
    rw [lex_pair10 j7 j8 k7 k8 hj8 hk8, lex_pair10 j5 j6 k5 k6 hj6 hk6,
      lex_pair10 j3 j4 k3 k4 hj4 hk4, lex_pair10 j1 j2 k1 k2 hj2 hk2,
      lex_pair100 (10 * j1 + j2) (10 * j3 + j4) (10 * k1 + k2) (10 * k3 + k4) (by omega)
        (by omega)]
    clear hday hday2 hm1 hm2 hd1 hd2 hn1 hn2 he1 he2 hbytes hbytes2 ha hb t1 t2 t3 t4 t5 t6 t7
      t8 t9 u1 u2 u3 u4 u5 u6 u7 u8 u9 hf
    constructor <;> intro h <;> omega
  unfold stringLe
  rw [hday, hday2]
  clear hday hday2 hbytes hbytes2 ha hb t1 t2 t3 t4 t5 t6 t7 t8 t9 u1 u2 u3 u4 u5 u6 u7 u8 u9
    hk1 hk2 hk3 hk4 hk5 hk6 hk7 hk8 hj1 hj2 hj3 hj4 hj5 hj6 hj7 hj8
  generalize 1000 * (k1 : Int) + 100 * (k2 : Int) + 10 * (k3 : Int) + (k4 : Int) = Y
    at hlex hd2 ⊢
  generalize 10 * (k5 : Int) + (k6 : Int) = M at hlex hm1 hm2 hd2 ⊢
  generalize 10 * (k7 : Int) + (k8 : Int) = D at hlex hd1 hd2 ⊢
  generalize 1000 * (j1 : Int) + 100 * (j2 : Int) + 10 * (j3 : Int) + (j4 : Int) = Y2
    at hlex he2 ⊢
  generalize 10 * (j5 : Int) + (j6 : Int) = M2 at hlex hn1 hn2 he2 ⊢
  generalize 10 * (j7 : Int) + (j8 : Int) = D2 at hlex he1 he2 ⊢
  constructor
  · intro h
    have hnot : ¬ bytesLt (QuestionHashMap.keyBytes b) (QuestionHashMap.keyBytes a) = true := by
      intro hlt
      rw [hlt] at h
      exact absurd h (by decide)
    rw [hlex] at hnot
    by_contra hgt
    apply hnot
    by_contra hnl
    have hor : (Y < Y2 ∨ (Y = Y2 ∧ (M < M2 ∨ (M = M2 ∧ D < D2))))
        ∨ (Y = Y2 ∧ M = M2 ∧ D = D2) := by omega
    rcases hor with h1 | ⟨h1, h2, h3⟩
    · have := daysFromCivil_lt _ _ _ _ _ _ hm1 hm2 hd1 hd2 hn1 hn2 he1 he2 h1
      omega
    · rw [h1, h2, h3] at hgt
      exact hgt (le_refl _)
  · intro hle
    have hnot : ¬ bytesLt (QuestionHashMap.keyBytes b) (QuestionHashMap.keyBytes a) = true := by
      rw [hlex]
      intro h1
      have := daysFromCivil_lt _ _ _ _ _ _ hn1 hn2 he1 he2 hm1 hm2 hd1 hd2 h1
      omega
    cases hc : bytesLt (QuestionHashMap.keyBytes b) (QuestionHashMap.keyBytes a)
    · rfl
    · exact absurd hc hnot

/-! ### Well-formed dates under `utcEnv` -/

theorem wellFormedDate_ne_empty (s : String) (h : wellFormedDate s = true) : s ≠ "" := by
  intro he
  rw [he] at h
  exact absurd h (by decide)

theorem dayNumber_range (s : String) (h : wellFormedDate s = true) :
    firstDay ≤ dayNumber s ∧ dayNumber s ≤ lastDay := by
  obtain ⟨k1, k2, k3, k4, k5, k6, k7, k8, _, _, _, _, _, _, _, _, _, ⟨hk1, hk2, hk3, hk4, hk5,
    hk6, hk7, hk8⟩, _, _, hday, hm1, hm2, hd1, hd2⟩ := wellFormedDate_shape s h
  rw [hday]
  constructor
  · by_contra hlt
    have hne : ¬ (1000 * (k1 : Int) + 100 * (k2 : Int) + 10 * (k3 : Int) + (k4 : Int) = 0
        ∧ 10 * (k5 : Int) + (k6 : Int) = 1 ∧ 10 * (k7 : Int) + (k8 : Int) = 1) := by
      rintro ⟨e1, e2, e3⟩
      rw [e1, e2, e3, daysFromCivil_first] at hlt
      exact hlt (le_refl _)
    have := daysFromCivil_lt 0 1 1 _ _ _ (by decide) (by decide) (by decide) (by decide)
      hm1 hm2 hd1 hd2 (by omega)
    rw [daysFromCivil_first] at this
    omega
  · by_contra hlt
    have h31 := daysInMonth_le (1000 * (k1 : Int) + 100 * (k2 : Int) + 10 * (k3 : Int)
      + (k4 : Int)) (10 * (k5 : Int) + (k6 : Int))
    have hne : ¬ (1000 * (k1 : Int) + 100 * (k2 : Int) + 10 * (k3 : Int) + (k4 : Int) = 9999
        ∧ 10 * (k5 : Int) + (k6 : Int) = 12 ∧ 10 * (k7 : Int) + (k8 : Int) = 31) := by
      rintro ⟨e1, e2, e3⟩
      rw [e1, e2, e3, daysFromCivil_last] at hlt
      exact hlt (le_refl _)
    have := daysFromCivil_lt _ _ _ 9999 12 31 hm1 hm2 hd1 hd2 (by decide) (by decide)
      (by decide) (by decide) (by omega)
    rw [daysFromCivil_last] at this
    omega

/-- On well-formed dates the test `a <= b` holds exactly when `dateDiffDays(a, b) ≥ 0`. -/
theorem stringLe_iff_dateDiffDays (t a b : String) (ha : wellFormedDate a = true)
    (hb : wellFormedDate b = true) :
    stringLe a b = true ↔ dateDiffDays (utcEnv t) a b ≥ 0 := by
  rw [stringLe_iff a b ha hb, utc_dateDiffDays]
  constructor <;> intro h <;> omega

namespace RevisionEngine

/-! ### Claim C36 -/

theorem getDueToday_foldl (today : String) : ∀ (qs : List Question) (acc : List Question),
    qs.foldl
        (fun due q =>
          if q.status = QuestionStatus.MASTERED then due
          else if q.nextRevisionDate = "" then due
          else if stringLe q.nextRevisionDate today then due ++ [q]
          else due) acc
      = acc ++ qs.filter (fun q =>
          decide (q.status ≠ QuestionStatus.MASTERED) && decide (q.nextRevisionDate ≠ "")
            && stringLe q.nextRevisionDate today) := by
  intro qs
  induction qs with
  | nil => intro acc; simp
  | cons q rest ih =>
    intro acc
    rw [List.foldl_cons, ih]
    by_cases h1 : q.status = QuestionStatus.MASTERED
    · simp [h1]
    · by_cases h2 : q.nextRevisionDate = ""
      · simp [h1, h2]
      · by_cases h3 : stringLe q.nextRevisionDate today = true
        · simp [h1, h2, h3]
        · simp [h1, h2, h3]

/-- The list `getDueToday` returns: the items, in input order, that are not Mastered, are
dated and whose date is at most today's in the order of `std::string`. -/
theorem getDueToday_eq_filter (env : Env) (questions : List Question) :
    getDueToday env questions
      = questions.filter (fun q =>
          decide (q.status ≠ QuestionStatus.MASTERED) && decide (q.nextRevisionDate ≠ "")
            && stringLe q.nextRevisionDate env.today) := by
  unfold getDueToday todayStr
  simp only []
  rw [getDueToday_foldl, List.nil_append]

/-- C36: under the calendar of `utcEnv`, for every well-formed reference date `today` and
every list of items whose non-empty `nextRevisionDate`s are well-formed, `getDueToday`
returns, in input order, exactly the items that are not Mastered, have a non-empty
`nextRevisionDate` and have `dateDiffDays(nextRevisionDate, today) ≥ 0`; on well-formed
dates the test `a <= b` of `std::string` coincides with `dateDiffDays(a, b) ≥ 0`. -/
theorem getDueToday_spec (today : String) (questions : List Question)
    (ht : wellFormedDate today = true)
    (hq : ∀ q ∈ questions, q.nextRevisionDate ≠ "" → wellFormedDate q.nextRevisionDate = true) :
    getDueToday (utcEnv today) questions
        = questions.filter (fun q =>
            decide (q.status ≠ QuestionStatus.MASTERED ∧ q.nextRevisionDate ≠ ""
              ∧ dateDiffDays (utcEnv today) q.nextRevisionDate today ≥ 0))
      ∧ ∀ a b : String, wellFormedDate a = true → wellFormedDate b = true →
          (stringLe a b = true ↔ dateDiffDays (utcEnv today) a b ≥ 0) := by
  refine ⟨?_, fun a b ha hb => stringLe_iff_dateDiffDays today a b ha hb⟩
  rw [getDueToday_eq_filter]
  apply List.filter_congr
  intro q hmem
  by_cases h1 : q.status = QuestionStatus.MASTERED
  · simp [h1]
  · by_cases h2 : q.nextRevisionDate = ""
    · simp [h1, h2]
    · have hiff := stringLe_iff_dateDiffDays today q.nextRevisionDate today (hq q hmem h2) ht
      show (decide (q.status ≠ QuestionStatus.MASTERED) && decide (q.nextRevisionDate ≠ "")
          && stringLe q.nextRevisionDate today) = _
      by_cases h3 : stringLe q.nextRevisionDate today = true
      · have h4 := hiff.mp h3
        simp [h1, h2, h3, h4]
      · have h4 : ¬ dateDiffDays (utcEnv today) q.nextRevisionDate today ≥ 0 :=
          fun h => h3 (hiff.mpr h)
        simp only [ge_iff_le] at h4
        simp [h1, h2, h3, h4]

/-- Witness for C36: of an item nine days overdue and an item due in five days, the first
is due on 2025-07-10. -/
theorem getDueToday_spec_witness :
    getDueToday (utcEnv "2025-07-10") [datedItem "A" "2025-07-01", datedItem "f1" "2025-07-15"]
      = [datedItem "A" "2025-07-01", datedItem "f1" "2025-07-15"].filter (fun q =>
          decide (q.status ≠ QuestionStatus.MASTERED ∧ q.nextRevisionDate ≠ ""
            ∧ dateDiffDays (utcEnv "2025-07-10") q.nextRevisionDate "2025-07-10" ≥ 0)) :=
  (getDueToday_spec "2025-07-10" [datedItem "A" "2025-07-01", datedItem "f1" "2025-07-15"]
    (by decide) (by decide)).1

/-! ### Dates over the 32-bit `int` -/

theorem specInterval_cycle12 : specInterval 12 (5 / 2) Difficulty.MEDIUM = 30595 := by
  have hf : (fun x : Int => ⌈(x : ℚ) * (5 / 2)⌉) = fun x : Int => (5 * x + 1) / 2 := by
    funext x
    rw [Int.ceil_eq_iff]
    obtain ⟨n, hn⟩ : ∃ n : Int, n = (5 * x + 1) / 2 := ⟨_, rfl⟩
    rw [← hn]
    have h1 : 2 * n - 2 < 5 * x := by omega
    have h2 : 5 * x ≤ 2 * n := by omega
    have c1 : (2 * (n : ℚ) - 2 < 5 * (x : ℚ)) := by exact_mod_cast h1
    have c2 : (5 * (x : ℚ) ≤ 2 * (n : ℚ)) := by exact_mod_cast h2
    constructor <;> linarith
  have hI : (fun x : Int => (5 * x + 1) / 2)^[10] 3 = 30595 := by decide
  unfold specInterval
  simp only []
  rw [if_neg (by decide), if_neg (by decide), show ((12 : Int) - 2).toNat = 10 from rfl, hf, hI]
  simp

theorem updateEaseFactor_quality4 (e : ℚ) (he : 13 / 10 ≤ e) : updateEaseFactor e 4 = e := by
  unfold updateEaseFactor
  simp only []
  have hq : max (0 : Int) (min 5 4) = 4 := by decide
  rw [hq]
  have hd : (1 / 10 - (5 - ((4 : Int) : ℚ)) * (2 / 25 + (5 - ((4 : Int) : ℚ)) * (1 / 50)) : ℚ)
      = 0 := by norm_num
  rw [hd, add_zero]
  exact max_eq_right he

theorem scenarioB_nextInterval (env : Env) :
    nextInterval (completeRevision env scenarioB 4 45).2 = 6 := by
  have h1 : (completeRevision env scenarioB 4 45).2.revisionCycle = 3 := by
    rw [completeRevision_revisionCycle]
    decide
  have h2 : (completeRevision env scenarioB 4 45).2.easeFactor = 9 / 5 := by
    rw [completeRevision_easeFactor, scenarioB_ease]
  have h3 : (completeRevision env scenarioB 4 45).2.difficulty = Difficulty.MEDIUM := by
    rw [completeRevision_difficulty]
    rfl
  exact (nextInterval_congr _
    { Question.mk0 with
      revisionCycle := 3, easeFactor := 9 / 5, difficulty := Difficulty.MEDIUM }
    h1 h2 h3).trans nextInterval_cycle3

theorem scenarioB_nextRevisionDate (today : String) (hne : today ≠ "") :
    (completeRevision (utcEnv today) scenarioB 4 45).2.nextRevisionDate
      = addDaysToDate (utcEnv today) today 6 := by
  rw [completeRevision_nextRevisionDate (utcEnv today) hne, scenarioB_nextInterval]
  rfl

theorem cycle12Item_nextInterval : nextInterval cycle12Item = 30595 :=
  (nextInterval_congr cycle12Item
    { Question.mk0 with
      revisionCycle := 12, easeFactor := 5 / 2, difficulty := Difficulty.MEDIUM }
    rfl rfl rfl).trans nextInterval_cycle12

theorem roundD_ease13 : (13 / 10 : ℚ) ≤ roundD (13 / 10) ∧ roundD (13 / 10) ≤ 5 / 2 := by
  have h := roundD_eval (13 / 10) (5854679515581645 / 4503599627370496) 5854679515581645 (-52)
    (by norm_num) (by norm_num) (by norm_num [abs_of_pos]) (by norm_num [abs_of_pos])
    (Or.inl (by norm_num [abs_lt]))
  rw [h]
  constructor <;> norm_num

theorem roundD_ease23 : (13 / 10 : ℚ) ≤ roundD (23 / 10) ∧ roundD (23 / 10) ≤ 5 / 2 := by
  have h1 := dyadic_le_roundD (23 / 10) 2 0 (by norm_num) (by norm_num) (by norm_num)
  have h2 := roundD_le_dyadic (23 / 10) 5 1 (by norm_num) (by norm_num) (by norm_num)
  norm_num at h1 h2
  constructor <;> linarith

theorem roundD_ease222 : (13 / 10 : ℚ) ≤ roundD (111 / 50) ∧ roundD (111 / 50) < 23 / 10 := by
  have h1 := dyadic_le_roundD (111 / 50) 2 0 (by norm_num) (by norm_num) (by norm_num)
  have h2 := roundD_le_dyadic (111 / 50) 9 2 (by norm_num) (by norm_num) (by norm_num)
  norm_num at h1 h2
  constructor <;> linarith

/-! ### Claims C10 and C11 -/

/-- C10, the behaviour of the code from an interval of 24856 days on: two items that agree on
revision cycle, ease factor, difficulty and base date do get the same date, and the interval
of a Medium item with ease factor 2.5 in its twelfth cycle is the 30595 days of the spec; but
for the base date 2025-01-01 the date returned is 1972-08-31, 19116 days before the base
date, not the day 30595 days after it (2108-10-08): the `int` product `30595 * 86400`
exceeds `2 ^ 31 - 1` and wraps to `-1651559296` seconds. -/
theorem calculateNextDate_int_overflow :
    (∀ (env : Env) (q q2 : Question), q2.revisionCycle = q.revisionCycle →
        q2.easeFactor = q.easeFactor → q2.difficulty = q.difficulty →
        specBaseDate env q2 = specBaseDate env q →
        calculateNextDate env q2 = calculateNextDate env q)
      ∧ specInterval 12 (5 / 2) Difficulty.MEDIUM = 30595
      ∧ nextInterval cycle12Item = 30595
      ∧ specBaseDate (utcEnv "2025-07-10") cycle12Item = "2025-01-01"
      ∧ dayNumber "2108-10-08" = dayNumber "2025-01-01" + 30595
      ∧ wrapInt32 (30595 * 86400) = -1651559296
      ∧ calculateNextDate (utcEnv "2025-07-10") cycle12Item = "1972-08-31"
      ∧ dateDiffDays (utcEnv "2025-07-10") "2025-01-01"
          (calculateNextDate (utcEnv "2025-07-10") cycle12Item) = -19116 := by
  have hbase : specBaseDate (utcEnv "2025-07-10") cycle12Item = "2025-01-01" := by decide
  have hdate : calculateNextDate (utcEnv "2025-07-10") cycle12Item = "1972-08-31" := by
    rw [calculateNextDate_eq, hbase, cycle12Item_nextInterval]
    decide
  refine ⟨?_, specInterval_cycle12, cycle12Item_nextInterval, hbase, by decide, by decide,
    hdate, ?_⟩
  · intro env q q2 h1 h2 h3 h4
    rw [calculateNextDate_eq, calculateNextDate_eq, h4, nextInterval_congr q2 q h1 h2 h3]
  · rw [hdate]
    decide

/-- C11, as amended: `completeRevision` sets `lastRevisionDate` to today and
`nextRevisionDate` (also returned as `nextDate`) to `addDaysToDate(today, interval)`, where
`interval` is what `calculateNextDate` computes from the new cycle, the new ease factor and
the difficulty; the dates the item carried before the review play no part. Under the
calendar of `utcEnv`, for a well-formed `today` from the year 1000 on, an interval of at most
24855 days and a new date no later than 9999-12-31, the stored date is a well-formed date
and lies `interval` days after today. -/
theorem completeRevision_nextDate_from_today (q : Question) (quality timeTaken : Int) :
    (∀ env : Env, env.today ≠ "" →
        (completeRevision env q quality timeTaken).2.lastRevisionDate = env.today
          ∧ (completeRevision env q quality timeTaken).2.nextRevisionDate
              = addDaysToDate env env.today
                  (nextInterval
                    { Question.mk0 with
                      revisionCycle :=
                        (completeRevision env q quality timeTaken).2.revisionCycle,
                      easeFactor := (completeRevision env q quality timeTaken).2.easeFactor,
                      difficulty := q.difficulty })
          ∧ (completeRevision env q quality timeTaken).1.nextDate
              = (completeRevision env q quality timeTaken).2.nextRevisionDate)
      ∧ ∀ today : String, wellFormedDate today = true → firstPaddedDay ≤ dayNumber today →
          nextInterval (completeRevision (utcEnv today) q quality timeTaken).2 ≤ 24855 →
          dayNumber today + nextInterval (completeRevision (utcEnv today) q quality timeTaken).2
            ≤ lastDay →
          wellFormedDate (completeRevision (utcEnv today) q quality timeTaken).2.nextRevisionDate
              = true
            ∧ dateDiffDays (utcEnv today) today
                (completeRevision (utcEnv today) q quality timeTaken).2.nextRevisionDate
              = nextInterval (completeRevision (utcEnv today) q quality timeTaken).2 := by
  constructor
  · intro env hne
    refine ⟨completeRevision_lastRevisionDate env q quality timeTaken, ?_,
      completeRevision_nextDate env q quality timeTaken⟩
    rw [completeRevision_nextRevisionDate env hne]
    congr 1
    exact nextInterval_congr _ _ rfl rfl (completeRevision_difficulty env q quality timeTaken)
  · intro today ht hpad hint hhi
    have hne : (utcEnv today).today ≠ "" := wellFormedDate_ne_empty today ht
    have h1 := one_le_nextInterval (completeRevision (utcEnv today) q quality timeTaken).2
    have hdate : (completeRevision (utcEnv today) q quality timeTaken).2.nextRevisionDate
        = addDaysToDate (utcEnv today) today
            (nextInterval (completeRevision (utcEnv today) q quality timeTaken).2) :=
      completeRevision_nextRevisionDate (utcEnv today) hne q quality timeTaken
    obtain ⟨hw, _, hdiff⟩ := addDaysToDate_in_range today today
      (nextInterval (completeRevision (utcEnv today) q quality timeTaken).2) (by omega) hint
      (by omega) hhi
    rw [← hdate] at hw hdiff
    exact ⟨hw, hdiff⟩

/-- Witness for C11 as amended: scenario B reviewed on 2025-06-10 with quality 4 gets cycle 3,
the interval 6 and the next date 2025-06-16, six days after the review. -/
theorem completeRevision_nextDate_from_today_witness :
    (completeRevision (utcEnv "2025-06-10") scenarioB 4 45).2.revisionCycle = 3
      ∧ nextInterval (completeRevision (utcEnv "2025-06-10") scenarioB 4 45).2 = 6
      ∧ (completeRevision (utcEnv "2025-06-10") scenarioB 4 45).2.nextRevisionDate
          = "2025-06-16"
      ∧ dateDiffDays (utcEnv "2025-06-10") "2025-06-10"
          (completeRevision (utcEnv "2025-06-10") scenarioB 4 45).2.nextRevisionDate = 6 :=
  ⟨by rw [completeRevision_revisionCycle]; decide,
   scenarioB_nextInterval _,
   by rw [scenarioB_nextRevisionDate "2025-06-10" (by decide)]; decide,
   by
     have h := ((completeRevision_nextDate_from_today scenarioB 4 45).2 "2025-06-10"
       (by decide) (by decide) (by rw [scenarioB_nextInterval]; decide)
       (by rw [scenarioB_nextInterval]; decide)).2
     rw [scenarioB_nextInterval] at h
     exact h⟩

/-- Counterexample to C11 as stated: scenario B (last revised on 2025-06-10) reviewed on
2025-07-10 with quality 4 gets the next date 2025-07-16, not 2025-06-10 plus 6 days. -/
theorem completeRevision_nextDate_ignores_old_base :
    scenarioB.lastRevisionDate = "2025-06-10"
      ∧ (completeRevision (utcEnv "2025-07-10") scenarioB 4 45).2.revisionCycle = 3
      ∧ specInterval 3 (updateEaseFactor scenarioB.easeFactor 4) scenarioB.difficulty = 6
      ∧ (completeRevision (utcEnv "2025-07-10") scenarioB 4 45).2.nextRevisionDate
          = "2025-07-16"
      ∧ addDaysToDate (utcEnv "2025-07-10") scenarioB.lastRevisionDate 6 = "2025-06-16"
      ∧ (completeRevision (utcEnv "2025-07-10") scenarioB 4 45).2.nextRevisionDate
          ≠ addDaysToDate (utcEnv "2025-07-10") scenarioB.lastRevisionDate 6 := by
  have h1 : (completeRevision (utcEnv "2025-07-10") scenarioB 4 45).2.nextRevisionDate
      = "2025-07-16" := by
    rw [scenarioB_nextRevisionDate "2025-07-10" (by decide)]
    decide
  have h2 : addDaysToDate (utcEnv "2025-07-10") scenarioB.lastRevisionDate 6 = "2025-06-16" := by
    decide
  refine ⟨rfl, ?_, ?_, h1, h2, ?_⟩
  · rw [completeRevision_revisionCycle]
    decide
  · rw [scenarioB_ease]
    exact scenarioB_interval
  · rw [h1, h2]
    decide

/-! ### Claims C35 and C39 -/

/-- C35, the behaviour of the code where the interval leaves the range of `int`: in cycle 30
a Medium item with ease factor 1.3 gets an interval of 6832 days and the same item with ease
factor 2.5 gets 1 day (the product passes `2 ^ 31`, the conversion to `int` gives `INT_MIN`
and `max(1, ...)` leaves 1); in cycle 12, from the base date 2025-01-01, ease factor 2.3 gives
the interval 13665 and the date 2062-06-01 while ease factor 2.5 gives the interval 30595 and
the date 1972-08-31, which is earlier. -/
theorem nextInterval_ease_overflow :
    ((13 / 10 : ℚ) ≤ roundD (13 / 10) ∧ roundD (13 / 10) ≤ 5 / 2)
      ∧ nextInterval
          { Question.mk0 with
            revisionCycle := 30, easeFactor := roundD (13 / 10),
            difficulty := Difficulty.MEDIUM } = 6832
      ∧ nextInterval
          { Question.mk0 with
            revisionCycle := 30, easeFactor := 5 / 2, difficulty := Difficulty.MEDIUM } = 1
      ∧ ((13 / 10 : ℚ) ≤ roundD (23 / 10) ∧ roundD (23 / 10) ≤ 5 / 2)
      ∧ nextInterval { cycle12Item with easeFactor := roundD (23 / 10) } = 13665
      ∧ nextInterval cycle12Item = 30595
      ∧ calculateNextDate (utcEnv "2025-07-10")
          { cycle12Item with easeFactor := roundD (23 / 10) } = "2062-06-01"
      ∧ calculateNextDate (utcEnv "2025-07-10") cycle12Item = "1972-08-31"
      ∧ dateDiffDays (utcEnv "2025-07-10") "2062-06-01" "1972-08-31" = -32781 := by
  have hi : nextInterval { cycle12Item with easeFactor := roundD (23 / 10) } = 13665 :=
    (nextInterval_congr _
      { Question.mk0 with
        revisionCycle := 12, easeFactor := roundD (23 / 10),
        difficulty := Difficulty.MEDIUM }
      rfl rfl rfl).trans nextInterval_cycle12_ease23
  refine ⟨roundD_ease13, nextInterval_cycle30_ease13, nextInterval_cycle30, roundD_ease23, hi,
    cycle12Item_nextInterval, ?_, ?_, by decide⟩
  · have hbase : specBaseDate (utcEnv "2025-07-10")
        { cycle12Item with easeFactor := roundD (23 / 10) } = "2025-01-01" := by decide
    rw [calculateNextDate_eq, hbase, hi]
    decide
  · have hbase : specBaseDate (utcEnv "2025-07-10") cycle12Item = "2025-01-01" := by decide
    rw [calculateNextDate_eq, hbase, cycle12Item_nextInterval]
    decide

theorem lateItem_review (env : Env) :
    (completeRevision env lateItem 4 0).2.revisionCycle = 14
      ∧ (completeRevision env lateItem 4 0).2.easeFactor = roundD (111 / 50)
      ∧ (completeRevision env lateItem 4 0).2.status = QuestionStatus.SOLVED
      ∧ nextInterval (completeRevision env lateItem 4 0).2 = 47466 := by
  have h1 : (completeRevision env lateItem 4 0).2.revisionCycle = 14 := by
    rw [completeRevision_revisionCycle]
    decide
  have h2 : (completeRevision env lateItem 4 0).2.easeFactor = roundD (111 / 50) := by
    rw [completeRevision_easeFactor]
    exact updateEaseFactor_quality4 _ roundD_ease222.1
  have h3 : (completeRevision env lateItem 4 0).2.difficulty = Difficulty.MEDIUM := by
    rw [completeRevision_difficulty]
    rfl
  refine ⟨h1, h2, ?_, ?_⟩
  · have he : updateEaseFactor lateItem.easeFactor 4 = roundD (111 / 50) :=
      updateEaseFactor_quality4 _ roundD_ease222.1
    rw [completeRevision_status, he]
    have hlt := roundD_ease222.2
    rw [if_neg (by
      rintro ⟨_, h⟩
      exact absurd h (not_le.mpr hlt)), if_neg (by decide)]
  · exact (nextInterval_congr _
      { Question.mk0 with
        revisionCycle := 14, easeFactor := roundD (111 / 50),
        difficulty := Difficulty.MEDIUM }
      h1 h2 h3).trans nextInterval_cycle14

/-- C39, the behaviour of the code once the interval passes 24855 days: a Medium item in its
thirteenth cycle with ease factor 2.22, reviewed on 2025-07-10 with quality 4, moves to cycle
14 and gets the interval 47466 (at least 1), and the returned `nextDate` is the item's
`nextRevisionDate`; but the `int` product `47466 * 86400` wraps to `-193904896` seconds, the
date stored is 2019-05-18, `dateDiffDays(nextRevisionDate, today)` is 2245 and not negative,
and `getDueToday` lists the item on the day of its review. -/
theorem completeRevision_due_after_review :
    nextInterval (completeRevision (utcEnv "2025-07-10") lateItem 4 0).2 = 47466
      ∧ (completeRevision (utcEnv "2025-07-10") lateItem 4 0).1.nextDate
          = (completeRevision (utcEnv "2025-07-10") lateItem 4 0).2.nextRevisionDate
      ∧ wrapInt32 (47466 * 86400) = -193904896
      ∧ (completeRevision (utcEnv "2025-07-10") lateItem 4 0).2.nextRevisionDate
          = "2019-05-18"
      ∧ dateDiffDays (utcEnv "2025-07-10")
          (completeRevision (utcEnv "2025-07-10") lateItem 4 0).2.nextRevisionDate
          "2025-07-10" = 2245
      ∧ getDueToday (utcEnv "2025-07-10")
          [(completeRevision (utcEnv "2025-07-10") lateItem 4 0).2]
          = [(completeRevision (utcEnv "2025-07-10") lateItem 4 0).2] := by
  obtain ⟨_, _, hst, hint⟩ := lateItem_review (utcEnv "2025-07-10")
  have hdate : (completeRevision (utcEnv "2025-07-10") lateItem 4 0).2.nextRevisionDate
      = "2019-05-18" := by
    rw [completeRevision_nextRevisionDate (utcEnv "2025-07-10") (by decide), hint]
    decide
  refine ⟨hint, completeRevision_nextDate _ lateItem 4 0, by decide, hdate, ?_, ?_⟩
  · rw [hdate]
    decide
  · rw [getDueToday_eq_filter]
    obtain ⟨r, hr⟩ : ∃ r : Question, r = (completeRevision (utcEnv "2025-07-10") lateItem 4 0).2 :=
      ⟨_, rfl⟩
    rw [← hr] at hst hdate ⊢
    have hp : (decide (r.status ≠ QuestionStatus.MASTERED) && decide (r.nextRevisionDate ≠ "")
        && stringLe r.nextRevisionDate (utcEnv "2025-07-10").today) = true := by
      rw [hst, hdate]
      decide
    rw [List.filter_cons]
    simp only [hp, if_true, List.filter_nil]

end RevisionEngine

end dsa
